import Mathlib

/-!
The linker of kwebapp (src/linker.c) in Lean

A shallow embedding of `ort_parse_close` and of the checks it runs, followed by
theorems about them.

Conventions of the embedding.

* C objects live in stores and a pointer is an index into its store:
  `config.heap` stores every `struct strct`, `config.roles` every `struct role`.
  A `TAILQ` of objects owned by their parent (fields, searches, unique
  statements, ...) is a `List` inside the parent; the `TAILQ` of structs
  `cfg->sq`, which the linker re-orders, is a `List` of pointers.
* A pointer to a field is the pair of its parent struct and its position in
  the parent's `fq`, so `f->parent` is a projection.
* Dereferencing a pointer outside its store, a `NULL` dereference, a failed
  `assert` and an exhausted recursion budget all yield `none`: the call
  produces no result.
* Functions that recurse without a structural bound in C (`check_recursive`,
  `annotate`, `check_reffind`, the walk up the role tree) take a `fuel`
  argument bounding the recursion depth.
* `size_t` counters (`height`, `colour`, `i`, `sz`, `errs`) are natural
  numbers: they are bounded by the square of the number of objects, which is
  far below `2 ^ 64` for any configuration that fits in memory.  The
  comparison function `parse_cmp`, which narrows to `int`, is modelled with its
  wrap-around.
* The diagnostics sink is the list `config.msgs`, in order of emission.
-/

namespace Kwebapp

/-! ## Data model (declarations of ort.h, which is not under src/) -/

/-- Modelled from the spec: the closed variant of field types, `enum ftype` of
ort.h. -/
inductive ftype where
  | FTYPE_BIT
  | FTYPE_DATE
  | FTYPE_EPOCH
  | FTYPE_INT
  | FTYPE_REAL
  | FTYPE_BLOB
  | FTYPE_TEXT
  | FTYPE_PASSWORD
  | FTYPE_EMAIL
  | FTYPE_STRUCT
  | FTYPE_ENUM
  | FTYPE_BITFIELD
  deriving DecidableEq, Repr

/-- Modelled from the spec: the operators of a search predicate, `enum optype`
of ort.h; the last two are the unary ones. -/
inductive optype where
  | OPTYPE_EQUAL
  | OPTYPE_GE
  | OPTYPE_GT
  | OPTYPE_LE
  | OPTYPE_LT
  | OPTYPE_NEQUAL
  | OPTYPE_LIKE
  | OPTYPE_AND
  | OPTYPE_OR
  | OPTYPE_STREQ
  | OPTYPE_STRNEQ
  | OPTYPE_ISNULL
  | OPTYPE_NOTNULL
  deriving DecidableEq, Repr

/-- Modelled from the spec: the macro `OPTYPE_ISUNARY` of ort.h, true of the
is-null and not-null operators. -/
def OPTYPE_ISUNARY (op : optype) : Bool :=
  decide (op = optype.OPTYPE_ISNULL) || decide (op = optype.OPTYPE_NOTNULL)

/-- Modelled from the spec: the kinds of search, `enum stype` of ort.h. -/
inductive stype where
  | STYPE_COUNT
  | STYPE_SEARCH
  | STYPE_LIST
  | STYPE_ITERATE
  deriving DecidableEq, Repr

/-- Modelled from the spec: severities of the diagnostics sink, `enum msgtype`
of ort.h. -/
inductive msgtype where
  | MSGTYPE_WARN
  | MSGTYPE_ERROR
  | MSGTYPE_FATAL
  deriving DecidableEq, Repr

/-- Modelled from the spec: flag `FIELD_ROWID` of ort.h. -/
def FIELD_ROWID : Nat := 0x01
/-- Modelled from the spec: flag `FIELD_UNIQUE` of ort.h. -/
def FIELD_UNIQUE : Nat := 0x02
/-- Modelled from the spec: flag `FIELD_NULL` of ort.h. -/
def FIELD_NULL : Nat := 0x04
/-- Modelled from the spec: flag `STRCT_HAS_NULLREFS` of ort.h. -/
def STRCT_HAS_NULLREFS : Nat := 0x10
/-- Modelled from the spec: flag `SEARCH_IS_UNIQUE` of ort.h. -/
def SEARCH_IS_UNIQUE : Nat := 0x01

/-- A source position, `struct pos`. -/
structure pos where
  fname : String
  line : Nat
  column : Nat
  deriving DecidableEq, Repr

/-- A pointer to a `struct strct`: an index into `config.heap`. -/
abbrev strctp := Nat

/-- A pointer to a `struct role`: an index into `config.roles`. -/
abbrev rolep := Nat

/-- A pointer to a `struct field`: the parent struct and the position in its
`fq`. -/
structure fieldp where
  parent : strctp
  idx : Nat
  deriving DecidableEq, Repr

/-- A resolved reference, `struct ref`: the target field and the source
(foreign-key) field. -/
structure ref where
  target : fieldp
  source : fieldp
  deriving DecidableEq, Repr

/-- Modelled from the spec: the actions on update or delete of a referenced
row, `enum upact` of ort.h, in the order of the table `upacts` of sql.c. -/
inductive upact where
  | UPACT_NONE
  | UPACT_RESTRICT
  | UPACT_NULLIFY
  | UPACT_CASCADE
  | UPACT_DEFAULT
  deriving DecidableEq, Repr

/-- The names a reference holds before it is resolved, the members `sfield`,
`tstrct` and `tfield` of `struct ref`: the source field, the target struct and
the target field. -/
structure symref where
  sfield : String
  tstrct : String
  tfield : String
  deriving DecidableEq, Repr

/-- A field, `struct field`.  The actions `actdel` and `actup`, the name and
the names `sym` of its reference, none of which the linker reads after the
resolver passes, are `UPACT_NONE`, empty and absent unless stated; `ref` holds
the resolved pointers of the reference. -/
structure field where
  type : ftype
  ref : Option ref
  flags : Nat
  pos : pos
  actdel : upact := upact.UPACT_NONE
  actup : upact := upact.UPACT_NONE
  name : String := ""
  sym : Option symref := none
  deriving DecidableEq, Repr

/-- A search predicate, `struct sent`. -/
structure sent where
  op : optype
  field : fieldp
  pos : pos
  deriving DecidableEq, Repr

/-- A search, `struct search`; `dst` and `rolemap` are pointers of which the
linker only tests whether they are `NULL`. -/
structure search where
  type : stype
  sntq : List sent
  flags : Nat
  limit : Int
  dst : Option Nat
  rolemap : Option Nat
  pos : pos
  deriving DecidableEq, Repr

/-- An update or delete, `struct update`. -/
structure update where
  rolemap : Option Nat
  pos : pos
  deriving DecidableEq, Repr

/-- An insert, `struct insert`. -/
structure insert where
  rolemap : Option Nat
  pos : pos
  deriving DecidableEq, Repr

/-- One field named by a unique statement, `struct nref`; `field` is the
resolved pointer, compared by pointer equality. -/
structure nref where
  field : fieldp
  pos : pos
  deriving DecidableEq, Repr

/-- A unique statement, `struct unique`. -/
structure unique where
  nq : List nref
  pos : pos
  deriving DecidableEq, Repr

/-- A role, `struct role`. -/
structure role where
  name : String
  parent : Option rolep
  pos : pos
  deriving DecidableEq, Repr

/-- One entry of a rolemap, `struct rref`. -/
structure rref where
  role : Option rolep
  pos : pos
  deriving DecidableEq, Repr

/-- A rolemap, `struct rolemap`. -/
structure rolemap where
  rq : List rref
  deriving DecidableEq, Repr

/-- A structure, `struct strct`. -/
structure strct where
  name : String
  fq : List field
  sq : List search
  uq : List update
  dq : List update
  ins : Option insert
  nq : List unique
  rq : List rolemap
  flags : Nat
  height : Nat
  colour : Nat
  deriving DecidableEq, Repr

/-- An argument of a formatted message. -/
inductive msgarg where
  | str (s : String)
  | num (n : Nat)
  deriving DecidableEq, Repr

/-- Modelled from the spec: one message of the diagnostics sink (ort_msg and
ort_msgv are not under src/): severity, channel, errno, optional position,
format and arguments. -/
structure msg where
  type : msgtype
  chan : String
  er : Nat
  pos : Option pos
  fmt : Option String
  args : List msgarg
  deriving DecidableEq, Repr

/-- The configuration, `struct config`, with the stores its pointers index. -/
structure config where
  heap : List strct
  sq : List strctp
  roles : List role
  rq : List rolep
  msgs : List msg
  deriving DecidableEq, Repr

/-- What `ort_parse_close` calls and src/ does not define: the two resolver
passes, the C library's `qsort` and `calloc`, and `errno`. -/
structure env where
  linker_resolve : config → config × Bool
  linker_aliases : config → config × Bool
  qsort : (strctp → strctp → Int) → List strctp → List strctp
  calloc : Nat → Bool
  errno : Nat

/-- The contract of `qsort`: the result is a rearrangement of the array, in
ascending order of the comparison function whenever that function orders the
array consistently. -/
def QsortContract (qsort : (strctp → strctp → Int) → List strctp → List strctp) : Prop :=
  ∀ (cmp : strctp → strctp → Int) (l : List strctp),
    (qsort cmp l).Perm l ∧
    ((∀ a ∈ l, ∀ b ∈ l, cmp a b ≤ 0 ∨ cmp b a ≤ 0) →
     (∀ a ∈ l, ∀ b ∈ l, ∀ c ∈ l, cmp a b ≤ 0 → cmp b c ≤ 0 → cmp a c ≤ 0) →
     (qsort cmp l).Pairwise (fun a b => cmp a b ≤ 0))

/-! ## Diagnostics (linker.c lines 35-87) -/

/-- The channel tag of the linker. -/
def channel : String := "linker"

/-- Modelled from the spec: `ort_msgv` and `ort_msg` append one message to the
sink. -/
def ort_msg (cfg : config) (t : msgtype) (chan : String) (er : Nat)
    (p : Option pos) (fmt : Option String) (args : List msgarg) : config :=
  { cfg with msgs := cfg.msgs ++ [{ type := t, chan := chan, er := er, pos := p, fmt := fmt, args := args }] }

/-- A warning at position `p` (`gen_warnx`). -/
def gen_warnx (cfg : config) (p : Option pos) (fmt : Option String) (args : List msgarg) : config :=
  ort_msg cfg msgtype.MSGTYPE_WARN channel 0 p fmt args

/-- A fatal error with only an errno (`gen_err`). -/
def gen_err (er : Nat) (cfg : config) (p : Option pos) : config :=
  ort_msg cfg msgtype.MSGTYPE_FATAL channel er p none []

/-- An error at position `p` (`gen_errx`). -/
def gen_errx (cfg : config) (p : Option pos) (fmt : Option String) (args : List msgarg) : config :=
  ort_msg cfg msgtype.MSGTYPE_ERROR channel 0 p fmt args

/-- Dereference of a field pointer. -/
def deref_field (heap : List strct) (fp : fieldp) : Option field :=
  match heap[fp.parent]? with
  | none => none
  | some s => s.fq[fp.idx]?

/-! ## check_recursive (linker.c lines 93-108) -/

/-- The loop of `check_recursive` over the fields of `p`, given the recursive
call `self`. -/
def check_recursive_fq (self : ref → Option Bool) : List field → Option Bool
  | [] => some true
  | f :: fs =>
    if f.type = ftype.FTYPE_STRUCT then
      match f.ref with
      | none => none
      | some r =>
        match self r with
        | none => none
        | some false => some false
        | some true => check_recursive_fq self fs
    else check_recursive_fq self fs

/-- Make sure that `check` never accesses itself: `some false` (C zero) if the
reference is recursive, `some true` otherwise. -/
def check_recursive (heap : List strct) : Nat → ref → strctp → Option Bool
  | 0, _, _ => none
  | fuel + 1, r, check =>
    let p := r.target.parent
    if p = check then some false
    else
      match heap[p]? with
      | none => none
      | some s => check_recursive_fq (fun r2 => check_recursive heap fuel r2 check) s.fq

/-! ## annotate (linker.c lines 114-131) -/

/-- The loop of `annotate` over the fields of `p`, given the recursive call
`self`. -/
def annotate_fq (self : List strct → ref → Option (List strct)) :
    List strct → List field → Option (List strct)
  | heap, [] => some heap
  | heap, f :: fs =>
    if f.type = ftype.FTYPE_STRUCT then
      match f.ref with
      | none => none
      | some r =>
        match self heap r with
        | none => none
        | some heap2 => annotate_fq self heap2 fs
    else annotate_fq self heap fs

/-- Recursively annotate the height from each node, for struct-typed fields
only. -/
def annotate : Nat → List strct → ref → Nat → Nat → Option (List strct)
  | 0, _, _, _, _ => none
  | fuel + 1, heap, r, height, colour =>
    let p := r.target.parent
    match heap[p]? with
    | none => none
    | some s =>
      if s.colour = colour then some heap
      else
        annotate_fq (fun h r2 => annotate fuel h r2 (height + 1) colour)
          (heap.set p { s with colour := colour, height := s.height + height }) s.fq

/-! ## parse_cmp (linker.c lines 136-144) -/

/-- Conversion of an integer to a signed type of `w` bits (two's complement
wrap-around). -/
def wrap_signed (w : Nat) (x : Int) : Int :=
  (x + 2 ^ (w - 1)) % 2 ^ w - 2 ^ (w - 1)

/-- The height of the struct a pointer designates; every pointer compared by
`parse_cmp` was dereferenced by the height pass before. -/
def height_of (heap : List strct) (p : strctp) : Nat :=
  match heap[p]? with
  | none => 0
  | some s => s.height

/-- Sort by reverse height: the difference of the heights as `ssize_t`,
returned as `int`. -/
def parse_cmp (heap : List strct) (p1 p2 : strctp) : Int :=
  wrap_signed 32 (wrap_signed 64
    (wrap_signed 64 (height_of heap p1) - wrap_signed 64 (height_of heap p2)))

/-! ## check_searchtype (linker.c lines 156-251) -/

/-- The null-operator warning of one predicate (lines 192-197). -/
def check_searchtype_null (cfg : config) (st : sent) : Option config :=
  if st.op = optype.OPTYPE_NOTNULL ∨ st.op = optype.OPTYPE_ISNULL then
    match deref_field cfg.heap st.field with
    | none => none
    | some f =>
      if f.flags &&& FIELD_NULL = 0 then
        some (gen_warnx cfg (some st.pos) (some "null operator on field that's never null") [])
      else some cfg
  else some cfg

/-- The condition of the password error of one predicate (lines 205-210). -/
def check_searchtype_password (cfg : config) (st : sent) : Option Bool :=
  if OPTYPE_ISUNARY st.op = false ∧ st.op ≠ optype.OPTYPE_EQUAL ∧
      st.op ≠ optype.OPTYPE_NEQUAL ∧ st.op ≠ optype.OPTYPE_STREQ ∧
      st.op ≠ optype.OPTYPE_STRNEQ then
    match deref_field cfg.heap st.field with
    | none => none
    | some f => some (decide (f.type = ftype.FTYPE_PASSWORD))
  else some false

/-- The condition of the LIKE error of one predicate (lines 219-221). -/
def check_searchtype_like (cfg : config) (st : sent) : Option Bool :=
  if st.op = optype.OPTYPE_LIKE then
    match deref_field cfg.heap st.field with
    | none => none
    | some f => some (decide (f.type ≠ ftype.FTYPE_TEXT ∧ f.type ≠ ftype.FTYPE_EMAIL))
  else some false

/-- The first loop over the predicates of a search (lines 191-227); the
boolean is false when the function returns zero. -/
def check_searchtype_sntq : config → List sent → Option (config × Bool)
  | cfg, [] => some (cfg, true)
  | cfg, st :: rest =>
    match check_searchtype_null cfg st with
    | none => none
    | some cfg1 =>
      match check_searchtype_password cfg1 st with
      | none => none
      | some true =>
        some (gen_errx cfg1 (some st.pos)
          (some "passwords only accept unary or equality operators") [], false)
      | some false =>
        match check_searchtype_like cfg1 st with
        | none => none
        | some true =>
          some (gen_errx cfg1 (some st.pos) (some "LIKE operator on non-textual field.") [], false)
        | some false => check_searchtype_sntq cfg1 rest

/-- The second loop over the predicates, for searches on distinct subsets
(lines 238-247). -/
def check_searchtype_dst : config → List sent → Option (config × Bool)
  | cfg, [] => some (cfg, true)
  | cfg, st :: rest =>
    if OPTYPE_ISUNARY st.op then check_searchtype_dst cfg rest
    else
      match deref_field cfg.heap st.field with
      | none => none
      | some f =>
        if f.type ≠ ftype.FTYPE_PASSWORD then check_searchtype_dst cfg rest
        else
          some (gen_errx cfg (some st.pos)
            (some "password queries not allowed when searching on distinct subsets") [], false)

/-- The warnings on the kind of one search (lines 178-189). -/
def check_searchtype_warn (cfg : config) (srch : search) : config :=
  let cfg1 :=
    if srch.flags &&& SEARCH_IS_UNIQUE ≠ 0 ∧ srch.type ≠ stype.STYPE_SEARCH then
      gen_warnx cfg (some srch.pos) (some "multiple-result search on a unique field") []
    else cfg
  if srch.flags &&& SEARCH_IS_UNIQUE = 0 ∧ srch.type = stype.STYPE_SEARCH ∧ srch.limit ≠ 1 then
    gen_warnx cfg1 (some srch.pos)
      (some "single-result search on a non-unique field without a limit of one") []
  else cfg1

/-- The loop of `check_searchtype` over the searches of a struct. -/
def check_searchtype_sq : config → List search → Option (config × Bool)
  | cfg, [] => some (cfg, true)
  | cfg, srch :: rest =>
    if srch.type = stype.STYPE_SEARCH ∧ srch.sntq = [] then
      some (gen_errx cfg (some srch.pos) (some "unique result search without parameters") [], false)
    else
      match check_searchtype_sntq (check_searchtype_warn cfg srch) srch.sntq with
      | none => none
      | some (cfg1, false) => some (cfg1, false)
      | some (cfg1, true) =>
        match srch.dst with
        | none => check_searchtype_sq cfg1 rest
        | some _ =>
          match check_searchtype_dst cfg1 srch.sntq with
          | none => none
          | some (cfg2, false) => some (cfg2, false)
          | some (cfg2, true) => check_searchtype_sq cfg2 rest

/-- Check that the search types of struct `p` are consistent with the fields
searched for; the boolean is false on failure. -/
def check_searchtype (cfg : config) (p : strct) : Option (config × Bool) :=
  check_searchtype_sq cfg p.sq

/-! ## check_unique_roles_tree (linker.c lines 259-288) -/

/-- The loop `for ( ; rp != NULL; rp = rp->parent) if (rp == rs->role) break;`
returning the final value of `rp`. -/
def role_walk (roles : List role) (target : Option rolep) : Nat → Option rolep → Option (Option rolep)
  | _, none => some none
  | 0, some _ => none
  | fuel + 1, some rp =>
    if some rp = target then some (some rp)
    else
      match roles[rp]? with
      | none => none
      | some r => role_walk roles target fuel r.parent

/-- The name of the role a pointer designates (`role->name`). -/
def role_name (roles : List role) (rp : Option rolep) : Option String :=
  match rp with
  | none => none
  | some r => (roles[r]?).map role.name

/-- The inner loop of `check_unique_roles_tree` over `rrs`, for the entry `rs`
at position `irs`; entries are compared by position (pointer equality). -/
def check_unique_roles_tree_rrs (fuel : Nat) (irs : Nat) (rs : rref) :
    config → Nat → List (Nat × rref) → Option (config × Nat)
  | cfg, i, [] => some (cfg, i)
  | cfg, i, (irrs, rrs) :: rest =>
    if irrs = irs then check_unique_roles_tree_rrs fuel irs rs cfg i rest
    else
      match rrs.role with
      | none => check_unique_roles_tree_rrs fuel irs rs cfg i rest
      | some rp0 =>
        if some rp0 = rs.role then none
        else
          match role_walk cfg.roles rs.role fuel (some rp0) with
          | none => none
          | some none => check_unique_roles_tree_rrs fuel irs rs cfg i rest
          | some (some _) =>
            match role_name cfg.roles rrs.role, role_name cfg.roles rs.role with
            | some n1, some n2 =>
              check_unique_roles_tree_rrs fuel irs rs
                (gen_errx cfg (some rs.pos) (some "overlapping role: %s, %s")
                  [msgarg.str n1, msgarg.str n2]) (i + 1) rest
            | _, _ => none

/-- The outer loop of `check_unique_roles_tree` over `rs`. -/
def check_unique_roles_tree_rs (fuel : Nat) (all : List (Nat × rref)) :
    config → Nat → List (Nat × rref) → Option (config × Nat)
  | cfg, i, [] => some (cfg, i)
  | cfg, i, (irs, rs) :: rest =>
    match check_unique_roles_tree_rrs fuel irs rs cfg i all with
    | none => none
    | some (cfg1, i1) => check_unique_roles_tree_rs fuel all cfg1 i1 rest

/-- Make sure that the roles of rolemap `rm` do not overlap in the tree of
roles; the boolean is `i == 0`. -/
def check_unique_roles_tree (fuel : Nat) (cfg : config) (rm : rolemap) : Option (config × Bool) :=
  match check_unique_roles_tree_rs fuel rm.rq.enum cfg 0 rm.rq.enum with
  | none => none
  | some (cfg1, i) => some (cfg1, decide (i = 0))

/-! ## check_reffind (linker.c lines 298-316) -/

/-- The loop of `check_reffind` over the fields of `p`, given the recursive
call `self`. -/
def check_reffind_fq (heap : List strct) (self : strctp → Option Bool) : List field → Option Bool
  | [] => some false
  | f :: fs =>
    if f.type = ftype.FTYPE_STRUCT then
      match f.ref with
      | none => none
      | some r =>
        match deref_field heap r.source with
        | none => none
        | some src =>
          if src.flags &&& FIELD_NULL ≠ 0 then some true
          else
            match self r.target.parent with
            | none => none
            | some true => some true
            | some false => check_reffind_fq heap self fs
    else check_reffind_fq heap self fs

/-- Whether struct `p` directly or indirectly contains structs that have null
foreign-key references. -/
def check_reffind (heap : List strct) : Nat → strctp → Option Bool
  | 0, _ => none
  | fuel + 1, p =>
    match heap[p]? with
    | none => none
    | some s =>
      if s.flags &&& STRCT_HAS_NULLREFS ≠ 0 then some true
      else check_reffind_fq heap (check_reffind heap fuel) s.fq

/-! ## check_unique_unique (linker.c lines 323-365) -/

/-- The two innermost loops (lines 347-353): true when every field of `u` is
found, by pointer equality, among the fields of `uu` (`nf == NULL` after the
loop). -/
def unique_covered (u uu : unique) : Bool :=
  u.nq.all (fun nf => uu.nq.any (fun unf => decide (nf.field = unf.field)))

/-- The loop of `check_unique_unique` over `uu`, for the statement `u` at
position `iu`.  A statement of the same size that is not a duplicate leaves
the loop (`if (nf != NULL) break;`). -/
def check_unique_unique_uu (iu : Nat) (u : unique) :
    config → Nat → List (Nat × unique) → config × Nat
  | cfg, errs, [] => (cfg, errs)
  | cfg, errs, (iuu, uu) :: rest =>
    if iuu = iu then check_unique_unique_uu iu u cfg errs rest
    else if uu.nq.length ≠ u.nq.length then check_unique_unique_uu iu u cfg errs rest
    else if unique_covered u uu = false then (cfg, errs)
    else
      check_unique_unique_uu iu u
        (gen_errx cfg (some u.pos) (some "duplicate unique statements: %s:%zu:%zu")
          [msgarg.str uu.pos.fname, msgarg.num uu.pos.line, msgarg.num uu.pos.column])
        (errs + 1) rest

/-- The loop of `check_unique_unique` over `u`. -/
def check_unique_unique_u (all : List (Nat × unique)) :
    config → Nat → List (Nat × unique) → config × Nat
  | cfg, errs, [] => (cfg, errs)
  | cfg, errs, (iu, u) :: rest =>
    let r := check_unique_unique_uu iu u cfg errs all
    check_unique_unique_u all r.1 r.2 rest

/-- Make sure that no unique statement of `s` equals another one; the boolean
is `errs == 0`. -/
def check_unique_unique (cfg : config) (s : strct) : config × Bool :=
  let r := check_unique_unique_u s.nq.enum cfg 0 s.nq.enum
  (r.1, decide (r.2 = 0))

/-! ## check_unique_roles (linker.c lines 371-387) -/

/-- The position of the role a pointer designates (`&role->pos`). -/
def role_pos (roles : List role) (rp : Option rolep) : Option pos :=
  match rp with
  | none => none
  | some r => (roles[r]?).map role.pos

/-- The inner loop of `check_unique_roles` over `rrs`. -/
def check_unique_roles_rrs (irs : Nat) (rs : rref) :
    config → Nat → List (Nat × rref) → Option (config × Nat)
  | cfg, errs, [] => some (cfg, errs)
  | cfg, errs, (irrs, rrs) :: rest =>
    if irs ≠ irrs ∧ rs.role = rrs.role then
      match role_pos cfg.roles rrs.role with
      | none => none
      | some ps =>
        check_unique_roles_rrs irs rs
          (gen_errx cfg (some ps) (some "duplicate operation role") []) (errs + 1) rest
    else check_unique_roles_rrs irs rs cfg errs rest

/-- The outer loop of `check_unique_roles` over `rs`. -/
def check_unique_roles_rs (all : List (Nat × rref)) :
    config → Nat → List (Nat × rref) → Option (config × Nat)
  | cfg, errs, [] => some (cfg, errs)
  | cfg, errs, (irs, rs) :: rest =>
    match check_unique_roles_rrs irs rs cfg errs all with
    | none => none
    | some (cfg1, errs1) => check_unique_roles_rs all cfg1 errs1 rest

/-- Make sure that the rolemap contains unique roles; the boolean is
`errs == 0`. -/
def check_unique_roles (cfg : config) (rm : rolemap) : Option (config × Bool) :=
  match check_unique_roles_rs rm.rq.enum cfg 0 rm.rq.enum with
  | none => none
  | some (cfg1, errs) => some (cfg1, decide (errs = 0))

/-! ## ort_parse_close (linker.c lines 396-543) -/

/-- Sequencing of two passes of `ort_parse_close`: a pass that yields the
boolean false has executed `return 0`, and the rest is skipped. -/
def and_then (x : Option (config × Bool)) (k : config → Option (config × Bool)) :
    Option (config × Bool) :=
  match x with
  | none => none
  | some (c, false) => some (c, false)
  | some (c, true) => k c

/-- The loop of lines 420-421: `i += !check_unique_unique(cfg, p)`. -/
def ort_parse_close_unique : config → Nat → List strctp → Option (config × Nat)
  | cfg, i, [] => some (cfg, i)
  | cfg, i, p :: ps =>
    match cfg.heap[p]? with
    | none => none
    | some s =>
      let r := check_unique_unique cfg s
      ort_parse_close_unique r.1 (i + (if r.2 then 0 else 1)) ps

/-- The loop over the rolemaps of one struct, running `check` on each
(lines 429-430 and 436-437). -/
def ort_parse_close_rq (check : config → rolemap → Option (config × Bool)) :
    config → Nat → List rolemap → Option (config × Nat)
  | cfg, i, [] => some (cfg, i)
  | cfg, i, rm :: rms =>
    match check cfg rm with
    | none => none
    | some (cfg1, ok) => ort_parse_close_rq check cfg1 (i + (if ok then 0 else 1)) rms

/-- The loop over the structs, running `check` on every rolemap
(lines 428-430 and 435-437). -/
def ort_parse_close_roles (check : config → rolemap → Option (config × Bool)) :
    config → Nat → List strctp → Option (config × Nat)
  | cfg, i, [] => some (cfg, i)
  | cfg, i, p :: ps =>
    match cfg.heap[p]? with
    | none => none
    | some s =>
      match ort_parse_close_rq check cfg i s.rq with
      | none => none
      | some (cfg1, i1) => ort_parse_close_roles check cfg1 i1 ps

/-- The warnings for the operations of one struct that no role can reach
(lines 445-469). -/
def ort_parse_close_reach (cfg : config) (s : strct) : config :=
  let c1 := s.sq.foldl (fun c srch =>
    if srch.rolemap ≠ none then c
    else gen_warnx c (some srch.pos) (some "no roles defined for query function") []) cfg
  let c2 := s.dq.foldl (fun c u =>
    if u.rolemap ≠ none then c
    else gen_warnx c (some u.pos) (some "no roles defined for delete function") []) c1
  let c3 := s.uq.foldl (fun c u =>
    if u.rolemap ≠ none then c
    else gen_warnx c (some u.pos) (some "no roles defined for update function") []) c2
  match s.ins with
  | none => c3
  | some ins =>
    if ins.rolemap = none then
      gen_warnx c3 (some ins.pos) (some "no roles defined for insert function") []
    else c3

/-- The loop of lines 444-470 over the structs. -/
def ort_parse_close_reachable : config → List strctp → Option config
  | cfg, [] => some cfg
  | cfg, p :: ps =>
    match cfg.heap[p]? with
    | none => none
    | some s => ort_parse_close_reachable (ort_parse_close_reach cfg s) ps

/-- The loop of lines 476-482 over the fields of struct `p`. -/
def ort_parse_close_recursive_fq (fuel : Nat) (p : strctp) :
    config → Nat → List field → Option (config × Nat)
  | cfg, i, [] => some (cfg, i)
  | cfg, i, f :: fs =>
    if f.type ≠ ftype.FTYPE_STRUCT then ort_parse_close_recursive_fq fuel p cfg i fs
    else
      match f.ref with
      | none => none
      | some r =>
        match check_recursive cfg.heap fuel r p with
        | none => none
        | some true => ort_parse_close_recursive_fq fuel p cfg i fs
        | some false =>
          ort_parse_close_recursive_fq fuel p
            (gen_errx cfg (some f.pos) (some "recursive reference") []) (i + 1) fs

/-- The loop of lines 475-482 over the structs. -/
def ort_parse_close_recursive (fuel : Nat) : config → Nat → List strctp → Option (config × Nat)
  | cfg, i, [] => some (cfg, i)
  | cfg, i, p :: ps =>
    match cfg.heap[p]? with
    | none => none
    | some s =>
      match ort_parse_close_recursive_fq fuel p cfg i s.fq with
      | none => none
      | some (cfg1, i1) => ort_parse_close_recursive fuel cfg1 i1 ps

/-- One traversal generation (lines 498-502): the loop over the fields of the
root `p`, which colours the root and annotates from every struct-typed
field. -/
def ort_parse_close_generation (fuel : Nat) (p : strctp) (colour : Nat) :
    List strct → List field → Option (List strct)
  | heap, [] => some heap
  | heap, f :: fs =>
    if f.type = ftype.FTYPE_STRUCT then
      match heap[p]?, f.ref with
      | some s, some r =>
        match annotate fuel (heap.set p { s with colour := colour }) r 1 colour with
        | none => none
        | some heap2 => ort_parse_close_generation fuel p colour heap2 fs
      | _, _ => none
    else ort_parse_close_generation fuel p colour heap fs

/-- The height pass (lines 494-504) over the structs, from colour `colour` and
count `sz`; yields the store and the final `sz`. -/
def ort_parse_close_height (fuel : Nat) :
    List strct → Nat → Nat → List strctp → Option (List strct × Nat)
  | heap, _, sz, [] => some (heap, sz)
  | heap, colour, sz, p :: ps =>
    match heap[p]? with
    | none => none
    | some s =>
      if s.colour ≠ 0 then ort_parse_close_height fuel heap colour (sz + 1) ps
      else
        match ort_parse_close_generation fuel p colour heap s.fq with
        | none => none
        | some heap2 => ort_parse_close_height fuel heap2 (colour + 1) (sz + 1) ps

/-- The loop of lines 509-511: the first failing `check_searchtype` returns
zero. -/
def ort_parse_close_searchtype : config → List strctp → Option (config × Bool)
  | cfg, [] => some (cfg, true)
  | cfg, p :: ps =>
    match cfg.heap[p]? with
    | none => none
    | some s => and_then (check_searchtype cfg s) (fun c => ort_parse_close_searchtype c ps)

/-- The sort of lines 519-533: the list is copied into an array of `sz`
pointers, sorted with `parse_cmp`, and every element is re-inserted at the
head, which reverses the sorted array. -/
def ort_parse_close_sort (E : env) (sz : Nat) (cfg : config) : Option (config × Bool) :=
  if E.calloc sz = false then some (gen_err E.errno cfg none, false)
  else if cfg.sq.length ≠ sz then none
  else some ({ cfg with sq := (E.qsort (parse_cmp cfg.heap) cfg.sq).reverse }, true)

/-- The loop of lines 537-539: `p->flags |= STRCT_HAS_NULLREFS` when
`check_reffind` finds a null reference. -/
def ort_parse_close_nullrefs (fuel : Nat) : List strct → List strctp → Option (List strct)
  | heap, [] => some heap
  | heap, p :: ps =>
    match check_reffind heap fuel p, heap[p]? with
    | some true, some s =>
      ort_parse_close_nullrefs fuel (heap.set p { s with flags := s.flags ||| STRCT_HAS_NULLREFS }) ps
    | some false, _ => ort_parse_close_nullrefs fuel heap ps
    | _, _ => none

/-- Lines 417-543 of `ort_parse_close`: everything after the resolver
passes. -/
def ort_parse_close_linked (E : env) (fuel : Nat) (cfg : config) : Option (config × Bool) :=
  and_then ((ort_parse_close_unique cfg 0 cfg.sq).map (fun r => (r.1, decide (r.2 = 0)))) fun c1 =>
  and_then ((ort_parse_close_roles check_unique_roles c1 0 c1.sq).map
    (fun r => (r.1, decide (r.2 = 0)))) fun c2 =>
  and_then ((ort_parse_close_roles (check_unique_roles_tree fuel) c2 0 c2.sq).map
    (fun r => (r.1, decide (r.2 = 0)))) fun c3 =>
  and_then ((if c3.rq = [] then some c3 else ort_parse_close_reachable c3 c3.sq).map
    (fun c => (c, true))) fun c4 =>
  and_then ((ort_parse_close_recursive fuel c4 0 c4.sq).map
    (fun r => (r.1, decide (r.2 = 0)))) fun c5 =>
  match ort_parse_close_height fuel c5.heap 1 0 c5.sq with
  | none => none
  | some (heap6, sz) =>
    if sz = 0 then none
    else
      and_then (ort_parse_close_searchtype { c5 with heap := heap6 } c5.sq) fun c7 =>
      and_then (ort_parse_close_sort E sz c7) fun c8 =>
      (ort_parse_close_nullrefs fuel c8.heap c8.sq).map (fun h => ({ c8 with heap := h }, true))

/-- The linking phase: a fully parsed configuration has its components linked
together and checked for correctness.  The boolean is false on failure (C
zero). -/
def ort_parse_close (E : env) (fuel : Nat) (cfg : config) : Option (config × Bool) :=
  if cfg.sq = [] then
    some (gen_errx cfg none (some "no structures in configuration") [], false)
  else
    and_then (some (E.linker_resolve cfg)) fun c1 =>
    and_then (some (E.linker_aliases c1)) fun c2 =>
    ort_parse_close_linked E fuel c2

/-! ## Concrete collaborators and configurations -/

/-- Insertion of `a` into a list sorted by `cmp`. -/
def isort_insert (cmp : strctp → strctp → Int) (a : strctp) : List strctp → List strctp
  | [] => [a]
  | b :: l => if cmp a b ≤ 0 then a :: b :: l else b :: isort_insert cmp a l

/-- Insertion sort, one function that meets the contract of `qsort`. -/
def isort (cmp : strctp → strctp → Int) : List strctp → List strctp
  | [] => []
  | a :: l => isort_insert cmp a (isort cmp l)

/-- Collaborators for configurations that are already resolved: the resolver
passes succeed and change nothing, `qsort` is insertion sort, and allocation
succeeds. -/
def env_id : env :=
  { linker_resolve := fun c => (c, true)
    linker_aliases := fun c => (c, true)
    qsort := isort
    calloc := fun _ => true
    errno := 0 }

/-- The fields that embed the structs `ts` into struct `self`, from position
`i` on: for each target a foreign-key field referencing the target's row
identifier, then the struct-typed field backed by that key. -/
def embed_fields (self : strctp) : Nat → List strctp → List field
  | _, [] => []
  | i, t :: ts =>
    { type := ftype.FTYPE_INT, ref := some { target := ⟨t, 0⟩, source := ⟨self, i⟩ },
      flags := 0, pos := ⟨"db.ort", 10 * self + i, 1⟩ } ::
    { type := ftype.FTYPE_STRUCT, ref := some { target := ⟨t, 0⟩, source := ⟨self, i⟩ },
      flags := 0, pos := ⟨"db.ort", 10 * self + i + 1, 1⟩ } ::
    embed_fields self (i + 2) ts

/-- A struct at address `self` with a row identifier and one embedded struct
per element of `ts`, as the parser creates it (height, colour and flags
zero). -/
def mk_strct (self : strctp) (name : String) (ts : List strctp) : strct :=
  { name := name
    fq := { type := ftype.FTYPE_INT, ref := none, flags := FIELD_ROWID,
            pos := ⟨"db.ort", 10 * self, 1⟩ } :: embed_fields self 1 ts
    sq := [], uq := [], dq := [], ins := none, nq := [], rq := []
    flags := 0, height := 0, colour := 0 }

/-- A configuration of the structs `heap`, declared in the order of their
addresses, without roles or messages. -/
def mk_config (heap : List strct) : config :=
  { heap := heap, sq := List.range heap.length, roles := [], rq := [], msgs := [] }

/-! ## Predicates used to state the properties -/

/-- Struct `x` embeds struct `y` directly: `x` has a struct-typed field whose
reference targets a field of `y`. -/
def embeds (heap : List strct) (x y : strctp) : Prop :=
  ∃ s ∈ heap[x]?, ∃ f ∈ s.fq, f.type = ftype.FTYPE_STRUCT ∧ ∃ r ∈ f.ref, r.target.parent = y

instance embeds_decidable (heap : List strct) (x y : strctp) : Decidable (embeds heap x y) := by
  unfold embeds
  infer_instance

/-- Two configurations that differ at most in their messages. -/
def msgs_only (c c2 : config) : Prop :=
  c2.heap = c.heap ∧ c2.sq = c.sq ∧ c2.roles = c.roles ∧ c2.rq = c.rq

/-- The part of a struct that the height pass and the null-reference pass
never write: everything but `flags`, `height` and `colour`. -/
def static_part (s : strct) : strct :=
  { s with flags := 0, height := 0, colour := 0 }

/-- An embedding path of `d` edges leads from struct `a` to struct `b`. -/
inductive PathLen (heap : List strct) : strctp → strctp → Nat → Prop
  | zero (a : strctp) : PathLen heap a a 0
  | step {a b c : strctp} {d : Nat} : PathLen heap a b d → embeds heap b c → PathLen heap a c (d + 1)

/-- What one traversal generation with root `p` and colour `c` may have done
to the store `h0`: every struct is unchanged, or is the root with the colour
set, or is another struct that received the colour once together with the
depth `d` of one embedding path from the root. -/
def gen_rel (h0 : List strct) (p : strctp) (c : Nat) (h : List strct) : Prop :=
  h.length = h0.length ∧
  ∀ z s0, h0[z]? = some s0 → ∃ s, h[z]? = some s ∧
    (s = s0 ∨ (z = p ∧ s = { s0 with colour := c }) ∨
      (z ≠ p ∧ ∃ d, 1 ≤ d ∧ PathLen h0 p z d ∧
        s = { s0 with colour := c, height := s0.height + d }))

/-- The configuration on which the checks of `ort_parse_close` run: the one
left by the two resolver passes. -/
def resolved (E : env) (cfg : config) : config :=
  (E.linker_aliases (E.linker_resolve cfg).1).1

/-- Role `p` is the parent of role `r`. -/
def role_parent (roles : List role) (r p : rolep) : Prop :=
  ∃ x ∈ roles[r]?, x.parent = some p

/-- Struct `x` (address 0) embeds struct `y` (address 1). -/
def pair_cfg : config :=
  mk_config [mk_strct 0 "x" [1], mk_strct 1 "y" []]

/-- The configuration that linking `pair_cfg` leaves: `y` has height 1 and
comes first. -/
def pair_linked : config :=
  { pair_cfg with
    heap := [{ mk_strct 0 "x" [1] with colour := 1 },
             { mk_strct 1 "y" [] with colour := 1, height := 1 }]
    sq := [1, 0] }

/-- A rolemap is well formed over the role tree `roles`: no two of its entries
name the same role, and no entry's role is a strict ancestor of another
entry's role. -/
def rolemap_ok (roles : List role) (rm : rolemap) : Prop :=
  ∀ (i j : Nat) (r1 r2 : rref), i ≠ j → rm.rq[i]? = some r1 → rm.rq[j]? = some r2 →
    r1.role ≠ r2.role ∧
    ∀ a b, r1.role = some a → r2.role = some b →
      ¬ Relation.TransGen (role_parent roles) b a

/-- A role tree: `all` (0) at the root, below it `default` (1), `admin` (2)
and `user` (3), and `guest` (4) below `user`. -/
def sample_roles : List role :=
  [{ name := "all", parent := none, pos := ⟨"db.ort", 1, 1⟩ },
   { name := "default", parent := some 0, pos := ⟨"db.ort", 1, 1⟩ },
   { name := "admin", parent := some 0, pos := ⟨"db.ort", 2, 1⟩ },
   { name := "user", parent := some 0, pos := ⟨"db.ort", 3, 1⟩ },
   { name := "guest", parent := some 3, pos := ⟨"db.ort", 4, 1⟩ }]

/-- One struct whose only rolemap lists the sibling roles `admin` and
`guest`. -/
def roles_cfg : config :=
  { heap := [{ mk_strct 0 "x" [] with
      rq := [{ rq := [{ role := some 2, pos := ⟨"db.ort", 7, 1⟩ },
                      { role := some 4, pos := ⟨"db.ort", 7, 9⟩ }] }] }]
    sq := [0], roles := sample_roles, rq := [0], msgs := [] }

/-- The roles form a forest: parent pointers designate stored roles, and
`depth` strictly decreases from a role to its parent. -/
def role_forest (roles : List role) (depth : rolep → Nat) : Prop :=
  ∀ (r : rolep) (x : role) (p : rolep), roles[r]? = some x → x.parent = some p →
    (∃ y, roles[p]? = some y) ∧ depth p < depth r

/-- The depth of the roles of `sample_roles`. -/
def sample_depth (r : rolep) : Nat :=
  if r = 0 then 0 else if r = 4 then 2 else 1

/-- A configuration that only holds the role tree `sample_roles`. -/
def sample_roles_cfg : config :=
  { heap := [], sq := [], roles := sample_roles, rq := [0], msgs := [] }

/-- The unique statement at line `line` over the fields at positions `fs` of
the struct at address 0. -/
def mk_unique (line : Nat) (fs : List Nat) : unique :=
  { nq := fs.map (fun i => { field := ⟨0, i⟩, pos := ⟨"db.ort", line, 8⟩ })
    pos := ⟨"db.ort", line, 1⟩ }

/-- A struct of five integer fields with the unique statements `us`. -/
def mk_unique_strct (us : List unique) : strct :=
  { name := "t"
    fq := (List.range 5).map (fun i =>
      { type := ftype.FTYPE_INT, ref := none, flags := if i = 0 then FIELD_ROWID else 0,
        pos := ⟨"db.ort", i + 1, 1⟩ })
    sq := [], uq := [], dq := [], ins := none, nq := us, rq := []
    flags := 0, height := 0, colour := 0 }

/-- A struct with two unique statements over the same two fields, listed in
opposite order. -/
def swapped_uniques : strct :=
  mk_unique_strct [mk_unique 5 [1, 2], mk_unique 6 [2, 1]]

/-- The "duplicate unique statements" error at `u` that names `uu`. -/
def duplicate_unique_msg (u uu : unique) : msg :=
  { type := msgtype.MSGTYPE_ERROR, chan := channel, er := 0, pos := some u.pos,
    fmt := some "duplicate unique statements: %s:%zu:%zu",
    args := [msgarg.str uu.pos.fname, msgarg.num uu.pos.line, msgarg.num uu.pos.column] }

/-- A struct with three unique statements: one over fields 1 and 2, then two
over the same fields 3 and 4. -/
def shadowed_uniques : strct :=
  mk_unique_strct [mk_unique 6 [1, 2], mk_unique 7 [3, 4], mk_unique 8 [4, 3]]

/-- The configuration of the single struct `shadowed_uniques`. -/
def shadowed_cfg : config :=
  mk_config [shadowed_uniques]

/-- Structs `a` (0), `b` (1) and `c` (2): `a` embeds `b`; `b` embeds `c`, then
`a`; `c` embeds `b`.  Every struct lies on a two-cycle. -/
def cycles_cfg : config :=
  mk_config [mk_strct 0 "a" [1], mk_strct 1 "b" [2, 0], mk_strct 2 "c" [1]]

/-- Structs `r` (0), `y` (1), `m` (2) and `x` (3): `r` embeds `y`, then `m`;
`m` embeds `x`; `x` embeds `y`.  So `y` is reachable from `r` by a path of one
edge and by a path of three edges. -/
def shortcut_cfg : config :=
  mk_config [mk_strct 0 "r" [1, 2], mk_strct 1 "y" [], mk_strct 2 "m" [3], mk_strct 3 "x" [1]]

/-- The configuration that linking `shortcut_cfg` leaves. -/
def shortcut_linked : config :=
  { shortcut_cfg with
    heap := [{ mk_strct 0 "r" [1, 2] with colour := 1 },
             { mk_strct 1 "y" [] with colour := 1, height := 1 },
             { mk_strct 2 "m" [3] with colour := 1, height := 1 },
             { mk_strct 3 "x" [1] with colour := 1, height := 2 }]
    sq := [3, 2, 1, 0] }

/-- The diamond: `x` (0) embeds `y` (1) and `z` (2), which both embed
`w` (3). -/
def diamond_cfg : config :=
  mk_config [mk_strct 0 "x" [1, 2], mk_strct 1 "y" [3], mk_strct 2 "z" [3], mk_strct 3 "w" []]

/-- The store of `diamond_cfg` after the traversal generation of root `x` with
colour 1. -/
def diamond_after : List strct :=
  [{ mk_strct 0 "x" [1, 2] with colour := 1 },
   { mk_strct 1 "y" [3] with colour := 1, height := 1 },
   { mk_strct 2 "z" [3] with colour := 1, height := 1 },
   { mk_strct 3 "w" [] with colour := 1, height := 2 }]

/-- The struct `User {id: int rowid; email: text unique}` at address
`self`. -/
def user_strct (self : strctp) : strct :=
  { name := "user"
    fq := [{ type := ftype.FTYPE_INT, ref := none, flags := FIELD_ROWID,
             pos := ⟨"db.ort", 10 * self + 1, 1⟩ },
           { type := ftype.FTYPE_TEXT, ref := none, flags := FIELD_UNIQUE,
             pos := ⟨"db.ort", 10 * self + 2, 1⟩ }]
    sq := [], uq := [], dq := [], ins := none, nq := [], rq := []
    flags := 0, height := 0, colour := 0 }

/-- The struct `Post` at address `self`: a row identifier, a nullable
foreign-key field referencing the row identifier of the `User` at address
`usr`, and the struct-typed field `author` backed by that key. -/
def post_strct (self usr : strctp) : strct :=
  { name := "post"
    fq := [{ type := ftype.FTYPE_INT, ref := none, flags := FIELD_ROWID,
             pos := ⟨"db.ort", 10 * self + 1, 1⟩ },
           { type := ftype.FTYPE_INT, ref := some { target := ⟨usr, 0⟩, source := ⟨self, 1⟩ },
             flags := FIELD_NULL, pos := ⟨"db.ort", 10 * self + 2, 1⟩ },
           { type := ftype.FTYPE_STRUCT, ref := some { target := ⟨usr, 0⟩, source := ⟨self, 1⟩ },
             flags := 0, pos := ⟨"db.ort", 10 * self + 3, 1⟩ }]
    sq := [], uq := [], dq := [], ins := none, nq := [], rq := []
    flags := 0, height := 0, colour := 0 }

/-- The resolved configuration that declares `User` (0), then `Post` (1). -/
def user_post_cfg : config :=
  mk_config [user_strct 0, post_strct 1 0]

/-- The resolved configuration that declares `Post` (0), then `User` (1). -/
def post_user_cfg : config :=
  mk_config [post_strct 0 1, user_strct 1]

/-- The configuration that linking `user_post_cfg` leaves. -/
def user_post_linked : config :=
  { user_post_cfg with
    heap := [{ user_strct 0 with colour := 2, height := 1 },
             { post_strct 1 0 with colour := 2, flags := STRCT_HAS_NULLREFS }]
    sq := [0, 1] }

/-- The configuration that linking `post_user_cfg` leaves. -/
def post_user_linked : config :=
  { post_user_cfg with
    heap := [{ post_strct 0 1 with colour := 1, flags := STRCT_HAS_NULLREFS },
             { user_strct 1 with colour := 1, height := 1 }]
    sq := [1, 0] }

/-- The "duplicate operation role" error at the position `p` of the role. -/
def duplicate_role_msg (p : pos) : msg :=
  { type := msgtype.MSGTYPE_ERROR, chan := channel, er := 0, pos := some p,
    fmt := some "duplicate operation role", args := [] }

/-- A rolemap that lists `admin`, `user` and `admin` again. -/
def repeated_role_map : rolemap :=
  { rq := [{ role := some 2, pos := ⟨"db.ort", 9, 1⟩ },
           { role := some 3, pos := ⟨"db.ort", 9, 7⟩ },
           { role := some 2, pos := ⟨"db.ort", 9, 13⟩ }] }

/-- What `check_searchtype` does with the search `srch` once the first loop
over its predicates has yielded `r`, and then with the searches `post` that
follow it (lines 229-248). -/
def check_searchtype_rest (srch : search) (post : List search) (r : Option (config × Bool)) :
    Option (config × Bool) :=
  and_then r fun c =>
    match srch.dst with
    | none => check_searchtype_sq c post
    | some _ => and_then (check_searchtype_dst c srch.sntq) fun c2 => check_searchtype_sq c2 post

/-- The operator is neither unary nor of the equality class (lines
205-209). -/
def op_not_equality (op : optype) : Prop :=
  OPTYPE_ISUNARY op = false ∧ op ≠ optype.OPTYPE_EQUAL ∧ op ≠ optype.OPTYPE_NEQUAL ∧
    op ≠ optype.OPTYPE_STREQ ∧ op ≠ optype.OPTYPE_STRNEQ

instance op_not_equality_decidable (op : optype) : Decidable (op_not_equality op) := by
  unfold op_not_equality
  infer_instance

/-- A struct at address 0 with a row identifier, a text field `name` (1), a
nullable password field `hash` (2) and an integer field `age` (3), and with
the searches `sq`. -/
def mk_search_strct (sq : List search) : strct :=
  { name := "account"
    fq := [{ type := ftype.FTYPE_INT, ref := none, flags := FIELD_ROWID, pos := ⟨"db.ort", 1, 1⟩ },
           { type := ftype.FTYPE_TEXT, ref := none, flags := 0, pos := ⟨"db.ort", 2, 1⟩ },
           { type := ftype.FTYPE_PASSWORD, ref := none, flags := FIELD_NULL,
             pos := ⟨"db.ort", 3, 1⟩ },
           { type := ftype.FTYPE_INT, ref := none, flags := 0, pos := ⟨"db.ort", 4, 1⟩ }]
    sq := sq, uq := [], dq := [], ins := none, nq := [], rq := []
    flags := 0, height := 0, colour := 0 }

/-- The predicate at line `line` applying `op` to the field at position `i` of
the struct at address 0. -/
def mk_sent (line : Nat) (op : optype) (i : Nat) : sent :=
  { op := op, field := ⟨0, i⟩, pos := ⟨"db.ort", line, 9⟩ }

/-- The search at line `line` of kind `t` with the predicates `sntq`, the
distinct-subset target `dst`, and a limit of one. -/
def mk_search (line : Nat) (t : stype) (sntq : List sent) (dst : Option Nat) : search :=
  { type := t, sntq := sntq, flags := 0, limit := 1, dst := dst, rolemap := none,
    pos := ⟨"db.ort", line, 1⟩ }

/-- The configuration of the single struct `mk_search_strct sq`. -/
def search_cfg (sq : List search) : config :=
  mk_config [mk_search_strct sq]

/-- The last message recorded in `c` is an error. -/
def last_is_error (c : config) : Prop :=
  ∃ m, c.msgs.getLast? = some m ∧ m.type = msgtype.MSGTYPE_ERROR

/-- Every predicate of the list designates a stored field. -/
def sents_valid (heap : List strct) (l : List sent) : Prop :=
  ∀ st ∈ l, (deref_field heap st.field).isSome = true

instance sents_valid_decidable (heap : List strct) (l : List sent) :
    Decidable (sents_valid heap l) := by
  unfold sents_valid
  infer_instance

/-! ## Segments of ort_parse_close -/

/-- Lines 407-439 of `ort_parse_close`: the resolver passes, the check of the
unique statements and the two checks of the rolemaps. -/
def ort_parse_close_to_roles (E : env) (fuel : Nat) (cfg : config) : Option (config × Bool) :=
  if cfg.sq = [] then
    some (gen_errx cfg none (some "no structures in configuration") [], false)
  else
    and_then (some (E.linker_resolve cfg)) fun c1 =>
    and_then (some (E.linker_aliases c1)) fun c2 =>
    and_then ((ort_parse_close_unique c2 0 c2.sq).map (fun r => (r.1, decide (r.2 = 0)))) fun c3 =>
    and_then ((ort_parse_close_roles check_unique_roles c3 0 c3.sq).map
      (fun r => (r.1, decide (r.2 = 0)))) fun c4 =>
    (ort_parse_close_roles (check_unique_roles_tree fuel) c4 0 c4.sq).map
      (fun r => (r.1, decide (r.2 = 0)))

/-- Lines 441-470 of `ort_parse_close`: the warnings for operations that no
role can reach; the pass has no failing exit. -/
def ort_parse_close_reach_pass (c : config) : Option (config × Bool) :=
  (if c.rq = [] then some c else ort_parse_close_reachable c c.sq).map (fun c2 => (c2, true))

/-- Lines 472-484 of `ort_parse_close`: the check for reference recursion. -/
def ort_parse_close_recursive_pass (fuel : Nat) (c : config) : Option (config × Bool) :=
  (ort_parse_close_recursive fuel c 0 c.sq).map (fun r => (r.1, decide (r.2 = 0)))

/-- Lines 486-505 of `ort_parse_close`: the height pass with its final
`assert(sz > 0)`. -/
def ort_parse_close_height_pass (fuel : Nat) (c : config) : Option (config × Bool) :=
  match ort_parse_close_height fuel c.heap 1 0 c.sq with
  | none => none
  | some (h, sz) => if sz = 0 then none else some ({ c with heap := h }, true)

/-- Lines 507-543 of `ort_parse_close`: the search check, the sort and the
null-reference pass. -/
def ort_parse_close_from_search (E : env) (fuel : Nat) (c : config) : Option (config × Bool) :=
  and_then (ort_parse_close_searchtype c c.sq) fun c7 =>
  and_then (ort_parse_close_sort E c.sq.length c7) fun c8 =>
  (ort_parse_close_nullrefs fuel c8.heap c8.sq).map (fun h => ({ c8 with heap := h }, true))

/-- Lines 472-543 of `ort_parse_close`: everything from the recursion check
on. -/
def ort_parse_close_from_recursive (E : env) (fuel : Nat) (c : config) : Option (config × Bool) :=
  and_then (ort_parse_close_recursive_pass fuel c) fun c5 =>
  and_then (ort_parse_close_height_pass fuel c5) (ort_parse_close_from_search E fuel)

/-- Lines 407-505 of `ort_parse_close`: everything before the search check. -/
def ort_parse_close_to_search (E : env) (fuel : Nat) (cfg : config) : Option (config × Bool) :=
  and_then (ort_parse_close_to_roles E fuel cfg) fun c3 =>
  and_then (ort_parse_close_reach_pass c3) fun c4 =>
  and_then (ort_parse_close_recursive_pass fuel c4) (ort_parse_close_height_pass fuel)

/-- Every struct of the list `cfg->sq` is stored, and every predicate of its
searches designates a stored field. -/
def searches_valid (c : config) : Prop :=
  ∀ p ∈ c.sq, ∃ s ∈ c.heap[p]?, ∀ srch ∈ s.sq, sents_valid c.heap srch.sntq

instance searches_valid_decidable (c : config) : Decidable (searches_valid c) := by
  unfold searches_valid
  infer_instance

/-- One struct with a list search applying LIKE to the integer field, followed
by a single-result search without predicates. -/
def like_then_empty_cfg : config :=
  search_cfg [mk_search 6 stype.STYPE_LIST [mk_sent 6 optype.OPTYPE_LIKE 3] none,
              mk_search 7 stype.STYPE_SEARCH [] none]

/-- One struct with a single-result search without predicates. -/
def empty_search_cfg : config :=
  search_cfg [mk_search 7 stype.STYPE_SEARCH [] none]

/-- Struct `p` has a struct-typed field whose source (foreign-key) field is
nullable. -/
def nullable_embed (heap : List strct) (p : strctp) : Prop :=
  ∃ s ∈ heap[p]?, ∃ f ∈ s.fq, f.type = ftype.FTYPE_STRUCT ∧
    ∃ r ∈ f.ref, ∃ src ∈ deref_field heap r.source, src.flags &&& FIELD_NULL ≠ 0

/-- Struct `p`, or a struct reachable from `p` through embedded-struct fields,
has a struct-typed field whose source field is nullable. -/
def has_nullrefs (heap : List strct) (p : strctp) : Prop :=
  ∃ q, Relation.ReflTransGen (embeds heap) p q ∧ nullable_embed heap q

/-- Every struct flagged `STRCT_HAS_NULLREFS` has null references. -/
def nullrefs_sound (heap : List strct) : Prop :=
  ∀ q s, heap[q]? = some s → s.flags &&& STRCT_HAS_NULLREFS ≠ 0 → has_nullrefs heap q

/-- A warning of the linker at position `p` with the text `f`. -/
def warn_msg (p : pos) (f : String) : msg :=
  { type := msgtype.MSGTYPE_WARN, chan := channel, er := 0, pos := some p, fmt := some f,
    args := [] }

/-- One warning for each search, delete, update and insert of struct `s` that
has no rolemap, in the order of lines 445-469. -/
def reach_warnings (s : strct) : List msg :=
  (s.sq.filter (fun x => decide (x.rolemap = none))).map
    (fun x => warn_msg x.pos "no roles defined for query function") ++
  (s.dq.filter (fun x => decide (x.rolemap = none))).map
    (fun x => warn_msg x.pos "no roles defined for delete function") ++
  (s.uq.filter (fun x => decide (x.rolemap = none))).map
    (fun x => warn_msg x.pos "no roles defined for update function") ++
  (match s.ins with
   | none => []
   | some ins =>
     if ins.rolemap = none then [warn_msg ins.pos "no roles defined for insert function"]
     else [])

/-- The warnings on unreachable operations for the whole configuration: none
when no role is declared, otherwise those of every struct of `cfg->sq` in
order. -/
def reach_messages (c : config) : List msg :=
  if c.rq = [] then []
  else c.sq.flatMap (fun p =>
    match c.heap[p]? with
    | none => []
    | some s => reach_warnings s)

/-- A configuration with the role tree `sample_roles` and one struct that has
a search without rolemap, a search with one, a delete without rolemap and an
insert without rolemap. -/
def operations_cfg : config :=
  { heap := [{ mk_search_strct
        [{ mk_search 6 stype.STYPE_LIST [mk_sent 6 optype.OPTYPE_EQUAL 1] none with
           rolemap := none },
         { mk_search 7 stype.STYPE_LIST [mk_sent 7 optype.OPTYPE_EQUAL 3] none with
           rolemap := some 0 }] with
      dq := [{ rolemap := none, pos := ⟨"db.ort", 8, 1⟩ }]
      uq := [{ rolemap := some 0, pos := ⟨"db.ort", 9, 1⟩ }]
      ins := some { rolemap := none, pos := ⟨"db.ort", 10, 1⟩ }
      rq := [{ rq := [{ role := some 2, pos := ⟨"db.ort", 7, 20⟩ }] }] }]
    sq := [0], roles := sample_roles, rq := [0], msgs := [] }

/-! ## Bookkeeping of the diagnostics -/

/-- A pass that counts its errors went from the sink of `c` and the count `i`
to the sink of `c2` and the count `j`: it appended messages that all satisfy
`P`, never decreased the count, and left the count unchanged exactly when it
appended nothing. -/
def counted (P : msg → Prop) (c : config) (i : Nat) (c2 : config) (j : Nat) : Prop :=
  ∃ added : List msg, c2.msgs = c.msgs ++ added ∧ (∀ m ∈ added, P m) ∧ i ≤ j ∧
    (j = i ↔ added = [])

/-- The message is a "duplicate unique statements" error. -/
def is_duplicate_unique (m : msg) : Prop :=
  m.type = msgtype.MSGTYPE_ERROR ∧ m.fmt = some "duplicate unique statements: %s:%zu:%zu"

/-- One struct with the unique statements `(f1, f2)` and `(f2, f1)` and a
rolemap that lists `admin`, `user` and `admin` again. -/
def both_defects_cfg : config :=
  { heap := [{ swapped_uniques with rq := [repeated_role_map] }]
    sq := [0], roles := sample_roles, rq := [0], msgs := [] }

/-- The message is neither an error nor a fatal error. -/
def benign (m : msg) : Prop :=
  m.type ≠ msgtype.MSGTYPE_ERROR ∧ m.type ≠ msgtype.MSGTYPE_FATAL

/-- The message is an error. -/
def is_error (m : msg) : Prop :=
  m.type = msgtype.MSGTYPE_ERROR

/-- A run from the sink of `c` that ended in `r` only appended messages, and
its status is success exactly when none of the appended messages is an error
or a fatal error. -/
def status_sound (c : config) (r : config × Bool) : Prop :=
  ∃ added : List msg, r.1.msgs = c.msgs ++ added ∧ (r.2 = true ↔ ∀ m ∈ added, benign m)

/-- The assumption on a resolver pass: it only appends to the sink and fails
exactly when it records an error. -/
def resolver_spec (R : config → config × Bool) : Prop :=
  ∀ c, status_sound c (R c)

/-- Structs `a` (0), `b` (1) and `c` (2): `a` embeds `b`, `b` embeds `c` and
`c` embeds `b`.  The cycle of `b` and `c` does not pass through `a`. -/
def off_path_cycle_cfg : config :=
  mk_config [mk_strct 0 "a" [1], mk_strct 1 "b" [2], mk_strct 2 "c" [1]]

/-- What a check leaves besides the messages: the store and the status. -/
def verdict (o : Option (config × Bool)) : Option (List strct × Bool) :=
  o.map (fun r => (r.1.heap, r.2))

/-- The warning "single-result search on a non-unique field without a limit
of one" at the position of `srch`. -/
def limit_warning (srch : search) : msg :=
  warn_msg srch.pos "single-result search on a non-unique field without a limit of one"

/-- The search is not flagged unique and its limit is not one. -/
def ambiguous_single (srch : search) : Prop :=
  srch.flags &&& SEARCH_IS_UNIQUE = 0 ∧ srch.limit ≠ 1

instance ambiguous_single_decidable (srch : search) : Decidable (ambiguous_single srch) := by
  unfold ambiguous_single
  infer_instance

/-- A single-result search by name, not flagged unique, with the limit
`limit`. -/
def name_search (limit : Int) : search :=
  { mk_search 6 stype.STYPE_SEARCH [mk_sent 6 optype.OPTYPE_EQUAL 1] none with limit := limit }

/-- The fields a unique statement lists. -/
def unique_fields (u : unique) : List fieldp :=
  u.nq.map nref.field

/-- Two unique statements cover the same set of fields. -/
def same_field_set (u uu : unique) : Prop :=
  (∀ f ∈ unique_fields u, f ∈ unique_fields uu) ∧ (∀ f ∈ unique_fields uu, f ∈ unique_fields u)

instance same_field_set_decidable (u uu : unique) : Decidable (same_field_set u uu) := by
  unfold same_field_set
  infer_instance

/-- A struct with three unique statements of two fields each, any two of which
share one field. -/
def overlapping_uniques : strct :=
  mk_unique_strct [mk_unique 6 [1, 2], mk_unique 7 [2, 3], mk_unique 8 [1, 3]]

/-- The flags `fl2` are the flags `fl`, possibly with `STRCT_HAS_NULLREFS`
set in addition. -/
def nullrefs_added (fl fl2 : Nat) : Prop :=
  fl2 = fl ∨ fl2 = fl ||| STRCT_HAS_NULLREFS

instance nullrefs_added_decidable (fl fl2 : Nat) : Decidable (nullrefs_added fl fl2) := by
  unfold nullrefs_added
  infer_instance

/-! ## The height pass with a record of its writes -/

/-- The loop of `annotate` over the fields of `p`, as `annotate_fq`, which
also yields the structs whose height the recursive calls wrote, in the order
of the writes. -/
def annotate_fq_log (self : List strct → ref → Option (List strct × List strctp)) :
    List strct → List field → Option (List strct × List strctp)
  | heap, [] => some (heap, [])
  | heap, f :: fs =>
    if f.type = ftype.FTYPE_STRUCT then
      match f.ref with
      | none => none
      | some r =>
        match self heap r with
        | none => none
        | some (heap2, w) =>
          match annotate_fq_log self heap2 fs with
          | none => none
          | some (heap3, w2) => some (heap3, w ++ w2)
    else annotate_fq_log self heap fs

/-- The function `annotate`, which also yields the structs whose height it
wrote (`p->height += height`), in the order of the writes.  A call writes the
height of its target exactly when it goes on to descend into the fields of the
target. -/
def annotate_log : Nat → List strct → ref → Nat → Nat → Option (List strct × List strctp)
  | 0, _, _, _, _ => none
  | fuel + 1, heap, r, height, colour =>
    let p := r.target.parent
    match heap[p]? with
    | none => none
    | some s =>
      if s.colour = colour then some (heap, [])
      else
        match annotate_fq_log (fun h r2 => annotate_log fuel h r2 (height + 1) colour)
            (heap.set p { s with colour := colour, height := s.height + height }) s.fq with
        | none => none
        | some (heap2, w) => some (heap2, p :: w)

/-- One traversal generation, as `ort_parse_close_generation`, which also
yields the structs whose height was written during the generation. -/
def ort_parse_close_generation_log (fuel : Nat) (p : strctp) (colour : Nat) :
    List strct → List field → Option (List strct × List strctp)
  | heap, [] => some (heap, [])
  | heap, f :: fs =>
    if f.type = ftype.FTYPE_STRUCT then
      match heap[p]?, f.ref with
      | some s, some r =>
        match annotate_log fuel (heap.set p { s with colour := colour }) r 1 colour with
        | none => none
        | some (heap2, w) =>
          match ort_parse_close_generation_log fuel p colour heap2 fs with
          | none => none
          | some (heap3, w2) => some (heap3, w ++ w2)
      | _, _ => none
    else ort_parse_close_generation_log fuel p colour heap fs

/-- Struct `z` is stored in `h` and carries the colour `c`. -/
def coloured (c : Nat) (h : List strct) (z : strctp) : Prop :=
  ∃ x, h[z]? = some x ∧ x.colour = c

/-- What a traversal that wrote the heights of `w` did to the colours between
the stores `h` and `h2`: no struct was written twice, every struct written did
not carry the colour before and carries it afterwards, and no struct lost the
colour. -/
def logged (c : Nat) (h h2 : List strct) (w : List strctp) : Prop :=
  w.Nodup ∧ (∀ z ∈ w, ¬ coloured c h z ∧ coloured c h2 z) ∧
    ∀ z, coloured c h z → coloured c h2 z

/-- Every struct that `z` embeds carries the colour `c` in `h`; the embedding
is read in the store `H0`. -/
def closed (c : Nat) (H0 h : List strct) (z : strctp) : Prop :=
  ∀ t, embeds H0 z t → coloured c h t

/-- Every struct that `q` embeds has a height of at least one in `h`. -/
def targets_raised (H0 h : List strct) (q : strctp) : Prop :=
  ∀ t, embeds H0 q t → ∃ y, h[t]? = some y ∧ 1 ≤ y.height

/-- The state of the height pass between two traversal generations, `c` being
the next colour: the store differs from `H0` in heights, colours and flags
only, every colour is below `c`, every struct that `H0` embeds from a struct
with a colour other than zero has a height of at least one, and every struct
that no struct embeds has height zero. -/
def height_inv (H0 h : List strct) (c : Nat) : Prop :=
  h.map static_part = H0.map static_part ∧
  (∀ s ∈ h, s.colour < c) ∧
  (∀ (q : strctp) (x : strct), h[q]? = some x → x.colour ≠ 0 → targets_raised H0 h q) ∧
  (∀ (t : strctp) (x : strct), h[t]? = some x → (∀ q, ¬ embeds H0 q t) → x.height = 0)

/-! ## gen_diff_field (sql.c lines 232-317) -/

/-- A diagnostic of the schema comparison, which `diff_errx` and `diff_warnx`
print to the standard error stream: severity, old and new position, format and
arguments. -/
structure diffmsg where
  type : msgtype
  posold : pos
  posnew : pos
  fmt : String
  args : List (Option String)
  deriving DecidableEq, Repr

/-- The table `realtypes` of sql.c, by the names its comments give; it has no
entry for `FTYPE_DATE` and `FTYPE_BITFIELD`. -/
def realtypes : ftype → Option String
  | ftype.FTYPE_BIT => some "int"
  | ftype.FTYPE_EPOCH => some "epoch"
  | ftype.FTYPE_INT => some "int"
  | ftype.FTYPE_REAL => some "real"
  | ftype.FTYPE_BLOB => some "blob"
  | ftype.FTYPE_TEXT => some "text"
  | ftype.FTYPE_PASSWORD => some "password"
  | ftype.FTYPE_EMAIL => some "email"
  | ftype.FTYPE_STRUCT => some "struct"
  | ftype.FTYPE_ENUM => some "enum"
  | ftype.FTYPE_DATE => none
  | ftype.FTYPE_BITFIELD => none

/-- The function `strcasecmp` of the C library, of which the code only uses
whether the result is zero: zero when the strings are equal up to the case of
the basic latin letters. -/
def strcasecmp (a b : String) : Int :=
  if a.data.map Char.toLower = b.data.map Char.toLower then 0 else 1

/-- The type is stored as an SQL integer: epoch, int, bit or enum. -/
def integer_alias (t : ftype) : Bool :=
  decide (t = ftype.FTYPE_EPOCH) || decide (t = ftype.FTYPE_INT) ||
    decide (t = ftype.FTYPE_BIT) || decide (t = ftype.FTYPE_ENUM)

/-- The check of the types in `gen_diff_field` (lines 252-281): the status and
the diagnostic. -/
def gen_diff_field_type (f df : field) : Bool × List diffmsg :=
  if f.type ≠ df.type then
    if integer_alias f.type = true ∧ integer_alias df.type = true then
      (true, [{ type := msgtype.MSGTYPE_WARN, posold := f.pos, posnew := df.pos,
                fmt := "change between integer alias types: %s to %s",
                args := [realtypes f.type, realtypes df.type] }])
    else if (f.type = ftype.FTYPE_TEXT ∧ df.type = ftype.FTYPE_EMAIL) ∨
        (f.type = ftype.FTYPE_EMAIL ∧ df.type = ftype.FTYPE_TEXT) then
      (true, [{ type := msgtype.MSGTYPE_WARN, posold := f.pos, posnew := df.pos,
                fmt := "change between text alias types: %s to %s",
                args := [realtypes f.type, realtypes df.type] }])
    else
      (false, [{ type := msgtype.MSGTYPE_ERROR, posold := f.pos, posnew := df.pos,
                 fmt := "type change: %s to %s",
                 args := [realtypes f.type, realtypes df.type] }])
  else (true, [])

/-- One check of `gen_diff_field` of the form
`if (cond) { diff_errx(..., fmt); rc = 0; }`. -/
def gen_diff_field_check (f df : field) (cond : Bool) (fmt : String)
    (r : Bool × List diffmsg) : Bool × List diffmsg :=
  if cond then
    (false, r.2 ++ [{ type := msgtype.MSGTYPE_ERROR, posold := f.pos, posnew := df.pos,
                      fmt := fmt, args := [] }])
  else r

/-- The name `f->ref->source->parent->name` for a reference `r` of the store
`heap`. -/
def source_parent_name (heap : List strct) (r : ref) : Option String :=
  match deref_field heap r.source with
  | none => none
  | some _ => (heap[r.source.parent]?).map strct.name

/-- Perform a variety of checks: the fields must have the same type, flags and
references.  The boolean is false on difference (C zero), true on equality;
`f` lives in the store `heap` and `df` in the store `dheap`. -/
def gen_diff_field (heap dheap : List strct) (f df : field) : Option (Bool × List diffmsg) :=
  let r1 := gen_diff_field_type f df
  let r2 := gen_diff_field_check f df (decide (f.flags ≠ df.flags)) "attribute change" r1
  let r3 := gen_diff_field_check f df (decide (f.actdel ≠ df.actdel)) "delete action change" r2
  let r4 := gen_diff_field_check f df (decide (f.actup ≠ df.actup)) "update action change" r3
  let r5 := gen_diff_field_check f df
    (decide ((f.ref ≠ none ∧ df.ref = none) ∨ (f.ref = none ∧ df.ref ≠ none)))
    "foreign reference change" r4
  match f.ref, df.ref with
  | some r, some dr =>
    match source_parent_name heap r, source_parent_name dheap dr with
    | some n, some dn =>
      some (gen_diff_field_check f df (decide (strcasecmp n dn ≠ 0))
        "foreign reference source change" r5)
    | _, _ => none
  | _, _ => some r5

/-- The struct `post` at address 0 of a store whose address 1 holds `user` and
whose address 2 holds `team`: a row identifier and the foreign key `owner`,
which references the row identifier of the struct at address `t`. -/
def post_owner (t : strctp) : strct :=
  { name := "post"
    fq := [{ type := ftype.FTYPE_INT, ref := none, flags := FIELD_ROWID,
             pos := ⟨"db.ort", 1, 1⟩ },
           { type := ftype.FTYPE_INT, ref := some { target := ⟨t, 0⟩, source := ⟨0, 1⟩ },
             flags := 0, pos := ⟨"db.ort", 2, 1⟩ }]
    sq := [], uq := [], dq := [], ins := none, nq := [], rq := []
    flags := 0, height := 0, colour := 0 }

/-- The store of `post_owner t`, `user` and `team`. -/
def owner_heap (t : strctp) : List strct :=
  [post_owner t, mk_strct 1 "user" [], mk_strct 2 "team" []]

/-! ## parse_config_field_info (parser_field.c lines 189-364)

The tokenizer and the diagnostics of the parser (parser.c, parser.h) are not
under src/.  The input is taken as already split into tokens. -/

/-- Modelled from the spec: the tokens of the front end, `enum tok` of
parser.h. -/
inductive tok where
  | TOK_NONE
  | TOK_COLON
  | TOK_COMMA
  | TOK_DECIMAL
  | TOK_EOF
  | TOK_ERR
  | TOK_IDENT
  | TOK_INTEGER
  | TOK_LBRACE
  | TOK_LITERAL
  | TOK_PERIOD
  | TOK_RBRACE
  | TOK_SEMICOLON
  deriving DecidableEq, Repr

/-- One token with its value, the union `p->last`; decimal values are kept as
rationals. -/
structure lexeme where
  type : tok
  string : String
  integer : Int
  decimal : Rat
  deriving DecidableEq, Repr

/-- Modelled from the spec: the state of the front end, `struct parse` of
parser.h: the tokens not yet read, the type and value of the last token, and
the diagnostics sink of the configuration. -/
structure parse where
  toks : List lexeme
  lasttype : tok
  last : lexeme
  msgs : List msg
  deriving DecidableEq, Repr

/-- Modelled from the spec: the macro `PARSE_STOP` of parser.h, true once the
input has ended or an error was recorded. -/
def PARSE_STOP (p : parse) : Bool :=
  decide (p.lasttype = tok.TOK_ERR) || decide (p.lasttype = tok.TOK_EOF)

/-- Modelled from the spec: `parse_next` of parser.c reads the next token and
returns its type, which is `TOK_EOF` at the end of the input. -/
def parse_next (p : parse) : parse :=
  match p.toks with
  | [] => { p with lasttype := tok.TOK_EOF }
  | t :: ts => { p with toks := ts, lasttype := t.type, last := t }

/-- Modelled from the spec: `parse_errx` of parser.c records an error and puts
the parser into the error state. -/
def parse_errx (p : parse) (fmt : String) : parse :=
  { p with lasttype := tok.TOK_ERR
           msgs := p.msgs ++ [{ type := msgtype.MSGTYPE_ERROR, chan := "parser", er := 0,
                                pos := none, fmt := some fmt, args := [] }] }

/-- Modelled from the spec: `parse_warnx` of parser.c records a warning. -/
def parse_warnx (p : parse) (fmt : String) : parse :=
  { p with msgs := p.msgs ++ [{ type := msgtype.MSGTYPE_WARN, chan := "parser", er := 0,
                                pos := none, fmt := some fmt, args := [] }] }

/-- Modelled from the spec: `parse_err` of parser.c records a fatal error with
`errno` and puts the parser into the error state. -/
def parse_err (er : Nat) (p : parse) : parse :=
  { p with lasttype := tok.TOK_ERR
           msgs := p.msgs ++ [{ type := msgtype.MSGTYPE_FATAL, chan := "parser", er := er,
                                pos := none, fmt := none, args := [] }] }

/-- Modelled from the spec: flag `FIELD_NOEXPORT` of ort.h. -/
def FIELD_NOEXPORT : Nat := 0x08
/-- Modelled from the spec: flag `FIELD_HASDEF` of ort.h. -/
def FIELD_HASDEF : Nat := 0x10

/-- The kinds of validation, `enum vtype`, in the order of the table
`vtypes`. -/
inductive vtype where
  | VALIDATE_GE
  | VALIDATE_LE
  | VALIDATE_GT
  | VALIDATE_LT
  | VALIDATE_EQ
  deriving DecidableEq, Repr

/-- The value of a validation or of a default, the unions `d.value` and
`def`. -/
inductive fvalue where
  | unset
  | integer (i : Int)
  | decimal (q : Rat)
  | len (n : Int)
  | string (s : String)
  deriving DecidableEq, Repr

/-- A validation, `struct fvalid`. -/
structure fvalid where
  type : vtype
  value : fvalue
  deriving DecidableEq, Repr

/-- The members of `struct field` that the front end fills while it reads a
field declaration; `ref` is the reference of the field, which holds names only
at this stage and of which the code only tests whether it is `NULL`. -/
structure pfield where
  type : ftype
  ref : Option String
  flags : Nat
  actup : upact
  actdel : upact
  fvq : List fvalid
  doc : Option String
  defv : fvalue
  deriving DecidableEq, Repr

/-- The members of `struct tm` that the code sets. -/
structure tm where
  tm_year : Int
  tm_mon : Int
  tm_mday : Int
  tm_isdst : Int
  deriving DecidableEq, Repr

/-- What `parse_config_field_info` calls and src/ does not define:
`parse_comment` of parser.c, which reads a comment into `fd->doc`, and the C
library's `calloc`, `strdup`, `mktime` and `errno`; whether an allocation
succeeds may depend on the state. -/
structure penv where
  parse_comment : parse → Option String → parse × Option String
  calloc : parse → Bool
  strdup : parse → String → Option String
  mktime : tm → Int
  errno : Nat

/-- What a call on field `fd` works on: the parser, the field, and the member
`rowid` of the parent struct, a pointer to one of its fields (the position of
the field). -/
structure fstate where
  p : parse
  fd : pfield
  rowid : Option Nat
  deriving DecidableEq, Repr

/-- The table `vtypes`, searched with `strcasecmp`. -/
def vtypes_find (s : String) : Option vtype :=
  if strcasecmp s "ge" = 0 then some vtype.VALIDATE_GE
  else if strcasecmp s "le" = 0 then some vtype.VALIDATE_LE
  else if strcasecmp s "gt" = 0 then some vtype.VALIDATE_GT
  else if strcasecmp s "lt" = 0 then some vtype.VALIDATE_LT
  else if strcasecmp s "eq" = 0 then some vtype.VALIDATE_EQ
  else none

/-- The scalar value of a limit statement (the `switch` of lines 120-156), for
the validation `vt` already appended to `fd->fvq`; `none` is `abort()`. -/
def parse_validate_value (st : fstate) (vt : vtype) : Option fstate :=
  let setv (p : parse) (v : fvalue) : fstate :=
    { st with p := p, fd := { st.fd with fvq := st.fd.fvq ++ [{ type := vt, value := v }] } }
  let p1 := parse_next st.p
  match st.fd.type with
  | ftype.FTYPE_BIT | ftype.FTYPE_BITFIELD | ftype.FTYPE_DATE | ftype.FTYPE_EPOCH
  | ftype.FTYPE_INT =>
    if p1.lasttype ≠ tok.TOK_INTEGER then some (setv (parse_errx p1 "expected integer") fvalue.unset)
    else some (setv p1 (fvalue.integer p1.last.integer))
  | ftype.FTYPE_REAL =>
    if p1.lasttype ≠ tok.TOK_DECIMAL ∧ p1.lasttype ≠ tok.TOK_INTEGER then
      some (setv (parse_errx p1 "expected decimal") fvalue.unset)
    else
      some (setv p1 (fvalue.decimal
        (if p1.lasttype = tok.TOK_DECIMAL then p1.last.decimal else p1.last.integer)))
  | ftype.FTYPE_BLOB | ftype.FTYPE_EMAIL | ftype.FTYPE_TEXT | ftype.FTYPE_PASSWORD =>
    if p1.lasttype ≠ tok.TOK_INTEGER then some (setv (parse_errx p1 "expected length") fvalue.unset)
    else if p1.last.integer < 0 ∨ 2 ^ 64 - 1 < p1.last.integer then
      some (setv (parse_errx p1 "length out of range") fvalue.unset)
    else some (setv p1 (fvalue.len p1.last.integer))
  | ftype.FTYPE_STRUCT | ftype.FTYPE_ENUM => none

/-- Parse a limit statement. -/
def parse_validate (E : penv) (st : fstate) : Option fstate :=
  if st.fd.type = ftype.FTYPE_STRUCT then
    some { st with p := parse_errx st.p "no validation on structs" }
  else if st.fd.type = ftype.FTYPE_ENUM then
    some { st with p := parse_errx st.p "no validation on enums" }
  else
    let p1 := parse_next st.p
    if p1.lasttype ≠ tok.TOK_IDENT then
      some { st with p := parse_errx p1 "expected constraint type" }
    else
      match vtypes_find p1.last.string with
      | none => some { st with p := parse_errx p1 "unknown constraint type" }
      | some vt =>
        if E.calloc p1 = false then some { st with p := parse_err E.errno p1 }
        else parse_validate_value { st with p := p1 } vt

/-- Parse the action taken on a foreign key's delete or update: the parser and
the action. -/
def parse_action (p : parse) : parse × upact :=
  let p1 := parse_next p
  if p1.lasttype ≠ tok.TOK_IDENT then (parse_errx p1 "expected action", upact.UPACT_NONE)
  else if strcasecmp p1.last.string "none" = 0 then (p1, upact.UPACT_NONE)
  else if strcasecmp p1.last.string "restrict" = 0 then (p1, upact.UPACT_RESTRICT)
  else if strcasecmp p1.last.string "nullify" = 0 then (p1, upact.UPACT_NULLIFY)
  else if strcasecmp p1.last.string "cascade" = 0 then (p1, upact.UPACT_CASCADE)
  else if strcasecmp p1.last.string "default" = 0 then (p1, upact.UPACT_DEFAULT)
  else (parse_errx p1 "unknown action", upact.UPACT_NONE)

/-- The option `default` for a date (lines 296-323): a year and the negative
numbers that the tokenizer reads for `-month` and `-day`. -/
def parse_config_field_info_date (E : penv) (st : fstate) : fstate :=
  let p1 := parse_next st.p
  if p1.lasttype ≠ tok.TOK_INTEGER then { st with p := parse_errx p1 "expected year (integer)" }
  else
    let p2 := parse_next p1
    if p2.lasttype ≠ tok.TOK_INTEGER then
      { st with p := parse_errx p2 "expected month (integer)" }
    else if p2.last.integer ≥ 0 then { st with p := parse_errx p2 "invalid month" }
    else
      let p3 := parse_next p2
      if p3.lasttype ≠ tok.TOK_INTEGER then
        { st with p := parse_errx p3 "expected day (integer)" }
      else if p3.last.integer ≥ 0 then { st with p := parse_errx p3 "invalid day" }
      else
        { st with
          p := p3
          fd := { st.fd with
            flags := st.fd.flags ||| FIELD_HASDEF
            defv := fvalue.integer (E.mktime
              { tm_year := p1.last.integer - 1900, tm_mon := -p2.last.integer - 1,
                tm_mday := -p3.last.integer, tm_isdst := -1 }) } }

/-- The option `default` (the `switch` of lines 295-362).  The boolean is
false when the function returns (`parse_err(p); return;`). -/
def parse_config_field_info_default (E : penv) (st : fstate) : fstate × Bool :=
  match st.fd.type with
  | ftype.FTYPE_DATE => (parse_config_field_info_date E st, true)
  | ftype.FTYPE_BIT | ftype.FTYPE_BITFIELD | ftype.FTYPE_EPOCH | ftype.FTYPE_INT =>
    let p1 := parse_next st.p
    if p1.lasttype ≠ tok.TOK_INTEGER then ({ st with p := parse_errx p1 "expected integer" }, true)
    else
      ({ st with
         p := p1
         fd := { st.fd with flags := st.fd.flags ||| FIELD_HASDEF
                            defv := fvalue.integer p1.last.integer } }, true)
  | ftype.FTYPE_REAL =>
    let p1 := parse_next st.p
    if p1.lasttype ≠ tok.TOK_DECIMAL ∧ p1.lasttype ≠ tok.TOK_INTEGER then
      ({ st with p := parse_errx p1 "expected real or integer" }, true)
    else
      ({ st with
         p := p1
         fd := { st.fd with
           flags := st.fd.flags ||| FIELD_HASDEF
           defv := fvalue.decimal
             (if p1.lasttype = tok.TOK_DECIMAL then p1.last.decimal else p1.last.integer) } },
       true)
  | ftype.FTYPE_EMAIL | ftype.FTYPE_TEXT =>
    let p1 := parse_next st.p
    if p1.lasttype ≠ tok.TOK_LITERAL then ({ st with p := parse_errx p1 "expected literal" }, true)
    else
      match E.strdup p1 p1.last.string with
      | none =>
        ({ st with p := parse_err E.errno p1
                   fd := { st.fd with flags := st.fd.flags ||| FIELD_HASDEF
                                      defv := fvalue.unset } }, false)
      | some s =>
        ({ st with
           p := p1
           fd := { st.fd with flags := st.fd.flags ||| FIELD_HASDEF
                              defv := fvalue.string s } }, true)
  | _ => ({ st with p := parse_errx st.p "defaults not available for type" }, true)

/-- The option `rowid` (lines 212-241).  The boolean is false when the loop is
left with `break`. -/
def parse_config_field_info_rowid (self : Nat) (st : fstate) : fstate × Bool :=
  if st.fd.type ≠ ftype.FTYPE_INT then
    ({ st with p := parse_errx st.p "rowid for non-int type" }, false)
  else if st.fd.ref ≠ none then ({ st with p := parse_errx st.p "rowid on reference" }, false)
  else if st.rowid ≠ none then
    ({ st with p := parse_errx st.p "struct already has rowid" }, false)
  else if st.fd.flags &&& FIELD_NULL ≠ 0 then
    ({ st with p := parse_errx st.p "rowid can't be null" }, false)
  else
    let st1 : fstate :=
      if st.fd.flags &&& FIELD_UNIQUE ≠ 0 then
        { st with p := parse_warnx st.p "unique is redundant"
                  fd := { st.fd with flags := st.fd.flags &&& (0xFFFFFFFF ^^^ FIELD_UNIQUE) } }
      else st
    ({ st1 with fd := { st1.fd with flags := st1.fd.flags ||| FIELD_ROWID }
                rowid := some self }, true)

/-- One option of the field information, the identifier `p->last.string`
(lines 212-364), for the field at position `self` of its parent.  The boolean
is false when the loop is left; `none` is `abort()`. -/
def parse_config_field_info_option (E : penv) (self : Nat) (st : fstate) :
    Option (fstate × Bool) :=
  let s := st.p.last.string
  if strcasecmp s "rowid" = 0 then some (parse_config_field_info_rowid self st)
  else if strcasecmp s "noexport" = 0 then
    let p1 := if st.fd.type = ftype.FTYPE_PASSWORD then parse_warnx st.p "noexport is redundant"
      else st.p
    some ({ st with p := p1, fd := { st.fd with flags := st.fd.flags ||| FIELD_NOEXPORT } }, true)
  else if strcasecmp s "limit" = 0 then (parse_validate E st).map (fun r => (r, true))
  else if strcasecmp s "unique" = 0 then
    if st.fd.type = ftype.FTYPE_STRUCT then
      some ({ st with p := parse_errx st.p "unique on struct" }, false)
    else if st.fd.flags &&& FIELD_ROWID ≠ 0 then
      some ({ st with p := parse_warnx st.p "unique is redunant" }, true)
    else some ({ st with fd := { st.fd with flags := st.fd.flags ||| FIELD_UNIQUE } }, true)
  else if strcasecmp s "null" = 0 then
    if st.fd.flags &&& FIELD_ROWID ≠ 0 then
      some ({ st with p := parse_errx st.p "rowid can't be null" }, false)
    else if st.fd.type = ftype.FTYPE_STRUCT then
      some ({ st with p := parse_errx st.p "struct types can't be null" }, false)
    else some ({ st with fd := { st.fd with flags := st.fd.flags ||| FIELD_NULL } }, true)
  else if strcasecmp s "comment" = 0 then
    let r := E.parse_comment st.p st.fd.doc
    some ({ st with p := r.1, fd := { st.fd with doc := r.2 } }, true)
  else if strcasecmp s "actup" = 0 then
    if st.fd.ref = none ∨ st.fd.type = ftype.FTYPE_STRUCT then
      some ({ st with p := parse_errx st.p "action on non-reference" }, false)
    else
      let r := parse_action st.p
      some ({ st with p := r.1, fd := { st.fd with actup := r.2 } }, true)
  else if strcasecmp s "actdel" = 0 then
    if st.fd.ref = none ∨ st.fd.type = ftype.FTYPE_STRUCT then
      some ({ st with p := parse_errx st.p "action on non-reference" }, false)
    else
      let r := parse_action st.p
      some ({ st with p := r.1, fd := { st.fd with actdel := r.2 } }, true)
  else if strcasecmp s "default" = 0 then some (parse_config_field_info_default E st)
  else some ({ st with p := parse_errx st.p "unknown field info token" }, true)

/-- Read auxiliary information for a field, `[options]* ";"`, until the
semicolon is reached; `fuel` bounds the number of iterations of the loop. -/
def parse_config_field_info (E : penv) (self : Nat) : Nat → fstate → Option fstate
  | 0, _ => none
  | fuel + 1, st =>
    if PARSE_STOP st.p then some st
    else
      let p1 := parse_next st.p
      if p1.lasttype = tok.TOK_SEMICOLON then some { st with p := p1 }
      else if p1.lasttype ≠ tok.TOK_IDENT then
        some { st with p := parse_errx p1 "unknown field info token" }
      else
        match parse_config_field_info_option E self { st with p := p1 } with
        | none => none
        | some (st2, true) => parse_config_field_info E self fuel st2
        | some (st2, false) => some st2

/-- A field with the flag `FIELD_ROWID` has neither `FIELD_NULL` nor
`FIELD_UNIQUE`. -/
def rowid_exclusive (fl : Nat) : Prop :=
  fl &&& FIELD_ROWID ≠ 0 → fl &&& FIELD_NULL = 0 ∧ fl &&& FIELD_UNIQUE = 0

instance rowid_exclusive_decidable (fl : Nat) : Decidable (rowid_exclusive fl) := by
  unfold rowid_exclusive
  infer_instance

/-- The state of a field is consistent: its flags are `rowid_exclusive`, and
if it has the flag `FIELD_ROWID` it is the `rowid` of its parent. -/
def rowid_consistent (self : Nat) (st : fstate) : Prop :=
  rowid_exclusive st.fd.flags ∧ (st.fd.flags &&& FIELD_ROWID ≠ 0 → st.rowid = some self)

/-- The condition under which the option `rowid` is rejected. -/
def rowid_rejected (st : fstate) : Prop :=
  st.fd.type ≠ ftype.FTYPE_INT ∨ st.fd.ref ≠ none ∨ st.rowid ≠ none ∨
    st.fd.flags &&& FIELD_NULL ≠ 0

instance rowid_rejected_decidable (st : fstate) : Decidable (rowid_rejected st) := by
  unfold rowid_rejected
  infer_instance

/-- Collaborators for which every allocation succeeds and comments are not
read. -/
def penv_id : penv :=
  { parse_comment := fun p d => (p, d)
    calloc := fun _ => true
    strdup := fun _ s => some s
    mktime := fun _ => 0
    errno := 0 }

/-- An identifier token. -/
def ident (s : String) : lexeme :=
  { type := tok.TOK_IDENT, string := s, integer := 0, decimal := 0 }

/-- The semicolon token. -/
def semicolon : lexeme :=
  { type := tok.TOK_SEMICOLON, string := ";", integer := 0, decimal := 0 }

/-- The state at the start of the field information of a fresh integer field
without reference, in a struct whose `rowid` is `rowid`, for the input
`toks`. -/
def fresh_int (toks : List lexeme) (rowid : Option Nat) : fstate :=
  { p := { toks := toks, lasttype := tok.TOK_IDENT, last := ident "int", msgs := [] }
    fd := { type := ftype.FTYPE_INT, ref := none, flags := 0, actup := upact.UPACT_NONE,
            actdel := upact.UPACT_NONE, fvq := [], doc := none, defv := fvalue.unset }
    rowid := rowid }

/-- The flags `new` agree with `old` on `FIELD_ROWID` and, when `FIELD_ROWID`
is set, on `FIELD_UNIQUE` and `FIELD_NULL`. -/
def flags_kept (old new : Nat) : Prop :=
  new.testBit 0 = old.testBit 0 ∧
    (old.testBit 0 = true → new.testBit 1 = old.testBit 1 ∧ new.testBit 2 = old.testBit 2)

/-- A step that set no flag among `FIELD_ROWID`, `FIELD_UNIQUE` and
`FIELD_NULL` of a field that is the `rowid`, and did not touch the `rowid` of
the parent. -/
def rowid_kept (st st2 : fstate) : Prop :=
  flags_kept st.fd.flags st2.fd.flags ∧ st2.rowid = st.rowid

/-! ## The reference resolver (its source is not under src/) -/

/-- The position of the first element of the list that satisfies `p`. -/
def find_index {α : Type} (p : α → Bool) : List α → Option Nat
  | [] => none
  | x :: xs => if p x then some 0 else (find_index p xs).map (fun i => i + 1)

/-- Modelled from the spec: the target of a foreign key (section 4.1 of the
spec; the resolver is not under src/): the target struct is looked up by
case-insensitive name among all structs, then the target field by name within
that struct, and the target must be a rowid or unique field.  Yields the
target or the text of the error. -/
def resolve_target (heap : List strct) (sr : symref) : Except String fieldp :=
  match find_index (fun s => decide (strcasecmp s.name sr.tstrct = 0)) heap with
  | none => Except.error "unknown reference target struct"
  | some t =>
    match heap[t]? with
    | none => Except.error "unknown reference target struct"
    | some ts =>
      match find_index (fun f => decide (f.name = sr.tfield)) ts.fq with
      | none => Except.error "unknown reference target field"
      | some j =>
        match ts.fq[j]? with
        | none => Except.error "unknown reference target field"
        | some tf =>
          if tf.flags &&& FIELD_ROWID = 0 ∧ tf.flags &&& FIELD_UNIQUE = 0 then
            Except.error "reference target is neither rowid nor unique"
          else Except.ok ⟨t, j⟩

/-- Modelled from the spec: the resolution of the reference of the field `f`
at position `i` of the struct `s` at address `p` (section 4.1 of the spec).  A
foreign key is its own source and resolves its target; an embedded-struct
field resolves the source field it is paired with, which must carry a
foreign-key reference, and takes the target of that reference.  A field
without reference is left as it is. -/
def resolve_field (heap : List strct) (p : strctp) (s : strct) (i : Nat) (f : field) :
    Except String (Option ref) :=
  match f.sym with
  | none => Except.ok f.ref
  | some sr =>
    if f.type = ftype.FTYPE_STRUCT then
      match find_index (fun g => decide (g.name = sr.sfield)) s.fq with
      | none => Except.error "unknown source field"
      | some k =>
        match s.fq[k]? with
        | none => Except.error "unknown source field"
        | some src =>
          match src.sym with
          | none => Except.error "source field is not a foreign key"
          | some ssr =>
            if src.type = ftype.FTYPE_STRUCT then
              Except.error "source field is not a foreign key"
            else
              match resolve_target heap ssr with
              | Except.error e => Except.error e
              | Except.ok t => Except.ok (some { target := t, source := ⟨p, k⟩ })
    else
      match resolve_target heap sr with
      | Except.error e => Except.error e
      | Except.ok t => Except.ok (some { target := t, source := ⟨p, i⟩ })

/-- Modelled from the spec: the fields of the struct `s` at address `p` after
resolution, each with the error recorded for it, if any: one diagnostic per
broken symbol, and the walk continues after an error. -/
def resolve_fq (heap : List strct) (p : strctp) (s : strct) : List (field × Option msg) :=
  s.fq.enum.map (fun x =>
    match resolve_field heap p s x.1 x.2 with
    | Except.ok r => ({ x.2 with ref := r }, none)
    | Except.error e =>
      (x.2, some { type := msgtype.MSGTYPE_ERROR, chan := channel, er := 0,
                   pos := some x.2.pos, fmt := some e, args := [] }))

/-- Modelled from the spec: the reference resolver `linker_resolve`, which is
not under src/ (section 4.1 of the spec): every reference of every struct is
resolved against the full namespace, the errors are recorded in the sink, and
the pass succeeds when there is none. -/
def linker_resolve (cfg : config) : config × Bool :=
  let res := cfg.heap.enum.map (fun x => (x.2, resolve_fq cfg.heap x.1 x.2))
  let errs := res.flatMap (fun x => x.2.filterMap Prod.snd)
  ({ cfg with heap := res.map (fun x => { x.1 with fq := x.2.map Prod.fst })
              msgs := cfg.msgs ++ errs }, decide (errs = []))

/-- Every reference of the store is resolved: a field that was declared with
a reference has a target and a source, and both are fields of structs of the
store. -/
def refs_resolved (heap : List strct) : Prop :=
  ∀ (p : strctp) (s : strct), heap[p]? = some s → ∀ f ∈ s.fq, f.sym ≠ none →
    ∃ r, f.ref = some r ∧ (deref_field heap r.target).isSome = true ∧
      (deref_field heap r.source).isSome = true

/-- The struct `User {id: int rowid; email: text unique}` as the front end
leaves it. -/
def user_unlinked : strct :=
  { name := "User"
    fq := [{ type := ftype.FTYPE_INT, ref := none, flags := FIELD_ROWID,
             pos := ⟨"db.ort", 1, 1⟩, name := "id" },
           { type := ftype.FTYPE_TEXT, ref := none, flags := FIELD_UNIQUE,
             pos := ⟨"db.ort", 2, 1⟩, name := "email" }]
    sq := [], uq := [], dq := [], ins := none, nq := [], rq := []
    flags := 0, height := 0, colour := 0 }

/-- The struct `Post {id: int rowid; authorid:user.id int null; author struct
authorid}` as the front end leaves it: the references hold names only. -/
def post_unlinked : strct :=
  { name := "Post"
    fq := [{ type := ftype.FTYPE_INT, ref := none, flags := FIELD_ROWID,
             pos := ⟨"db.ort", 11, 1⟩, name := "id" },
           { type := ftype.FTYPE_INT, ref := none, flags := FIELD_NULL,
             pos := ⟨"db.ort", 12, 1⟩, name := "authorid"
             sym := some { sfield := "authorid", tstrct := "user", tfield := "id" } },
           { type := ftype.FTYPE_STRUCT, ref := none, flags := 0,
             pos := ⟨"db.ort", 13, 1⟩, name := "author"
             sym := some { sfield := "authorid", tstrct := "", tfield := "" } }]
    sq := [], uq := [], dq := [], ins := none, nq := [], rq := []
    flags := 0, height := 0, colour := 0 }

/-- The unlinked configuration that declares `User`, then `Post`. -/
def unlinked_cfg : config :=
  mk_config [user_unlinked, post_unlinked]

/-- The collaborators of `env_id` with the resolver `linker_resolve`. -/
def env_resolve : env :=
  { env_id with linker_resolve := linker_resolve }

/-! ## A chain of structs declared innermost-first -/

/-- The struct at address `i` of a chain: struct 0 has only a row identifier,
and every later struct embeds the struct declared just before it. -/
def chain_strct (i : Nat) : strct :=
  mk_strct i ("s" ++ toString i) (if i = 0 then [] else [i - 1])

/-- The resolved configuration that declares a chain of `n` structs, the
innermost one first. -/
def chain_cfg (n : Nat) : config :=
  mk_config ((List.range n).map chain_strct)

/-- The sum `0 + 1 + ... + m`. -/
def tri (m : Nat) : Nat :=
  m * (m + 1) / 2

/-- The struct at address `j` of the chain once the height pass has run the
generations of the first `k` structs: each struct below `k` carries the
colour of the last generation and the sum of the depths at which the
generations reached it. -/
def chain_heights (k j : Nat) : strct :=
  if j < k then
    { chain_strct j with colour := if k = 1 then 0 else k, height := tri (k - 1 - j) }
  else chain_strct j

/-- The struct list of a configuration is sorted by reverse height: a struct
is at least as high as every struct after it. -/
def sorted_by_reverse_height (c : config) : Prop :=
  c.sq.Pairwise (fun p q => height_of c.heap q ≤ height_of c.heap p)

/-! # Theorems -/

/-! ## Frame: the checks only add messages -/

theorem msgs_only_refl (c : config) : msgs_only c c := ⟨rfl, rfl, rfl, rfl⟩

theorem msgs_only_trans {a b c : config} (h1 : msgs_only a b) (h2 : msgs_only b c) :
    msgs_only a c :=
  ⟨h2.1.trans h1.1, h2.2.1.trans h1.2.1, h2.2.2.1.trans h1.2.2.1, h2.2.2.2.trans h1.2.2.2⟩

theorem msgs_only_ort_msg (c : config) (t : msgtype) (ch : String) (er : Nat)
    (p : Option pos) (f : Option String) (a : List msgarg) :
    msgs_only c (ort_msg c t ch er p f a) := ⟨rfl, rfl, rfl, rfl⟩

theorem msgs_only_gen_errx (c : config) (p : Option pos) (f : Option String) (a : List msgarg) :
    msgs_only c (gen_errx c p f a) := ⟨rfl, rfl, rfl, rfl⟩

theorem msgs_only_gen_warnx (c : config) (p : Option pos) (f : Option String) (a : List msgarg) :
    msgs_only c (gen_warnx c p f a) := ⟨rfl, rfl, rfl, rfl⟩

theorem and_then_eq_some_true {x : Option (config × Bool)} {k : config → Option (config × Bool)}
    {c2 : config} (h : and_then x k = some (c2, true)) :
    ∃ c, x = some (c, true) ∧ k c = some (c2, true) := by
  unfold and_then at h
  split at h
  · cases h
  · cases h
  · exact ⟨_, rfl, h⟩

theorem check_unique_unique_uu_frame (iu : Nat) (u : unique) (l : List (Nat × unique)) :
    ∀ (cfg : config) (errs : Nat),
      msgs_only cfg (check_unique_unique_uu iu u cfg errs l).1 ∧
      errs ≤ (check_unique_unique_uu iu u cfg errs l).2 := by
  induction l with
  | nil => intro cfg errs; exact ⟨msgs_only_refl _, le_refl _⟩
  | cons a l ih =>
    intro cfg errs
    obtain ⟨iuu, uu⟩ := a
    simp only [check_unique_unique_uu]
    split
    · exact ih cfg errs
    · split
      · exact ih cfg errs
      · split
        · exact ⟨msgs_only_refl _, le_refl _⟩
        · have := ih (gen_errx cfg (some u.pos) (some "duplicate unique statements: %s:%zu:%zu")
            [msgarg.str uu.pos.fname, msgarg.num uu.pos.line, msgarg.num uu.pos.column]) (errs + 1)
          exact ⟨msgs_only_trans (msgs_only_gen_errx _ _ _ _) this.1, by omega⟩

theorem check_unique_unique_u_frame (all l : List (Nat × unique)) :
    ∀ (cfg : config) (errs : Nat),
      msgs_only cfg (check_unique_unique_u all cfg errs l).1 ∧
      errs ≤ (check_unique_unique_u all cfg errs l).2 := by
  induction l with
  | nil => intro cfg errs; exact ⟨msgs_only_refl _, le_refl _⟩
  | cons a l ih =>
    intro cfg errs
    obtain ⟨iu, u⟩ := a
    simp only [check_unique_unique_u]
    have h1 := check_unique_unique_uu_frame iu u all cfg errs
    have h2 := ih (check_unique_unique_uu iu u cfg errs all).1 (check_unique_unique_uu iu u cfg errs all).2
    exact ⟨msgs_only_trans h1.1 h2.1, le_trans h1.2 h2.2⟩

theorem check_unique_unique_frame (cfg : config) (s : strct) :
    msgs_only cfg (check_unique_unique cfg s).1 :=
  (check_unique_unique_u_frame _ _ cfg 0).1

theorem ort_parse_close_unique_frame (l : List strctp) :
    ∀ (cfg : config) (i : Nat) (c2 : config) (i2 : Nat),
      ort_parse_close_unique cfg i l = some (c2, i2) → msgs_only cfg c2 ∧ i ≤ i2 := by
  induction l with
  | nil =>
    intro cfg i c2 i2 h
    simp only [ort_parse_close_unique, Option.some.injEq, Prod.mk.injEq] at h
    obtain ⟨rfl, rfl⟩ := h
    exact ⟨msgs_only_refl _, le_refl _⟩
  | cons p ps ih =>
    intro cfg i c2 i2 h
    simp only [ort_parse_close_unique] at h
    split at h
    · cases h
    · rename_i s hs
      have h1 := check_unique_unique_frame cfg s
      have h2 := ih _ _ _ _ h
      exact ⟨msgs_only_trans h1 h2.1, by omega⟩

theorem check_unique_roles_rrs_spec (irs : Nat) (rs : rref) (l : List (Nat × rref)) :
    ∀ (cfg : config) (errs : Nat) (c2 : config) (e2 : Nat),
      check_unique_roles_rrs irs rs cfg errs l = some (c2, e2) →
      msgs_only cfg c2 ∧ errs ≤ e2 ∧
        (e2 = errs → ∀ x ∈ l, ¬ (irs ≠ x.1 ∧ rs.role = x.2.role)) := by
  induction l with
  | nil =>
    intro cfg errs c2 e2 h
    simp only [check_unique_roles_rrs, Option.some.injEq, Prod.mk.injEq] at h
    obtain ⟨rfl, rfl⟩ := h
    exact ⟨msgs_only_refl _, le_refl _, fun _ x hx => by cases hx⟩
  | cons a l ih =>
    intro cfg errs c2 e2 h
    obtain ⟨irrs, rrs⟩ := a
    simp only [check_unique_roles_rrs] at h
    split at h
    · split at h
      · cases h
      · have := ih _ _ _ _ h
        exact ⟨msgs_only_trans (msgs_only_gen_errx _ _ _ _) this.1, by omega,
          fun he => by omega⟩
    · rename_i hc
      have := ih _ _ _ _ h
      refine ⟨this.1, this.2.1, fun he x hx => ?_⟩
      rcases List.mem_cons.1 hx with rfl | hx
      · exact hc
      · exact this.2.2 he x hx

theorem check_unique_roles_rs_spec (all l : List (Nat × rref)) :
    ∀ (cfg : config) (errs : Nat) (c2 : config) (e2 : Nat),
      check_unique_roles_rs all cfg errs l = some (c2, e2) →
      msgs_only cfg c2 ∧ errs ≤ e2 ∧
        (e2 = errs → ∀ y ∈ l, ∀ x ∈ all, ¬ (y.1 ≠ x.1 ∧ y.2.role = x.2.role)) := by
  induction l with
  | nil =>
    intro cfg errs c2 e2 h
    simp only [check_unique_roles_rs, Option.some.injEq, Prod.mk.injEq] at h
    obtain ⟨rfl, rfl⟩ := h
    exact ⟨msgs_only_refl _, le_refl _, fun _ x hx => by cases hx⟩
  | cons a l ih =>
    intro cfg errs c2 e2 h
    obtain ⟨irs, rs⟩ := a
    simp only [check_unique_roles_rs] at h
    split at h
    · cases h
    · rename_i c1 e1 h1
      have s1 := check_unique_roles_rrs_spec irs rs all _ _ _ _ h1
      have s2 := ih _ _ _ _ h
      refine ⟨msgs_only_trans s1.1 s2.1, by omega, fun he y hy => ?_⟩
      rcases List.mem_cons.1 hy with rfl | hy
      · exact s1.2.2 (by omega)
      · exact s2.2.2 (by omega) y hy

theorem check_unique_roles_frame {cfg : config} {rm : rolemap} {c2 : config} {ok : Bool}
    (h : check_unique_roles cfg rm = some (c2, ok)) : msgs_only cfg c2 := by
  unfold check_unique_roles at h
  split at h
  · cases h
  · rename_i c1 e1 h1
    simp only [Option.some.injEq, Prod.mk.injEq] at h
    obtain ⟨rfl, -⟩ := h
    exact (check_unique_roles_rs_spec _ _ _ _ _ _ h1).1

theorem check_unique_roles_sound {cfg : config} {rm : rolemap} {c2 : config}
    (h : check_unique_roles cfg rm = some (c2, true)) :
    ∀ (i j : Nat) (r1 r2 : rref), i ≠ j → rm.rq[i]? = some r1 → rm.rq[j]? = some r2 →
      r1.role ≠ r2.role := by
  unfold check_unique_roles at h
  split at h
  · cases h
  · rename_i c1 e1 h1
    simp only [Option.some.injEq, Prod.mk.injEq, decide_eq_true_eq] at h
    obtain ⟨-, he⟩ := h
    have s := (check_unique_roles_rs_spec _ _ _ _ _ _ h1).2.2 he
    intro i j r1 r2 hij h1 h2 heq
    exact s (i, r1) (List.mk_mem_enum_iff_getElem?.2 h1) (j, r2)
      (List.mk_mem_enum_iff_getElem?.2 h2) ⟨hij, heq⟩

theorem check_unique_roles_tree_rrs_spec (fuel irs : Nat) (rs : rref) (l : List (Nat × rref)) :
    ∀ (cfg : config) (i : Nat) (c2 : config) (i2 : Nat),
      check_unique_roles_tree_rrs fuel irs rs cfg i l = some (c2, i2) →
      msgs_only cfg c2 ∧ i ≤ i2 ∧
        (i2 = i → ∀ x ∈ l, x.1 ≠ irs → ∀ b, x.2.role = some b →
          role_walk cfg.roles rs.role fuel (some b) = some none) := by
  induction l with
  | nil =>
    intro cfg i c2 i2 h
    simp only [check_unique_roles_tree_rrs, Option.some.injEq, Prod.mk.injEq] at h
    obtain ⟨rfl, rfl⟩ := h
    exact ⟨msgs_only_refl _, le_refl _, fun _ x hx => by cases hx⟩
  | cons a l ih =>
    intro cfg i c2 i2 h
    obtain ⟨irrs, rrs⟩ := a
    simp only [check_unique_roles_tree_rrs] at h
    split at h
    · rename_i hi
      have := ih _ _ _ _ h
      refine ⟨this.1, this.2.1, fun he x hx hne => ?_⟩
      rcases List.mem_cons.1 hx with rfl | hx
      · exact absurd hi hne
      · exact this.2.2 he x hx hne
    · split at h
      · rename_i hr
        have := ih _ _ _ _ h
        refine ⟨this.1, this.2.1, fun he x hx hne b hb => ?_⟩
        rcases List.mem_cons.1 hx with rfl | hx
        · simp only [hr] at hb; cases hb
        · exact this.2.2 he x hx hne b hb
      · rename_i rp0 hr
        split at h
        · cases h
        · split at h
          · cases h
          · rename_i hw
            have := ih _ _ _ _ h
            refine ⟨this.1, this.2.1, fun he x hx hne b hb => ?_⟩
            rcases List.mem_cons.1 hx with rfl | hx
            · simp only [hr, Option.some.injEq] at hb
              subst hb
              exact hw
            · exact this.2.2 he x hx hne b hb
          · split at h
            · have := ih _ _ _ _ h
              exact ⟨msgs_only_trans (msgs_only_gen_errx _ _ _ _) this.1, by omega,
                fun he => by omega⟩
            · cases h

theorem check_unique_roles_tree_rs_spec (fuel : Nat) (all l : List (Nat × rref)) :
    ∀ (cfg : config) (i : Nat) (c2 : config) (i2 : Nat),
      check_unique_roles_tree_rs fuel all cfg i l = some (c2, i2) →
      msgs_only cfg c2 ∧ i ≤ i2 ∧
        (i2 = i → ∀ y ∈ l, ∀ x ∈ all, x.1 ≠ y.1 → ∀ b, x.2.role = some b →
          role_walk cfg.roles y.2.role fuel (some b) = some none) := by
  induction l with
  | nil =>
    intro cfg i c2 i2 h
    simp only [check_unique_roles_tree_rs, Option.some.injEq, Prod.mk.injEq] at h
    obtain ⟨rfl, rfl⟩ := h
    exact ⟨msgs_only_refl _, le_refl _, fun _ x hx => by cases hx⟩
  | cons a l ih =>
    intro cfg i c2 i2 h
    obtain ⟨irs, rs⟩ := a
    simp only [check_unique_roles_tree_rs] at h
    split at h
    · cases h
    · rename_i c1 i1 h1
      have s1 := check_unique_roles_tree_rrs_spec fuel irs rs all _ _ _ _ h1
      have s2 := ih _ _ _ _ h
      refine ⟨msgs_only_trans s1.1 s2.1, by omega, fun he y hy => ?_⟩
      rcases List.mem_cons.1 hy with rfl | hy
      · exact s1.2.2 (by omega)
      · have := s2.2.2 (by omega) y hy
        rw [s1.1.2.2.1] at this
        exact this

theorem check_unique_roles_tree_frame {fuel : Nat} {cfg : config} {rm : rolemap} {c2 : config}
    {ok : Bool} (h : check_unique_roles_tree fuel cfg rm = some (c2, ok)) : msgs_only cfg c2 := by
  unfold check_unique_roles_tree at h
  split at h
  · cases h
  · rename_i c1 e1 h1
    simp only [Option.some.injEq, Prod.mk.injEq] at h
    obtain ⟨rfl, -⟩ := h
    exact (check_unique_roles_tree_rs_spec _ _ _ _ _ _ _ h1).1

theorem check_unique_roles_tree_sound {fuel : Nat} {cfg : config} {rm : rolemap} {c2 : config}
    (h : check_unique_roles_tree fuel cfg rm = some (c2, true)) :
    ∀ (i j : Nat) (r1 r2 : rref), i ≠ j → rm.rq[i]? = some r1 → rm.rq[j]? = some r2 →
      ∀ b, r2.role = some b → role_walk cfg.roles r1.role fuel (some b) = some none := by
  unfold check_unique_roles_tree at h
  split at h
  · cases h
  · rename_i c1 e1 h1
    simp only [Option.some.injEq, Prod.mk.injEq, decide_eq_true_eq] at h
    obtain ⟨-, he⟩ := h
    have s := (check_unique_roles_tree_rs_spec _ _ _ _ _ _ _ h1).2.2 he
    intro i j r1 r2 hij h1 h2 b hb
    exact s (i, r1) (List.mk_mem_enum_iff_getElem?.2 h1) (j, r2)
      (List.mk_mem_enum_iff_getElem?.2 h2) (fun e => hij e.symm) b hb

theorem ort_parse_close_rq_spec (check : config → rolemap → Option (config × Bool))
    (hframe : ∀ cfg rm c2 ok, check cfg rm = some (c2, ok) → msgs_only cfg c2)
    (l : List rolemap) :
    ∀ (cfg : config) (i : Nat) (c2 : config) (i2 : Nat),
      ort_parse_close_rq check cfg i l = some (c2, i2) →
      msgs_only cfg c2 ∧ i ≤ i2 ∧
        (i2 = i → ∀ rm ∈ l, ∃ c c3, msgs_only cfg c ∧ check c rm = some (c3, true)) := by
  induction l with
  | nil =>
    intro cfg i c2 i2 h
    simp only [ort_parse_close_rq, Option.some.injEq, Prod.mk.injEq] at h
    obtain ⟨rfl, rfl⟩ := h
    exact ⟨msgs_only_refl _, le_refl _, fun _ x hx => by cases hx⟩
  | cons rm rms ih =>
    intro cfg i c2 i2 h
    simp only [ort_parse_close_rq] at h
    split at h
    · cases h
    · rename_i c1 ok h1
      have f1 := hframe _ _ _ _ h1
      have s2 := ih _ _ _ _ h
      refine ⟨msgs_only_trans f1 s2.1, ?_, fun he x hx => ?_⟩
      · have := s2.2.1; omega
      · have hle := s2.2.1
        cases ok with
        | false => simp at hle; omega
        | true =>
          rcases List.mem_cons.1 hx with rfl | hx
          · exact ⟨cfg, c1, msgs_only_refl _, h1⟩
          · obtain ⟨c, c3, hc, hck⟩ := s2.2.2 (by simpa using he) x hx
            exact ⟨c, c3, msgs_only_trans f1 hc, hck⟩

theorem ort_parse_close_roles_spec (check : config → rolemap → Option (config × Bool))
    (hframe : ∀ cfg rm c2 ok, check cfg rm = some (c2, ok) → msgs_only cfg c2)
    (l : List strctp) :
    ∀ (cfg : config) (i : Nat) (c2 : config) (i2 : Nat),
      ort_parse_close_roles check cfg i l = some (c2, i2) →
      msgs_only cfg c2 ∧ i ≤ i2 ∧
        (i2 = i → ∀ p ∈ l, ∀ s, cfg.heap[p]? = some s → ∀ rm ∈ s.rq,
          ∃ c c3, msgs_only cfg c ∧ check c rm = some (c3, true)) := by
  induction l with
  | nil =>
    intro cfg i c2 i2 h
    simp only [ort_parse_close_roles, Option.some.injEq, Prod.mk.injEq] at h
    obtain ⟨rfl, rfl⟩ := h
    exact ⟨msgs_only_refl _, le_refl _, fun _ x hx => by cases hx⟩
  | cons p ps ih =>
    intro cfg i c2 i2 h
    simp only [ort_parse_close_roles] at h
    split at h
    · cases h
    · rename_i s hs
      split at h
      · cases h
      · rename_i c1 i1 h1
        have s1 := ort_parse_close_rq_spec check hframe _ _ _ _ _ h1
        have s2 := ih _ _ _ _ h
        refine ⟨msgs_only_trans s1.1 s2.1, by omega, fun he x hx t ht rm hrm => ?_⟩
        rcases List.mem_cons.1 hx with rfl | hx
        · rw [hs] at ht
          cases ht
          exact s1.2.2 (by omega) rm hrm
        · rw [← s1.1.1] at ht
          obtain ⟨c, c3, hc, hck⟩ := s2.2.2 (by omega) x hx t ht rm hrm
          exact ⟨c, c3, msgs_only_trans s1.1 hc, hck⟩

theorem foldl_msgs_only {α : Type} (f : config → α → config)
    (hf : ∀ c x, msgs_only c (f c x)) (l : List α) :
    ∀ c : config, msgs_only c (l.foldl f c) := by
  induction l with
  | nil => intro c; exact msgs_only_refl _
  | cons a l ih => intro c; exact msgs_only_trans (hf c a) (ih _)

theorem ort_parse_close_reach_frame (cfg : config) (s : strct) :
    msgs_only cfg (ort_parse_close_reach cfg s) := by
  unfold ort_parse_close_reach
  have h1 : ∀ c, msgs_only c (s.sq.foldl (fun c srch =>
      if srch.rolemap ≠ none then c
      else gen_warnx c (some srch.pos) (some "no roles defined for query function") []) c) :=
    foldl_msgs_only _ (fun c x => by
      split
      · exact msgs_only_refl _
      · exact msgs_only_gen_warnx _ _ _ _) _
  have h2 : ∀ c, msgs_only c (s.dq.foldl (fun c u =>
      if u.rolemap ≠ none then c
      else gen_warnx c (some u.pos) (some "no roles defined for delete function") []) c) :=
    foldl_msgs_only _ (fun c x => by
      split
      · exact msgs_only_refl _
      · exact msgs_only_gen_warnx _ _ _ _) _
  have h3 : ∀ c, msgs_only c (s.uq.foldl (fun c u =>
      if u.rolemap ≠ none then c
      else gen_warnx c (some u.pos) (some "no roles defined for update function") []) c) :=
    foldl_msgs_only _ (fun c x => by
      split
      · exact msgs_only_refl _
      · exact msgs_only_gen_warnx _ _ _ _) _
  have h123 := msgs_only_trans (msgs_only_trans (h1 cfg) (h2 _)) (h3 _)
  dsimp only
  split
  · exact h123
  · split
    · exact msgs_only_trans h123 (msgs_only_gen_warnx _ _ _ _)
    · exact h123

theorem ort_parse_close_reachable_frame (l : List strctp) :
    ∀ (cfg c2 : config), ort_parse_close_reachable cfg l = some c2 → msgs_only cfg c2 := by
  induction l with
  | nil =>
    intro cfg c2 h
    simp only [ort_parse_close_reachable, Option.some.injEq] at h
    subst h
    exact msgs_only_refl _
  | cons p ps ih =>
    intro cfg c2 h
    simp only [ort_parse_close_reachable] at h
    split at h
    · cases h
    · exact msgs_only_trans (ort_parse_close_reach_frame _ _) (ih _ _ h)

theorem ort_parse_close_recursive_fq_spec (fuel : Nat) (p : strctp) (l : List field) :
    ∀ (cfg : config) (i : Nat) (c2 : config) (i2 : Nat),
      ort_parse_close_recursive_fq fuel p cfg i l = some (c2, i2) →
      msgs_only cfg c2 ∧ i ≤ i2 ∧
        (i2 = i → ∀ f ∈ l, f.type = ftype.FTYPE_STRUCT → ∀ r, f.ref = some r →
          check_recursive cfg.heap fuel r p = some true) := by
  induction l with
  | nil =>
    intro cfg i c2 i2 h
    simp only [ort_parse_close_recursive_fq, Option.some.injEq, Prod.mk.injEq] at h
    obtain ⟨rfl, rfl⟩ := h
    exact ⟨msgs_only_refl _, le_refl _, fun _ x hx => by cases hx⟩
  | cons f fs ih =>
    intro cfg i c2 i2 h
    simp only [ort_parse_close_recursive_fq] at h
    split at h
    · rename_i ht
      have := ih _ _ _ _ h
      refine ⟨this.1, this.2.1, fun he x hx hxt r hr => ?_⟩
      rcases List.mem_cons.1 hx with rfl | hx
      · exact absurd hxt ht
      · exact this.2.2 he x hx hxt r hr
    · split at h
      · cases h
      · rename_i r0 hr0
        split at h
        · cases h
        · rename_i hck
          have := ih _ _ _ _ h
          refine ⟨this.1, this.2.1, fun he x hx hxt r hr => ?_⟩
          rcases List.mem_cons.1 hx with rfl | hx
          · rw [hr0] at hr
            cases hr
            exact hck
          · exact this.2.2 he x hx hxt r hr
        · have := ih _ _ _ _ h
          exact ⟨msgs_only_trans (msgs_only_gen_errx _ _ _ _) this.1, by omega,
            fun he => by omega⟩

theorem ort_parse_close_recursive_spec (fuel : Nat) (l : List strctp) :
    ∀ (cfg : config) (i : Nat) (c2 : config) (i2 : Nat),
      ort_parse_close_recursive fuel cfg i l = some (c2, i2) →
      msgs_only cfg c2 ∧ i ≤ i2 ∧
        (i2 = i → ∀ p ∈ l, ∀ s, cfg.heap[p]? = some s → ∀ f ∈ s.fq,
          f.type = ftype.FTYPE_STRUCT → ∀ r, f.ref = some r →
          check_recursive cfg.heap fuel r p = some true) := by
  induction l with
  | nil =>
    intro cfg i c2 i2 h
    simp only [ort_parse_close_recursive, Option.some.injEq, Prod.mk.injEq] at h
    obtain ⟨rfl, rfl⟩ := h
    exact ⟨msgs_only_refl _, le_refl _, fun _ x hx => by cases hx⟩
  | cons p ps ih =>
    intro cfg i c2 i2 h
    simp only [ort_parse_close_recursive] at h
    split at h
    · cases h
    · rename_i s hs
      split at h
      · cases h
      · rename_i c1 i1 h1
        have s1 := ort_parse_close_recursive_fq_spec fuel p _ _ _ _ _ h1
        have s2 := ih _ _ _ _ h
        refine ⟨msgs_only_trans s1.1 s2.1, by omega, fun he x hx t ht f hf hft r hr => ?_⟩
        rcases List.mem_cons.1 hx with rfl | hx
        · rw [hs] at ht
          cases ht
          exact s1.2.2 (by omega) f hf hft r hr
        · rw [← s1.1.1] at ht
          have := s2.2.2 (by omega) x hx t ht f hf hft r hr
          rw [s1.1.1] at this
          exact this

/-! ## The traversal of annotate -/

theorem annotate_fq_inv (P : List strct → Prop) (self : List strct → ref → Option (List strct))
    (l : List field)
    (hself : ∀ f ∈ l, f.type = ftype.FTYPE_STRUCT → ∀ r, f.ref = some r →
      ∀ h h2, P h → self h r = some h2 → P h2) :
    ∀ h h2, P h → annotate_fq self h l = some h2 → P h2 := by
  induction l with
  | nil =>
    intro h h2 hP he
    simp only [annotate_fq, Option.some.injEq] at he
    subst he
    exact hP
  | cons f fs ih =>
    intro h h2 hP he
    have ih2 := ih (fun g hg => hself g (List.mem_cons_of_mem _ hg))
    simp only [annotate_fq] at he
    split at he
    · rename_i hft
      split at he
      · cases he
      · rename_i r hr
        split at he
        · cases he
        · rename_i h1 hs1
          exact ih2 _ _ (hself f (List.mem_cons_self _ _) hft r hr _ _ hP hs1) he
    · exact ih2 _ _ hP he

theorem annotate_inv (c : Nat) (P : List strct → Prop) (D : strctp → Nat → Prop)
    (hvisit : ∀ h p s d, P h → D p d → h[p]? = some s → s.colour ≠ c →
      P (h.set p { s with colour := c, height := s.height + d }) ∧
      ∀ f ∈ s.fq, f.type = ftype.FTYPE_STRUCT → ∀ r, f.ref = some r →
        D r.target.parent (d + 1)) :
    ∀ fuel h r d h2, P h → D r.target.parent d → annotate fuel h r d c = some h2 → P h2 := by
  intro fuel
  induction fuel with
  | zero =>
    intro h r d h2 _ _ he
    simp [annotate] at he
  | succ fuel ih =>
    intro h r d h2 hP hD he
    simp only [annotate] at he
    split at he
    · cases he
    · rename_i s hs
      split at he
      · simp only [Option.some.injEq] at he
        subst he
        exact hP
      · rename_i hc
        obtain ⟨hP1, hD1⟩ := hvisit h _ s d hP hD hs hc
        exact annotate_fq_inv P _ s.fq
          (fun f hf hft r2 hr2 g g2 hg hg2 => ih g r2 (d + 1) g2 hg (hD1 f hf hft r2 hr2) hg2)
          _ _ hP1 he

theorem ort_parse_close_generation_inv (c : Nat) (P0 P : List strct → Prop)
    (D : strctp → Nat → Prop)
    (hvisit : ∀ h p s d, P h → D p d → h[p]? = some s → s.colour ≠ c →
      P (h.set p { s with colour := c, height := s.height + d }) ∧
      ∀ f ∈ s.fq, f.type = ftype.FTYPE_STRUCT → ∀ r, f.ref = some r →
        D r.target.parent (d + 1))
    (fuel : Nat) (p : strctp)
    (hroot : ∀ h s, P0 h → h[p]? = some s → P (h.set p { s with colour := c }))
    (hweak : ∀ h, P h → P0 h)
    (l : List field)
    (hD : ∀ f ∈ l, f.type = ftype.FTYPE_STRUCT → ∀ r, f.ref = some r → D r.target.parent 1) :
    ∀ h h2, P0 h → ort_parse_close_generation fuel p c h l = some h2 → P0 h2 := by
  induction l with
  | nil =>
    intro h h2 hP he
    simp only [ort_parse_close_generation, Option.some.injEq] at he
    subst he
    exact hP
  | cons f fs ih =>
    intro h h2 hP he
    have ih2 := ih (fun g hg => hD g (List.mem_cons_of_mem _ hg))
    simp only [ort_parse_close_generation] at he
    split at he
    · rename_i hft
      split at he
      · rename_i s r hs hr
        split at he
        · cases he
        · rename_i h1 hs1
          exact ih2 _ _ (hweak _ (annotate_inv c P D hvisit fuel _ r 1 h1 (hroot h s hP hs)
            (hD f (List.mem_cons_self _ _) hft r hr) hs1)) he
      · cases he
    · exact ih2 _ _ hP he

theorem getElem?_set_of_some {α : Type} {l : List α} {i : Nat} {a b : α}
    (h : l[i]? = some b) : (l.set i a)[i]? = some a := by
  obtain ⟨hlt, -⟩ := List.getElem?_eq_some.1 h
  exact List.getElem?_set_self hlt

/-- Colouring a struct keeps a struct coloured `c` coloured `c`. -/
theorem coloured_set {h : List strct} {t z : strctp} {c : Nat} {s s2 : strct}
    (hc : ∃ x, h[t]? = some x ∧ x.colour = c) (hs : h[z]? = some s) (h2 : s2.colour = c) :
    ∃ x, (h.set z s2)[t]? = some x ∧ x.colour = c := by
  by_cases hz : z = t
  · subst hz
    exact ⟨s2, getElem?_set_of_some hs, h2⟩
  · obtain ⟨x, hx, hxc⟩ := hc
    exact ⟨x, by rw [List.getElem?_set_ne hz]; exact hx, hxc⟩

theorem annotate_keeps_coloured (c : Nat) (t : strctp) (fuel : Nat) (h : List strct) (r : ref)
    (d : Nat) (h2 : List strct) (hc : ∃ x, h[t]? = some x ∧ x.colour = c)
    (he : annotate fuel h r d c = some h2) : ∃ x, h2[t]? = some x ∧ x.colour = c :=
  annotate_inv c (fun g => ∃ x, g[t]? = some x ∧ x.colour = c) (fun _ _ => True)
    (fun _ _ _ _ hP _ hs _ => ⟨coloured_set hP hs rfl, fun _ _ _ _ _ => trivial⟩)
    fuel h r d h2 hc trivial he

theorem annotate_target_coloured (c : Nat) (fuel : Nat) (h : List strct) (r : ref)
    (d : Nat) (h2 : List strct) (he : annotate fuel h r d c = some h2) :
    ∃ x, h2[r.target.parent]? = some x ∧ x.colour = c := by
  cases fuel with
  | zero => simp [annotate] at he
  | succ fuel =>
    simp only [annotate] at he
    split at he
    · cases he
    · rename_i s hs
      split at he
      · rename_i hc
        simp only [Option.some.injEq] at he
        subst he
        exact ⟨s, hs, hc⟩
      · exact annotate_fq_inv (fun g => ∃ x, g[r.target.parent]? = some x ∧ x.colour = c) _ s.fq
          (fun f _ _ r2 _ g g2 hg hg2 =>
            annotate_keeps_coloured c _ fuel g r2 (d + 1) g2 hg hg2)
          _ _ ⟨_, getElem?_set_of_some hs, rfl⟩ he

theorem ort_parse_close_generation_coloured (c : Nat) (fuel : Nat) (p : strctp) (l : List field) :
    ∀ h h2 : List strct, ort_parse_close_generation fuel p c h l = some h2 →
      (∀ t : strctp, (∃ x, h[t]? = some x ∧ x.colour = c) →
        ∃ x, h2[t]? = some x ∧ x.colour = c) ∧
      ∀ f ∈ l, f.type = ftype.FTYPE_STRUCT → ∀ r, f.ref = some r →
        ∃ x, h2[r.target.parent]? = some x ∧ x.colour = c := by
  induction l with
  | nil =>
    intro h h2 he
    simp only [ort_parse_close_generation, Option.some.injEq] at he
    subst he
    exact ⟨fun _ ht => ht, fun f hf => by cases hf⟩
  | cons f fs ih =>
    intro h h2 he
    simp only [ort_parse_close_generation] at he
    split at he
    · rename_i hft
      split at he
      · rename_i s r hs hr
        split at he
        · cases he
        · rename_i h1 hs1
          have s2 := ih _ _ he
          have keep : ∀ t : strctp, (∃ x, h[t]? = some x ∧ x.colour = c) →
              ∃ x, h1[t]? = some x ∧ x.colour = c := fun t ht =>
            annotate_keeps_coloured c t fuel _ r 1 h1 (coloured_set ht hs rfl) hs1
          refine ⟨fun t ht => s2.1 t (keep t ht), fun g hg hgt r2 hr2 => ?_⟩
          rcases List.mem_cons.1 hg with rfl | hg
          · rw [hr] at hr2
            cases hr2
            exact s2.1 _ (annotate_target_coloured c fuel _ r 1 h1 hs1)
          · exact s2.2 g hg hgt r2 hr2
      · cases he
    · rename_i hft
      have s2 := ih _ _ he
      refine ⟨s2.1, fun g hg hgt r2 hr2 => ?_⟩
      rcases List.mem_cons.1 hg with rfl | hg
      · exact absurd hgt hft
      · exact s2.2 g hg hgt r2 hr2

theorem gen_rel_refl (h0 : List strct) (p : strctp) (c : Nat) : gen_rel h0 p c h0 :=
  ⟨rfl, fun _ s0 hs => ⟨s0, hs, Or.inl rfl⟩⟩

theorem embeds_of_field {heap : List strct} {x : strctp} {s : strct} {f : field} {r : ref}
    (hs : heap[x]? = some s) (hf : f ∈ s.fq) (hft : f.type = ftype.FTYPE_STRUCT)
    (hr : f.ref = some r) : embeds heap x r.target.parent :=
  ⟨s, hs, f, hf, hft, r, hr, rfl⟩

theorem ort_parse_close_generation_rel (c : Nat) (fuel : Nat) (p : strctp) (h0 : List strct)
    (sp : strct) (hp : h0[p]? = some sp) (h2 : List strct)
    (he : ort_parse_close_generation fuel p c h0 sp.fq = some h2) : gen_rel h0 p c h2 := by
  refine ort_parse_close_generation_inv c (gen_rel h0 p c)
    (fun h => gen_rel h0 p c h ∧ ∃ x, h[p]? = some x ∧ x.colour = c)
    (fun z d => 1 ≤ d ∧ PathLen h0 p z d) ?_ fuel p ?_ (fun _ hh => hh.1) sp.fq ?_ h0 h2
    (gen_rel_refl _ _ _) he
  · intro h z s d hP hD hs hc
    obtain ⟨⟨hlen, hrel⟩, x, hx, hxc⟩ := hP
    have hzp : z ≠ p := by
      intro e
      subst e
      rw [hs] at hx
      cases hx
      exact hc hxc
    obtain ⟨hlt, -⟩ := List.getElem?_eq_some.1 hs
    have hlt0 : z < h0.length := hlen ▸ hlt
    obtain ⟨s1, hs1, hcase⟩ := hrel z h0[z] (List.getElem?_eq_getElem hlt0)
    rw [hs] at hs1
    cases hs1
    have hs0 : s = h0[z] := by
      rcases hcase with e | ⟨e, _⟩ | ⟨_, d2, _, _, e⟩
      · exact e
      · exact absurd e hzp
      · rw [e] at hc
        exact absurd rfl hc
    refine ⟨⟨⟨by simp [hlen], fun z2 s02 hz2 => ?_⟩, x, ?_, hxc⟩, ?_⟩
    · by_cases e : z = z2
      · subst e
        rw [List.getElem?_eq_getElem hlt0] at hz2
        cases hz2
        exact ⟨_, getElem?_set_of_some hs, Or.inr (Or.inr ⟨hzp, d, hD.1, hD.2, by rw [hs0]⟩)⟩
      · rw [List.getElem?_set_ne e]
        exact hrel z2 s02 hz2
    · rw [List.getElem?_set_ne hzp]
      exact hx
    · intro f hf hft r hr
      refine ⟨by omega, PathLen.step hD.2 ?_⟩
      rw [hs0] at hf
      exact embeds_of_field (List.getElem?_eq_getElem hlt0) hf hft hr
  · intro h s hP hs
    obtain ⟨hlen, hrel⟩ := hP
    obtain ⟨hlt, -⟩ := List.getElem?_eq_some.1 hs
    refine ⟨⟨by simp [hlen], fun z2 s02 hz2 => ?_⟩, _, getElem?_set_of_some hs, rfl⟩
    by_cases e : p = z2
    · subst e
      obtain ⟨s1, hs1, hcase⟩ := hrel p s02 hz2
      rw [hs] at hs1
      cases hs1
      refine ⟨_, getElem?_set_of_some hs, ?_⟩
      rcases hcase with e | ⟨_, e⟩ | ⟨e, _⟩
      · exact Or.inr (Or.inl ⟨rfl, by rw [e]⟩)
      · exact Or.inr (Or.inl ⟨rfl, by rw [e]⟩)
      · exact absurd rfl e
    · rw [List.getElem?_set_ne e]
      exact hrel z2 s02 hz2
  · intro f hf hft r hr
    exact ⟨le_refl _, PathLen.step (PathLen.zero p) (embeds_of_field hp hf hft hr)⟩

/-! ## Frame of check_searchtype -/

theorem check_searchtype_null_frame {cfg : config} {st : sent} {c2 : config}
    (h : check_searchtype_null cfg st = some c2) : msgs_only cfg c2 := by
  unfold check_searchtype_null at h
  split at h
  · split at h
    · cases h
    · split at h
      · cases h
        exact msgs_only_gen_warnx _ _ _ _
      · cases h
        exact msgs_only_refl _
  · cases h
    exact msgs_only_refl _

theorem check_searchtype_sntq_frame (l : List sent) :
    ∀ (cfg c2 : config) (ok : Bool), check_searchtype_sntq cfg l = some (c2, ok) →
      msgs_only cfg c2 := by
  induction l with
  | nil =>
    intro cfg c2 ok h
    simp only [check_searchtype_sntq, Option.some.injEq, Prod.mk.injEq] at h
    obtain ⟨rfl, -⟩ := h
    exact msgs_only_refl _
  | cons st rest ih =>
    intro cfg c2 ok h
    simp only [check_searchtype_sntq] at h
    split at h
    · cases h
    · rename_i c1 h1
      have f1 := check_searchtype_null_frame h1
      split at h
      · cases h
      · cases h
        exact msgs_only_trans f1 (msgs_only_gen_errx _ _ _ _)
      · split at h
        · cases h
        · cases h
          exact msgs_only_trans f1 (msgs_only_gen_errx _ _ _ _)
        · exact msgs_only_trans f1 (ih _ _ _ h)

theorem check_searchtype_dst_frame (l : List sent) :
    ∀ (cfg c2 : config) (ok : Bool), check_searchtype_dst cfg l = some (c2, ok) →
      msgs_only cfg c2 := by
  induction l with
  | nil =>
    intro cfg c2 ok h
    simp only [check_searchtype_dst, Option.some.injEq, Prod.mk.injEq] at h
    obtain ⟨rfl, -⟩ := h
    exact msgs_only_refl _
  | cons st rest ih =>
    intro cfg c2 ok h
    simp only [check_searchtype_dst] at h
    split at h
    · exact ih _ _ _ h
    · split at h
      · cases h
      · split at h
        · exact ih _ _ _ h
        · cases h
          exact msgs_only_gen_errx _ _ _ _

theorem check_searchtype_warn_frame (cfg : config) (srch : search) :
    msgs_only cfg (check_searchtype_warn cfg srch) := by
  unfold check_searchtype_warn
  dsimp only
  split <;> split
  · exact msgs_only_trans (msgs_only_gen_warnx _ _ _ _) (msgs_only_gen_warnx _ _ _ _)
  · exact msgs_only_gen_warnx _ _ _ _
  · exact msgs_only_gen_warnx _ _ _ _
  · exact msgs_only_refl _

theorem check_searchtype_sq_frame (l : List search) :
    ∀ (cfg c2 : config) (ok : Bool), check_searchtype_sq cfg l = some (c2, ok) →
      msgs_only cfg c2 := by
  induction l with
  | nil =>
    intro cfg c2 ok h
    simp only [check_searchtype_sq, Option.some.injEq, Prod.mk.injEq] at h
    obtain ⟨rfl, -⟩ := h
    exact msgs_only_refl _
  | cons srch rest ih =>
    intro cfg c2 ok h
    simp only [check_searchtype_sq] at h
    split at h
    · cases h
      exact msgs_only_gen_errx _ _ _ _
    · have fw := check_searchtype_warn_frame cfg srch
      split at h
      · cases h
      · rename_i c1 h1
        cases h
        exact msgs_only_trans fw (check_searchtype_sntq_frame _ _ _ _ h1)
      · rename_i c1 h1
        have f1 := msgs_only_trans fw (check_searchtype_sntq_frame _ _ _ _ h1)
        split at h
        · exact msgs_only_trans f1 (ih _ _ _ h)
        · split at h
          · cases h
          · rename_i c3 h3
            cases h
            exact msgs_only_trans f1 (check_searchtype_dst_frame _ _ _ _ h3)
          · rename_i c3 h3
            exact msgs_only_trans (msgs_only_trans f1 (check_searchtype_dst_frame _ _ _ _ h3))
              (ih _ _ _ h)

theorem ort_parse_close_searchtype_frame (l : List strctp) :
    ∀ (cfg c2 : config) (ok : Bool), ort_parse_close_searchtype cfg l = some (c2, ok) →
      msgs_only cfg c2 := by
  induction l with
  | nil =>
    intro cfg c2 ok h
    simp only [ort_parse_close_searchtype, Option.some.injEq, Prod.mk.injEq] at h
    obtain ⟨rfl, -⟩ := h
    exact msgs_only_refl _
  | cons p ps ih =>
    intro cfg c2 ok h
    simp only [ort_parse_close_searchtype] at h
    split at h
    · cases h
    · rename_i s hs
      unfold and_then at h
      split at h
      · cases h
      · rename_i c1 h1
        cases h
        exact check_searchtype_sq_frame _ _ _ _ h1
      · rename_i c1 h1
        exact msgs_only_trans (check_searchtype_sq_frame _ _ _ _ h1) (ih _ _ _ h)

/-! ## The passes of a successful run -/

theorem ort_parse_close_success {E : env} {fuel : Nat} {cfg cfg2 : config}
    (h : ort_parse_close E fuel cfg = some (cfg2, true)) :
    cfg.sq ≠ [] ∧ ort_parse_close_linked E fuel (resolved E cfg) = some (cfg2, true) := by
  unfold ort_parse_close at h
  split at h
  · cases h
  · rename_i hne
    refine ⟨hne, ?_⟩
    obtain ⟨c1, h1, h⟩ := and_then_eq_some_true h
    obtain ⟨c2, h2, h⟩ := and_then_eq_some_true h
    simp only [Option.some.injEq] at h1 h2
    have e1 : (E.linker_resolve cfg).1 = c1 := by rw [h1]
    have e2 : (E.linker_aliases c1).1 = c2 := by rw [h2]
    unfold resolved
    rw [e1, e2]
    exact h

theorem map_eq_some_zero {o : Option (config × Nat)} {c : config}
    (h : o.map (fun r => (r.1, decide (r.2 = 0))) = some (c, true)) : o = some (c, 0) := by
  cases o with
  | none => cases h
  | some r =>
    obtain ⟨a, n⟩ := r
    simp only [Option.map_some', Option.some.injEq, Prod.mk.injEq, decide_eq_true_eq] at h
    obtain ⟨rfl, rfl⟩ := h
    rfl

theorem ort_parse_close_linked_success {E : env} {fuel : Nat} {cfg cfg2 : config}
    (h : ort_parse_close_linked E fuel cfg = some (cfg2, true)) :
    ∃ c1 c2 c3 c4 c5 h6 sz c7 c8 h9,
      ort_parse_close_unique cfg 0 cfg.sq = some (c1, 0) ∧
      ort_parse_close_roles check_unique_roles c1 0 c1.sq = some (c2, 0) ∧
      ort_parse_close_roles (check_unique_roles_tree fuel) c2 0 c2.sq = some (c3, 0) ∧
      (if c3.rq = [] then some c3 else ort_parse_close_reachable c3 c3.sq) = some c4 ∧
      ort_parse_close_recursive fuel c4 0 c4.sq = some (c5, 0) ∧
      ort_parse_close_height fuel c5.heap 1 0 c5.sq = some (h6, sz) ∧
      ort_parse_close_searchtype { c5 with heap := h6 } c5.sq = some (c7, true) ∧
      ort_parse_close_sort E sz c7 = some (c8, true) ∧
      ort_parse_close_nullrefs fuel c8.heap c8.sq = some h9 ∧
      cfg2 = { c8 with heap := h9 } := by
  unfold ort_parse_close_linked at h
  obtain ⟨c1, h1, h⟩ := and_then_eq_some_true h
  obtain ⟨c2, h2, h⟩ := and_then_eq_some_true h
  obtain ⟨c3, h3, h⟩ := and_then_eq_some_true h
  obtain ⟨c4, h4, h⟩ := and_then_eq_some_true h
  obtain ⟨c5, h5, h⟩ := and_then_eq_some_true h
  split at h
  · cases h
  · rename_i h6 sz hh
    split at h
    · cases h
    · obtain ⟨c7, h7, h⟩ := and_then_eq_some_true h
      obtain ⟨c8, h8, h⟩ := and_then_eq_some_true h
      have h4b : (if c3.rq = [] then some c3 else ort_parse_close_reachable c3 c3.sq) = some c4 := by
        cases hx : (if c3.rq = [] then some c3 else ort_parse_close_reachable c3 c3.sq) with
        | none => rw [hx] at h4; cases h4
        | some a =>
          rw [hx] at h4
          simp only [Option.map_some', Option.some.injEq, Prod.mk.injEq, and_true] at h4
          rw [h4]
      cases hn : ort_parse_close_nullrefs fuel c8.heap c8.sq with
      | none => rw [hn] at h; cases h
      | some h9 =>
        rw [hn] at h
        simp only [Option.map_some', Option.some.injEq, Prod.mk.injEq, and_true] at h
        exact ⟨c1, c2, c3, c4, c5, h6, sz, c7, c8, h9, map_eq_some_zero h1, map_eq_some_zero h2,
          map_eq_some_zero h3, h4b, map_eq_some_zero h5, hh, h7, h8, hn, h.symm⟩

/-! ## Soundness of check_recursive -/

theorem check_recursive_fq_true (self : ref → Option Bool) (l : List field)
    (h : check_recursive_fq self l = some true) :
    ∀ f ∈ l, f.type = ftype.FTYPE_STRUCT → ∀ r, f.ref = some r → self r = some true := by
  induction l with
  | nil => intro f hf; cases hf
  | cons g gs ih =>
    simp only [check_recursive_fq] at h
    intro f hf hft r hr
    split at h
    · split at h
      · cases h
      · rename_i r0 hr0
        split at h
        · cases h
        · cases h
        · rename_i hs
          rcases List.mem_cons.1 hf with rfl | hf
          · rw [hr0] at hr
            cases hr
            exact hs
          · exact ih h f hf hft r hr
    · rename_i hgt
      rcases List.mem_cons.1 hf with rfl | hf
      · exact absurd hft hgt
      · exact ih h f hf hft r hr

theorem check_recursive_sound (heap : List strct) (check : strctp) :
    ∀ (fuel : Nat) (r : ref), check_recursive heap fuel r check = some true →
      ∀ y, Relation.ReflTransGen (embeds heap) r.target.parent y → y ≠ check := by
  intro fuel
  induction fuel with
  | zero =>
    intro r h
    simp [check_recursive] at h
  | succ fuel ih =>
    intro r h y hy
    simp only [check_recursive] at h
    split at h
    · cases h
    · rename_i hne
      split at h
      · cases h
      · rename_i s hs
        have hall := check_recursive_fq_true _ _ h
        rcases Relation.ReflTransGen.cases_head hy with e | ⟨z, hz, hzy⟩
        · rw [← e]
          exact hne
        · obtain ⟨s2, hs2, f, hf, hft, r2, hr2, hzt⟩ := hz
          rw [Option.mem_def, hs] at hs2
          cases hs2
          rw [Option.mem_def] at hr2
          subst hzt
          exact ih r2 (hall f hf hft r2 hr2) y hzy

/-! ## Frame of the height pass, the sort and the null-reference pass -/

theorem embeds_static {h h0 : List strct} (hs : h.map static_part = h0.map static_part)
    {x y : strctp} (he : embeds h x y) : embeds h0 x y := by
  obtain ⟨s, hsx, f, hf, hft, r, hr, hy⟩ := he
  rw [Option.mem_def] at hsx
  have e : (h.map static_part)[x]? = some (static_part s) := by
    rw [List.getElem?_map, hsx]
    rfl
  rw [hs, List.getElem?_map] at e
  cases h0x : h0[x]? with
  | none => rw [h0x] at e; cases e
  | some s0 =>
    rw [h0x] at e
    simp only [Option.map_some', Option.some.injEq] at e
    have efq : (static_part s0).fq = (static_part s).fq := congrArg strct.fq e
    exact ⟨s0, h0x, f, efq ▸ hf, hft, r, hr, hy⟩

theorem gen_rel_static {h0 h : List strct} {p : strctp} {c : Nat} (hr : gen_rel h0 p c h) :
    h.map static_part = h0.map static_part := by
  obtain ⟨hlen, hrel⟩ := hr
  apply List.ext_getElem?
  intro n
  rw [List.getElem?_map, List.getElem?_map]
  cases h0n : h0[n]? with
  | none =>
    have : h[n]? = none := by
      rw [List.getElem?_eq_none_iff] at h0n ⊢
      omega
    rw [this]
  | some s0 =>
    obtain ⟨s, hs, hcase⟩ := hrel n s0 h0n
    rw [hs]
    rcases hcase with e | ⟨_, e⟩ | ⟨_, d, _, _, e⟩ <;> rw [e] <;> rfl

theorem ort_parse_close_height_static (fuel : Nat) (l : List strctp) :
    ∀ (h : List strct) (c sz : Nat) (h2 : List strct) (sz2 : Nat),
      ort_parse_close_height fuel h c sz l = some (h2, sz2) →
      h2.map static_part = h.map static_part := by
  induction l with
  | nil =>
    intro h c sz h2 sz2 he
    simp only [ort_parse_close_height, Option.some.injEq, Prod.mk.injEq] at he
    rw [he.1]
  | cons p ps ih =>
    intro h c sz h2 sz2 he
    simp only [ort_parse_close_height] at he
    split at he
    · cases he
    · rename_i s hs
      split at he
      · exact ih _ _ _ _ _ he
      · split at he
        · cases he
        · rename_i h1 hg
          rw [ih _ _ _ _ _ he]
          exact gen_rel_static (ort_parse_close_generation_rel c fuel p h s hs h1 hg)

theorem set_map_eq {β : Type} (g : strct → β) {h : List strct} {p : strctp} {s s2 : strct}
    (hs : h[p]? = some s) (e : g s2 = g s) : (h.set p s2).map g = h.map g := by
  apply List.ext_getElem?
  intro n
  rw [List.getElem?_map, List.getElem?_map]
  by_cases hn : p = n
  · subst hn
    rw [getElem?_set_of_some hs, hs]
    simp only [Option.map_some', e]
  · rw [List.getElem?_set_ne hn]

theorem ort_parse_close_nullrefs_frame {β : Type} (g : strct → β)
    (hg : ∀ (s : strct) (fl : Nat), g { s with flags := fl } = g s) (fuel : Nat)
    (l : List strctp) :
    ∀ (h h2 : List strct), ort_parse_close_nullrefs fuel h l = some h2 →
      h2.map g = h.map g := by
  induction l with
  | nil =>
    intro h h2 he
    simp only [ort_parse_close_nullrefs, Option.some.injEq] at he
    rw [he]
  | cons p ps ih =>
    intro h h2 he
    simp only [ort_parse_close_nullrefs] at he
    split at he
    · rename_i s _ hs
      rw [ih _ _ he]
      exact set_map_eq g hs (hg _ _)
    · exact ih _ _ he
    · cases he

theorem ort_parse_close_sort_spec {E : env} {sz : Nat} {c c2 : config}
    (h : ort_parse_close_sort E sz c = some (c2, true)) :
    c2 = { c with sq := (E.qsort (parse_cmp c.heap) c.sq).reverse } := by
  unfold ort_parse_close_sort at h
  split at h
  · cases h
  · split at h
    · cases h
    · simp only [Option.some.injEq, Prod.mk.injEq, and_true] at h
      exact h.symm

/-- On a successful run, the final configuration has the static part of the
resolved one, its heights are those left by the height pass, and its list of
structs is the reversed result of `qsort` on the resolved list. -/
theorem ort_parse_close_linked_frame {E : env} {fuel : Nat} {cfg cfg2 : config}
    (h : ort_parse_close_linked E fuel cfg = some (cfg2, true)) :
    cfg2.heap.map static_part = cfg.heap.map static_part ∧
    cfg2.roles = cfg.roles ∧ cfg2.rq = cfg.rq ∧
    ∃ h6 sz, ort_parse_close_height fuel cfg.heap 1 0 cfg.sq = some (h6, sz) ∧
      cfg2.sq = (E.qsort (parse_cmp h6) cfg.sq).reverse ∧
      cfg2.heap.map strct.height = h6.map strct.height := by
  obtain ⟨c1, c2, c3, c4, c5, h6, sz, c7, c8, h9, h1, h2, h3, h4, h5, hh, h7, h8, hn, rfl⟩ :=
    ort_parse_close_linked_success h
  have f1 := (ort_parse_close_unique_frame _ _ _ _ _ h1).1
  have f2 := (ort_parse_close_roles_spec _ (fun _ _ _ _ => check_unique_roles_frame) _ _ _ _ _ h2).1
  have f3 := (ort_parse_close_roles_spec _
    (fun _ _ _ _ => check_unique_roles_tree_frame) _ _ _ _ _ h3).1
  have f4 : msgs_only c3 c4 := by
    split at h4
    · cases h4
      exact msgs_only_refl _
    · exact ort_parse_close_reachable_frame _ _ _ h4
  have f5 := (ort_parse_close_recursive_spec _ _ _ _ _ _ h5).1
  have f15 := msgs_only_trans (msgs_only_trans (msgs_only_trans (msgs_only_trans f1 f2) f3) f4) f5
  have f7 := ort_parse_close_searchtype_frame _ _ _ _ h7
  have e8 := ort_parse_close_sort_spec h8
  subst e8
  have s9 := ort_parse_close_nullrefs_frame static_part (fun _ _ => rfl) _ _ _ _ hn
  have g9 := ort_parse_close_nullrefs_frame strct.height (fun _ _ => rfl) _ _ _ _ hn
  dsimp only at s9 g9 ⊢
  obtain ⟨e7h, e7s, e7r, e7q⟩ := f7
  dsimp only at e7h e7s e7r e7q
  obtain ⟨e5h, e5s, e5r, e5q⟩ := f15
  rw [e5h, e5s] at hh
  refine ⟨?_, by rw [e7r, e5r], by rw [e7q, e5q], h6, sz, hh, ?_, ?_⟩
  · rw [s9, e7h, ort_parse_close_height_static _ _ _ _ _ _ _ hh]
  · rw [e7h, e7s, e5s]
  · rw [g9, e7h]

/-! ## Insertion sort meets the contract of qsort -/

theorem isort_insert_perm (cmp : strctp → strctp → Int) (a : strctp) (l : List strctp) :
    (isort_insert cmp a l).Perm (a :: l) := by
  induction l with
  | nil => exact List.Perm.refl _
  | cons b l ih =>
    simp only [isort_insert]
    split
    · exact List.Perm.refl _
    · exact (List.Perm.cons b ih).trans (List.Perm.swap a b l)

theorem isort_perm (cmp : strctp → strctp → Int) (l : List strctp) : (isort cmp l).Perm l := by
  induction l with
  | nil => exact List.Perm.refl _
  | cons a l ih =>
    simp only [isort]
    exact (isort_insert_perm cmp a _).trans (List.Perm.cons a ih)

theorem isort_insert_pairwise (cmp : strctp → strctp → Int) (S : strctp → Prop)
    (htot : ∀ a b, S a → S b → cmp a b ≤ 0 ∨ cmp b a ≤ 0)
    (htr : ∀ a b c, S a → S b → S c → cmp a b ≤ 0 → cmp b c ≤ 0 → cmp a c ≤ 0)
    (a : strctp) (ha : S a) (l : List strctp) (hl : ∀ x ∈ l, S x)
    (hp : l.Pairwise (fun x y => cmp x y ≤ 0)) :
    (isort_insert cmp a l).Pairwise (fun x y => cmp x y ≤ 0) := by
  induction l with
  | nil => simp [isort_insert]
  | cons b l ih =>
    have hb : S b := hl b (List.mem_cons_self _ _)
    have hl2 : ∀ x ∈ l, S x := fun x hx => hl x (List.mem_cons_of_mem _ hx)
    obtain ⟨hbl, hpl⟩ := List.pairwise_cons.1 hp
    simp only [isort_insert]
    split
    · rename_i hab
      refine List.pairwise_cons.2 ⟨fun x hx => ?_, hp⟩
      rcases List.mem_cons.1 hx with rfl | hx
      · exact hab
      · exact htr a b x ha hb (hl2 x hx) hab (hbl x hx)
    · rename_i hab
      refine List.pairwise_cons.2 ⟨fun x hx => ?_, ih hl2 hpl⟩
      rcases List.mem_cons.1 ((isort_insert_perm cmp a l).subset hx) with rfl | hx
      · rcases htot x b ha hb with h | h
        · exact absurd h hab
        · exact h
      · exact hbl x hx

theorem isort_pairwise (cmp : strctp → strctp → Int) (S : strctp → Prop)
    (htot : ∀ a b, S a → S b → cmp a b ≤ 0 ∨ cmp b a ≤ 0)
    (htr : ∀ a b c, S a → S b → S c → cmp a b ≤ 0 → cmp b c ≤ 0 → cmp a c ≤ 0)
    (l : List strctp) (hl : ∀ x ∈ l, S x) :
    (isort cmp l).Pairwise (fun x y => cmp x y ≤ 0) := by
  induction l with
  | nil => simp [isort]
  | cons a l ih =>
    have hl2 : ∀ x ∈ l, S x := fun x hx => hl x (List.mem_cons_of_mem _ hx)
    simp only [isort]
    exact isort_insert_pairwise cmp S htot htr a (hl a (List.mem_cons_self _ _)) _
      (fun x hx => hl2 x ((isort_perm cmp l).subset hx)) (ih hl2)

theorem isort_contract : QsortContract isort := by
  intro cmp l
  exact ⟨isort_perm cmp l, fun htot htr =>
    isort_pairwise cmp (fun x => x ∈ l) (fun a b ha hb => htot a ha b hb)
      (fun a b c ha hb hc => htr a ha b hb c hc) l (fun _ hx => hx)⟩

theorem mem_sq_of_linked {E : env} {l : List strctp} {cmp : strctp → strctp → Int}
    (hq : QsortContract E.qsort) {x : strctp} (hx : x ∈ (E.qsort cmp l).reverse) : x ∈ l :=
  (hq cmp l).1.subset (List.mem_reverse.1 hx)

/-! ## C1: no struct reaches itself -/

theorem recursion_checked {E : env} {fuel : Nat} {cfg cfg2 : config}
    (h : ort_parse_close_linked E fuel cfg = some (cfg2, true)) :
    ∀ p ∈ cfg.sq, ∀ s, cfg.heap[p]? = some s → ∀ f ∈ s.fq,
      f.type = ftype.FTYPE_STRUCT → ∀ r, f.ref = some r →
      check_recursive cfg.heap fuel r p = some true := by
  obtain ⟨c1, c2, c3, c4, c5, h6, sz, c7, c8, h9, h1, h2, h3, h4, h5, -⟩ :=
    ort_parse_close_linked_success h
  have f1 := (ort_parse_close_unique_frame _ _ _ _ _ h1).1
  have f2 := (ort_parse_close_roles_spec _ (fun _ _ _ _ => check_unique_roles_frame) _ _ _ _ _ h2).1
  have f3 := (ort_parse_close_roles_spec _
    (fun _ _ _ _ => check_unique_roles_tree_frame) _ _ _ _ _ h3).1
  have f4 : msgs_only c3 c4 := by
    split at h4
    · cases h4
      exact msgs_only_refl _
    · exact ort_parse_close_reachable_frame _ _ _ h4
  obtain ⟨eh, es, -, -⟩ := msgs_only_trans (msgs_only_trans (msgs_only_trans f1 f2) f3) f4
  have s5 := (ort_parse_close_recursive_spec _ _ _ _ _ _ h5).2.2 rfl
  rw [eh, es] at s5
  exact s5

theorem acyclic_of_checked {heap : List strct} {fuel : Nat} {x : strctp}
    (hck : ∀ s, heap[x]? = some s → ∀ f ∈ s.fq,
      f.type = ftype.FTYPE_STRUCT → ∀ r, f.ref = some r →
      check_recursive heap fuel r x = some true) :
    ¬ Relation.TransGen (embeds heap) x x := by
  intro hc
  obtain ⟨y, hxy, hyx⟩ := Relation.TransGen.head'_iff.1 hc
  obtain ⟨s, hs, f, hf, hft, r, hr, hy⟩ := hxy
  rw [Option.mem_def] at hs hr
  subst hy
  exact check_recursive_sound heap x fuel r (hck s hs f hf hft r hr) x hyx rfl

/-- C1: whenever `ort_parse_close` returns success, no struct of the
configuration reaches itself through a chain of one or more struct-typed
fields.  This holds of the resolved configuration the checks ran on and, for
every `qsort` that rearranges its array, of the configuration that linking
leaves. -/
theorem no_struct_reaches_itself (E : env) (fuel : Nat) (cfg cfg2 : config)
    (h : ort_parse_close E fuel cfg = some (cfg2, true)) :
    (∀ x ∈ (resolved E cfg).sq,
      ¬ Relation.TransGen (embeds (resolved E cfg).heap) x x) ∧
    (QsortContract E.qsort →
      ∀ x ∈ cfg2.sq, ¬ Relation.TransGen (embeds cfg2.heap) x x) := by
  have hl := (ort_parse_close_success h).2
  have hck := recursion_checked hl
  have h1 : ∀ x ∈ (resolved E cfg).sq,
      ¬ Relation.TransGen (embeds (resolved E cfg).heap) x x :=
    fun x hx => acyclic_of_checked (hck x hx)
  refine ⟨h1, fun hq x hx hc => ?_⟩
  obtain ⟨hst, -, -, h6, sz, -, hsq, -⟩ := ort_parse_close_linked_frame hl
  rw [hsq] at hx
  exact h1 x (mem_sq_of_linked hq hx)
    (Relation.TransGen.mono (fun _ _ he => embeds_static hst he) hc)

set_option maxRecDepth 100000 in
/-- Witness of C1: linking `pair_cfg` succeeds, and neither of its two structs
reaches itself. -/
theorem no_struct_reaches_itself_witness :
    ort_parse_close env_id 10 pair_cfg = some (pair_linked, true) ∧
    (∀ x ∈ (resolved env_id pair_cfg).sq,
      ¬ Relation.TransGen (embeds (resolved env_id pair_cfg).heap) x x) ∧
    (QsortContract env_id.qsort →
      ∀ x ∈ pair_linked.sq, ¬ Relation.TransGen (embeds pair_linked.heap) x x) :=
  ⟨by decide, no_struct_reaches_itself env_id 10 pair_cfg pair_linked (by decide)⟩

/-! ## C10: rolemaps of a linked configuration -/

theorem role_walk_none (roles : List role) (a : rolep) :
    ∀ (fuel : Nat) (b : rolep), role_walk roles (some a) fuel (some b) = some none →
      ¬ Relation.ReflTransGen (role_parent roles) b a := by
  intro fuel
  induction fuel with
  | zero =>
    intro b h
    simp [role_walk] at h
  | succ fuel ih =>
    intro b h hba
    simp only [role_walk] at h
    split at h
    · cases h
    · rename_i hne
      split at h
      · cases h
      · rename_i r hr
        rcases Relation.ReflTransGen.cases_head hba with e | ⟨z, hz, hza⟩
        · exact hne (by rw [e])
        · obtain ⟨x, hx, hxp⟩ := hz
          rw [Option.mem_def, hr] at hx
          cases hx
          rw [hxp] at h
          exact ih z h hza

theorem roles_checked {E : env} {fuel : Nat} {cfg cfg2 : config}
    (h : ort_parse_close_linked E fuel cfg = some (cfg2, true)) :
    ∀ p ∈ cfg.sq, ∀ s, cfg.heap[p]? = some s → ∀ rm ∈ s.rq, rolemap_ok cfg.roles rm := by
  obtain ⟨c1, c2, c3, c4, c5, h6, sz, c7, c8, h9, h1, h2, h3, -⟩ :=
    ort_parse_close_linked_success h
  have f1 := (ort_parse_close_unique_frame _ _ _ _ _ h1).1
  have s2 := ort_parse_close_roles_spec _ (fun _ _ _ _ => check_unique_roles_frame) _ _ _ _ _ h2
  have s3 := ort_parse_close_roles_spec _
    (fun _ _ _ _ => check_unique_roles_tree_frame) _ _ _ _ _ h3
  have f12 := msgs_only_trans f1 s2.1
  intro p hp s hs rm hrm i j r1 r2 hij hi hj
  obtain ⟨ca, cb, -, hca⟩ := s2.2.2 rfl p (f1.2.1 ▸ hp) s (f1.1 ▸ hs) rm hrm
  obtain ⟨cc, cd, hcc, hcd⟩ := s3.2.2 rfl p (f12.2.1 ▸ hp) s (f12.1 ▸ hs) rm hrm
  refine ⟨check_unique_roles_sound hca i j r1 r2 hij hi hj, fun a b ha hb hanc => ?_⟩
  have hw := check_unique_roles_tree_sound hcd i j r1 r2 hij hi hj b hb
  rw [ha, hcc.2.2.1, f12.2.2.1] at hw
  exact role_walk_none cfg.roles a fuel b hw hanc.to_reflTransGen

theorem static_lookup {h h0 : List strct} (hs : h.map static_part = h0.map static_part)
    {x : strctp} {s : strct} (hx : h[x]? = some s) :
    ∃ s0, h0[x]? = some s0 ∧ static_part s0 = static_part s := by
  have e : (h.map static_part)[x]? = some (static_part s) := by
    rw [List.getElem?_map, hx]
    rfl
  rw [hs, List.getElem?_map] at e
  cases h0x : h0[x]? with
  | none => rw [h0x] at e; cases e
  | some s0 =>
    rw [h0x] at e
    simp only [Option.map_some', Option.some.injEq] at e
    exact ⟨s0, rfl, e⟩

/-- C10: whenever `ort_parse_close` returns success, every rolemap attached to
a struct of the configuration contains no role twice and no two entries whose
roles are in a strict ancestor/descendant relation of the role tree.  This
holds of the resolved configuration and, for every `qsort` that rearranges its
array, of the configuration that linking leaves. -/
theorem rolemaps_well_formed (E : env) (fuel : Nat) (cfg cfg2 : config)
    (h : ort_parse_close E fuel cfg = some (cfg2, true)) :
    (∀ x ∈ (resolved E cfg).sq, ∀ s, (resolved E cfg).heap[x]? = some s →
      ∀ rm ∈ s.rq, rolemap_ok (resolved E cfg).roles rm) ∧
    (QsortContract E.qsort →
      ∀ x ∈ cfg2.sq, ∀ s, cfg2.heap[x]? = some s →
        ∀ rm ∈ s.rq, rolemap_ok cfg2.roles rm) := by
  have hl := (ort_parse_close_success h).2
  have h1 := roles_checked hl
  refine ⟨h1, fun hq x hx s hs rm hrm => ?_⟩
  obtain ⟨hst, hro, -, h6, sz, -, hsq, -⟩ := ort_parse_close_linked_frame hl
  rw [hsq] at hx
  obtain ⟨s0, hs0, e⟩ := static_lookup hst hs
  have erq : (static_part s0).rq = (static_part s).rq := congrArg strct.rq e
  rw [hro]
  exact h1 x (mem_sq_of_linked hq hx) s0 hs0 rm (by rw [show s0.rq = s.rq from erq]; exact hrm)

set_option maxRecDepth 100000 in
/-- Witness of C10: linking `roles_cfg`, whose rolemap lists two unrelated
roles, succeeds and leaves it unchanged. -/
theorem rolemaps_well_formed_witness :
    ort_parse_close env_id 10 roles_cfg = some (roles_cfg, true) ∧
    (∀ x ∈ (resolved env_id roles_cfg).sq, ∀ s,
      (resolved env_id roles_cfg).heap[x]? = some s →
      ∀ rm ∈ s.rq, rolemap_ok (resolved env_id roles_cfg).roles rm) ∧
    (QsortContract env_id.qsort →
      ∀ x ∈ roles_cfg.sq, ∀ s, roles_cfg.heap[x]? = some s →
        ∀ rm ∈ s.rq, rolemap_ok roles_cfg.roles rm) :=
  ⟨by decide, rolemaps_well_formed env_id 10 roles_cfg roles_cfg (by decide)⟩

/-! ## C9: a role listed with its parent -/

theorem role_walk_null (roles : List role) (t : Option rolep) (fuel : Nat) :
    role_walk roles t fuel none = some none := by
  cases fuel <;> rfl

theorem role_walk_above (roles : List role) (depth : rolep → Nat)
    (hf : role_forest roles depth) (a : rolep) :
    ∀ (fuel : Nat) (b : rolep), depth b < fuel → depth b < depth a →
      (∃ y, roles[b]? = some y) → role_walk roles (some a) fuel (some b) = some none := by
  intro fuel
  induction fuel with
  | zero => intro b h; omega
  | succ fuel ih =>
    intro b hb hba ⟨y, hy⟩
    have hne : ¬ (some b = some a) := by
      intro e
      cases e
      omega
    simp only [role_walk, hne, if_false, hy]
    cases hp : y.parent with
    | none => exact role_walk_null _ _ _
    | some p =>
      obtain ⟨hex, hd⟩ := hf b y p hy hp
      exact ih p (by omega) (by omega) hex

theorem role_walk_parent (roles : List role) (r p : rolep) (x : role)
    (hx : roles[r]? = some x) (hp : x.parent = some p) (hne : r ≠ p) (fuel : Nat) :
    role_walk roles (some p) (fuel + 2) (some r) = some (some p) := by
  have hne2 : ¬ (some r = some p) := by
    intro e
    cases e
    exact hne rfl
  simp only [role_walk, hne2, if_false, hx, hp, if_true]

theorem gen_errx_roles (c : config) (p : Option pos) (f : Option String) (a : List msgarg) :
    (gen_errx c p f a).roles = c.roles := rfl

/-- C9: a rolemap whose entries are exactly a role `R` and its parent `P`, in
either order, makes `check_unique_roles_tree` record exactly one "overlapping
role" error (at the entry of `P`) and return failure, whenever the roles form
a forest and the walk up the tree has enough fuel. -/
theorem role_with_parent_overlaps_once (cfg : config) (depth : rolep → Nat)
    (hf : role_forest cfg.roles depth) (R P : rolep) (x : role)
    (hR : cfg.roles[R]? = some x) (hP : x.parent = some P) (y : role)
    (hy : cfg.roles[P]? = some y) (posR posP : pos)
    (fuel : Nat) (hfuel : depth R < fuel) :
      check_unique_roles_tree fuel cfg
          { rq := [{ role := some R, pos := posR }, { role := some P, pos := posP }] } =
        some ({ cfg with msgs := cfg.msgs ++
          [{ type := msgtype.MSGTYPE_ERROR, chan := channel, er := 0, pos := some posP,
             fmt := some "overlapping role: %s, %s",
             args := [msgarg.str x.name, msgarg.str y.name] }] }, false) ∧
      check_unique_roles_tree fuel cfg
          { rq := [{ role := some P, pos := posP }, { role := some R, pos := posR }] } =
        some ({ cfg with msgs := cfg.msgs ++
          [{ type := msgtype.MSGTYPE_ERROR, chan := channel, er := 0, pos := some posP,
             fmt := some "overlapping role: %s, %s",
             args := [msgarg.str x.name, msgarg.str y.name] }] }, false) := by
  obtain ⟨-, hd⟩ := hf R x P hR hP
  have hne : R ≠ P := by
    intro e
    rw [e] at hd
    omega
  have hPR : ¬ (some P = some R) := by
    intro e
    cases e
    exact hne rfl
  have hRP : ¬ (some R = some P) := by
    intro e
    cases e
    exact hne rfl
  have w1 : role_walk cfg.roles (some R) fuel (some P) = some none :=
    role_walk_above cfg.roles depth hf R fuel P (by omega) hd ⟨y, hy⟩
  obtain ⟨k, rfl⟩ : ∃ k, fuel = k + 2 := ⟨fuel - 2, by omega⟩
  have w2 : role_walk cfg.roles (some P) (k + 2) (some R) = some (some P) :=
    role_walk_parent cfg.roles R P x hR hP hne k
  refine ⟨?_, ?_⟩
  · simp only [check_unique_roles_tree, List.enum, List.enumFrom, check_unique_roles_tree_rs,
      check_unique_roles_tree_rrs, if_true, hPR, hRP, if_false, w1, w2, role_name, hR, hy,
      Option.map_some', gen_errx_roles, zero_add, Nat.zero_ne_one, Nat.one_ne_zero,
      OfNat.zero_ne_ofNat, OfNat.ofNat_ne_zero, one_ne_zero, zero_ne_one]
    rfl
  · simp only [check_unique_roles_tree, List.enum, List.enumFrom, check_unique_roles_tree_rs,
      check_unique_roles_tree_rrs, if_true, hPR, hRP, if_false, w1, w2, role_name, hR, hy,
      Option.map_some', gen_errx_roles, zero_add, one_ne_zero, zero_ne_one]
    rfl

theorem sample_roles_forest : role_forest sample_roles sample_depth := by
  intro r x p hx hp
  rcases r with _ | _ | _ | _ | _ | r
  all_goals
    simp only [sample_roles, List.getElem?_cons_zero, List.getElem?_cons_succ,
      List.getElem?_nil, Option.some.injEq] at hx
  all_goals cases hx
  all_goals cases hp
  all_goals exact ⟨⟨_, rfl⟩, by decide⟩

/-- Witness of C9: `guest` listed with its parent `user`. -/
theorem role_with_parent_overlaps_once_witness :
      check_unique_roles_tree 3 sample_roles_cfg
          { rq := [{ role := some 4, pos := ⟨"db.ort", 9, 1⟩ },
                   { role := some 3, pos := ⟨"db.ort", 9, 7⟩ }] } =
        some ({ sample_roles_cfg with msgs := sample_roles_cfg.msgs ++
          [{ type := msgtype.MSGTYPE_ERROR, chan := channel, er := 0,
             pos := some ⟨"db.ort", 9, 7⟩,
             fmt := some "overlapping role: %s, %s",
             args := [msgarg.str "guest", msgarg.str "user"] }] }, false) ∧
      check_unique_roles_tree 3 sample_roles_cfg
          { rq := [{ role := some 3, pos := ⟨"db.ort", 9, 7⟩ },
                   { role := some 4, pos := ⟨"db.ort", 9, 1⟩ }] } =
        some ({ sample_roles_cfg with msgs := sample_roles_cfg.msgs ++
          [{ type := msgtype.MSGTYPE_ERROR, chan := channel, er := 0,
             pos := some ⟨"db.ort", 9, 7⟩,
             fmt := some "overlapping role: %s, %s",
             args := [msgarg.str "guest", msgarg.str "user"] }] }, false) :=
  role_with_parent_overlaps_once sample_roles_cfg sample_depth sample_roles_forest 4 3
    { name := "guest", parent := some 3, pos := ⟨"db.ort", 4, 1⟩ } rfl rfl
    { name := "user", parent := some 0, pos := ⟨"db.ort", 3, 1⟩ } rfl
    ⟨"db.ort", 9, 1⟩ ⟨"db.ort", 9, 7⟩ 3 (by decide)

/-! ## C8: two unique statements over the same fields -/

theorem unique_covered_of_perm {u uu : unique}
    (h : (u.nq.map nref.field).Perm (uu.nq.map nref.field)) : unique_covered u uu = true := by
  unfold unique_covered
  rw [List.all_eq_true]
  intro nf hnf
  rw [List.any_eq_true]
  have hm : nf.field ∈ uu.nq.map nref.field := h.subset (List.mem_map_of_mem _ hnf)
  obtain ⟨unf, hunf, e⟩ := List.mem_map.1 hm
  exact ⟨unf, hunf, by simp [e]⟩

set_option maxRecDepth 100000 in
/-- C8, counterexample: on a struct with the unique statements `(f1, f2)` at
line 5 and `(f2, f1)` at line 6, `check_unique_unique` records two errors, not
one, the second of them positioned at the later declaration. -/
theorem swapped_uniques_two_errors :
    ¬ ((check_unique_unique (mk_config [swapped_uniques]) swapped_uniques).1.msgs.length = 1) ∧
    (check_unique_unique (mk_config [swapped_uniques]) swapped_uniques).1.msgs.map msg.pos =
      [some ⟨"db.ort", 5, 1⟩, some ⟨"db.ort", 6, 1⟩] := by
  decide

/-- C8, amended: for a struct with exactly two unique statements that list the
same fields, `check_unique_unique` returns failure and records exactly two
"duplicate unique statements" errors: the first positioned at the earlier
declaration and naming the later one, the second positioned at the later
declaration and naming the earlier one. -/
theorem duplicate_uniques_reported_twice (cfg : config) (s : strct) (u1 u2 : unique)
    (hs : s.nq = [u1, u2])
    (hp : (u1.nq.map nref.field).Perm (u2.nq.map nref.field)) :
    check_unique_unique cfg s =
      ({ cfg with msgs := cfg.msgs ++ [duplicate_unique_msg u1 u2, duplicate_unique_msg u2 u1] },
        false) := by
  have hlen : u2.nq.length = u1.nq.length := by
    have := hp.length_eq
    simpa using this.symm
  have c12 := unique_covered_of_perm hp
  have c21 := unique_covered_of_perm hp.symm
  simp only [check_unique_unique, hs, List.enum, List.enumFrom, check_unique_unique_u,
    check_unique_unique_uu, if_true, zero_add, one_ne_zero, zero_ne_one, if_false, hlen,
    ne_eq, not_true_eq_false, c12, c21, Bool.true_eq_false]
  simp [gen_errx, ort_msg, duplicate_unique_msg]

set_option maxRecDepth 100000 in
/-- Witness of the amended C8 on `swapped_uniques`. -/
theorem duplicate_uniques_reported_twice_witness :
    check_unique_unique (mk_config [swapped_uniques]) swapped_uniques =
      ({ mk_config [swapped_uniques] with msgs := (mk_config [swapped_uniques]).msgs ++
          [duplicate_unique_msg (mk_unique 5 [1, 2]) (mk_unique 6 [2, 1]),
           duplicate_unique_msg (mk_unique 6 [2, 1]) (mk_unique 5 [1, 2])] }, false) :=
  duplicate_uniques_reported_twice (mk_config [swapped_uniques]) swapped_uniques
    (mk_unique 5 [1, 2]) (mk_unique 6 [2, 1]) rfl (by decide)

/-! ## C7: duplicate unique statements behind an unrelated one -/

set_option maxRecDepth 100000 in
/-- C7, the code at the failing input: the second and third unique statement
of `shadowed_uniques` cover the same set of fields, yet `ort_parse_close`
returns success and records no message, because the comparison of each
statement stops at the first statement of the same size that differs. -/
theorem shadowed_duplicate_uniques_accepted :
    ort_parse_close env_id 10 shadowed_cfg = some (shadowed_cfg, true) ∧
    shadowed_cfg.msgs = [] ∧
    shadowed_cfg.heap[0]? = some shadowed_uniques ∧
    shadowed_uniques.nq[1]? = some (mk_unique 7 [3, 4]) ∧
    shadowed_uniques.nq[2]? = some (mk_unique 8 [4, 3]) ∧
    ((mk_unique 7 [3, 4]).nq.map nref.field).Perm ((mk_unique 8 [4, 3]).nq.map nref.field) ∧
    ((mk_unique 7 [3, 4]).nq.map nref.field).Nodup ∧
    ((mk_unique 8 [4, 3]).nq.map nref.field).Nodup := by
  decide

/-! ## C2: a two-cycle next to another cycle -/

theorem cycles_check_recursive_diverges (fuel : Nat) :
    ∀ r : ref, r.target.parent = 1 ∨ r.target.parent = 2 →
      check_recursive cycles_cfg.heap fuel r 0 = none := by
  induction fuel with
  | zero => intro r _; rfl
  | succ fuel ih =>
    intro r hr
    have h1 := ih { target := ⟨1, 0⟩, source := ⟨2, 1⟩ } (Or.inl rfl)
    have h2 := ih { target := ⟨2, 0⟩, source := ⟨1, 1⟩ } (Or.inr rfl)
    have hb : cycles_cfg.heap[1]? = some (mk_strct 1 "b" [2, 0]) := rfl
    have hc : cycles_cfg.heap[2]? = some (mk_strct 2 "c" [1]) := rfl
    rcases hr with e | e
    · simp [check_recursive, e, hb, mk_strct, embed_fields, check_recursive_fq, h2]
    · simp [check_recursive, e, hc, mk_strct, embed_fields, check_recursive_fq, h1]

/-- C2, the code at the failing input: `cycles_cfg` passes the uniqueness and
role checks and contains the two-cycle of `a` and `b`, but `ort_parse_close`
produces no result for any recursion budget: `check_recursive`, checking `a`,
descends from `b` into the cycle of `b` and `c`, which never meets `a`. -/
theorem two_cycle_check_never_returns (fuel : Nat) :
    ort_parse_close_unique cycles_cfg 0 cycles_cfg.sq = some (cycles_cfg, 0) ∧
    ort_parse_close_roles check_unique_roles cycles_cfg 0 cycles_cfg.sq = some (cycles_cfg, 0) ∧
    ort_parse_close_roles (check_unique_roles_tree fuel) cycles_cfg 0 cycles_cfg.sq =
      some (cycles_cfg, 0) ∧
    embeds cycles_cfg.heap 0 1 ∧ embeds cycles_cfg.heap 1 0 ∧
    ort_parse_close env_id fuel cycles_cfg = none := by
  have h1 : ort_parse_close_unique cycles_cfg 0 cycles_cfg.sq = some (cycles_cfg, 0) := by
    decide
  have h2 : ort_parse_close_roles check_unique_roles cycles_cfg 0 cycles_cfg.sq =
      some (cycles_cfg, 0) := by decide
  have h3 : ort_parse_close_roles (check_unique_roles_tree fuel) cycles_cfg 0 cycles_cfg.sq =
      some (cycles_cfg, 0) := rfl
  have h4 : cycles_cfg.rq = [] := rfl
  have h5 : ort_parse_close_recursive fuel cycles_cfg 0 cycles_cfg.sq = none := by
    have hd := cycles_check_recursive_diverges fuel
      { target := ⟨1, 0⟩, source := ⟨0, 1⟩ } (Or.inl rfl)
    have ha : cycles_cfg.heap[0]? = some (mk_strct 0 "a" [1]) := rfl
    have hsq : cycles_cfg.sq = [0, 1, 2] := rfl
    simp [hsq, ort_parse_close_recursive, ha, mk_strct, embed_fields,
      ort_parse_close_recursive_fq, hd]
  refine ⟨h1, h2, h3, by decide, by decide, ?_⟩
  have hne : ¬ (cycles_cfg.sq = []) := by decide
  simp only [ort_parse_close, hne, if_false, env_id, and_then, ort_parse_close_linked, h1, h2,
    h3, h4, h5, Option.map_some', Option.map_none', decide_True, if_true]

/-! ## C3 and C4: a struct reached before its embedder -/

set_option maxRecDepth 100000 in
/-- C4, the code at the failing input: linking `shortcut_cfg` succeeds, `x`
embeds `y`, and yet the final height of `y` (1) is smaller than that of `x`
(2): `y` was coloured at depth 1 before the traversal reached `x`. -/
theorem shortcut_height_not_increasing :
    ort_parse_close env_id 10 shortcut_cfg = some (shortcut_linked, true) ∧
    embeds shortcut_linked.heap 3 1 ∧
    height_of shortcut_linked.heap 3 = 2 ∧
    height_of shortcut_linked.heap 1 = 1 := by
  decide

theorem ort_parse_close_nullrefs_none (fuel : Nat) (h : List strct) (l : List strctp)
    (hl : ∀ p ∈ l, check_reffind h fuel p = some false) :
    ort_parse_close_nullrefs fuel h l = some h := by
  induction l with
  | nil => rfl
  | cons p ps ih =>
    simp only [ort_parse_close_nullrefs, hl p (List.mem_cons_self _ _)]
    exact ih (fun x hx => hl x (List.mem_cons_of_mem _ hx))

theorem precedes_of_pairwise {R : strctp → strctp → Prop} {l : List strctp}
    (hp : l.Pairwise R) {a b : strctp} (ha : a ∈ l) (hb : b ∈ l) (hab : a ≠ b)
    (hR : ¬ R b a) : ∃ i j : Nat, i < j ∧ l[i]? = some a ∧ l[j]? = some b := by
  obtain ⟨i, hi⟩ := List.mem_iff_getElem?.1 ha
  obtain ⟨j, hj⟩ := List.mem_iff_getElem?.1 hb
  refine ⟨i, j, ?_, hi, hj⟩
  obtain ⟨hil, hie⟩ := List.getElem?_eq_some.1 hi
  obtain ⟨hjl, hje⟩ := List.getElem?_eq_some.1 hj
  rcases Nat.lt_trichotomy i j with hlt | heq | hgt
  · exact hlt
  · subst heq
    rw [hi] at hj
    cases hj
    exact absurd rfl hab
  · have := List.pairwise_iff_getElem.1 hp j i hjl hil hgt
    rw [hie, hje] at this
    exact absurd this hR

set_option maxRecDepth 100000 in
/-- C3, the code at the failing input: whatever conforming `qsort` is used,
linking `shortcut_cfg` succeeds, `x` (3) embeds `y` (1), and in the final list
of structs `x` comes before `y`: the dependency follows its dependent. -/
theorem shortcut_dependency_follows_dependent
    (qsort : (strctp → strctp → Int) → List strctp → List strctp)
    (hq : QsortContract qsort) :
    ∃ sq2, ort_parse_close { env_id with qsort := qsort } 10 shortcut_cfg =
        some ({ shortcut_linked with sq := sq2 }, true) ∧
      embeds shortcut_linked.heap 3 1 ∧
      ∃ i j : Nat, i < j ∧ sq2[i]? = some 3 ∧ sq2[j]? = some 1 := by
  obtain ⟨hperm, hsorted⟩ := hq (parse_cmp shortcut_linked.heap) [0, 1, 2, 3]
  have hs := hsorted (by decide) (by decide)
  refine ⟨(qsort (parse_cmp shortcut_linked.heap) [0, 1, 2, 3]).reverse, ?_, by decide, ?_⟩
  · have hrun : ort_parse_close { env_id with qsort := qsort } 10 shortcut_cfg =
        (ort_parse_close_nullrefs 10 shortcut_linked.heap
          (qsort (parse_cmp shortcut_linked.heap) [0, 1, 2, 3]).reverse).map
          (fun h => ({ shortcut_linked with
            sq := (qsort (parse_cmp shortcut_linked.heap) [0, 1, 2, 3]).reverse,
            heap := h }, true)) := rfl
    have hnone : ∀ p ∈ (qsort (parse_cmp shortcut_linked.heap) [0, 1, 2, 3]).reverse,
        check_reffind shortcut_linked.heap 10 p = some false := by
      intro p hp
      have hmem : p ∈ [0, 1, 2, 3] := hperm.subset (List.mem_reverse.1 hp)
      have hall : ∀ x ∈ [0, 1, 2, 3], check_reffind shortcut_linked.heap 10 x = some false := by
        decide
      exact hall p hmem
    rw [hrun, ort_parse_close_nullrefs_none 10 _ _ hnone]
    rfl
  · exact precedes_of_pairwise (List.pairwise_reverse.2 hs)
      (List.mem_reverse.2 (hperm.symm.subset (by decide)))
      (List.mem_reverse.2 (hperm.symm.subset (by decide))) (by decide) (by decide)

set_option maxRecDepth 100000 in
/-- The failing input of C3 run with insertion sort as `qsort`. -/
theorem shortcut_dependency_follows_dependent_witness :
    ∃ sq2, ort_parse_close { env_id with qsort := isort } 10 shortcut_cfg =
        some ({ shortcut_linked with sq := sq2 }, true) ∧
      embeds shortcut_linked.heap 3 1 ∧
      ∃ i j : Nat, i < j ∧ sq2[i]? = some 3 ∧ sq2[j]? = some 1 :=
  shortcut_dependency_follows_dependent isort isort_contract

/-! ## C5: heights of a top-level struct and of what it embeds -/

theorem pathlen_last {h : List strct} {a z : strctp} {d : Nat} (hp : PathLen h a z d)
    (hd : 1 ≤ d) : ∃ b, embeds h b z := by
  cases hp with
  | zero => omega
  | step _ he => exact ⟨_, he⟩

theorem getElem?_of_length_eq {h h2 : List strct} (hlen : h2.length = h.length) {z : strctp}
    {s2 : strct} (hz : h2[z]? = some s2) : ∃ s, h[z]? = some s := by
  obtain ⟨hlt, -⟩ := List.getElem?_eq_some.1 hz
  exact ⟨h[z], List.getElem?_eq_getElem (hlen ▸ hlt)⟩

theorem generation_step (H0 : List strct) (X Y : strctp)
    (hXY : embeds H0 X Y) (htop : ∀ w, ¬ embeds H0 w X)
    (c : Nat) (h h2 : List strct) (p : strctp) (sp : strct)
    (hst : h.map static_part = H0.map static_part)
    (hcol : ∀ s ∈ h, s.colour < c)
    (hp : h[p]? = some sp)
    (hrel : gen_rel h p c h2)
    (htc : ∀ f ∈ sp.fq, f.type = ftype.FTYPE_STRUCT → ∀ r, f.ref = some r →
      ∃ x, h2[r.target.parent]? = some x ∧ x.colour = c) :
    h2.map static_part = H0.map static_part ∧ (∀ s ∈ h2, s.colour < c + 1) ∧
    (∀ s0 s2, h[X]? = some s0 → h2[X]? = some s2 →
      s2.height = s0.height ∧ (p ≠ X → s2.colour = s0.colour)) ∧
    (∀ t0, h[Y]? = some t0 → ∃ t2, h2[Y]? = some t2 ∧ t0.height ≤ t2.height) ∧
    (p = X → ∃ t2, h2[Y]? = some t2 ∧ 1 ≤ t2.height) := by
  have hst2 : h2.map static_part = H0.map static_part := (gen_rel_static hrel).trans hst
  obtain ⟨hlen, hr⟩ := hrel
  refine ⟨hst2, ?_, ?_, ?_, ?_⟩
  · intro s hs
    obtain ⟨n, hn⟩ := List.mem_iff_getElem?.1 hs
    obtain ⟨s0, hs0⟩ := getElem?_of_length_eq hlen hn
    obtain ⟨s1, hs1, hcase⟩ := hr n s0 hs0
    rw [hn] at hs1
    cases hs1
    rcases hcase with e | ⟨_, e⟩ | ⟨_, d, _, _, e⟩
    · rw [e]
      have := hcol s0 (List.mem_iff_getElem?.2 ⟨n, hs0⟩)
      omega
    · rw [e]
      exact Nat.lt_succ_self c
    · rw [e]
      exact Nat.lt_succ_self c
  · intro s0 s2 hs0 hs2
    obtain ⟨s1, hs1, hcase⟩ := hr X s0 hs0
    rw [hs2] at hs1
    cases hs1
    rcases hcase with e | ⟨e1, e⟩ | ⟨_, d, hd, hpl, _⟩
    · rw [e]
      exact ⟨rfl, fun _ => rfl⟩
    · rw [e]
      exact ⟨rfl, fun hne => absurd e1.symm hne⟩
    · obtain ⟨b, hb⟩ := pathlen_last hpl hd
      exact absurd (embeds_static hst hb) (htop b)
  · intro t0 ht0
    obtain ⟨t1, ht1, hcase⟩ := hr Y t0 ht0
    refine ⟨t1, ht1, ?_⟩
    rcases hcase with e | ⟨_, e⟩ | ⟨_, d, _, _, e⟩
    · rw [e]
    · rw [e]
    · rw [e]
      exact Nat.le_add_right _ _
  · intro hpX
    subst hpX
    obtain ⟨s, hs, f, hf, hft, r, hrf, hy⟩ := embeds_static hst.symm hXY
    rw [Option.mem_def, hp] at hs
    cases hs
    rw [Option.mem_def] at hrf
    subst hy
    obtain ⟨x, hx, hxc⟩ := htc f hf hft r hrf
    obtain ⟨t0, ht0⟩ := getElem?_of_length_eq hlen hx
    obtain ⟨t1, ht1, hcase⟩ := hr _ t0 ht0
    rw [hx] at ht1
    cases ht1
    refine ⟨x, hx, ?_⟩
    rcases hcase with e | ⟨e1, _⟩ | ⟨_, d, hd, _, e⟩
    · have := hcol t0 (List.mem_iff_getElem?.2 ⟨_, ht0⟩)
      rw [e] at hxc
      omega
    · rw [e1] at hXY
      exact absurd hXY (htop _)
    · rw [e]
      exact le_trans hd (Nat.le_add_left _ _)

theorem height_pass_top_level (H0 : List strct) (X Y : strctp)
    (hXY : embeds H0 X Y) (htop : ∀ w, ¬ embeds H0 w X) (fuel : Nat) (l : List strctp) :
    ∀ (h : List strct) (c sz : Nat) (h2 : List strct) (sz2 : Nat),
      h.map static_part = H0.map static_part →
      (∀ s ∈ h, s.colour < c) → 1 ≤ c →
      (∀ s, h[X]? = some s → s.height = 0) →
      ((∀ s, h[X]? = some s → s.colour = 0) ∨ ∃ t, h[Y]? = some t ∧ 1 ≤ t.height) →
      ort_parse_close_height fuel h c sz l = some (h2, sz2) →
      (∀ s, h2[X]? = some s → s.height = 0) ∧
      ((X ∈ l ∨ ∃ t, h[Y]? = some t ∧ 1 ≤ t.height) → ∃ t, h2[Y]? = some t ∧ 1 ≤ t.height) := by
  induction l with
  | nil =>
    intro h c sz h2 sz2 _ _ _ hC _ he
    simp only [ort_parse_close_height, Option.some.injEq, Prod.mk.injEq] at he
    obtain ⟨rfl, -⟩ := he
    refine ⟨hC, fun hor => ?_⟩
    rcases hor with hx | hy
    · cases hx
    · exact hy
  | cons p ps ih =>
    intro h c sz h2 sz2 hA hB hc hC hD he
    simp only [ort_parse_close_height] at he
    split at he
    · cases he
    · rename_i s hs
      split at he
      · rename_i hcol
        obtain ⟨r1, r2⟩ := ih h c (sz + 1) h2 sz2 hA hB hc hC hD he
        refine ⟨r1, fun hor => r2 ?_⟩
        rcases hor with hx | hy
        · rcases List.mem_cons.1 hx with e | hx
          · subst e
            rcases hD with hD | hD
            · exact absurd (hD s hs) hcol
            · exact Or.inr hD
          · exact Or.inl hx
        · exact Or.inr hy
      · split at he
        · cases he
        · rename_i h1 hg
          have hrel := ort_parse_close_generation_rel c fuel p h s hs h1 hg
          have htc := (ort_parse_close_generation_coloured c fuel p s.fq h h1 hg).2
          obtain ⟨gA, gB, gX, gY, gP⟩ :=
            generation_step H0 X Y hXY htop c h h1 p s hA hB hs hrel htc
          have gC : ∀ s, h1[X]? = some s → s.height = 0 := by
            intro s1 hs1
            obtain ⟨s0, hs0⟩ := getElem?_of_length_eq hrel.1 hs1
            rw [(gX s0 s1 hs0 hs1).1]
            exact hC s0 hs0
          have gYok : (∃ t, h[Y]? = some t ∧ 1 ≤ t.height) →
              ∃ t, h1[Y]? = some t ∧ 1 ≤ t.height := by
            intro ⟨t, ht, hge⟩
            obtain ⟨t2, ht2, hle⟩ := gY t ht
            exact ⟨t2, ht2, le_trans hge hle⟩
          have gD : (∀ s, h1[X]? = some s → s.colour = 0) ∨
              ∃ t, h1[Y]? = some t ∧ 1 ≤ t.height := by
            by_cases hpX : p = X
            · exact Or.inr (gP hpX)
            · rcases hD with hD | hD
              · left
                intro s1 hs1
                obtain ⟨s0, hs0⟩ := getElem?_of_length_eq hrel.1 hs1
                rw [(gX s0 s1 hs0 hs1).2 hpX]
                exact hD s0 hs0
              · exact Or.inr (gYok hD)
          obtain ⟨r1, r2⟩ := ih h1 (c + 1) (sz + 1) h2 sz2 gA gB (by omega) gC gD he
          refine ⟨r1, fun hor => r2 ?_⟩
          rcases hor with hx | hy
          · rcases List.mem_cons.1 hx with e | hx
            · exact Or.inr (gP e.symm)
            · exact Or.inl hx
          · exact Or.inr (gYok hy)

theorem height_of_map {h h2 : List strct} (e : h2.map strct.height = h.map strct.height)
    (p : strctp) : height_of h2 p = height_of h p := by
  have e2 : (h2.map strct.height)[p]? = (h.map strct.height)[p]? := by rw [e]
  rw [List.getElem?_map, List.getElem?_map] at e2
  unfold height_of
  cases h2p : h2[p]? with
  | none =>
    cases hp : h[p]? with
    | none => rfl
    | some s =>
      rw [h2p, hp] at e2
      cases e2
  | some s2 =>
    cases hp : h[p]? with
    | none =>
      rw [h2p, hp] at e2
      cases e2
    | some s =>
      rw [h2p, hp] at e2
      simp only [Option.map_some', Option.some.injEq] at e2
      exact e2

set_option maxRecDepth 100000 in
/-- C5, counterexample: linking `pair_cfg` succeeds and `x` embeds `y`
directly, but the final height of `x` (0) is not greater than that of `y`
(1). -/
theorem embedder_height_not_greater :
    ort_parse_close env_id 10 pair_cfg = some (pair_linked, true) ∧
    embeds pair_linked.heap 0 1 ∧
    ¬ (height_of pair_linked.heap 1 < height_of pair_linked.heap 0) := by
  decide

/-- C5, amended: for every configuration whose structs all have height and
colour zero when the checks start and on which `ort_parse_close` returns
success, if struct `X` embeds struct `Y` directly and no struct embeds `X`,
then the final height of `Y` is strictly greater than the final height of `X`,
which is zero. -/
theorem embedded_height_exceeds_top_level (E : env) (fuel : Nat) (cfg cfg2 : config)
    (h : ort_parse_close E fuel cfg = some (cfg2, true))
    (hzero : ∀ s ∈ (resolved E cfg).heap, s.height = 0 ∧ s.colour = 0)
    (X Y : strctp) (hX : X ∈ (resolved E cfg).sq)
    (hXY : embeds (resolved E cfg).heap X Y)
    (htop : ∀ w, ¬ embeds (resolved E cfg).heap w X) :
    height_of cfg2.heap X < height_of cfg2.heap Y ∧ height_of cfg2.heap X = 0 := by
  have hl := (ort_parse_close_success h).2
  obtain ⟨-, -, -, h6, sz, hh, -, hhe⟩ := ort_parse_close_linked_frame hl
  obtain ⟨r1, r2⟩ := height_pass_top_level (resolved E cfg).heap X Y hXY htop fuel
    (resolved E cfg).sq (resolved E cfg).heap 1 0 h6 sz rfl
    (fun s hs => by rw [(hzero s hs).2]; exact Nat.zero_lt_one) (le_refl 1)
    (fun s hs => (hzero s (List.mem_iff_getElem?.2 ⟨X, hs⟩)).1)
    (Or.inl (fun s hs => (hzero s (List.mem_iff_getElem?.2 ⟨X, hs⟩)).2)) hh
  obtain ⟨t, ht, hge⟩ := r2 (Or.inl hX)
  have eX : height_of cfg2.heap X = 0 := by
    rw [height_of_map hhe X]
    unfold height_of
    cases hx : h6[X]? with
    | none => rfl
    | some s => exact r1 s hx
  have eY : 1 ≤ height_of cfg2.heap Y := by
    rw [height_of_map hhe Y]
    unfold height_of
    rw [ht]
    exact hge
  exact ⟨by omega, eX⟩

theorem pair_cfg_top (w : strctp) : ¬ embeds (resolved env_id pair_cfg).heap w 0 := by
  rcases w with _ | _ | w
  · decide
  · decide
  · intro ⟨s, hs, _⟩
    cases hs

set_option maxRecDepth 100000 in
/-- Witness of the amended C5 on `pair_cfg`, where `x` (0) embeds `y` (1). -/
theorem embedded_height_exceeds_top_level_witness :
    height_of pair_linked.heap 0 < height_of pair_linked.heap 1 ∧
    height_of pair_linked.heap 0 = 0 :=
  embedded_height_exceeds_top_level env_id 10 pair_cfg pair_linked (by decide) (by decide)
    0 1 (by decide) (by decide) pair_cfg_top

/-! ## C6: one traversal generation over a diamond -/

set_option maxRecDepth 100000 in
/-- C6, counterexample: in the diamond, which passes the recursion check, the
traversal generation of root `x` with colour 1 reaches `w` and raises its
height from 0 to 2, the depth at which `w` is reached, not by one. -/
theorem diamond_generation_adds_depth :
    ort_parse_close_recursive 10 diamond_cfg 0 diamond_cfg.sq = some (diamond_cfg, 0) ∧
    embeds diamond_cfg.heap 0 1 ∧ embeds diamond_cfg.heap 0 2 ∧
    embeds diamond_cfg.heap 1 3 ∧ embeds diamond_cfg.heap 2 3 ∧
    ort_parse_close_generation 10 0 1 diamond_cfg.heap (mk_strct 0 "x" [1, 2]).fq =
      some diamond_after ∧
    height_of diamond_cfg.heap 3 = 0 ∧
    ¬ (height_of diamond_after 3 = height_of diamond_cfg.heap 3 + 1) := by
  decide

/-- C6, amended: a traversal generation with root `p` and colour `c` changes
the height of a struct `W` that does not yet carry the colour at most once.
If the generation reaches `W` (it leaves `W`, other than the root, with the
colour), the height of `W` has grown by exactly the number `d ≥ 1` of edges of
one embedding path from the root to `W`, whatever the number of such paths;
otherwise the height of `W` is unchanged. -/
theorem generation_adds_depth_once (fuel : Nat) (p : strctp) (c : Nat) (h0 h2 : List strct)
    (sp : strct) (hp : h0[p]? = some sp)
    (he : ort_parse_close_generation fuel p c h0 sp.fq = some h2)
    (W : strctp) (w0 : strct) (hw : h0[W]? = some w0) (hfresh : w0.colour ≠ c) :
    ∃ w2, h2[W]? = some w2 ∧
      ((w2.colour ≠ c ∨ W = p) → w2.height = w0.height) ∧
      (w2.colour = c → W ≠ p →
        ∃ d, 1 ≤ d ∧ PathLen h0 p W d ∧ w2.height = w0.height + d) := by
  obtain ⟨-, hr⟩ := ort_parse_close_generation_rel c fuel p h0 sp hp h2 he
  obtain ⟨w2, hw2, hcase⟩ := hr W w0 hw
  refine ⟨w2, hw2, ?_, ?_⟩
  · intro hor
    rcases hcase with e | ⟨_, e⟩ | ⟨hne, d, _, _, e⟩
    · rw [e]
    · rw [e]
    · rcases hor with hc | hWp
      · rw [e] at hc
        exact absurd rfl hc
      · exact absurd hWp hne
  · intro hc hne
    rcases hcase with e | ⟨e1, _⟩ | ⟨_, d, hd, hpl, e⟩
    · rw [e] at hc
      exact absurd hc hfresh
    · exact absurd e1 hne
    · exact ⟨d, hd, hpl, by rw [e]⟩

set_option maxRecDepth 100000 in
/-- Witness of the amended C6: the generation of root `x` over the diamond,
observed at `w`. -/
theorem generation_adds_depth_once_witness :
    ∃ w2, diamond_after[3]? = some w2 ∧
      ((w2.colour ≠ 1 ∨ 3 = 0) → w2.height = (mk_strct 3 "w" []).height) ∧
      (w2.colour = 1 → 3 ≠ 0 →
        ∃ d, 1 ≤ d ∧ PathLen diamond_cfg.heap 0 3 d ∧
          w2.height = (mk_strct 3 "w" []).height + d) :=
  generation_adds_depth_once 10 0 1 diamond_cfg.heap diamond_after (mk_strct 0 "x" [1, 2])
    (by decide) (by decide) 3 (mk_strct 3 "w" []) (by decide) (by decide)

/-! ## C17: User and Post, end to end -/

theorem qsort_two {qsort : (strctp → strctp → Int) → List strctp → List strctp}
    (hq : QsortContract qsort) (cmp : strctp → strctp → Int) (l : List strctp) (a b : strctp)
    (hl : l.Perm [a, b]) (hab : a ≠ b)
    (htot : ∀ x ∈ l, ∀ y ∈ l, cmp x y ≤ 0 ∨ cmp y x ≤ 0)
    (htr : ∀ x ∈ l, ∀ y ∈ l, ∀ z ∈ l, cmp x y ≤ 0 → cmp y z ≤ 0 → cmp x z ≤ 0)
    (hba : ¬ cmp b a ≤ 0) : qsort cmp l = [a, b] := by
  obtain ⟨hperm, hsorted⟩ := hq cmp l
  have hs := hsorted htot htr
  have hp2 : (qsort cmp l).Perm [a, b] := hperm.trans hl
  have hlen := hp2.length_eq
  have hnd : (qsort cmp l).Nodup := hp2.nodup_iff.2 (by simp [hab])
  match hL : qsort cmp l, hlen with
  | [x, y], _ =>
    rw [hL] at hp2 hs hnd
    have hx : x ∈ [a, b] := hp2.subset (List.mem_cons_self _ _)
    have hy : y ∈ [a, b] := hp2.subset (List.mem_cons_of_mem _ (List.mem_cons_self _ _))
    have hxy : x ≠ y := by
      intro e
      subst e
      simp at hnd
    have hc : cmp x y ≤ 0 := by
      have := List.pairwise_cons.1 hs
      exact this.1 y (List.mem_cons_self _ _)
    simp only [List.mem_cons, List.mem_singleton, List.not_mem_nil, or_false] at hx hy
    rcases hx with rfl | rfl <;> rcases hy with rfl | rfl
    · exact absurd rfl hxy
    · rfl
    · exact absurd hc hba
    · exact absurd rfl hxy

set_option maxRecDepth 100000 in
/-- C17: for the resolved configuration of `User {id rowid; email unique}` and
`Post {id rowid; nullable foreign key to User.id; author}`, in either
declaration order and with any conforming `qsort`, `ort_parse_close` returns
success, sets `STRCT_HAS_NULLREFS` on `Post` and not on `User`, leaves `User`
before `Post` in the list of structs, and records no diagnostic. -/
theorem user_post_end_to_end
    (qsort : (strctp → strctp → Int) → List strctp → List strctp)
    (hq : QsortContract qsort) :
    (ort_parse_close { env_id with qsort := qsort } 10 user_post_cfg =
        some (user_post_linked, true) ∧
      user_post_linked.sq = [0, 1] ∧
      user_post_linked.heap.map (fun s => (s.name, s.flags &&& STRCT_HAS_NULLREFS)) =
        [("user", 0), ("post", STRCT_HAS_NULLREFS)] ∧
      user_post_cfg.msgs = [] ∧ user_post_linked.msgs = []) ∧
    (ort_parse_close { env_id with qsort := qsort } 10 post_user_cfg =
        some (post_user_linked, true) ∧
      post_user_linked.sq = [1, 0] ∧
      post_user_linked.heap.map (fun s => (s.name, s.flags &&& STRCT_HAS_NULLREFS)) =
        [("post", STRCT_HAS_NULLREFS), ("user", 0)] ∧
      post_user_cfg.msgs = [] ∧ post_user_linked.msgs = []) := by
  refine ⟨⟨?_, by decide, by decide, by decide, by decide⟩,
    ⟨?_, by decide, by decide, by decide, by decide⟩⟩
  · have hL := qsort_two hq
      (parse_cmp [{ user_strct 0 with colour := 2, height := 1 },
                  { post_strct 1 0 with colour := 2 }]) [0, 1] 1 0
      (List.Perm.swap 1 0 []) (by decide) (by decide) (by decide) (by decide)
    have hrun : ort_parse_close { env_id with qsort := qsort } 10 user_post_cfg =
        (ort_parse_close_nullrefs 10
          [{ user_strct 0 with colour := 2, height := 1 }, { post_strct 1 0 with colour := 2 }]
          (qsort (parse_cmp [{ user_strct 0 with colour := 2, height := 1 },
                  { post_strct 1 0 with colour := 2 }]) [0, 1]).reverse).map
          (fun h => ({ user_post_cfg with
            sq := (qsort (parse_cmp [{ user_strct 0 with colour := 2, height := 1 },
                  { post_strct 1 0 with colour := 2 }]) [0, 1]).reverse,
            heap := h }, true)) := rfl
    rw [hrun, hL]
    decide
  · have hL := qsort_two hq
      (parse_cmp [{ post_strct 0 1 with colour := 1 },
                  { user_strct 1 with colour := 1, height := 1 }]) [0, 1] 0 1
      (List.Perm.refl _) (by decide) (by decide) (by decide) (by decide)
    have hrun : ort_parse_close { env_id with qsort := qsort } 10 post_user_cfg =
        (ort_parse_close_nullrefs 10
          [{ post_strct 0 1 with colour := 1 }, { user_strct 1 with colour := 1, height := 1 }]
          (qsort (parse_cmp [{ post_strct 0 1 with colour := 1 },
                  { user_strct 1 with colour := 1, height := 1 }]) [0, 1]).reverse).map
          (fun h => ({ post_user_cfg with
            sq := (qsort (parse_cmp [{ post_strct 0 1 with colour := 1 },
                  { user_strct 1 with colour := 1, height := 1 }]) [0, 1]).reverse,
            heap := h }, true)) := rfl
    rw [hrun, hL]
    decide

set_option maxRecDepth 100000 in
/-- Witness of C17 with insertion sort as `qsort`. -/
theorem user_post_end_to_end_witness :
    (ort_parse_close { env_id with qsort := isort } 10 user_post_cfg =
        some (user_post_linked, true) ∧
      user_post_linked.sq = [0, 1] ∧
      user_post_linked.heap.map (fun s => (s.name, s.flags &&& STRCT_HAS_NULLREFS)) =
        [("user", 0), ("post", STRCT_HAS_NULLREFS)] ∧
      user_post_cfg.msgs = [] ∧ user_post_linked.msgs = []) ∧
    (ort_parse_close { env_id with qsort := isort } 10 post_user_cfg =
        some (post_user_linked, true) ∧
      post_user_linked.sq = [1, 0] ∧
      post_user_linked.heap.map (fun s => (s.name, s.flags &&& STRCT_HAS_NULLREFS)) =
        [("post", STRCT_HAS_NULLREFS), ("user", 0)] ∧
      post_user_cfg.msgs = [] ∧ post_user_linked.msgs = []) :=
  user_post_end_to_end isort isort_contract

/-! ## C11: a role listed twice -/

theorem check_unique_roles_rrs_none (irs : Nat) (rs : rref) (l : List (Nat × rref))
    (hno : ∀ y ∈ l, ¬ (irs ≠ y.1 ∧ rs.role = y.2.role)) (cfg : config) (errs : Nat) :
    check_unique_roles_rrs irs rs cfg errs l = some (cfg, errs) := by
  induction l with
  | nil => rfl
  | cons y l ih =>
    obtain ⟨irrs, rrs⟩ := y
    have h0 := hno (irrs, rrs) (List.mem_cons_self _ _)
    simp only [check_unique_roles_rrs, h0, if_false]
    exact ih (fun z hz => hno z (List.mem_cons_of_mem _ hz))

theorem countP_eq_one {α : Type} [DecidableEq α] (t : α) (l : List α) (hnd : l.Nodup)
    (ht : t ∈ l) : l.countP (fun y => decide (y = t)) = 1 := by
  induction l with
  | nil => cases ht
  | cons y l ih =>
    obtain ⟨hy, hl⟩ := List.nodup_cons.1 hnd
    by_cases e : y = t
    · subst e
      rw [List.countP_cons_of_pos _ _ (by simp)]
      have : l.countP (fun z => decide (z = y)) = 0 := by
        rw [List.countP_eq_zero]
        intro z hz
        simp only [decide_eq_true_eq]
        intro e
        subst e
        exact hy hz
      rw [this]
    · rw [List.countP_cons_of_neg _ _ (by simp [e])]
      rcases List.mem_cons.1 ht with h | h
      · exact absurd h.symm e
      · exact ih hl h

theorem gen_errx_duplicate_role (cfg : config) (p : pos) (k : Nat) :
    { gen_errx cfg (some p) (some "duplicate operation role") [] with
      msgs := (gen_errx cfg (some p) (some "duplicate operation role") []).msgs ++
        List.replicate k (duplicate_role_msg p) } =
    { cfg with msgs := cfg.msgs ++ List.replicate (k + 1) (duplicate_role_msg p) } := by
  simp [gen_errx, ort_msg, duplicate_role_msg, List.replicate_succ, channel]

theorem check_unique_roles_rrs_count (irs : Nat) (rs : rref) (roles : List role) (r : rolep)
    (x : role) (hr : rs.role = some r) (hx : roles[r]? = some x) (t : Nat × rref)
    (l : List (Nat × rref))
    (hmatch : ∀ y ∈ l, (irs ≠ y.1 ∧ rs.role = y.2.role) ↔ y = t) :
    ∀ (cfg : config) (errs : Nat), cfg.roles = roles →
      check_unique_roles_rrs irs rs cfg errs l =
        some ({ cfg with msgs := cfg.msgs ++
            List.replicate (l.countP (fun y => decide (y = t))) (duplicate_role_msg x.pos) },
          errs + l.countP (fun y => decide (y = t))) := by
  induction l with
  | nil =>
    intro cfg errs _
    simp [check_unique_roles_rrs]
  | cons y l ih =>
    intro cfg errs hroles
    have ih2 := ih (fun z hz => hmatch z (List.mem_cons_of_mem _ hz))
    have hy := hmatch y (List.mem_cons_self _ _)
    obtain ⟨irrs, rrs⟩ := y
    by_cases hc : irs ≠ irrs ∧ rs.role = rrs.role
    · have e : (irrs, rrs) = t := hy.1 hc
      have hp : role_pos cfg.roles rrs.role = some x.pos := by
        rw [← hc.2, hr, hroles]
        simp [role_pos, hx]
      simp only [check_unique_roles_rrs]
      rw [if_pos hc]
      simp only [hp]
      rw [ih2 _ _ (by rw [gen_errx_roles]; exact hroles),
        List.countP_cons_of_pos _ _ (by simp [e]), gen_errx_duplicate_role]
      simp only [Option.some.injEq, Prod.mk.injEq, true_and]
      omega
    · have e : (irrs, rrs) ≠ t := fun e => hc (hy.2 e)
      simp only [check_unique_roles_rrs]
      rw [if_neg hc, ih2 _ _ hroles, List.countP_cons_of_neg _ _ (by simp [e])]

theorem replicate_append_one (m : msg) (l : List msg) (k : Nat) :
    (l ++ [m]) ++ List.replicate k m = l ++ List.replicate (k + 1) m := by
  simp [List.replicate_succ]

theorem check_unique_roles_rs_pair (roles : List role) (r : rolep) (x : role)
    (hx : roles[r]? = some x) (all : List (Nat × rref)) (hnd : all.Nodup)
    (a b : Nat) (ea eb : rref) (hab : a ≠ b) (ha : (a, ea) ∈ all) (hb : (b, eb) ∈ all)
    (hra : ea.role = some r) (hrb : eb.role = some r)
    (huniq : ∀ y ∈ all, ∀ z ∈ all, y.1 ≠ z.1 → y.2.role = z.2.role →
      (y = (a, ea) ∧ z = (b, eb)) ∨ (y = (b, eb) ∧ z = (a, ea)))
    (l : List (Nat × rref)) (hl : ∀ y ∈ l, y ∈ all) :
    ∀ (cfg : config) (errs : Nat), cfg.roles = roles →
      check_unique_roles_rs all cfg errs l =
        some ({ cfg with msgs := cfg.msgs ++
            List.replicate (l.countP (fun y => decide (y = (a, ea) ∨ y = (b, eb)))) (duplicate_role_msg x.pos) },
          errs + l.countP (fun y => decide (y = (a, ea) ∨ y = (b, eb)))) := by
  have hne : (a, ea) ≠ (b, eb) := fun e => hab (congrArg Prod.fst e)
  induction l with
  | nil =>
    intro cfg errs _
    simp [check_unique_roles_rs]
  | cons y l ih =>
    intro cfg errs hroles
    have ih2 := ih (fun z hz => hl z (List.mem_cons_of_mem _ hz))
    have hy := hl y (List.mem_cons_self _ _)
    have hr2 : ∀ m : List msg, ({ cfg with msgs := m } : config).roles = roles := fun _ => hroles
    by_cases e1 : y = (a, ea)
    · subst e1
      have hin := check_unique_roles_rrs_count a ea roles r x hra hx (b, eb) all
        (fun z hz => ⟨fun hc => by
            rcases huniq (a, ea) ha z hz hc.1 hc.2 with h | h
            · exact h.2
            · exact absurd h.1 hne,
          fun e => by
            subst e
            exact ⟨hab, by rw [hra, hrb]⟩⟩) cfg errs hroles
      rw [countP_eq_one _ _ hnd hb] at hin
      simp only [check_unique_roles_rs, hin]
      rw [ih2 _ _ (hr2 _), List.countP_cons_of_pos _ _ (by simp)]
      simp only [List.replicate_one, replicate_append_one, Option.some.injEq, Prod.mk.injEq,
        true_and]
      omega
    · by_cases e2 : y = (b, eb)
      · subst e2
        have hin := check_unique_roles_rrs_count b eb roles r x hrb hx (a, ea) all
          (fun z hz => ⟨fun hc => by
              rcases huniq (b, eb) hb z hz hc.1 hc.2 with h | h
              · exact absurd h.1 hne.symm
              · exact h.2,
            fun e => by
              subst e
              exact ⟨fun h => hab h.symm, by rw [hra, hrb]⟩⟩) cfg errs hroles
        rw [countP_eq_one _ _ hnd ha] at hin
        simp only [check_unique_roles_rs, hin]
        rw [ih2 _ _ (hr2 _), List.countP_cons_of_pos _ _ (by simp)]
        simp only [List.replicate_one, replicate_append_one, Option.some.injEq, Prod.mk.injEq,
          true_and]
        omega
      · have hin := check_unique_roles_rrs_none y.1 y.2 all
          (fun z hz hc => by
            rcases huniq y hy z hz hc.1 hc.2 with h | h
            · exact e1 h.1
            · exact e2 h.1) cfg errs
        obtain ⟨iy, ry⟩ := y
        simp only [check_unique_roles_rs]
        simp only at hin
        rw [hin]
        simp only
        rw [ih2 _ _ hroles, List.countP_cons_of_neg _ _ (by simp [e1, e2])]

theorem countP_pair {α : Type} [DecidableEq α] (s t : α) (hst : s ≠ t) (l : List α)
    (hnd : l.Nodup) (hs : s ∈ l) (ht : t ∈ l) :
    l.countP (fun y => decide (y = s ∨ y = t)) = 2 := by
  have h1 := countP_eq_one s l hnd hs
  have h2 := countP_eq_one t l hnd ht
  have h3 : ∀ l : List α, l.countP (fun y => decide (y = s ∨ y = t)) =
      l.countP (fun y => decide (y = s)) + l.countP (fun y => decide (y = t)) := by
    intro l
    induction l with
    | nil => rfl
    | cons y l ih =>
      by_cases e1 : y = s
      · have e2 : y ≠ t := fun e => hst (e1.symm.trans e)
        rw [List.countP_cons_of_pos _ _ (by simp [e1]), List.countP_cons_of_pos _ _ (by simp [e1]),
          List.countP_cons_of_neg _ _ (by simp [e2]), ih]
        omega
      · by_cases e2 : y = t
        · rw [List.countP_cons_of_pos _ _ (by simp [e2]),
            List.countP_cons_of_neg _ _ (by simp [e1]),
            List.countP_cons_of_pos _ _ (by simp [e2]), ih]
          omega
        · rw [List.countP_cons_of_neg _ _ (by simp [e1, e2]),
            List.countP_cons_of_neg _ _ (by simp [e1]),
            List.countP_cons_of_neg _ _ (by simp [e2]), ih]
  rw [h3, h1, h2]

theorem enum_nodup {α : Type} (l : List α) : l.enum.Nodup :=
  List.Nodup.of_map Prod.fst (by rw [List.enum_map_fst]; exact List.nodup_range _)

set_option maxRecDepth 100000 in
/-- C11, counterexample: for the rolemap `admin, user, admin`, in which only
`admin` appears twice, `check_unique_roles` records two "duplicate operation
role" errors, not one. -/
theorem repeated_role_two_errors :
    (check_unique_roles sample_roles_cfg repeated_role_map).map
        (fun r => (r.1.msgs.map msg.fmt, r.2)) =
      some ([some "duplicate operation role", some "duplicate operation role"], false) ∧
    ¬ ((check_unique_roles sample_roles_cfg repeated_role_map).map
        (fun r => r.1.msgs.length) = some 1) := by
  decide

/-- C11, amended: for a rolemap in which exactly one role appears twice (at the
entries `a` and `b`) and no other two entries name the same role,
`check_unique_roles` returns failure and records exactly two "duplicate
operation role" errors, one for each of the two entries, both positioned at
the declaration of the role. -/
theorem duplicate_role_reported_twice (cfg : config) (rm : rolemap) (a b : Nat)
    (ea eb : rref) (r : rolep) (x : role) (hab : a ≠ b)
    (ha : rm.rq[a]? = some ea) (hb : rm.rq[b]? = some eb)
    (hra : ea.role = some r) (hrb : eb.role = some r) (hx : cfg.roles[r]? = some x)
    (huniq : ∀ (i j : Nat) (ri rj : rref), i ≠ j → rm.rq[i]? = some ri → rm.rq[j]? = some rj →
      ri.role = rj.role → (i = a ∧ j = b) ∨ (i = b ∧ j = a)) :
    check_unique_roles cfg rm =
      some ({ cfg with msgs := cfg.msgs ++
        [duplicate_role_msg x.pos, duplicate_role_msg x.pos] }, false) := by
  have hma := List.mk_mem_enum_iff_getElem?.2 ha
  have hmb := List.mk_mem_enum_iff_getElem?.2 hb
  have hnd := enum_nodup rm.rq
  have h := check_unique_roles_rs_pair cfg.roles r x hx rm.rq.enum hnd a b ea eb hab hma hmb
    hra hrb
    (fun y hy z hz hne hro => by
      obtain ⟨i, ri⟩ := y
      obtain ⟨j, rj⟩ := z
      have hi := List.mk_mem_enum_iff_getElem?.1 hy
      have hj := List.mk_mem_enum_iff_getElem?.1 hz
      rcases huniq i j ri rj hne hi hj hro with ⟨e1, e2⟩ | ⟨e1, e2⟩
      · subst e1 e2
        rw [ha] at hi
        rw [hb] at hj
        cases hi
        cases hj
        exact Or.inl ⟨rfl, rfl⟩
      · subst e1 e2
        rw [hb] at hi
        rw [ha] at hj
        cases hi
        cases hj
        exact Or.inr ⟨rfl, rfl⟩)
    rm.rq.enum (fun _ hy => hy) cfg 0 rfl
  rw [countP_pair (a, ea) (b, eb) (fun e => hab (congrArg Prod.fst e)) _ hnd hma hmb] at h
  simp only [check_unique_roles, h]
  rfl

set_option maxRecDepth 100000 in
/-- Witness of the amended C11 on the rolemap `admin, user, admin`. -/
theorem duplicate_role_reported_twice_witness :
    check_unique_roles sample_roles_cfg repeated_role_map =
      some ({ sample_roles_cfg with msgs := sample_roles_cfg.msgs ++
        [duplicate_role_msg ⟨"db.ort", 2, 1⟩, duplicate_role_msg ⟨"db.ort", 2, 1⟩] }, false) :=
  duplicate_role_reported_twice sample_roles_cfg repeated_role_map 0 2
    { role := some 2, pos := ⟨"db.ort", 9, 1⟩ } { role := some 2, pos := ⟨"db.ort", 9, 13⟩ } 2
    { name := "admin", parent := some 0, pos := ⟨"db.ort", 2, 1⟩ } (by decide) rfl rfl rfl rfl rfl
    (by
      intro i j ri rj hij hi hj hro
      rcases i with _ | _ | _ | i <;> rcases j with _ | _ | _ | j <;>
        simp [repeated_role_map] at hi hj <;> subst hi <;> subst hj <;>
        simp at hro hij ⊢)

/-! ## check_searchtype at one predicate -/

theorem check_searchtype_sntq_append (a b : List sent) :
    ∀ (cfg c1 : config), check_searchtype_sntq cfg a = some (c1, true) →
      check_searchtype_sntq cfg (a ++ b) = check_searchtype_sntq c1 b := by
  induction a with
  | nil =>
    intro cfg c1 h
    simp only [check_searchtype_sntq, Option.some.injEq, Prod.mk.injEq, and_true] at h
    subst h
    rfl
  | cons st rest ih =>
    intro cfg c1 h
    simp only [check_searchtype_sntq, List.cons_append] at h ⊢
    split at h
    · cases h
    · split at h
      · cases h
      · cases h
      · split at h
        · cases h
        · cases h
        · exact ih _ _ h

theorem check_searchtype_sq_cons (cfg : config) (srch : search) (rest : List search)
    (h : ¬ (srch.type = stype.STYPE_SEARCH ∧ srch.sntq = [])) :
    check_searchtype_sq cfg (srch :: rest) =
      check_searchtype_rest srch rest
        (check_searchtype_sntq (check_searchtype_warn cfg srch) srch.sntq) := by
  simp only [check_searchtype_sq, h, if_false, check_searchtype_rest, and_then]

theorem check_searchtype_sq_append (a b : List search) :
    ∀ (cfg c1 : config), check_searchtype_sq cfg a = some (c1, true) →
      check_searchtype_sq cfg (a ++ b) = check_searchtype_sq c1 b := by
  induction a with
  | nil =>
    intro cfg c1 h
    simp only [check_searchtype_sq, Option.some.injEq, Prod.mk.injEq, and_true] at h
    subst h
    rfl
  | cons srch rest ih =>
    intro cfg c1 h
    by_cases hc : srch.type = stype.STYPE_SEARCH ∧ srch.sntq = []
    · simp only [check_searchtype_sq, hc, and_self, if_true] at h
      cases h
    · rw [List.cons_append, check_searchtype_sq_cons _ _ _ hc]
      rw [check_searchtype_sq_cons _ _ _ hc] at h
      unfold check_searchtype_rest at h ⊢
      obtain ⟨c2, h2, h⟩ := and_then_eq_some_true h
      rw [h2]
      simp only [and_then] at h ⊢
      cases hd : srch.dst with
      | none =>
        rw [hd] at h
        exact ih _ _ h
      | some d =>
        rw [hd] at h
        simp only at h ⊢
        obtain ⟨c3, h3, h⟩ := and_then_eq_some_true h
        rw [h3]
        exact ih _ _ h

/-- When the searches before `srch` and the predicates before `st` pass,
`check_searchtype` continues at the predicate `st`. -/
theorem check_searchtype_reach (cfg c1 c2 : config) (p : strct) (pre post : List search)
    (srch : search) (spre spost : List sent) (st : sent)
    (hsq : p.sq = pre ++ srch :: post)
    (hpre : check_searchtype_sq cfg pre = some (c1, true))
    (hsn : srch.sntq = spre ++ st :: spost)
    (hspre : check_searchtype_sntq (check_searchtype_warn c1 srch) spre = some (c2, true)) :
    check_searchtype cfg p =
      check_searchtype_rest srch post (check_searchtype_sntq c2 (st :: spost)) := by
  have hne : ¬ (srch.type = stype.STYPE_SEARCH ∧ srch.sntq = []) := by
    intro h
    rw [hsn] at h
    exact absurd h.2 (by simp)
  unfold check_searchtype
  rw [hsq, check_searchtype_sq_append _ _ _ _ hpre, check_searchtype_sq_cons _ _ _ hne]
  rw [hsn] at *
  rw [check_searchtype_sntq_append _ _ _ _ hspre]

theorem check_searchtype_password_true {c : config} {st : sent} {f : field}
    (hop : op_not_equality st.op) (hf : deref_field c.heap st.field = some f)
    (hpw : f.type = ftype.FTYPE_PASSWORD) : check_searchtype_password c st = some true := by
  unfold op_not_equality at hop
  simp only [check_searchtype_password, hop, ne_eq, not_false_eq_true, and_self, if_true, hf, hpw,
    decide_True]

theorem check_searchtype_password_false {c : config} {st : sent}
    (hop : ¬ op_not_equality st.op) : check_searchtype_password c st = some false := by
  unfold op_not_equality at hop
  simp only [check_searchtype_password, hop, if_false]

theorem check_searchtype_null_binary {c : config} {st : sent}
    (hop : OPTYPE_ISUNARY st.op = false) : check_searchtype_null c st = some c := by
  have h : ¬ (st.op = optype.OPTYPE_NOTNULL ∨ st.op = optype.OPTYPE_ISNULL) := by
    intro h
    rcases h with h | h <;> rw [h] at hop <;> cases hop
  simp only [check_searchtype_null, h, if_false]

theorem check_searchtype_null_total {c : config} {st : sent} {f : field}
    (hf : deref_field c.heap st.field = some f) :
    ∃ c3, check_searchtype_null c st = some c3 ∧ msgs_only c c3 := by
  unfold check_searchtype_null
  split
  · rw [hf]
    simp only
    split
    · exact ⟨_, rfl, msgs_only_gen_warnx _ _ _ _⟩
    · exact ⟨_, rfl, msgs_only_refl _⟩
  · exact ⟨_, rfl, msgs_only_refl _⟩

theorem check_searchtype_like_other {c : config} {st : sent}
    (hop : st.op ≠ optype.OPTYPE_LIKE) : check_searchtype_like c st = some false := by
  simp only [check_searchtype_like, hop, if_false]

theorem check_searchtype_rest_false (srch : search) (post : List search) (c : config) :
    check_searchtype_rest srch post (some (c, false)) = some (c, false) := rfl

/-! ## C13: operators on password fields -/

/-- C13: when `check_searchtype` reaches a predicate `st` on a password-typed
field (the searches and predicates before it pass) in a search without a
distinct-subset target, it fails with "passwords only accept unary or equality
operators" if the operator is neither unary nor one of equal, not-equal,
string-equal, string-not-equal; otherwise the predicate records no error and
the check goes on with the predicates and searches that follow. -/
theorem password_operator_check (cfg c1 c2 : config) (p : strct) (pre post : List search)
    (srch : search) (spre spost : List sent) (st : sent) (f : field)
    (hsq : p.sq = pre ++ srch :: post)
    (hpre : check_searchtype_sq cfg pre = some (c1, true))
    (hsn : srch.sntq = spre ++ st :: spost)
    (hspre : check_searchtype_sntq (check_searchtype_warn c1 srch) spre = some (c2, true))
    (hf : deref_field c2.heap st.field = some f) (hpw : f.type = ftype.FTYPE_PASSWORD)
    (hdst : srch.dst = none) :
    (op_not_equality st.op →
      check_searchtype cfg p =
        some (gen_errx c2 (some st.pos)
          (some "passwords only accept unary or equality operators") [], false)) ∧
    (¬ op_not_equality st.op →
      ∃ c3, check_searchtype_null c2 st = some c3 ∧
        (∀ m ∈ c3.msgs, m ∈ c2.msgs ∨ m.type = msgtype.MSGTYPE_WARN) ∧
        check_searchtype cfg p =
          and_then (check_searchtype_sntq c3 spost) (fun c4 => check_searchtype_sq c4 post)) := by
  have hreach := check_searchtype_reach cfg c1 c2 p pre post srch spre spost st hsq hpre hsn hspre
  refine ⟨fun hop => ?_, fun hop => ?_⟩
  · rw [hreach]
    simp only [check_searchtype_sntq, check_searchtype_null_binary hop.1,
      check_searchtype_password_true hop hf hpw]
    rfl
  · obtain ⟨c3, h3, hfr⟩ := @check_searchtype_null_total c2 st _ hf
    have hlike : st.op ≠ optype.OPTYPE_LIKE := by
      intro e
      apply hop
      unfold op_not_equality
      rw [e]
      decide
    refine ⟨c3, h3, ?_, ?_⟩
    · intro m hm
      unfold check_searchtype_null at h3
      split at h3
      · rw [hf] at h3
        simp only at h3
        split at h3
        · cases h3
          simp only [gen_warnx, ort_msg, List.mem_append, List.mem_singleton] at hm
          rcases hm with hm | hm
          · exact Or.inl hm
          · right
            rw [hm]
        · cases h3
          exact Or.inl hm
      · cases h3
        exact Or.inl hm
    · rw [hreach]
      simp only [check_searchtype_sntq, h3, check_searchtype_password_false hop,
        check_searchtype_like_other hlike, check_searchtype_rest, hdst]


set_option maxRecDepth 100000 in
/-- Witness of C13: a list search comparing the password field with
less-than fails, and the same search with equality succeeds. -/
theorem password_operator_check_witness :
    check_searchtype (search_cfg [mk_search 6 stype.STYPE_LIST [mk_sent 6 optype.OPTYPE_LT 2] none])
        (mk_search_strct [mk_search 6 stype.STYPE_LIST [mk_sent 6 optype.OPTYPE_LT 2] none]) =
      some (gen_errx
        (search_cfg [mk_search 6 stype.STYPE_LIST [mk_sent 6 optype.OPTYPE_LT 2] none])
        (some (mk_sent 6 optype.OPTYPE_LT 2).pos)
        (some "passwords only accept unary or equality operators") [], false) ∧
    check_searchtype
        (search_cfg [mk_search 6 stype.STYPE_LIST [mk_sent 6 optype.OPTYPE_EQUAL 2] none])
        (mk_search_strct [mk_search 6 stype.STYPE_LIST [mk_sent 6 optype.OPTYPE_EQUAL 2] none]) =
      some (search_cfg [mk_search 6 stype.STYPE_LIST [mk_sent 6 optype.OPTYPE_EQUAL 2] none],
        true) :=
  ⟨(password_operator_check
      (search_cfg [mk_search 6 stype.STYPE_LIST [mk_sent 6 optype.OPTYPE_LT 2] none]) _ _
      (mk_search_strct [mk_search 6 stype.STYPE_LIST [mk_sent 6 optype.OPTYPE_LT 2] none])
      [] [] (mk_search 6 stype.STYPE_LIST [mk_sent 6 optype.OPTYPE_LT 2] none) [] []
      (mk_sent 6 optype.OPTYPE_LT 2)
      { type := ftype.FTYPE_PASSWORD, ref := none, flags := FIELD_NULL, pos := ⟨"db.ort", 3, 1⟩ }
      rfl rfl rfl rfl rfl rfl rfl).1 (by decide),
   by decide⟩

/-! ## C14: the LIKE operator -/

/-- C14: when `check_searchtype` reaches a predicate `st` whose operator is
LIKE, it returns failure and records an error at the predicate if the type of
the field is neither text nor email; on a text or email field the predicate
passes both loops over the predicates without a message. -/
theorem like_operator_check (cfg c1 c2 : config) (p : strct) (pre post : List search)
    (srch : search) (spre spost : List sent) (st : sent) (f : field)
    (hsq : p.sq = pre ++ srch :: post)
    (hpre : check_searchtype_sq cfg pre = some (c1, true))
    (hsn : srch.sntq = spre ++ st :: spost)
    (hspre : check_searchtype_sntq (check_searchtype_warn c1 srch) spre = some (c2, true))
    (hop : st.op = optype.OPTYPE_LIKE)
    (hf : deref_field c2.heap st.field = some f) :
    ((f.type ≠ ftype.FTYPE_TEXT ∧ f.type ≠ ftype.FTYPE_EMAIL) →
      check_searchtype cfg p =
        some (gen_errx c2 (some st.pos)
          (some (if f.type = ftype.FTYPE_PASSWORD
            then "passwords only accept unary or equality operators"
            else "LIKE operator on non-textual field.")) [], false)) ∧
    ((f.type = ftype.FTYPE_TEXT ∨ f.type = ftype.FTYPE_EMAIL) →
      check_searchtype_sntq c2 (st :: spost) = check_searchtype_sntq c2 spost ∧
      (∀ (c : config) (rest : List sent), c.heap = c2.heap →
        check_searchtype_dst c (st :: rest) = check_searchtype_dst c rest) ∧
      check_searchtype cfg p =
        check_searchtype_rest srch post (check_searchtype_sntq c2 spost)) := by
  have hreach := check_searchtype_reach cfg c1 c2 p pre post srch spre spost st hsq hpre hsn hspre
  have hun : OPTYPE_ISUNARY st.op = false := by rw [hop]; rfl
  have hne : op_not_equality st.op := by
    unfold op_not_equality
    rw [hop]
    decide
  have hnull := check_searchtype_null_binary (c := c2) hun
  have hpwc : check_searchtype_password c2 st = some (decide (f.type = ftype.FTYPE_PASSWORD)) := by
    unfold op_not_equality at hne
    simp only [check_searchtype_password, hne, ne_eq, not_false_eq_true, and_self, if_true, hf]
  have hlk : check_searchtype_like c2 st =
      some (decide (f.type ≠ ftype.FTYPE_TEXT ∧ f.type ≠ ftype.FTYPE_EMAIL)) := by
    simp only [check_searchtype_like, hop, if_true, hf]
  refine ⟨fun ht => ?_, fun ht => ?_⟩
  · rw [hreach]
    by_cases hpw : f.type = ftype.FTYPE_PASSWORD
    · simp only [check_searchtype_sntq, hnull, hpwc, hpw, decide_True, if_true]
      rfl
    · simp only [check_searchtype_sntq, hnull, hpwc, hpw, decide_False, hlk, ht, ne_eq,
        not_false_eq_true, and_self, decide_True, if_false]
      rfl
  · have hpw : f.type ≠ ftype.FTYPE_PASSWORD := by
      rcases ht with h | h <;> rw [h] <;> decide
    have hlk2 : ¬ (f.type ≠ ftype.FTYPE_TEXT ∧ f.type ≠ ftype.FTYPE_EMAIL) := by
      intro h
      rcases ht with e | e
      · exact h.1 e
      · exact h.2 e
    have hstep : check_searchtype_sntq c2 (st :: spost) = check_searchtype_sntq c2 spost := by
      simp only [check_searchtype_sntq, hnull, hpwc, hpw, decide_False, hlk, hlk2]
    refine ⟨hstep, fun c rest hc => ?_, by rw [hreach, hstep]⟩
    simp only [check_searchtype_dst, hun, hc, hf, ne_eq, hpw, not_false_eq_true, if_true,
      Bool.false_eq_true, if_false]

set_option maxRecDepth 100000 in
/-- Witness of C14: LIKE on the integer field fails, LIKE on the text field
succeeds. -/
theorem like_operator_check_witness :
    check_searchtype (search_cfg [mk_search 6 stype.STYPE_LIST [mk_sent 6 optype.OPTYPE_LIKE 3] none])
        (mk_search_strct [mk_search 6 stype.STYPE_LIST [mk_sent 6 optype.OPTYPE_LIKE 3] none]) =
      some (gen_errx
        (search_cfg [mk_search 6 stype.STYPE_LIST [mk_sent 6 optype.OPTYPE_LIKE 3] none])
        (some (mk_sent 6 optype.OPTYPE_LIKE 3).pos)
        (some "LIKE operator on non-textual field.") [], false) ∧
    check_searchtype
        (search_cfg [mk_search 6 stype.STYPE_LIST [mk_sent 6 optype.OPTYPE_LIKE 1] none])
        (mk_search_strct [mk_search 6 stype.STYPE_LIST [mk_sent 6 optype.OPTYPE_LIKE 1] none]) =
      some (search_cfg [mk_search 6 stype.STYPE_LIST [mk_sent 6 optype.OPTYPE_LIKE 1] none],
        true) :=
  ⟨(like_operator_check
      (search_cfg [mk_search 6 stype.STYPE_LIST [mk_sent 6 optype.OPTYPE_LIKE 3] none]) _ _
      (mk_search_strct [mk_search 6 stype.STYPE_LIST [mk_sent 6 optype.OPTYPE_LIKE 3] none])
      [] [] (mk_search 6 stype.STYPE_LIST [mk_sent 6 optype.OPTYPE_LIKE 3] none) [] []
      (mk_sent 6 optype.OPTYPE_LIKE 3)
      { type := ftype.FTYPE_INT, ref := none, flags := 0, pos := ⟨"db.ort", 4, 1⟩ }
      rfl rfl rfl rfl rfl rfl).1 (by decide),
   by decide⟩

/-! ## C15: password predicates in searches on distinct subsets -/

theorem last_is_error_gen_errx (c : config) (p : Option pos) (f : Option String)
    (a : List msgarg) : last_is_error (gen_errx c p f a) := by
  have hl : (gen_errx c p f a).msgs.getLast? = some
      { type := msgtype.MSGTYPE_ERROR, chan := channel, er := 0, pos := p, fmt := f, args := a } := by
    simp [gen_errx, ort_msg]
  exact ⟨_, hl, rfl⟩

theorem sents_valid_tail {heap : List strct} {st : sent} {l : List sent}
    (h : sents_valid heap (st :: l)) : sents_valid heap l :=
  fun x hx => h x (List.mem_cons_of_mem _ hx)

theorem sents_valid_head {heap : List strct} {st : sent} {l : List sent}
    (h : sents_valid heap (st :: l)) : ∃ f, deref_field heap st.field = some f :=
  Option.isSome_iff_exists.1 (h st (List.mem_cons_self _ _))

theorem check_searchtype_sntq_total (l : List sent) :
    ∀ (cfg : config), sents_valid cfg.heap l →
      ∃ c ok, check_searchtype_sntq cfg l = some (c, ok) ∧ c.heap = cfg.heap ∧
        (ok = false → last_is_error c) := by
  induction l with
  | nil =>
    intro cfg _
    exact ⟨cfg, true, rfl, rfl, fun h => by cases h⟩
  | cons st rest ih =>
    intro cfg hv
    obtain ⟨f, hf⟩ := sents_valid_head hv
    obtain ⟨c3, h3, hfr⟩ := @check_searchtype_null_total cfg st _ hf
    have hf3 : deref_field c3.heap st.field = some f := by rw [hfr.1]; exact hf
    simp only [check_searchtype_sntq, h3]
    have hpwt : ∃ b, check_searchtype_password c3 st = some b := by
      unfold check_searchtype_password
      split
      · rw [hf3]
        exact ⟨_, rfl⟩
      · exact ⟨_, rfl⟩
    have hlkt : ∃ b, check_searchtype_like c3 st = some b := by
      unfold check_searchtype_like
      split
      · rw [hf3]
        exact ⟨_, rfl⟩
      · exact ⟨_, rfl⟩
    obtain ⟨b1, hb1⟩ := hpwt
    obtain ⟨b2, hb2⟩ := hlkt
    rw [hb1]
    cases b1 with
    | true => exact ⟨_, false, rfl, hfr.1, fun _ => last_is_error_gen_errx _ _ _ _⟩
    | false =>
      simp only [hb2]
      cases b2 with
      | true => exact ⟨_, false, rfl, hfr.1, fun _ => last_is_error_gen_errx _ _ _ _⟩
      | false =>
        obtain ⟨c, ok, hc, hh, he⟩ := ih c3 (by rw [hfr.1]; exact sents_valid_tail hv)
        exact ⟨c, ok, hc, hh.trans hfr.1, he⟩

theorem check_searchtype_dst_fails (st : sent) (f : field) (hun : OPTYPE_ISUNARY st.op = false)
    (hpw : f.type = ftype.FTYPE_PASSWORD) (l : List sent) (cfg : config)
    (hf : deref_field cfg.heap st.field = some f) (hv : sents_valid cfg.heap l) (hst : st ∈ l) :
    ∃ c, check_searchtype_dst cfg l = some (c, false) ∧ last_is_error c := by
  induction l with
  | nil => cases hst
  | cons x rest ih =>
    obtain ⟨fx, hfx⟩ := sents_valid_head hv
    simp only [check_searchtype_dst]
    by_cases hux : OPTYPE_ISUNARY x.op = true
    · have hne : st ≠ x := by
        intro e
        rw [e, hux] at hun
        cases hun
      rw [if_pos hux]
      rcases List.mem_cons.1 hst with e | e
      · exact absurd e hne
      · exact ih (sents_valid_tail hv) e
    · rw [if_neg hux, hfx]
      simp only
      by_cases htx : fx.type ≠ ftype.FTYPE_PASSWORD
      · rw [if_pos htx]
        have hne : st ≠ x := by
          intro e
          rw [e, hfx] at hf
          cases hf
          exact htx hpw
        rcases List.mem_cons.1 hst with e | e
        · exact absurd e hne
        · exact ih (sents_valid_tail hv) e
      · rw [if_neg htx]
        exact ⟨_, rfl, last_is_error_gen_errx _ _ _ _⟩

set_option maxRecDepth 100000 in
/-- C15, counterexample: a list search on a distinct subset whose only
predicate is the unary is-null operator on the password field passes
`check_searchtype` without a message. -/
theorem distinct_unary_password_accepted :
    check_searchtype
        (search_cfg [mk_search 6 stype.STYPE_LIST [mk_sent 6 optype.OPTYPE_ISNULL 2] (some 0)])
        (mk_search_strct [mk_search 6 stype.STYPE_LIST [mk_sent 6 optype.OPTYPE_ISNULL 2] (some 0)]) =
      some (search_cfg [mk_search 6 stype.STYPE_LIST [mk_sent 6 optype.OPTYPE_ISNULL 2] (some 0)],
        true) ∧
    (search_cfg [mk_search 6 stype.STYPE_LIST [mk_sent 6 optype.OPTYPE_ISNULL 2]
      (some 0)]).msgs = [] ∧
    deref_field
        (search_cfg [mk_search 6 stype.STYPE_LIST [mk_sent 6 optype.OPTYPE_ISNULL 2]
          (some 0)]).heap (mk_sent 6 optype.OPTYPE_ISNULL 2).field =
      some { type := ftype.FTYPE_PASSWORD, ref := none, flags := FIELD_NULL,
             pos := ⟨"db.ort", 3, 1⟩ } := by
  decide

/-- C15, amended: when `check_searchtype` reaches a search (the searches
before it pass) that has a distinct-subset target and at least one predicate
with a non-unary operator over a password-typed field, it records an error and
returns failure; predicates with the unary is-null and not-null operators are
exempt. -/
theorem distinct_password_rejected (cfg c1 : config) (p : strct) (pre post : List search)
    (srch : search) (st : sent) (f : field) (d : Nat)
    (hsq : p.sq = pre ++ srch :: post)
    (hpre : check_searchtype_sq cfg pre = some (c1, true))
    (hdst : srch.dst = some d) (hst : st ∈ srch.sntq)
    (hun : OPTYPE_ISUNARY st.op = false)
    (hf : deref_field cfg.heap st.field = some f) (hpw : f.type = ftype.FTYPE_PASSWORD)
    (hv : sents_valid cfg.heap srch.sntq) :
    ∃ c, check_searchtype cfg p = some (c, false) ∧ last_is_error c := by
  have hne : ¬ (srch.type = stype.STYPE_SEARCH ∧ srch.sntq = []) := by
    intro h
    rw [h.2] at hst
    cases hst
  have h1 : c1.heap = cfg.heap := (check_searchtype_sq_frame _ _ _ _ hpre).1
  have hw : (check_searchtype_warn c1 srch).heap = cfg.heap :=
    (check_searchtype_warn_frame c1 srch).1.trans h1
  obtain ⟨c2, ok, h2, hh2, he2⟩ := check_searchtype_sntq_total srch.sntq
    (check_searchtype_warn c1 srch) (by rw [hw]; exact hv)
  unfold check_searchtype
  rw [hsq, check_searchtype_sq_append _ _ _ _ hpre, check_searchtype_sq_cons _ _ _ hne, h2]
  cases ok with
  | false => exact ⟨c2, rfl, he2 rfl⟩
  | true =>
    have hh : c2.heap = cfg.heap := hh2.trans hw
    obtain ⟨c3, h3, he3⟩ := check_searchtype_dst_fails st f hun hpw srch.sntq c2
      (by rw [hh]; exact hf) (by rw [hh]; exact hv) hst
    refine ⟨c3, ?_, he3⟩
    simp only [check_searchtype_rest, and_then, hdst, h3]

set_option maxRecDepth 100000 in
/-- Witness of the amended C15: equality on the password field in a search on
a distinct subset. -/
theorem distinct_password_rejected_witness :
    ∃ c, check_searchtype
        (search_cfg [mk_search 6 stype.STYPE_LIST [mk_sent 6 optype.OPTYPE_EQUAL 2] (some 0)])
        (mk_search_strct [mk_search 6 stype.STYPE_LIST [mk_sent 6 optype.OPTYPE_EQUAL 2] (some 0)])
      = some (c, false) ∧ last_is_error c :=
  distinct_password_rejected
    (search_cfg [mk_search 6 stype.STYPE_LIST [mk_sent 6 optype.OPTYPE_EQUAL 2] (some 0)]) _
    (mk_search_strct [mk_search 6 stype.STYPE_LIST [mk_sent 6 optype.OPTYPE_EQUAL 2] (some 0)])
    [] [] (mk_search 6 stype.STYPE_LIST [mk_sent 6 optype.OPTYPE_EQUAL 2] (some 0))
    (mk_sent 6 optype.OPTYPE_EQUAL 2)
    { type := ftype.FTYPE_PASSWORD, ref := none, flags := FIELD_NULL, pos := ⟨"db.ort", 3, 1⟩ }
    0 rfl rfl rfl (by decide) rfl rfl rfl (by decide)

/-! ## ort_parse_close by segments -/

theorem and_then_assoc (x : Option (config × Bool)) (f g : config → Option (config × Bool)) :
    and_then (and_then x f) g = and_then x (fun c => and_then (f c) g) := by
  cases x with
  | none => rfl
  | some r =>
    obtain ⟨c, b⟩ := r
    cases b <;> rfl

theorem ort_parse_close_height_sz (fuel : Nat) (l : List strctp) :
    ∀ (h : List strct) (c sz : Nat) (h2 : List strct) (sz2 : Nat),
      ort_parse_close_height fuel h c sz l = some (h2, sz2) → sz2 = sz + l.length := by
  induction l with
  | nil =>
    intro h c sz h2 sz2 he
    simp only [ort_parse_close_height, Option.some.injEq, Prod.mk.injEq] at he
    simp [he.2]
  | cons p ps ih =>
    intro h c sz h2 sz2 he
    simp only [ort_parse_close_height] at he
    split at he
    · cases he
    · split at he
      · have := ih _ _ _ _ _ he
        simp only [List.length_cons]
        omega
      · split at he
        · cases he
        · have := ih _ _ _ _ _ he
          simp only [List.length_cons]
          omega

theorem ort_parse_close_height_pass_then (E : env) (fuel : Nat) (c5 : config) :
    (match ort_parse_close_height fuel c5.heap 1 0 c5.sq with
      | none => none
      | some (heap6, sz) =>
        if sz = 0 then none
        else
          and_then (ort_parse_close_searchtype { c5 with heap := heap6 } c5.sq) fun c7 =>
          and_then (ort_parse_close_sort E sz c7) fun c8 =>
          (ort_parse_close_nullrefs fuel c8.heap c8.sq).map
            (fun h => ({ c8 with heap := h }, true))) =
      and_then (ort_parse_close_height_pass fuel c5) (ort_parse_close_from_search E fuel) := by
  unfold ort_parse_close_height_pass
  cases hh : ort_parse_close_height fuel c5.heap 1 0 c5.sq with
  | none => rfl
  | some r =>
    obtain ⟨h6, sz⟩ := r
    have hsz := ort_parse_close_height_sz _ _ _ _ _ _ _ hh
    simp only
    by_cases h0 : sz = 0
    · simp only [h0, if_true]
      rfl
    · simp only [h0, if_false, and_then, ort_parse_close_from_search]
      have : sz = c5.sq.length := by omega
      rw [this]

theorem ort_parse_close_linked_eq (E : env) (fuel : Nat) (cfg : config) :
    ort_parse_close_linked E fuel cfg =
      and_then ((ort_parse_close_unique cfg 0 cfg.sq).map (fun r => (r.1, decide (r.2 = 0))))
        fun c1 =>
      and_then ((ort_parse_close_roles check_unique_roles c1 0 c1.sq).map
        (fun r => (r.1, decide (r.2 = 0)))) fun c2 =>
      and_then ((ort_parse_close_roles (check_unique_roles_tree fuel) c2 0 c2.sq).map
        (fun r => (r.1, decide (r.2 = 0)))) fun c3 =>
      and_then (ort_parse_close_reach_pass c3) (ort_parse_close_from_recursive E fuel) := by
  unfold ort_parse_close_linked ort_parse_close_reach_pass ort_parse_close_from_recursive
    ort_parse_close_recursive_pass
  simp only [ort_parse_close_height_pass_then]

/-- The run of `ort_parse_close` is the passes up to the role checks, then the
warnings on unreachable operations, then everything from the recursion check
on. -/
theorem ort_parse_close_eq_from_recursive (E : env) (fuel : Nat) (cfg : config) :
    ort_parse_close E fuel cfg =
      and_then (ort_parse_close_to_roles E fuel cfg) fun c3 =>
      and_then (ort_parse_close_reach_pass c3) (ort_parse_close_from_recursive E fuel) := by
  unfold ort_parse_close ort_parse_close_to_roles
  split
  · rfl
  · simp only [and_then_assoc, ort_parse_close_linked_eq]

/-- The run of `ort_parse_close` is the passes before the search check, then
the search check and what follows it. -/
theorem ort_parse_close_eq_from_search (E : env) (fuel : Nat) (cfg : config) :
    ort_parse_close E fuel cfg =
      and_then (ort_parse_close_to_search E fuel cfg) (ort_parse_close_from_search E fuel) := by
  rw [ort_parse_close_eq_from_recursive]
  unfold ort_parse_close_to_search ort_parse_close_from_recursive
  simp only [and_then_assoc]

/-! ## C12: a single-result search without predicates -/

theorem check_searchtype_dst_total (l : List sent) (cfg : config)
    (hv : sents_valid cfg.heap l) :
    ∃ c ok, check_searchtype_dst cfg l = some (c, ok) ∧ c.heap = cfg.heap ∧
      (ok = false → last_is_error c) := by
  induction l with
  | nil => exact ⟨cfg, true, rfl, rfl, fun h => by cases h⟩
  | cons x rest ih =>
    obtain ⟨fx, hfx⟩ := sents_valid_head hv
    simp only [check_searchtype_dst]
    split
    · exact ih (sents_valid_tail hv)
    · rw [hfx]
      simp only
      split
      · exact ih (sents_valid_tail hv)
      · exact ⟨gen_errx cfg (some x.pos)
          (some "password queries not allowed when searching on distinct subsets") [],
          false, rfl, rfl, fun _ => last_is_error_gen_errx _ _ _ _⟩

theorem check_searchtype_sq_total (l : List search) :
    ∀ (cfg : config), (∀ srch ∈ l, sents_valid cfg.heap srch.sntq) →
      ∃ c ok, check_searchtype_sq cfg l = some (c, ok) ∧ c.heap = cfg.heap ∧
        (ok = false → last_is_error c) ∧
        ((∃ srch ∈ l, srch.type = stype.STYPE_SEARCH ∧ srch.sntq = []) → ok = false) := by
  induction l with
  | nil =>
    intro cfg _
    exact ⟨cfg, true, rfl, rfl, (fun h => by cases h), (fun ⟨_, h, _⟩ => by cases h)⟩
  | cons srch rest ih =>
    intro cfg hv
    by_cases hc : srch.type = stype.STYPE_SEARCH ∧ srch.sntq = []
    · refine ⟨gen_errx cfg (some srch.pos) (some "unique result search without parameters") [],
        false, ?_, rfl, fun _ => last_is_error_gen_errx _ _ _ _, fun _ => rfl⟩
      simp only [check_searchtype_sq, hc, and_self, if_true]
    · rw [check_searchtype_sq_cons _ _ _ hc]
      have hw : (check_searchtype_warn cfg srch).heap = cfg.heap :=
        (check_searchtype_warn_frame cfg srch).1
      have hvs := hv srch (List.mem_cons_self _ _)
      have hvr : ∀ c : config, c.heap = cfg.heap → ∀ x ∈ rest, sents_valid c.heap x.sntq :=
        fun c hcc x hx => by rw [hcc]; exact hv x (List.mem_cons_of_mem _ hx)
      have hbad : ∀ ok : Bool,
          ((∃ x ∈ rest, x.type = stype.STYPE_SEARCH ∧ x.sntq = []) → ok = false) →
          (∃ x ∈ srch :: rest, x.type = stype.STYPE_SEARCH ∧ x.sntq = []) → ok = false := by
        intro ok h ⟨x, hx, hxb⟩
        rcases List.mem_cons.1 hx with e | e
        · rw [e] at hxb
          exact absurd hxb hc
        · exact h ⟨x, e, hxb⟩
      obtain ⟨c2, ok2, h2, hh2, he2⟩ := check_searchtype_sntq_total srch.sntq
        (check_searchtype_warn cfg srch) (by rw [hw]; exact hvs)
      rw [h2]
      cases ok2 with
      | false => exact ⟨c2, false, rfl, hh2.trans hw, fun _ => he2 rfl, fun _ => rfl⟩
      | true =>
        have hc2 : c2.heap = cfg.heap := hh2.trans hw
        simp only [check_searchtype_rest, and_then]
        cases hd : srch.dst with
        | none =>
          simp only
          obtain ⟨c, ok, h3, hh3, he3, hb3⟩ := ih c2 (hvr c2 hc2)
          exact ⟨c, ok, h3, hh3.trans hc2, he3, hbad ok hb3⟩
        | some d =>
          simp only
          obtain ⟨c3, ok3, h3, hh3, he3⟩ := check_searchtype_dst_total srch.sntq c2
            (by rw [hc2]; exact hvs)
          rw [h3]
          cases ok3 with
          | false => exact ⟨c3, false, rfl, hh3.trans hc2, fun _ => he3 rfl, fun _ => rfl⟩
          | true =>
            simp only
            obtain ⟨c, ok, h4, hh4, he4, hb4⟩ := ih c3 (hvr c3 (hh3.trans hc2))
            exact ⟨c, ok, h4, hh4.trans (hh3.trans hc2), he4, hbad ok hb4⟩

theorem ort_parse_close_searchtype_total (l : List strctp) :
    ∀ (cfg : config),
      (∀ p ∈ l, ∃ s ∈ cfg.heap[p]?, ∀ srch ∈ s.sq, sents_valid cfg.heap srch.sntq) →
      ∃ c ok, ort_parse_close_searchtype cfg l = some (c, ok) ∧ c.heap = cfg.heap ∧
        (ok = false → last_is_error c) ∧
        ((∃ p ∈ l, ∃ s ∈ cfg.heap[p]?, ∃ srch ∈ s.sq,
          srch.type = stype.STYPE_SEARCH ∧ srch.sntq = []) → ok = false) := by
  induction l with
  | nil =>
    intro cfg _
    exact ⟨cfg, true, rfl, rfl, (fun h => by cases h), (fun ⟨_, h, _⟩ => by cases h)⟩
  | cons p ps ih =>
    intro cfg hv
    obtain ⟨s, hs, hvs⟩ := hv p (List.mem_cons_self _ _)
    rw [Option.mem_def] at hs
    simp only [ort_parse_close_searchtype, hs, check_searchtype]
    obtain ⟨c1, ok1, h1, hh1, he1, hb1⟩ := check_searchtype_sq_total s.sq cfg hvs
    rw [h1]
    cases ok1 with
    | false => exact ⟨c1, false, rfl, hh1, fun _ => he1 rfl, fun _ => rfl⟩
    | true =>
      simp only [and_then]
      have hv1 : ∀ q ∈ ps, ∃ s ∈ c1.heap[q]?, ∀ srch ∈ s.sq, sents_valid c1.heap srch.sntq := by
        rw [hh1]
        exact fun q hq => hv q (List.mem_cons_of_mem _ hq)
      obtain ⟨c, ok, h2, hh2, he2, hb2⟩ := ih c1 hv1
      refine ⟨c, ok, h2, hh2.trans hh1, he2, fun ⟨q, hq, t, ht, srch, hsr, hbad⟩ => ?_⟩
      rcases List.mem_cons.1 hq with e | e
      · subst e
        rw [Option.mem_def, hs] at ht
        cases ht
        have := hb1 ⟨srch, hsr, hbad⟩
        cases this
      · exact hb2 ⟨q, e, t, by rw [hh1]; exact ht, srch, hsr, hbad⟩

theorem ort_parse_close_searchtype_append (l1 l2 : List strctp) :
    ∀ (cfg c1 : config), ort_parse_close_searchtype cfg l1 = some (c1, true) →
      ort_parse_close_searchtype cfg (l1 ++ l2) = ort_parse_close_searchtype c1 l2 := by
  induction l1 with
  | nil =>
    intro cfg c1 h
    simp only [ort_parse_close_searchtype, Option.some.injEq, Prod.mk.injEq, and_true] at h
    subst h
    rfl
  | cons p ps ih =>
    intro cfg c1 h
    simp only [ort_parse_close_searchtype, List.cons_append] at h ⊢
    cases hp : cfg.heap[p]? with
    | none => rw [hp] at h; cases h
    | some s =>
      rw [hp] at h
      simp only at h ⊢
      obtain ⟨c2, h2, h⟩ := and_then_eq_some_true h
      rw [h2]
      exact ih _ _ h

set_option maxRecDepth 100000 in
/-- C12, counterexample: `like_then_empty_cfg` reaches the search check and
contains a single-result search without predicates, but the search before it
fails the check first: `ort_parse_close` returns failure having recorded only
the LIKE error, not "unique result search without parameters". -/
theorem empty_search_error_not_recorded :
    ort_parse_close_to_search env_id 10 like_then_empty_cfg = some (like_then_empty_cfg, true) ∧
    (ort_parse_close env_id 10 like_then_empty_cfg).map (fun r => (r.1.msgs.map msg.fmt, r.2)) =
      some ([some "LIKE operator on non-textual field."], false) := by
  decide

/-- C12, amended: for every configuration that reaches the search check, whose
search predicates designate stored fields, and that contains a single-result
search with an empty predicate list, `ort_parse_close` returns failure with an
error as its last message, whatever the limit of the search; the error
"unique result search without parameters" is recorded at that search when the
structs before its struct and the searches before it pass the check (the
first failing search ends the pass). -/
theorem empty_single_search_fails (E : env) (fuel : Nat) (cfg c6 : config)
    (hreach : ort_parse_close_to_search E fuel cfg = some (c6, true))
    (hv : searches_valid c6) (p : strctp) (s : strct) (srch : search)
    (hp : p ∈ c6.sq) (hs : c6.heap[p]? = some s) (hsrch : srch ∈ s.sq)
    (ht : srch.type = stype.STYPE_SEARCH) (he : srch.sntq = []) :
    (∃ c, ort_parse_close E fuel cfg = some (c, false) ∧ last_is_error c) ∧
    (∀ (l1 l2 : List strctp) (q1 q2 : List search) (c1 c2 : config),
      c6.sq = l1 ++ p :: l2 → s.sq = q1 ++ srch :: q2 →
      ort_parse_close_searchtype c6 l1 = some (c1, true) →
      check_searchtype_sq c1 q1 = some (c2, true) →
      ort_parse_close E fuel cfg =
        some (gen_errx c2 (some srch.pos)
          (some "unique result search without parameters") [], false)) := by
  rw [ort_parse_close_eq_from_search, hreach]
  simp only [and_then, ort_parse_close_from_search]
  refine ⟨?_, ?_⟩
  · obtain ⟨c, ok, h1, -, he1, hb1⟩ := ort_parse_close_searchtype_total c6.sq c6 hv
    have hok : ok = false := hb1 ⟨p, hp, s, hs, srch, hsrch, ht, he⟩
    subst hok
    rw [h1]
    exact ⟨c, rfl, he1 rfl⟩
  · intro l1 l2 q1 q2 c1 c2 hl hq h1 h2
    have hh1 : c1.heap = c6.heap := (ort_parse_close_searchtype_frame _ _ _ _ h1).1
    rw [hl, ort_parse_close_searchtype_append _ _ _ _ h1]
    simp only [ort_parse_close_searchtype, hh1, hs, check_searchtype]
    rw [hq, check_searchtype_sq_append _ _ _ _ h2]
    simp only [check_searchtype_sq, ht, he, and_self, if_true, and_then]

set_option maxRecDepth 100000 in
/-- Witness of the amended C12 on `empty_search_cfg`. -/
theorem empty_single_search_fails_witness :
    (∃ c, ort_parse_close env_id 10 empty_search_cfg = some (c, false) ∧ last_is_error c) ∧
    (∀ (l1 l2 : List strctp) (q1 q2 : List search) (c1 c2 : config),
      empty_search_cfg.sq = l1 ++ 0 :: l2 →
      (mk_search_strct [mk_search 7 stype.STYPE_SEARCH [] none]).sq =
        q1 ++ mk_search 7 stype.STYPE_SEARCH [] none :: q2 →
      ort_parse_close_searchtype empty_search_cfg l1 = some (c1, true) →
      check_searchtype_sq c1 q1 = some (c2, true) →
      ort_parse_close env_id 10 empty_search_cfg =
        some (gen_errx c2 (some (mk_search 7 stype.STYPE_SEARCH [] none).pos)
          (some "unique result search without parameters") [], false)) :=
  empty_single_search_fails env_id 10 empty_search_cfg empty_search_cfg (by decide) (by decide)
    0 (mk_search_strct [mk_search 7 stype.STYPE_SEARCH [] none])
    (mk_search 7 stype.STYPE_SEARCH [] none) (by decide) rfl (by decide) rfl rfl

/-! ## C16: propagation of STRCT_HAS_NULLREFS -/

theorem deref_field_static {h h0 : List strct} (hs : h.map static_part = h0.map static_part)
    (fp : fieldp) : deref_field h fp = deref_field h0 fp := by
  unfold deref_field
  cases hx : h[fp.parent]? with
  | none =>
    have hlen : h.length = h0.length := by
      have := congrArg List.length hs
      simpa using this
    have : h0[fp.parent]? = none := by
      rw [List.getElem?_eq_none_iff] at hx ⊢
      omega
    rw [this]
  | some s =>
    obtain ⟨s0, hs0, e⟩ := static_lookup hs hx
    rw [hs0]
    have efq : (static_part s0).fq = (static_part s).fq := congrArg strct.fq e
    simp only
    exact congrArg (fun l => l[fp.idx]?) efq.symm

theorem nullable_embed_static {h h0 : List strct}
    (hs : h.map static_part = h0.map static_part) {p : strctp} (hn : nullable_embed h p) :
    nullable_embed h0 p := by
  obtain ⟨s, hsp, f, hf, hft, r, hr, src, hsrc, hfl⟩ := hn
  rw [Option.mem_def] at hsp
  obtain ⟨s0, hs0, e⟩ := static_lookup hs hsp
  have efq : (static_part s0).fq = (static_part s).fq := congrArg strct.fq e
  refine ⟨s0, hs0, f, ?_, hft, r, hr, src, ?_, hfl⟩
  · exact (show s0.fq = s.fq from efq) ▸ hf
  · rw [← deref_field_static hs]
    exact hsrc

theorem has_nullrefs_static {h h0 : List strct}
    (hs : h.map static_part = h0.map static_part) {p : strctp} (hn : has_nullrefs h p) :
    has_nullrefs h0 p := by
  obtain ⟨q, hpq, hq⟩ := hn
  exact ⟨q, Relation.ReflTransGen.mono (fun _ _ he => embeds_static hs he) hpq,
    nullable_embed_static hs hq⟩

theorem check_reffind_fq_true (heap : List strct) (self : strctp → Option Bool)
    (l : List field) (h : check_reffind_fq heap self l = some true) :
    ∃ f ∈ l, f.type = ftype.FTYPE_STRUCT ∧ ∃ r, f.ref = some r ∧
      ((∃ src, deref_field heap r.source = some src ∧ src.flags &&& FIELD_NULL ≠ 0) ∨
        self r.target.parent = some true) := by
  induction l with
  | nil => simp [check_reffind_fq] at h
  | cons f fs ih =>
    simp only [check_reffind_fq] at h
    split at h
    · rename_i hft
      split at h
      · cases h
      · rename_i r hr
        split at h
        · cases h
        · rename_i src hsrc
          split at h
          · rename_i hfl
            exact ⟨f, List.mem_cons_self _ _, hft, r, hr, Or.inl ⟨src, hsrc, hfl⟩⟩
          · split at h
            · cases h
            · rename_i hself
              exact ⟨f, List.mem_cons_self _ _, hft, r, hr, Or.inr hself⟩
            · obtain ⟨g, hg, rest⟩ := ih h
              exact ⟨g, List.mem_cons_of_mem _ hg, rest⟩
    · obtain ⟨g, hg, rest⟩ := ih h
      exact ⟨g, List.mem_cons_of_mem _ hg, rest⟩

theorem check_reffind_fq_false (heap : List strct) (self : strctp → Option Bool)
    (l : List field) (h : check_reffind_fq heap self l = some false) :
    ∀ f ∈ l, f.type = ftype.FTYPE_STRUCT → ∀ r, f.ref = some r →
      (∀ src, deref_field heap r.source = some src → src.flags &&& FIELD_NULL = 0) ∧
        self r.target.parent = some false := by
  induction l with
  | nil => intro f hf; cases hf
  | cons g gs ih =>
    simp only [check_reffind_fq] at h
    intro f hf hft r hr
    split at h
    · split at h
      · cases h
      · rename_i r0 hr0
        split at h
        · cases h
        · rename_i src hsrc
          split at h
          · cases h
          · rename_i hfl
            split at h
            · cases h
            · cases h
            · rename_i hself
              rcases List.mem_cons.1 hf with e | e
              · subst e
                rw [hr0] at hr
                cases hr
                refine ⟨fun src2 h2 => ?_, hself⟩
                rw [hsrc] at h2
                cases h2
                exact not_not.1 hfl
              · exact ih h f e hft r hr
    · rename_i hgt
      rcases List.mem_cons.1 hf with e | e
      · subst e
        exact absurd hft hgt
      · exact ih h f e hft r hr

theorem check_reffind_true (heap : List strct) (hinv : nullrefs_sound heap) :
    ∀ (fuel : Nat) (p : strctp), check_reffind heap fuel p = some true → has_nullrefs heap p := by
  intro fuel
  induction fuel with
  | zero =>
    intro p h
    simp [check_reffind] at h
  | succ fuel ih =>
    intro p h
    simp only [check_reffind] at h
    split at h
    · cases h
    · rename_i s hs
      split at h
      · rename_i hfl
        exact hinv p s hs hfl
      · obtain ⟨f, hf, hft, r, hr, hor⟩ := check_reffind_fq_true _ _ _ h
        rcases hor with ⟨src, hsrc, hfl⟩ | hrec
        · exact ⟨p, Relation.ReflTransGen.refl, s, hs, f, hf, hft, r, hr, src, hsrc, hfl⟩
        · obtain ⟨q, hq, hn⟩ := ih _ hrec
          exact ⟨q, Relation.ReflTransGen.head (embeds_of_field hs hf hft hr) hq, hn⟩

theorem check_reffind_false (heap : List strct) :
    ∀ (fuel : Nat) (p : strctp), check_reffind heap fuel p = some false →
      ¬ has_nullrefs heap p := by
  intro fuel
  induction fuel with
  | zero =>
    intro p h
    simp [check_reffind] at h
  | succ fuel ih =>
    intro p h hn
    simp only [check_reffind] at h
    split at h
    · cases h
    · rename_i s hs
      split at h
      · cases h
      · have hall := check_reffind_fq_false _ _ _ h
        obtain ⟨q, hpq, hq⟩ := hn
        rcases Relation.ReflTransGen.cases_head hpq with e | ⟨z, hz, hzq⟩
        · subst e
          obtain ⟨s2, hs2, f, hf, hft, r, hr, src, hsrc, hfl⟩ := hq
          rw [Option.mem_def, hs] at hs2
          cases hs2
          exact hfl ((hall f hf hft r hr).1 src hsrc)
        · obtain ⟨s2, hs2, f, hf, hft, r, hr, hzt⟩ := hz
          rw [Option.mem_def, hs] at hs2
          cases hs2
          rw [Option.mem_def] at hr
          subst hzt
          exact ih _ (hall f hf hft r hr).2 ⟨q, hzq, hq⟩

theorem or_nullrefs_ne_zero (x : Nat) : (x ||| STRCT_HAS_NULLREFS) &&& STRCT_HAS_NULLREFS ≠ 0 := by
  have h : (x ||| STRCT_HAS_NULLREFS) &&& STRCT_HAS_NULLREFS = STRCT_HAS_NULLREFS := by
    apply Nat.eq_of_testBit_eq
    intro i
    simp only [Nat.testBit_and, Nat.testBit_or]
    cases x.testBit i <;> cases STRCT_HAS_NULLREFS.testBit i <;> rfl
  rw [h]
  decide

theorem ort_parse_close_nullrefs_spec (fuel : Nat) (l : List strctp) :
    ∀ (h h2 : List strct), ort_parse_close_nullrefs fuel h l = some h2 → nullrefs_sound h →
      nullrefs_sound h2 ∧
      (∀ (q : strctp) (s : strct), h[q]? = some s → s.flags &&& STRCT_HAS_NULLREFS ≠ 0 →
        ∃ s2 : strct, h2[q]? = some s2 ∧ s2.flags &&& STRCT_HAS_NULLREFS ≠ 0) ∧
      (∀ q ∈ l, has_nullrefs h q →
        ∃ s2 : strct, h2[q]? = some s2 ∧ s2.flags &&& STRCT_HAS_NULLREFS ≠ 0) := by
  induction l with
  | nil =>
    intro h h2 he hinv
    simp only [ort_parse_close_nullrefs, Option.some.injEq] at he
    subst he
    exact ⟨hinv, fun q s hq hfl => ⟨s, hq, hfl⟩, fun q hq => by cases hq⟩
  | cons p ps ih =>
    intro h h2 he hinv
    simp only [ort_parse_close_nullrefs] at he
    split at he
    · rename_i s hck hs
      have hst : (h.set p { s with flags := s.flags ||| STRCT_HAS_NULLREFS }).map static_part =
          h.map static_part := set_map_eq static_part hs rfl
      have hp : has_nullrefs h p := check_reffind_true h hinv fuel p hck
      have hinv1 : nullrefs_sound (h.set p { s with flags := s.flags ||| STRCT_HAS_NULLREFS }) := by
        intro q t hq hfl
        apply has_nullrefs_static hst.symm
        by_cases e : p = q
        · subst e
          exact hp
        · rw [List.getElem?_set_ne e] at hq
          exact hinv q t hq hfl
      obtain ⟨r1, r2, r3⟩ := ih _ _ he hinv1
      have hset : ∃ s2, h2[p]? = some s2 ∧ s2.flags &&& STRCT_HAS_NULLREFS ≠ 0 :=
        r2 p _ (getElem?_set_of_some hs) (or_nullrefs_ne_zero _)
      refine ⟨r1, fun q t hq hfl => ?_, fun q hq hn => ?_⟩
      · by_cases e : p = q
        · subst e
          exact hset
        · exact r2 q t (by rw [List.getElem?_set_ne e]; exact hq) hfl
      · rcases List.mem_cons.1 hq with e | e
        · subst e
          exact hset
        · exact r3 q e (has_nullrefs_static hst.symm hn)
    · rename_i hck
      obtain ⟨r1, r2, r3⟩ := ih _ _ he hinv
      refine ⟨r1, r2, fun q hq hn => ?_⟩
      rcases List.mem_cons.1 hq with e | e
      · subst e
        exact absurd hn (check_reffind_false h fuel q hck)
      · exact r3 q e hn
    · cases he


theorem gen_rel_flags {h0 h : List strct} {p : strctp} {c : Nat} (hr : gen_rel h0 p c h) :
    h.map strct.flags = h0.map strct.flags := by
  obtain ⟨hlen, hrel⟩ := hr
  apply List.ext_getElem?
  intro n
  rw [List.getElem?_map, List.getElem?_map]
  cases h0n : h0[n]? with
  | none =>
    have : h[n]? = none := by
      rw [List.getElem?_eq_none_iff] at h0n ⊢
      omega
    rw [this]
  | some s0 =>
    obtain ⟨s, hs, hcase⟩ := hrel n s0 h0n
    rw [hs]
    rcases hcase with e | ⟨_, e⟩ | ⟨_, d, _, _, e⟩ <;> rw [e] <;> rfl

theorem ort_parse_close_height_flags (fuel : Nat) (l : List strctp) :
    ∀ (h : List strct) (c sz : Nat) (h2 : List strct) (sz2 : Nat),
      ort_parse_close_height fuel h c sz l = some (h2, sz2) →
      h2.map strct.flags = h.map strct.flags := by
  induction l with
  | nil =>
    intro h c sz h2 sz2 he
    simp only [ort_parse_close_height, Option.some.injEq, Prod.mk.injEq] at he
    rw [he.1]
  | cons p ps ih =>
    intro h c sz h2 sz2 he
    simp only [ort_parse_close_height] at he
    split at he
    · cases he
    · rename_i s hs
      split at he
      · exact ih _ _ _ _ _ he
      · split at he
        · cases he
        · rename_i h1 hg
          rw [ih _ _ _ _ _ he]
          exact gen_rel_flags (ort_parse_close_generation_rel c fuel p h s hs h1 hg)

theorem flags_clear_of_map {h h0 : List strct} (e : h.map strct.flags = h0.map strct.flags)
    (hc : ∀ s ∈ h0, s.flags &&& STRCT_HAS_NULLREFS = 0) :
    ∀ s ∈ h, s.flags &&& STRCT_HAS_NULLREFS = 0 := by
  intro s hs
  obtain ⟨n, hn⟩ := List.mem_iff_getElem?.1 hs
  have e2 : (h.map strct.flags)[n]? = (h0.map strct.flags)[n]? := by rw [e]
  rw [List.getElem?_map, List.getElem?_map, hn] at e2
  cases h0n : h0[n]? with
  | none => rw [h0n] at e2; cases e2
  | some s0 =>
    rw [h0n] at e2
    simp only [Option.map_some', Option.some.injEq] at e2
    rw [e2]
    exact hc s0 (List.mem_iff_getElem?.2 ⟨n, h0n⟩)

/-- C16: whenever `ort_parse_close` returns success on a configuration whose
structs all have `STRCT_HAS_NULLREFS` clear when the checks start, a struct of
the final list has the flag set if and only if it, or a struct reachable from
it through embedded-struct fields, has a struct-typed field whose source
(foreign-key) field is nullable. -/
theorem nullrefs_flag_iff (E : env) (fuel : Nat) (cfg cfg2 : config)
    (h : ort_parse_close E fuel cfg = some (cfg2, true))
    (hclear : ∀ s ∈ (resolved E cfg).heap, s.flags &&& STRCT_HAS_NULLREFS = 0) :
    ∀ S ∈ cfg2.sq, ∀ s, cfg2.heap[S]? = some s →
      (s.flags &&& STRCT_HAS_NULLREFS ≠ 0 ↔ has_nullrefs cfg2.heap S) := by
  have hl := (ort_parse_close_success h).2
  obtain ⟨c1, c2, c3, c4, c5, h6, sz, c7, c8, h9, h1, h2, h3, h4, h5, hh, h7, h8, hn, rfl⟩ :=
    ort_parse_close_linked_success hl
  have f1 := (ort_parse_close_unique_frame _ _ _ _ _ h1).1
  have f2 := (ort_parse_close_roles_spec _ (fun _ _ _ _ => check_unique_roles_frame) _ _ _ _ _ h2).1
  have f3 := (ort_parse_close_roles_spec _
    (fun _ _ _ _ => check_unique_roles_tree_frame) _ _ _ _ _ h3).1
  have f4 : msgs_only c3 c4 := by
    split at h4
    · cases h4
      exact msgs_only_refl _
    · exact ort_parse_close_reachable_frame _ _ _ h4
  have f5 := (ort_parse_close_recursive_spec _ _ _ _ _ _ h5).1
  have f15 := msgs_only_trans (msgs_only_trans (msgs_only_trans (msgs_only_trans f1 f2) f3) f4) f5
  have f7 := ort_parse_close_searchtype_frame _ _ _ _ h7
  have e8 := ort_parse_close_sort_spec h8
  subst e8
  dsimp only at hn ⊢
  have e7h : c7.heap = h6 := f7.1
  have hfl6 := ort_parse_close_height_flags _ _ _ _ _ _ _ hh
  rw [f15.1] at hfl6
  have hclear6 := flags_clear_of_map hfl6 hclear
  have hsound : nullrefs_sound c7.heap := by
    intro q s hq hfl
    rw [e7h] at hq
    exact absurd (hclear6 s (List.mem_iff_getElem?.2 ⟨q, hq⟩)) hfl
  obtain ⟨r1, -, r3⟩ := ort_parse_close_nullrefs_spec _ _ _ _ hn hsound
  have hst := ort_parse_close_nullrefs_frame static_part (fun _ _ => rfl) _ _ _ _ hn
  intro S hS s hs
  refine ⟨fun hfl => r1 S s hs hfl, fun hnr => ?_⟩
  obtain ⟨s2, hs2, hfl⟩ := r3 S hS (has_nullrefs_static hst hnr)
  rw [hs] at hs2
  cases hs2
  exact hfl

set_option maxRecDepth 100000 in
/-- Witness of C16 on `user_post_cfg`, where only `Post` has null
references. -/
theorem nullrefs_flag_iff_witness :
    ort_parse_close env_id 10 user_post_cfg = some (user_post_linked, true) ∧
    ∀ S ∈ user_post_linked.sq, ∀ s, user_post_linked.heap[S]? = some s →
      (s.flags &&& STRCT_HAS_NULLREFS ≠ 0 ↔ has_nullrefs user_post_linked.heap S) :=
  ⟨by decide, nullrefs_flag_iff env_id 10 user_post_cfg user_post_linked (by decide) (by decide)⟩

/-! ## C19: warnings on operations without a rolemap -/

theorem foldl_warn {α : Type} (rm : α → Option Nat) (ps : α → pos) (f : String) (l : List α) :
    ∀ c : config,
      l.foldl (fun c x => if rm x ≠ none then c else gen_warnx c (some (ps x)) (some f) []) c =
        { c with msgs := c.msgs ++
          (l.filter (fun x => decide (rm x = none))).map (fun x => warn_msg (ps x) f) } := by
  induction l with
  | nil =>
    intro c
    simp
  | cons x xs ih =>
    intro c
    rw [List.foldl_cons, ih]
    by_cases hx : rm x = none
    · simp [hx, gen_warnx, ort_msg, warn_msg]
    · simp [hx]

theorem ort_parse_close_reach_eq (cfg : config) (s : strct) :
    ort_parse_close_reach cfg s = { cfg with msgs := cfg.msgs ++ reach_warnings s } := by
  unfold ort_parse_close_reach reach_warnings
  simp only [foldl_warn search.rolemap search.pos, foldl_warn update.rolemap update.pos]
  cases s.ins with
  | none => simp
  | some ins =>
    by_cases hi : ins.rolemap = none
    · simp [hi, gen_warnx, ort_msg, warn_msg]
    · simp [hi]

theorem ort_parse_close_reachable_eq (l : List strctp) :
    ∀ cfg : config, (∀ p ∈ l, ∃ s, cfg.heap[p]? = some s) →
      ort_parse_close_reachable cfg l =
        some { cfg with msgs := cfg.msgs ++ l.flatMap (fun p =>
          match cfg.heap[p]? with
          | none => []
          | some s => reach_warnings s) } := by
  induction l with
  | nil =>
    intro cfg _
    simp [ort_parse_close_reachable]
  | cons p ps ih =>
    intro cfg hv
    obtain ⟨s, hs⟩ := hv p (List.mem_cons_self _ _)
    simp only [ort_parse_close_reachable, hs, ort_parse_close_reach_eq]
    rw [ih]
    · simp [hs]
    · exact fun q hq => hv q (List.mem_cons_of_mem _ hq)

theorem ort_parse_close_unique_valid (l : List strctp) :
    ∀ (cfg : config) (i : Nat) (r : config × Nat), ort_parse_close_unique cfg i l = some r →
      ∀ p ∈ l, ∃ s, cfg.heap[p]? = some s := by
  induction l with
  | nil => intro cfg i r _ p hp; cases hp
  | cons q qs ih =>
    intro cfg i r h p hp
    simp only [ort_parse_close_unique] at h
    split at h
    · cases h
    · rename_i s hs
      rcases List.mem_cons.1 hp with e | e
      · subst e
        exact ⟨s, hs⟩
      · have := ih _ _ _ h p e
        rw [(check_unique_unique_frame cfg s).1] at this
        exact this

/-- The passes behind a successful `ort_parse_close_to_roles`. -/
theorem ort_parse_close_to_roles_success {E : env} {fuel : Nat} {cfg c3 : config}
    (h : ort_parse_close_to_roles E fuel cfg = some (c3, true)) :
    cfg.sq ≠ [] ∧ (E.linker_resolve cfg).2 = true ∧
    (E.linker_aliases (E.linker_resolve cfg).1).2 = true ∧
    ∃ c1 c2,
      ort_parse_close_unique (resolved E cfg) 0 (resolved E cfg).sq = some (c1, 0) ∧
      ort_parse_close_roles check_unique_roles c1 0 c1.sq = some (c2, 0) ∧
      ort_parse_close_roles (check_unique_roles_tree fuel) c2 0 c2.sq = some (c3, 0) := by
  unfold ort_parse_close_to_roles at h
  split at h
  · cases h
  · rename_i hne
    obtain ⟨a1, h1, h⟩ := and_then_eq_some_true h
    obtain ⟨a2, h2, h⟩ := and_then_eq_some_true h
    obtain ⟨c1, h3, h⟩ := and_then_eq_some_true h
    obtain ⟨c2, h4, h⟩ := and_then_eq_some_true h
    simp only [Option.some.injEq] at h1 h2
    have e1 : (E.linker_resolve cfg).1 = a1 := by rw [h1]
    have e1b : (E.linker_resolve cfg).2 = true := by rw [h1]
    have e2 : (E.linker_aliases a1).1 = a2 := by rw [h2]
    have e2b : (E.linker_aliases a1).2 = true := by rw [h2]
    refine ⟨hne, e1b, by rw [e1]; exact e2b, c1, c2, ?_, map_eq_some_zero h4,
      map_eq_some_zero h⟩
    unfold resolved
    rw [e1, e2]
    exact map_eq_some_zero h3

/-- C19: for every configuration that passes the uniqueness and role checks,
the pass over the operations records, when at least one role is declared,
exactly one warning for each search, delete, update and insert without a
rolemap and none for operations that have one, and no warning when no role is
declared; the pass has no failing exit, and `ort_parse_close` goes on with the
recursion check. -/
theorem unreachable_operations_warned (E : env) (fuel : Nat) (cfg c3 : config)
    (h : ort_parse_close_to_roles E fuel cfg = some (c3, true)) :
    ort_parse_close_reach_pass c3 =
      some ({ c3 with msgs := c3.msgs ++ reach_messages c3 }, true) ∧
    ort_parse_close E fuel cfg =
      ort_parse_close_from_recursive E fuel { c3 with msgs := c3.msgs ++ reach_messages c3 } := by
  obtain ⟨-, -, -, c1, c2, h1, h2, h3⟩ := ort_parse_close_to_roles_success h
  have f1 := (ort_parse_close_unique_frame _ _ _ _ _ h1).1
  have f2 := (ort_parse_close_roles_spec _ (fun _ _ _ _ => check_unique_roles_frame) _ _ _ _ _ h2).1
  have f3 := (ort_parse_close_roles_spec _
    (fun _ _ _ _ => check_unique_roles_tree_frame) _ _ _ _ _ h3).1
  obtain ⟨eh, es, -, -⟩ := msgs_only_trans (msgs_only_trans f1 f2) f3
  have hv : ∀ p ∈ c3.sq, ∃ s, c3.heap[p]? = some s := by
    rw [eh, es]
    exact ort_parse_close_unique_valid _ _ _ _ h1
  have hpass : ort_parse_close_reach_pass c3 =
      some ({ c3 with msgs := c3.msgs ++ reach_messages c3 }, true) := by
    unfold ort_parse_close_reach_pass reach_messages
    by_cases hr : c3.rq = []
    · rw [if_pos hr, if_pos hr]
      cases c3
      simp
    · simp only [hr, if_false, ort_parse_close_reachable_eq _ _ hv, Option.map_some']
  refine ⟨hpass, ?_⟩
  rw [ort_parse_close_eq_from_recursive, h]
  simp only [and_then, hpass]

set_option maxRecDepth 100000 in
/-- Witness of C19 on `operations_cfg`: the search, the delete and the insert
without rolemap are warned about. -/
theorem unreachable_operations_warned_witness :
    (reach_messages operations_cfg).map msg.fmt =
      [some "no roles defined for query function", some "no roles defined for delete function",
       some "no roles defined for insert function"] ∧
    ort_parse_close_reach_pass operations_cfg =
      some ({ operations_cfg with
        msgs := operations_cfg.msgs ++ reach_messages operations_cfg }, true) ∧
    ort_parse_close env_id 10 operations_cfg =
      ort_parse_close_from_recursive env_id 10
        { operations_cfg with msgs := operations_cfg.msgs ++ reach_messages operations_cfg } :=
  ⟨by decide, unreachable_operations_warned env_id 10 operations_cfg operations_cfg (by decide)⟩

/-! ## Bookkeeping of the diagnostics -/

theorem counted_refl (P : msg → Prop) (c : config) (i : Nat) : counted P c i c i :=
  ⟨[], by simp, by simp, le_refl _, by simp⟩

theorem counted_trans {P : msg → Prop} {c c1 c2 : config} {i j k : Nat}
    (h1 : counted P c i c1 j) (h2 : counted P c1 j c2 k) : counted P c i c2 k := by
  obtain ⟨a1, e1, p1, l1, q1⟩ := h1
  obtain ⟨a2, e2, p2, l2, q2⟩ := h2
  refine ⟨a1 ++ a2, by rw [e2, e1, List.append_assoc], ?_, le_trans l1 l2, ?_⟩
  · intro m hm
    rcases List.mem_append.1 hm with h | h
    · exact p1 m h
    · exact p2 m h
  · rw [List.append_eq_nil]
    constructor
    · intro h
      have hj : j = i := by omega
      exact ⟨q1.1 hj, q2.1 (by omega)⟩
    · rintro ⟨h1, h2⟩
      have := q1.2 h1
      have := q2.2 h2
      omega

theorem counted_gen_errx (P : msg → Prop) (c : config) (i : Nat) (p : Option pos)
    (f : Option String) (a : List msgarg)
    (h : P { type := msgtype.MSGTYPE_ERROR, chan := channel, er := 0, pos := p, fmt := f,
             args := a }) :
    counted P c i (gen_errx c p f a) (i + 1) :=
  ⟨[_], rfl, by simpa using h, by omega, by simp⟩

theorem counted_mono {P Q : msg → Prop} (hPQ : ∀ m, P m → Q m) {c c2 : config} {i j : Nat}
    (h : counted P c i c2 j) : counted Q c i c2 j := by
  obtain ⟨a, e, p, l, q⟩ := h
  exact ⟨a, e, fun m hm => hPQ m (p m hm), l, q⟩

/-- A check that returns `errs == 0`, added to the count of a loop
(`i += !check(...)`). -/
theorem counted_bump {P : msg → Prop} {c c2 : config} {n : Nat} (i : Nat)
    (h : counted P c 0 c2 n) :
    counted P c i c2 (i + (if decide (n = 0) = true then 0 else 1)) := by
  obtain ⟨a, e, p, l, q⟩ := h
  refine ⟨a, e, p, by omega, ?_⟩
  rw [← q]
  by_cases hn : n = 0
  · simp [hn]
  · simp [hn]

theorem check_unique_unique_uu_counted (iu : Nat) (u : unique) (l : List (Nat × unique)) :
    ∀ (cfg : config) (errs : Nat),
      counted is_duplicate_unique cfg errs (check_unique_unique_uu iu u cfg errs l).1
        (check_unique_unique_uu iu u cfg errs l).2 := by
  induction l with
  | nil => intro cfg errs; exact counted_refl _ _ _
  | cons a l ih =>
    intro cfg errs
    obtain ⟨iuu, uu⟩ := a
    simp only [check_unique_unique_uu]
    split
    · exact ih cfg errs
    · split
      · exact ih cfg errs
      · split
        · exact counted_refl _ _ _
        · exact counted_trans (counted_gen_errx _ _ _ _ _ _ ⟨rfl, rfl⟩) (ih _ _)

theorem check_unique_unique_u_counted (all l : List (Nat × unique)) :
    ∀ (cfg : config) (errs : Nat),
      counted is_duplicate_unique cfg errs (check_unique_unique_u all cfg errs l).1
        (check_unique_unique_u all cfg errs l).2 := by
  induction l with
  | nil => intro cfg errs; exact counted_refl _ _ _
  | cons a l ih =>
    intro cfg errs
    obtain ⟨iu, u⟩ := a
    simp only [check_unique_unique_u]
    exact counted_trans (check_unique_unique_uu_counted iu u all cfg errs) (ih _ _)

theorem check_unique_unique_counted (cfg : config) (s : strct) (i : Nat) :
    counted is_duplicate_unique cfg i (check_unique_unique cfg s).1
      (i + (if (check_unique_unique cfg s).2 = true then 0 else 1)) :=
  counted_bump i (check_unique_unique_u_counted s.nq.enum s.nq.enum cfg 0)

/-- The count of `check_unique_unique` does not depend on the sink. -/
theorem check_unique_unique_uu_count (iu : Nat) (u : unique) (l : List (Nat × unique)) :
    ∀ (cfg cfg2 : config) (errs : Nat),
      (check_unique_unique_uu iu u cfg errs l).2 = (check_unique_unique_uu iu u cfg2 errs l).2 := by
  induction l with
  | nil => intro cfg cfg2 errs; rfl
  | cons a l ih =>
    intro cfg cfg2 errs
    obtain ⟨iuu, uu⟩ := a
    simp only [check_unique_unique_uu]
    split
    · exact ih _ _ _
    · split
      · exact ih _ _ _
      · split
        · rfl
        · exact ih _ _ _

theorem check_unique_unique_u_count (all l : List (Nat × unique)) :
    ∀ (cfg cfg2 : config) (errs : Nat),
      (check_unique_unique_u all cfg errs l).2 = (check_unique_unique_u all cfg2 errs l).2 := by
  induction l with
  | nil => intro cfg cfg2 errs; rfl
  | cons a l ih =>
    intro cfg cfg2 errs
    obtain ⟨iu, u⟩ := a
    simp only [check_unique_unique_u]
    rw [check_unique_unique_uu_count iu u all cfg cfg2 errs]
    exact ih _ _ _

theorem check_unique_unique_status (cfg cfg2 : config) (s : strct) :
    (check_unique_unique cfg s).2 = (check_unique_unique cfg2 s).2 := by
  simp only [check_unique_unique]
  rw [check_unique_unique_u_count s.nq.enum s.nq.enum cfg cfg2 0]

/-- The unique pass returns when every struct of the list is stored; it
records only "duplicate unique statements" errors, and its count is positive
as soon as `check_unique_unique` fails for one struct. -/
theorem ort_parse_close_unique_total (l : List strctp) :
    ∀ (cfg : config) (i : Nat), (∀ p ∈ l, ∃ s, cfg.heap[p]? = some s) →
      ∃ c2 j, ort_parse_close_unique cfg i l = some (c2, j) ∧
        counted is_duplicate_unique cfg i c2 j ∧
        ((∃ p ∈ l, ∃ s, cfg.heap[p]? = some s ∧ (check_unique_unique cfg s).2 = false) →
          i < j) := by
  induction l with
  | nil =>
    intro cfg i _
    exact ⟨cfg, i, rfl, counted_refl _ _ _, fun ⟨p, hp, _⟩ => by cases hp⟩
  | cons q qs ih =>
    intro cfg i hv
    obtain ⟨s, hs⟩ := hv q (List.mem_cons_self _ _)
    have hf := check_unique_unique_frame cfg s
    have hv2 : ∀ p ∈ qs, ∃ s2, (check_unique_unique cfg s).1.heap[p]? = some s2 := by
      intro p hp
      rw [hf.1]
      exact hv p (List.mem_cons_of_mem _ hp)
    obtain ⟨c2, j, e, hc, hpos⟩ :=
      ih (check_unique_unique cfg s).1 (i + (if (check_unique_unique cfg s).2 then 0 else 1)) hv2
    have hstep := check_unique_unique_counted cfg s i
    refine ⟨c2, j, by simp only [ort_parse_close_unique, hs]; exact e,
      counted_trans hstep hc, ?_⟩
    rintro ⟨p, hp, s2, hs2, hb⟩
    have hle := hc.choose_spec.2.2.1
    rcases List.mem_cons.1 hp with rfl | hp
    · rw [hs] at hs2
      cases hs2
      rw [hb] at hle
      simp at hle
      omega
    · have := hpos ⟨p, hp, s2, by rw [hf.1]; exact hs2,
        by rw [check_unique_unique_status _ cfg]; exact hb⟩
      omega

set_option maxRecDepth 100000 in
/-- C20, counterexample: on a configuration whose struct has both duplicate
unique statements and a rolemap with a duplicate role, `ort_parse_close`
records the two "duplicate unique statements" errors and returns failure
without any "duplicate operation role" error, although `check_unique_roles`
fails on the rolemap. -/
theorem duplicate_role_not_reported :
    (ort_parse_close env_id 10 both_defects_cfg).map (fun r => (r.1.msgs.map msg.fmt, r.2)) =
      some ([some "duplicate unique statements: %s:%zu:%zu",
             some "duplicate unique statements: %s:%zu:%zu"], false) ∧
    (check_unique_roles both_defects_cfg repeated_role_map).map Prod.snd = some false ∧
    ¬ ∃ r ∈ ort_parse_close env_id 10 both_defects_cfg,
        ∃ m ∈ r.1.msgs, m.fmt = some "duplicate operation role" := by
  decide

/-- C20, amended: when the resolver passes succeed and `check_unique_unique`
fails for a struct of the configuration, `ort_parse_close` returns failure
right after the unique pass (`if (i > 0) return 0;`), whatever the rolemaps
contain: the messages it records are "duplicate unique statements" errors, at
least one, and the rest of the configuration is that of the resolvers; no
role check has run. -/
theorem duplicate_unique_ends_run (E : env) (fuel : Nat) (cfg : config) (p : strctp) (s : strct)
    (hne : cfg.sq ≠ [])
    (hr : (E.linker_resolve cfg).2 = true)
    (ha : (E.linker_aliases (E.linker_resolve cfg).1).2 = true)
    (hv : ∀ q ∈ (resolved E cfg).sq, ∃ t, (resolved E cfg).heap[q]? = some t)
    (hp : p ∈ (resolved E cfg).sq) (hs : (resolved E cfg).heap[p]? = some s)
    (hd : (check_unique_unique (resolved E cfg) s).2 = false) :
    ∃ (c : config) (added : List msg),
      ort_parse_close E fuel cfg = some (c, false) ∧
      msgs_only (resolved E cfg) c ∧
      c.msgs = (resolved E cfg).msgs ++ added ∧ added ≠ [] ∧
      ∀ m ∈ added, is_duplicate_unique m := by
  obtain ⟨c2, j, e, ⟨added, em, hP, -, hq⟩, hpos⟩ :=
    ort_parse_close_unique_total (resolved E cfg).sq (resolved E cfg) 0 hv
  have hj : 0 < j := hpos ⟨p, hp, s, hs, hd⟩
  refine ⟨c2, added, ?_, (ort_parse_close_unique_frame _ _ _ _ _ e).1, em, ?_, hP⟩
  · have e1 : E.linker_resolve cfg = ((E.linker_resolve cfg).1, true) := by rw [← hr]
    have e2 : E.linker_aliases (E.linker_resolve cfg).1 = (resolved E cfg, true) := by
      rw [← ha]
      rfl
    have hj0 : decide (j = 0) = false := by simp; omega
    unfold ort_parse_close
    rw [if_neg hne, e1]
    simp only [and_then]
    rw [e2]
    simp only [and_then, ort_parse_close_linked, e, Option.map_some', hj0]
  · intro h
    have := hq.2 h
    omega

set_option maxRecDepth 100000 in
/-- Witness of the amended C20 on `both_defects_cfg`. -/
theorem duplicate_unique_ends_run_witness :
    ∃ (c : config) (added : List msg),
      ort_parse_close env_id 10 both_defects_cfg = some (c, false) ∧
      msgs_only (resolved env_id both_defects_cfg) c ∧
      c.msgs = (resolved env_id both_defects_cfg).msgs ++ added ∧ added ≠ [] ∧
      ∀ m ∈ added, is_duplicate_unique m :=
  duplicate_unique_ends_run env_id 10 both_defects_cfg 0
    { swapped_uniques with rq := [repeated_role_map] } (by decide) rfl rfl
    (fun q hq => by
      have hq0 : q = 0 := by simpa [resolved, env_id, both_defects_cfg] using hq
      subst hq0
      exact ⟨_, rfl⟩)
    (by decide) rfl (by decide)

/-! ## C18: the status and the recorded diagnostics -/

theorem status_sound_refl (c : config) : status_sound c (c, true) :=
  ⟨[], by simp, by simp⟩

theorem status_sound_of_msgs {c c2 : config} (h : c2.msgs = c.msgs) : status_sound c (c2, true) :=
  ⟨[], by simp [h], by simp⟩

theorem status_sound_gen_errx (c : config) (p : Option pos) (f : Option String)
    (a : List msgarg) : status_sound c (gen_errx c p f a, false) :=
  ⟨[_], rfl, by simp [benign]⟩

theorem status_sound_gen_err (er : Nat) (c : config) (p : Option pos) :
    status_sound c (gen_err er c p, false) :=
  ⟨[_], rfl, by simp [benign]⟩

/-- Benign messages in front of a run do not change its verdict. -/
theorem status_sound_prefix {c c1 : config} {r : config × Bool} (w : List msg)
    (hw : c1.msgs = c.msgs ++ w) (hb : ∀ m ∈ w, benign m) (h : status_sound c1 r) :
    status_sound c r := by
  obtain ⟨a, e, q⟩ := h
  refine ⟨w ++ a, by rw [e, hw, List.append_assoc], ?_⟩
  rw [q]
  constructor
  · intro h m hm
    rcases List.mem_append.1 hm with h1 | h1
    · exact hb m h1
    · exact h m h1
  · intro h m hm
    exact h m (List.mem_append_right _ hm)

theorem status_sound_trans {c c1 : config} {r : config × Bool}
    (h1 : status_sound c (c1, true)) (h2 : status_sound c1 r) : status_sound c r := by
  obtain ⟨w, hw, q⟩ := h1
  exact status_sound_prefix w hw (q.1 rfl) h2

theorem status_sound_gen_warnx {c : config} {r : config × Bool} (p : Option pos)
    (f : Option String) (a : List msgarg) (h : status_sound (gen_warnx c p f a) r) :
    status_sound c r :=
  status_sound_prefix [_] rfl (by simp [benign]) h

theorem status_sound_and_then {c : config} {x : Option (config × Bool)}
    {k : config → Option (config × Bool)} {r : config × Bool}
    (hx : ∀ r1, x = some r1 → status_sound c r1)
    (hk : ∀ c1 r2, k c1 = some r2 → status_sound c1 r2)
    (h : and_then x k = some r) : status_sound c r := by
  unfold and_then at h
  split at h
  · cases h
  · cases h
    exact hx _ rfl
  · exact status_sound_trans (hx _ rfl) (hk _ _ h)

/-- A counting pass that started from zero: the test `i > 0` agrees with the
recorded errors. -/
theorem status_sound_of_counted {c c2 : config} {j : Nat} (h : counted is_error c 0 c2 j) :
    status_sound c (c2, decide (j = 0)) := by
  obtain ⟨a, e, p, -, q⟩ := h
  refine ⟨a, e, ?_⟩
  simp only [decide_eq_true_eq]
  rw [q]
  constructor
  · rintro rfl m hm
    cases hm
  · intro hb
    cases a with
    | nil => rfl
    | cons m ms =>
      exact absurd (p m (List.mem_cons_self _ _)) (hb m (List.mem_cons_self _ _)).1

theorem status_sound_of_counted_map {c : config} {o : Option (config × Nat)} {r : config × Bool}
    (ho : ∀ c2 j, o = some (c2, j) → counted is_error c 0 c2 j)
    (h : o.map (fun r => (r.1, decide (r.2 = 0))) = some r) : status_sound c r := by
  cases o with
  | none => cases h
  | some x =>
    obtain ⟨c2, j⟩ := x
    simp only [Option.map_some', Option.some.injEq] at h
    subst h
    exact status_sound_of_counted (ho _ _ rfl)

theorem ort_parse_close_unique_counted {l : List strctp} {cfg c2 : config} {i j : Nat}
    (h : ort_parse_close_unique cfg i l = some (c2, j)) : counted is_error cfg i c2 j := by
  obtain ⟨c3, k, e, hc, -⟩ :=
    ort_parse_close_unique_total l cfg i (ort_parse_close_unique_valid l cfg i _ h)
  rw [h] at e
  cases e
  exact counted_mono (fun m hm => hm.1) hc

theorem check_unique_roles_rrs_counted (irs : Nat) (rs : rref) (l : List (Nat × rref)) :
    ∀ (cfg : config) (errs : Nat) (c2 : config) (e2 : Nat),
      check_unique_roles_rrs irs rs cfg errs l = some (c2, e2) →
      counted is_error cfg errs c2 e2 := by
  induction l with
  | nil =>
    intro cfg errs c2 e2 h
    simp only [check_unique_roles_rrs, Option.some.injEq, Prod.mk.injEq] at h
    obtain ⟨rfl, rfl⟩ := h
    exact counted_refl _ _ _
  | cons a l ih =>
    intro cfg errs c2 e2 h
    obtain ⟨irrs, rrs⟩ := a
    simp only [check_unique_roles_rrs] at h
    split at h
    · split at h
      · cases h
      · exact counted_trans (counted_gen_errx _ _ _ _ _ _ rfl) (ih _ _ _ _ h)
    · exact ih _ _ _ _ h

theorem check_unique_roles_rs_counted (all l : List (Nat × rref)) :
    ∀ (cfg : config) (errs : Nat) (c2 : config) (e2 : Nat),
      check_unique_roles_rs all cfg errs l = some (c2, e2) →
      counted is_error cfg errs c2 e2 := by
  induction l with
  | nil =>
    intro cfg errs c2 e2 h
    simp only [check_unique_roles_rs, Option.some.injEq, Prod.mk.injEq] at h
    obtain ⟨rfl, rfl⟩ := h
    exact counted_refl _ _ _
  | cons a l ih =>
    intro cfg errs c2 e2 h
    obtain ⟨irs, rs⟩ := a
    simp only [check_unique_roles_rs] at h
    split at h
    · cases h
    · rename_i c1 e1 h1
      exact counted_trans (check_unique_roles_rrs_counted _ _ _ _ _ _ _ h1) (ih _ _ _ _ h)

theorem check_unique_roles_counted {cfg : config} {rm : rolemap} {c2 : config} {ok : Bool}
    (h : check_unique_roles cfg rm = some (c2, ok)) :
    ∃ n, counted is_error cfg 0 c2 n ∧ ok = decide (n = 0) := by
  unfold check_unique_roles at h
  split at h
  · cases h
  · rename_i c1 e1 h1
    simp only [Option.some.injEq, Prod.mk.injEq] at h
    obtain ⟨rfl, rfl⟩ := h
    exact ⟨e1, check_unique_roles_rs_counted _ _ _ _ _ _ h1, rfl⟩

theorem check_unique_roles_tree_rrs_counted (fuel irs : Nat) (rs : rref)
    (l : List (Nat × rref)) :
    ∀ (cfg : config) (i : Nat) (c2 : config) (i2 : Nat),
      check_unique_roles_tree_rrs fuel irs rs cfg i l = some (c2, i2) →
      counted is_error cfg i c2 i2 := by
  induction l with
  | nil =>
    intro cfg i c2 i2 h
    simp only [check_unique_roles_tree_rrs, Option.some.injEq, Prod.mk.injEq] at h
    obtain ⟨rfl, rfl⟩ := h
    exact counted_refl _ _ _
  | cons a l ih =>
    intro cfg i c2 i2 h
    obtain ⟨irrs, rrs⟩ := a
    simp only [check_unique_roles_tree_rrs] at h
    split at h
    · exact ih _ _ _ _ h
    · split at h
      · exact ih _ _ _ _ h
      · split at h
        · cases h
        · split at h
          · cases h
          · exact ih _ _ _ _ h
          · split at h
            · exact counted_trans (counted_gen_errx _ _ _ _ _ _ rfl) (ih _ _ _ _ h)
            · cases h

theorem check_unique_roles_tree_rs_counted (fuel : Nat) (all l : List (Nat × rref)) :
    ∀ (cfg : config) (i : Nat) (c2 : config) (i2 : Nat),
      check_unique_roles_tree_rs fuel all cfg i l = some (c2, i2) →
      counted is_error cfg i c2 i2 := by
  induction l with
  | nil =>
    intro cfg i c2 i2 h
    simp only [check_unique_roles_tree_rs, Option.some.injEq, Prod.mk.injEq] at h
    obtain ⟨rfl, rfl⟩ := h
    exact counted_refl _ _ _
  | cons a l ih =>
    intro cfg i c2 i2 h
    obtain ⟨irs, rs⟩ := a
    simp only [check_unique_roles_tree_rs] at h
    split at h
    · cases h
    · rename_i c1 i1 h1
      exact counted_trans (check_unique_roles_tree_rrs_counted _ _ _ _ _ _ _ _ h1)
        (ih _ _ _ _ h)

theorem check_unique_roles_tree_counted {fuel : Nat} {cfg : config} {rm : rolemap}
    {c2 : config} {ok : Bool} (h : check_unique_roles_tree fuel cfg rm = some (c2, ok)) :
    ∃ n, counted is_error cfg 0 c2 n ∧ ok = decide (n = 0) := by
  unfold check_unique_roles_tree at h
  split at h
  · cases h
  · rename_i c1 e1 h1
    simp only [Option.some.injEq, Prod.mk.injEq] at h
    obtain ⟨rfl, rfl⟩ := h
    exact ⟨e1, check_unique_roles_tree_rs_counted _ _ _ _ _ _ _ h1, rfl⟩

theorem ort_parse_close_rq_counted (check : config → rolemap → Option (config × Bool))
    (hcheck : ∀ cfg rm c2 ok, check cfg rm = some (c2, ok) →
      ∃ n, counted is_error cfg 0 c2 n ∧ ok = decide (n = 0))
    (l : List rolemap) :
    ∀ (cfg : config) (i : Nat) (c2 : config) (i2 : Nat),
      ort_parse_close_rq check cfg i l = some (c2, i2) → counted is_error cfg i c2 i2 := by
  induction l with
  | nil =>
    intro cfg i c2 i2 h
    simp only [ort_parse_close_rq, Option.some.injEq, Prod.mk.injEq] at h
    obtain ⟨rfl, rfl⟩ := h
    exact counted_refl _ _ _
  | cons rm rms ih =>
    intro cfg i c2 i2 h
    simp only [ort_parse_close_rq] at h
    split at h
    · cases h
    · rename_i c1 ok h1
      obtain ⟨n, hn, rfl⟩ := hcheck _ _ _ _ h1
      exact counted_trans (counted_bump i hn) (ih _ _ _ _ h)

theorem ort_parse_close_roles_counted (check : config → rolemap → Option (config × Bool))
    (hcheck : ∀ cfg rm c2 ok, check cfg rm = some (c2, ok) →
      ∃ n, counted is_error cfg 0 c2 n ∧ ok = decide (n = 0))
    (l : List strctp) :
    ∀ (cfg : config) (i : Nat) (c2 : config) (i2 : Nat),
      ort_parse_close_roles check cfg i l = some (c2, i2) → counted is_error cfg i c2 i2 := by
  induction l with
  | nil =>
    intro cfg i c2 i2 h
    simp only [ort_parse_close_roles, Option.some.injEq, Prod.mk.injEq] at h
    obtain ⟨rfl, rfl⟩ := h
    exact counted_refl _ _ _
  | cons p ps ih =>
    intro cfg i c2 i2 h
    simp only [ort_parse_close_roles] at h
    split at h
    · cases h
    · split at h
      · cases h
      · rename_i c1 i1 h1
        exact counted_trans (ort_parse_close_rq_counted check hcheck _ _ _ _ _ h1)
          (ih _ _ _ _ h)

theorem ort_parse_close_recursive_fq_counted (fuel : Nat) (p : strctp) (l : List field) :
    ∀ (cfg : config) (i : Nat) (c2 : config) (i2 : Nat),
      ort_parse_close_recursive_fq fuel p cfg i l = some (c2, i2) →
      counted is_error cfg i c2 i2 := by
  induction l with
  | nil =>
    intro cfg i c2 i2 h
    simp only [ort_parse_close_recursive_fq, Option.some.injEq, Prod.mk.injEq] at h
    obtain ⟨rfl, rfl⟩ := h
    exact counted_refl _ _ _
  | cons f fs ih =>
    intro cfg i c2 i2 h
    simp only [ort_parse_close_recursive_fq] at h
    split at h
    · exact ih _ _ _ _ h
    · split at h
      · cases h
      · split at h
        · cases h
        · exact ih _ _ _ _ h
        · exact counted_trans (counted_gen_errx _ _ _ _ _ _ rfl) (ih _ _ _ _ h)

theorem ort_parse_close_recursive_counted (fuel : Nat) (l : List strctp) :
    ∀ (cfg : config) (i : Nat) (c2 : config) (i2 : Nat),
      ort_parse_close_recursive fuel cfg i l = some (c2, i2) →
      counted is_error cfg i c2 i2 := by
  induction l with
  | nil =>
    intro cfg i c2 i2 h
    simp only [ort_parse_close_recursive, Option.some.injEq, Prod.mk.injEq] at h
    obtain ⟨rfl, rfl⟩ := h
    exact counted_refl _ _ _
  | cons p ps ih =>
    intro cfg i c2 i2 h
    simp only [ort_parse_close_recursive] at h
    split at h
    · cases h
    · split at h
      · cases h
      · rename_i c1 i1 h1
        exact counted_trans (ort_parse_close_recursive_fq_counted _ _ _ _ _ _ _ h1)
          (ih _ _ _ _ h)

theorem check_searchtype_null_status {c c1 : config} {st : sent} {r : config × Bool}
    (h : check_searchtype_null c st = some c1) (hr : status_sound c1 r) : status_sound c r := by
  unfold check_searchtype_null at h
  split at h
  · split at h
    · cases h
    · split at h
      · cases h
        exact status_sound_gen_warnx _ _ _ hr
      · cases h
        exact hr
  · cases h
    exact hr

theorem check_searchtype_sntq_status (l : List sent) :
    ∀ (cfg : config) (r : config × Bool), check_searchtype_sntq cfg l = some r →
      status_sound cfg r := by
  induction l with
  | nil =>
    intro cfg r h
    simp only [check_searchtype_sntq, Option.some.injEq] at h
    subst h
    exact status_sound_refl _
  | cons st rest ih =>
    intro cfg r h
    simp only [check_searchtype_sntq] at h
    split at h
    · cases h
    · rename_i c1 h1
      refine check_searchtype_null_status h1 ?_
      split at h
      · cases h
      · cases h
        exact status_sound_gen_errx _ _ _ _
      · split at h
        · cases h
        · cases h
          exact status_sound_gen_errx _ _ _ _
        · exact ih _ _ h

theorem check_searchtype_dst_status (l : List sent) :
    ∀ (cfg : config) (r : config × Bool), check_searchtype_dst cfg l = some r →
      status_sound cfg r := by
  induction l with
  | nil =>
    intro cfg r h
    simp only [check_searchtype_dst, Option.some.injEq] at h
    subst h
    exact status_sound_refl _
  | cons st rest ih =>
    intro cfg r h
    simp only [check_searchtype_dst] at h
    split at h
    · exact ih _ _ h
    · split at h
      · cases h
      · split at h
        · exact ih _ _ h
        · cases h
          exact status_sound_gen_errx _ _ _ _

theorem check_searchtype_warn_status {c : config} {srch : search} {r : config × Bool}
    (hr : status_sound (check_searchtype_warn c srch) r) : status_sound c r := by
  unfold check_searchtype_warn at hr
  simp only at hr
  split at hr
  · split at hr
    · exact status_sound_gen_warnx _ _ _ (status_sound_gen_warnx _ _ _ hr)
    · exact status_sound_gen_warnx _ _ _ hr
  · split at hr
    · exact status_sound_gen_warnx _ _ _ hr
    · exact hr

theorem check_searchtype_sq_status (l : List search) :
    ∀ (cfg : config) (r : config × Bool), check_searchtype_sq cfg l = some r →
      status_sound cfg r := by
  induction l with
  | nil =>
    intro cfg r h
    simp only [check_searchtype_sq, Option.some.injEq] at h
    subst h
    exact status_sound_refl _
  | cons srch rest ih =>
    intro cfg r h
    simp only [check_searchtype_sq] at h
    split at h
    · cases h
      exact status_sound_gen_errx _ _ _ _
    · refine @check_searchtype_warn_status cfg srch r ?_
      split at h
      · cases h
      · rename_i c1 h1
        cases h
        exact check_searchtype_sntq_status _ _ _ h1
      · rename_i c1 h1
        have s1 := check_searchtype_sntq_status _ _ _ h1
        split at h
        · exact status_sound_trans s1 (ih _ _ h)
        · split at h
          · cases h
          · rename_i c2 h2
            cases h
            exact status_sound_trans s1 (check_searchtype_dst_status _ _ _ h2)
          · rename_i c2 h2
            exact status_sound_trans s1
              (status_sound_trans (check_searchtype_dst_status _ _ _ h2) (ih _ _ h))

theorem ort_parse_close_searchtype_status (l : List strctp) :
    ∀ (cfg : config) (r : config × Bool), ort_parse_close_searchtype cfg l = some r →
      status_sound cfg r := by
  induction l with
  | nil =>
    intro cfg r h
    simp only [ort_parse_close_searchtype, Option.some.injEq] at h
    subst h
    exact status_sound_refl _
  | cons p ps ih =>
    intro cfg r h
    simp only [ort_parse_close_searchtype] at h
    split at h
    · cases h
    · rename_i s hs
      exact status_sound_and_then
        (fun r1 h1 => check_searchtype_sq_status _ _ _ h1) (fun c1 r2 h2 => ih _ _ h2) h

theorem ort_parse_close_reachable_status (l : List strctp) :
    ∀ (cfg c2 : config), ort_parse_close_reachable cfg l = some c2 →
      status_sound cfg (c2, true) := by
  induction l with
  | nil =>
    intro cfg c2 h
    simp only [ort_parse_close_reachable, Option.some.injEq] at h
    subst h
    exact status_sound_refl _
  | cons p ps ih =>
    intro cfg c2 h
    simp only [ort_parse_close_reachable] at h
    split at h
    · cases h
    · rename_i s hs
      rw [ort_parse_close_reach_eq] at h
      refine status_sound_prefix (reach_warnings s) rfl ?_ (ih _ _ h)
      intro m hm
      have hw : m.type = msgtype.MSGTYPE_WARN := by
        unfold reach_warnings at hm
        simp only [List.mem_append, List.mem_map] at hm
        rcases hm with ((⟨x, -, rfl⟩ | ⟨x, -, rfl⟩) | ⟨x, -, rfl⟩) | hm
        · rfl
        · rfl
        · rfl
        · split at hm
          · cases hm
          · split at hm
            · simp only [List.mem_singleton] at hm
              subst hm
              rfl
            · cases hm
      simp [benign, hw]

theorem ort_parse_close_reach_pass_status {c : config} {r : config × Bool}
    (h : ort_parse_close_reach_pass c = some r) : status_sound c r := by
  unfold ort_parse_close_reach_pass at h
  split at h
  · simp only [Option.map_some', Option.some.injEq] at h
    subst h
    exact status_sound_refl _
  · cases hx : ort_parse_close_reachable c c.sq with
    | none => rw [hx] at h; cases h
    | some c2 =>
      rw [hx] at h
      simp only [Option.map_some', Option.some.injEq] at h
      subst h
      exact ort_parse_close_reachable_status _ _ _ hx

theorem ort_parse_close_height_pass_status {fuel : Nat} {c : config} {r : config × Bool}
    (h : ort_parse_close_height_pass fuel c = some r) : status_sound c r := by
  unfold ort_parse_close_height_pass at h
  split at h
  · cases h
  · split at h
    · cases h
    · cases h
      exact status_sound_of_msgs rfl

theorem ort_parse_close_sort_status {E : env} {sz : Nat} {c : config} {r : config × Bool}
    (h : ort_parse_close_sort E sz c = some r) : status_sound c r := by
  unfold ort_parse_close_sort at h
  split at h
  · cases h
    exact status_sound_gen_err _ _ _
  · split at h
    · cases h
    · cases h
      exact status_sound_of_msgs rfl

theorem ort_parse_close_from_search_status {E : env} {fuel : Nat} {c : config}
    {r : config × Bool} (h : ort_parse_close_from_search E fuel c = some r) :
    status_sound c r := by
  unfold ort_parse_close_from_search at h
  refine status_sound_and_then (fun r1 h1 => ort_parse_close_searchtype_status _ _ _ h1)
    (fun c7 r2 h2 => ?_) h
  refine status_sound_and_then (fun r1 h1 => ort_parse_close_sort_status h1)
    (fun c8 r3 h3 => ?_) h2
  cases hx : ort_parse_close_nullrefs fuel c8.heap c8.sq with
  | none => rw [hx] at h3; cases h3
  | some h9 =>
    rw [hx] at h3
    simp only [Option.map_some', Option.some.injEq] at h3
    subst h3
    exact status_sound_of_msgs rfl

theorem ort_parse_close_from_recursive_status {E : env} {fuel : Nat} {c : config}
    {r : config × Bool} (h : ort_parse_close_from_recursive E fuel c = some r) :
    status_sound c r := by
  unfold ort_parse_close_from_recursive at h
  refine status_sound_and_then (fun r1 h1 => ?_) (fun c5 r2 h2 => ?_) h
  · exact status_sound_of_counted_map
      (fun c2 j hj => ort_parse_close_recursive_counted _ _ _ _ _ _ hj) h1
  · exact status_sound_and_then (fun r1 h1 => ort_parse_close_height_pass_status h1)
      (fun c6 r3 h3 => ort_parse_close_from_search_status h3) h2

theorem ort_parse_close_to_roles_status {E : env} {fuel : Nat} {cfg : config}
    {r : config × Bool} (hres : resolver_spec E.linker_resolve)
    (hali : resolver_spec E.linker_aliases)
    (h : ort_parse_close_to_roles E fuel cfg = some r) : status_sound cfg r := by
  unfold ort_parse_close_to_roles at h
  split at h
  · cases h
    exact status_sound_gen_errx _ _ _ _
  · refine status_sound_and_then (fun r1 h1 => ?_) (fun c1 r2 h2 => ?_) h
    · cases h1
      exact hres cfg
    refine status_sound_and_then (fun r1 h1 => ?_) (fun c2 r3 h3 => ?_) h2
    · cases h1
      exact hali c1
    refine status_sound_and_then (fun r1 h1 => ?_) (fun c3 r4 h4 => ?_) h3
    · exact status_sound_of_counted_map (fun c j hj => ort_parse_close_unique_counted hj) h1
    refine status_sound_and_then (fun r1 h1 => ?_) (fun c4 r5 h5 => ?_) h4
    · exact status_sound_of_counted_map (fun c j hj => ort_parse_close_roles_counted _
        (fun _ _ _ _ hc => check_unique_roles_counted hc) _ _ _ _ _ hj) h1
    · exact status_sound_of_counted_map (fun c j hj => ort_parse_close_roles_counted _
        (fun _ _ _ _ hc => check_unique_roles_tree_counted hc) _ _ _ _ _ hj) h5

/-- C18: under the assumption that the resolver passes only append to the sink
and fail exactly when they record an error, whenever `ort_parse_close` returns,
the messages of the resulting configuration are those of the input followed by
the messages recorded during the call, and the returned status is success if
and only if none of the recorded messages is an error or a fatal error; the
warnings among them have no influence on the status. -/
theorem status_iff_no_error_recorded (E : env) (fuel : Nat) (cfg : config) (r : config × Bool)
    (hres : resolver_spec E.linker_resolve) (hali : resolver_spec E.linker_aliases)
    (h : ort_parse_close E fuel cfg = some r) :
    ∃ added : List msg, r.1.msgs = cfg.msgs ++ added ∧
      (r.2 = true ↔ ∀ m ∈ added, m.type ≠ msgtype.MSGTYPE_ERROR ∧
        m.type ≠ msgtype.MSGTYPE_FATAL) := by
  rw [ort_parse_close_eq_from_recursive] at h
  exact status_sound_and_then (fun r1 h1 => ort_parse_close_to_roles_status hres hali h1)
    (fun c3 r2 h2 => status_sound_and_then (fun r1 h1 => ort_parse_close_reach_pass_status h1)
      (fun c4 r3 h3 => ort_parse_close_from_recursive_status h3) h2) h

set_option maxRecDepth 100000 in
/-- Witness of C18 on `operations_cfg`: the run records three warnings and
returns success. -/
theorem status_iff_no_error_recorded_witness :
    (reach_messages operations_cfg).map msg.type =
      [msgtype.MSGTYPE_WARN, msgtype.MSGTYPE_WARN, msgtype.MSGTYPE_WARN] ∧
    ∃ added : List msg,
      ({ operations_cfg with msgs := reach_messages operations_cfg }, true).1.msgs =
        operations_cfg.msgs ++ added ∧
      (({ operations_cfg with msgs := reach_messages operations_cfg }, true).2 = true ↔
        ∀ m ∈ added, m.type ≠ msgtype.MSGTYPE_ERROR ∧ m.type ≠ msgtype.MSGTYPE_FATAL) :=
  ⟨by decide,
    status_iff_no_error_recorded env_id 10 operations_cfg
      ({ operations_cfg with msgs := reach_messages operations_cfg }, true)
      (fun c => status_sound_refl c) (fun c => status_sound_refl c) (by decide)⟩

/-! ## C27: the cycle check on a cycle that avoids the origin -/

theorem off_path_cycle_diverges (fuel : Nat) :
    ∀ r : ref, r.target.parent = 1 ∨ r.target.parent = 2 →
      check_recursive off_path_cycle_cfg.heap fuel r 0 = none := by
  induction fuel with
  | zero => intro r _; rfl
  | succ fuel ih =>
    intro r hr
    have h1 := ih { target := ⟨1, 0⟩, source := ⟨2, 1⟩ } (Or.inl rfl)
    have h2 := ih { target := ⟨2, 0⟩, source := ⟨1, 1⟩ } (Or.inr rfl)
    have hb : off_path_cycle_cfg.heap[1]? = some (mk_strct 1 "b" [2]) := rfl
    have hc : off_path_cycle_cfg.heap[2]? = some (mk_strct 2 "c" [1]) := rfl
    rcases hr with e | e
    · simp [check_recursive, e, hb, mk_strct, embed_fields, check_recursive_fq, h2]
    · simp [check_recursive, e, hc, mk_strct, embed_fields, check_recursive_fq, h1]

/-- C27, the code at the failing input: in `off_path_cycle_cfg` (`a` embeds
`b`, `b` embeds `c`, `c` embeds `b`) struct `a` lies on no cycle, and yet
`check_recursive`, called on the struct field of `a` with the origin `a`,
returns nothing for any recursion budget, and neither does the recursion pass
nor `ort_parse_close`. -/
theorem off_path_cycle_check_never_returns (fuel : Nat) :
    (off_path_cycle_cfg.heap[0]?).map (fun s => s.fq.map field.ref) =
      some [none, some { target := ⟨1, 0⟩, source := ⟨0, 1⟩ },
        some { target := ⟨1, 0⟩, source := ⟨0, 1⟩ }] ∧
    ¬ embeds off_path_cycle_cfg.heap 1 0 ∧ ¬ embeds off_path_cycle_cfg.heap 2 0 ∧
    check_recursive off_path_cycle_cfg.heap fuel { target := ⟨1, 0⟩, source := ⟨0, 1⟩ } 0 = none ∧
    ort_parse_close_recursive fuel off_path_cycle_cfg 0 off_path_cycle_cfg.sq = none ∧
    ort_parse_close env_id fuel off_path_cycle_cfg = none := by
  have hd := off_path_cycle_diverges fuel { target := ⟨1, 0⟩, source := ⟨0, 1⟩ } (Or.inl rfl)
  have h1 : ort_parse_close_unique off_path_cycle_cfg 0 off_path_cycle_cfg.sq =
      some (off_path_cycle_cfg, 0) := by decide
  have h2 : ort_parse_close_roles check_unique_roles off_path_cycle_cfg 0
      off_path_cycle_cfg.sq = some (off_path_cycle_cfg, 0) := by decide
  have h3 : ort_parse_close_roles (check_unique_roles_tree fuel) off_path_cycle_cfg 0
      off_path_cycle_cfg.sq = some (off_path_cycle_cfg, 0) := rfl
  have h4 : off_path_cycle_cfg.rq = [] := rfl
  have h5 : ort_parse_close_recursive fuel off_path_cycle_cfg 0 off_path_cycle_cfg.sq = none := by
    have ha : off_path_cycle_cfg.heap[0]? = some (mk_strct 0 "a" [1]) := rfl
    have hsq : off_path_cycle_cfg.sq = [0, 1, 2] := rfl
    simp [hsq, ort_parse_close_recursive, ha, mk_strct, embed_fields,
      ort_parse_close_recursive_fq, hd]
  refine ⟨by decide, by decide, by decide, hd, h5, ?_⟩
  have hne : ¬ (off_path_cycle_cfg.sq = []) := by decide
  simp only [ort_parse_close, hne, if_false, env_id, and_then, ort_parse_close_linked, h1, h2,
    h3, h4, h5, Option.map_some', Option.map_none', decide_True, if_true]

/-! ## C22: the warning on single-result searches -/

theorem check_searchtype_null_verdict {c d : config} (st : sent) (h : c.heap = d.heap) :
    (check_searchtype_null c st).map config.heap = (check_searchtype_null d st).map config.heap := by
  unfold check_searchtype_null
  rw [h]
  split
  · cases deref_field d.heap st.field with
    | none => rfl
    | some f =>
      simp only
      split
      · simp [gen_warnx, ort_msg, h]
      · simp [h]
  · simp [h]

theorem check_searchtype_sntq_verdict (l : List sent) :
    ∀ (c d : config), c.heap = d.heap →
      verdict (check_searchtype_sntq c l) = verdict (check_searchtype_sntq d l) := by
  induction l with
  | nil =>
    intro c d h
    simp [check_searchtype_sntq, verdict, h]
  | cons st rest ih =>
    intro c d h
    have hn := check_searchtype_null_verdict st h
    simp only [check_searchtype_sntq]
    cases hc : check_searchtype_null c st with
    | none =>
      rw [hc] at hn
      cases hd : check_searchtype_null d st with
      | none => rfl
      | some d1 => rw [hd] at hn; cases hn
    | some c1 =>
      rw [hc] at hn
      cases hd : check_searchtype_null d st with
      | none => rw [hd] at hn; cases hn
      | some d1 =>
        rw [hd] at hn
        simp only [Option.map_some', Option.some.injEq] at hn
        have hpw : check_searchtype_password c1 st = check_searchtype_password d1 st := by
          simp only [check_searchtype_password, hn]
        have hlk : check_searchtype_like c1 st = check_searchtype_like d1 st := by
          simp only [check_searchtype_like, hn]
        simp only
        rw [hpw, hlk]
        cases check_searchtype_password d1 st with
        | none => rfl
        | some b =>
          cases b with
          | true => simp [verdict, gen_errx, ort_msg, hn]
          | false =>
            simp only
            cases check_searchtype_like d1 st with
            | none => rfl
            | some b2 =>
              cases b2 with
              | true => simp [verdict, gen_errx, ort_msg, hn]
              | false => exact ih _ _ hn

theorem check_searchtype_dst_verdict (l : List sent) :
    ∀ (c d : config), c.heap = d.heap →
      verdict (check_searchtype_dst c l) = verdict (check_searchtype_dst d l) := by
  induction l with
  | nil =>
    intro c d h
    simp [check_searchtype_dst, verdict, h]
  | cons st rest ih =>
    intro c d h
    simp only [check_searchtype_dst, h]
    split
    · exact ih _ _ h
    · cases deref_field d.heap st.field with
      | none => rfl
      | some f =>
        simp only
        split
        · exact ih _ _ h
        · simp [verdict, gen_errx, ort_msg, h]

theorem verdict_cases {x y : Option (config × Bool)} (h : verdict x = verdict y) :
    (x = none ∧ y = none) ∨
      ∃ c d b, x = some (c, b) ∧ y = some (d, b) ∧ c.heap = d.heap := by
  cases x with
  | none =>
    cases y with
    | none => exact Or.inl ⟨rfl, rfl⟩
    | some r => cases h
  | some r =>
    cases y with
    | none => cases h
    | some r2 =>
      obtain ⟨c, b⟩ := r
      obtain ⟨d, b2⟩ := r2
      simp only [verdict, Option.map_some', Option.some.injEq, Prod.mk.injEq] at h
      obtain ⟨h1, rfl⟩ := h
      exact Or.inr ⟨c, d, b, rfl, rfl, h1⟩

/-- The verdict of what follows the first loop of a search depends on the
store, on the predicates and on the presence of a distinct-subset target
only. -/
theorem check_searchtype_rest_verdict (srch srch2 : search) (post : List search)
    (hsq : ∀ (c d : config), c.heap = d.heap →
      verdict (check_searchtype_sq c post) = verdict (check_searchtype_sq d post))
    (hdst : srch.dst = srch2.dst) (hsn : srch.sntq = srch2.sntq)
    {x y : Option (config × Bool)} (h : verdict x = verdict y) :
    verdict (check_searchtype_rest srch post x) = verdict (check_searchtype_rest srch2 post y) := by
  unfold check_searchtype_rest
  rw [← hdst, ← hsn]
  rcases verdict_cases h with ⟨rfl, rfl⟩ | ⟨c, d, b, rfl, rfl, hh⟩
  · rfl
  · cases b with
    | false => simp [and_then, verdict, hh]
    | true =>
      simp only [and_then]
      cases srch.dst with
      | none => exact hsq _ _ hh
      | some t =>
        simp only
        rcases verdict_cases (check_searchtype_dst_verdict srch.sntq c d hh) with
          ⟨e1, e2⟩ | ⟨c2, d2, b2, e1, e2, hh2⟩
        · rw [e1, e2]
        · rw [e1, e2]
          cases b2 with
          | false => simp [verdict, hh2]
          | true => exact hsq _ _ hh2

theorem check_searchtype_sq_verdict (l : List search) :
    ∀ (c d : config), c.heap = d.heap →
      verdict (check_searchtype_sq c l) = verdict (check_searchtype_sq d l) := by
  induction l with
  | nil =>
    intro c d h
    simp [check_searchtype_sq, verdict, h]
  | cons srch rest ih =>
    intro c d h
    by_cases hc : srch.type = stype.STYPE_SEARCH ∧ srch.sntq = []
    · simp [check_searchtype_sq, hc, verdict, gen_errx, ort_msg, h]
    · rw [check_searchtype_sq_cons _ _ _ hc, check_searchtype_sq_cons _ _ _ hc]
      refine check_searchtype_rest_verdict srch srch rest ih rfl rfl ?_
      apply check_searchtype_sntq_verdict
      rw [(check_searchtype_warn_frame c srch).1, (check_searchtype_warn_frame d srch).1, h]

theorem check_searchtype_warn_single (c : config) (srch : search)
    (ht : srch.type = stype.STYPE_SEARCH) :
    check_searchtype_warn c srch =
      { c with msgs := c.msgs ++ (if ambiguous_single srch then [limit_warning srch] else []) } := by
  unfold check_searchtype_warn ambiguous_single
  simp only [ht, ne_eq, not_true_eq_false, and_false, if_false, true_and]
  split
  · rfl
  · simp

/-- C22: when `check_searchtype` reaches a single-result search `srch` with at
least one predicate, it records the warning "single-result search on a
non-unique field without a limit of one" at the position of `srch` if the
search is not flagged `SEARCH_IS_UNIQUE` and its limit is not one, and records
nothing for the kind of the search otherwise (so a limit of one suppresses the
warning); it then goes on with the predicates of the search, and the status
it returns is the one it returns for the same search with a limit of one. -/
theorem single_result_limit_warning (cfg c1 : config) (p : strct) (pre post : List search)
    (srch : search) (hsq : p.sq = pre ++ srch :: post)
    (hpre : check_searchtype_sq cfg pre = some (c1, true))
    (ht : srch.type = stype.STYPE_SEARCH) (hne : srch.sntq ≠ []) :
    check_searchtype cfg p =
      check_searchtype_rest srch post
        (check_searchtype_sntq
          { c1 with msgs := c1.msgs ++ (if ambiguous_single srch then [limit_warning srch] else []) }
          srch.sntq) ∧
    (check_searchtype cfg p).map Prod.snd =
      (check_searchtype cfg { p with sq := pre ++ { srch with limit := 1 } :: post }).map
        Prod.snd := by
  have hc : ¬ (srch.type = stype.STYPE_SEARCH ∧ srch.sntq = []) := fun h => hne h.2
  have hc2 : ¬ (({ srch with limit := 1 } : search).type = stype.STYPE_SEARCH ∧
      ({ srch with limit := 1 } : search).sntq = []) := fun h => hne h.2
  have e1 : check_searchtype cfg p =
      check_searchtype_rest srch post
        (check_searchtype_sntq (check_searchtype_warn c1 srch) srch.sntq) := by
    unfold check_searchtype
    rw [hsq, check_searchtype_sq_append _ _ _ _ hpre, check_searchtype_sq_cons _ _ _ hc]
  have e2 : check_searchtype cfg { p with sq := pre ++ { srch with limit := 1 } :: post } =
      check_searchtype_rest { srch with limit := 1 } post
        (check_searchtype_sntq (check_searchtype_warn c1 { srch with limit := 1 }) srch.sntq) := by
    unfold check_searchtype
    simp only
    rw [check_searchtype_sq_append _ _ _ _ hpre, check_searchtype_sq_cons _ _ _ hc2]
  refine ⟨by rw [e1, check_searchtype_warn_single _ _ ht], ?_⟩
  have hv : verdict (check_searchtype cfg p) =
      verdict (check_searchtype cfg { p with sq := pre ++ { srch with limit := 1 } :: post }) := by
    rw [e1, e2]
    refine check_searchtype_rest_verdict _ _ post (check_searchtype_sq_verdict post) rfl rfl ?_
    apply check_searchtype_sntq_verdict
    rw [(check_searchtype_warn_frame c1 srch).1, (check_searchtype_warn_frame c1 _).1]
  have := congrArg (Option.map Prod.snd) hv
  simpa [verdict, Option.map_map, Function.comp] using this

set_option maxRecDepth 100000 in
/-- Witness of C22 on a single-result search by name: without a limit of one
the warning is recorded and the check succeeds; with a limit of one nothing is
recorded. -/
theorem single_result_limit_warning_witness :
    check_searchtype (search_cfg [name_search 0]) (mk_search_strct [name_search 0]) =
      some ({ search_cfg [name_search 0] with msgs := [limit_warning (name_search 0)] }, true) ∧
    check_searchtype (search_cfg [name_search 1]) (mk_search_strct [name_search 1]) =
      some (search_cfg [name_search 1], true) ∧
    (check_searchtype (search_cfg [name_search 0]) (mk_search_strct [name_search 0]) =
      check_searchtype_rest (name_search 0) []
        (check_searchtype_sntq
          { search_cfg [name_search 0] with msgs := (search_cfg [name_search 0]).msgs ++
              (if ambiguous_single (name_search 0) then [limit_warning (name_search 0)] else []) }
          (name_search 0).sntq) ∧
     (check_searchtype (search_cfg [name_search 0]) (mk_search_strct [name_search 0])).map
        Prod.snd =
      (check_searchtype (search_cfg [name_search 0])
        { mk_search_strct [name_search 0] with
          sq := [] ++ { name_search 0 with limit := 1 } :: [] }).map Prod.snd) :=
  ⟨by decide, by decide,
    single_result_limit_warning (search_cfg [name_search 0]) (search_cfg [name_search 0])
      (mk_search_strct [name_search 0]) [] [] (name_search 0) rfl rfl rfl (by decide)⟩

/-! ## C30: no false duplicates among the unique statements -/

theorem same_field_set_of_covered {u uu : unique} (hnd : (unique_fields u).Nodup)
    (hlen : uu.nq.length = u.nq.length) (hc : unique_covered u uu = true) :
    same_field_set u uu := by
  have hsub : unique_fields u ⊆ unique_fields uu := by
    intro f hf
    obtain ⟨nf, hnf, rfl⟩ := List.mem_map.1 hf
    unfold unique_covered at hc
    rw [List.all_eq_true] at hc
    have := hc nf hnf
    rw [List.any_eq_true] at this
    obtain ⟨unf, hunf, e⟩ := this
    have e2 : nf.field = unf.field := by simpa using e
    rw [e2]
    exact List.mem_map_of_mem _ hunf
  have hperm : (unique_fields u).Perm (unique_fields uu) :=
    (List.subperm_of_subset hnd hsub).perm_of_length_le (by simp [unique_fields, hlen])
  exact ⟨fun f hf => hperm.subset hf, fun f hf => hperm.symm.subset hf⟩

theorem check_unique_unique_uu_clean (iu : Nat) (u : unique) (l : List (Nat × unique)) :
    ∀ (cfg : config) (errs : Nat),
      (∀ x ∈ l, x.1 ≠ iu → x.2.nq.length = u.nq.length → unique_covered u x.2 = false) →
      check_unique_unique_uu iu u cfg errs l = (cfg, errs) := by
  induction l with
  | nil => intro cfg errs _; rfl
  | cons a l ih =>
    intro cfg errs h
    obtain ⟨iuu, uu⟩ := a
    have hrest := ih cfg errs (fun x hx => h x (List.mem_cons_of_mem _ hx))
    simp only [check_unique_unique_uu]
    split
    · exact hrest
    · rename_i hi
      split
      · exact hrest
      · rename_i hl
        have := h (iuu, uu) (List.mem_cons_self _ _) hi (by simpa using hl)
        simp [this]

theorem check_unique_unique_u_clean (all l : List (Nat × unique)) :
    ∀ (cfg : config) (errs : Nat),
      (∀ y ∈ l, ∀ x ∈ all, x.1 ≠ y.1 → x.2.nq.length = y.2.nq.length →
        unique_covered y.2 x.2 = false) →
      check_unique_unique_u all cfg errs l = (cfg, errs) := by
  induction l with
  | nil => intro cfg errs _; rfl
  | cons a l ih =>
    intro cfg errs h
    obtain ⟨iu, u⟩ := a
    simp only [check_unique_unique_u]
    rw [check_unique_unique_uu_clean iu u all cfg errs (h (iu, u) (List.mem_cons_self _ _))]
    exact ih cfg errs (fun y hy => h y (List.mem_cons_of_mem _ hy))

/-- C30: if every unique statement of a struct lists pairwise distinct fields
and no two unique statements of the struct cover the same set of fields, then
`check_unique_unique` records nothing and returns success, also when several
statements have the same number of fields and share some of them. -/
theorem no_false_duplicate_uniques (cfg : config) (s : strct)
    (hnd : ∀ u ∈ s.nq, (unique_fields u).Nodup)
    (hdiff : s.nq.Pairwise (fun u uu => ¬ same_field_set u uu)) :
    check_unique_unique cfg s = (cfg, true) := by
  have hall : ∀ y ∈ s.nq.enum, ∀ x ∈ s.nq.enum, x.1 ≠ y.1 → x.2.nq.length = y.2.nq.length →
      unique_covered y.2 x.2 = false := by
    rintro ⟨i, u⟩ hy ⟨j, uu⟩ hx hij hlen
    have hu := List.mk_mem_enum_iff_getElem?.1 hy
    have huu := List.mk_mem_enum_iff_getElem?.1 hx
    obtain ⟨hi, eu⟩ := List.getElem?_eq_some.1 hu
    obtain ⟨hj, euu⟩ := List.getElem?_eq_some.1 huu
    have hp := List.pairwise_iff_getElem.1 hdiff
    by_contra hcov
    have hcov2 : unique_covered u uu = true := by simpa using hcov
    have hsame := same_field_set_of_covered (hnd u (List.mem_iff_getElem?.2 ⟨i, hu⟩))
      (by simpa using hlen) hcov2
    simp only at hij
    rcases Nat.lt_or_gt_of_ne hij with hlt | hgt
    · have := hp j i hj hi hlt
      rw [eu, euu] at this
      exact this ⟨hsame.2, hsame.1⟩
    · have := hp i j hi hj hgt
      rw [eu, euu] at this
      exact this hsame
  simp only [check_unique_unique, check_unique_unique_u_clean _ _ cfg 0 hall, decide_True]

/-- Witness of C30 on `overlapping_uniques`: the statements `(f1, f2)`,
`(f2, f3)` and `(f1, f3)` are accepted. -/
theorem no_false_duplicate_uniques_witness :
    check_unique_unique (mk_config [overlapping_uniques]) overlapping_uniques =
      (mk_config [overlapping_uniques], true) :=
  no_false_duplicate_uniques (mk_config [overlapping_uniques]) overlapping_uniques
    (by decide) (by decide)

/-! ## C29: what the height pass, the sort and the null-reference pass change -/

theorem nullrefs_added_trans {a b c : Nat} (h1 : nullrefs_added a b) (h2 : nullrefs_added b c) :
    nullrefs_added a c := by
  unfold nullrefs_added at *
  rcases h1 with rfl | rfl
  · exact h2
  · rcases h2 with rfl | rfl
    · exact Or.inr rfl
    · right
      rw [Nat.or_assoc, Nat.or_self]

theorem ort_parse_close_nullrefs_flags (fuel : Nat) (l : List strctp) :
    ∀ (h h2 : List strct), ort_parse_close_nullrefs fuel h l = some h2 →
      ∀ (q : strctp) (s : strct), h[q]? = some s →
        ∃ s2 : strct, h2[q]? = some s2 ∧ nullrefs_added s.flags s2.flags := by
  induction l with
  | nil =>
    intro h h2 he q s hs
    simp only [ort_parse_close_nullrefs, Option.some.injEq] at he
    subst he
    exact ⟨s, hs, Or.inl rfl⟩
  | cons p ps ih =>
    intro h h2 he q s hs
    simp only [ort_parse_close_nullrefs] at he
    split at he
    · rename_i sp _ hsp
      by_cases hq : p = q
      · subst hq
        rw [hs] at hsp
        cases hsp
        obtain ⟨s2, hs2, hfl⟩ := ih _ _ he p _ (getElem?_set_of_some hs)
        exact ⟨s2, hs2, nullrefs_added_trans (Or.inr rfl) hfl⟩
      · exact ih _ _ he q s (by rw [List.getElem?_set_ne hq]; exact hs)
    · exact ih _ _ he q s hs
    · cases he

/-- C29: whenever `ort_parse_close` returns success with a `qsort` that
rearranges its array, the final list of structs is a permutation of the list
the checks ran on (so a list without repetition stays without repetition), and
every struct is stored at its address with everything but its height, its
colour and its flags unchanged, its flags being the former ones, possibly with
`STRCT_HAS_NULLREFS` set in addition. -/
theorem struct_list_permuted (E : env) (fuel : Nat) (cfg cfg2 : config)
    (hq : QsortContract E.qsort)
    (h : ort_parse_close E fuel cfg = some (cfg2, true)) :
    cfg2.sq.Perm (resolved E cfg).sq ∧
    ((resolved E cfg).sq.Nodup → cfg2.sq.Nodup) ∧
    cfg2.heap.length = (resolved E cfg).heap.length ∧
    ∀ (p : strctp) (s0 : strct), (resolved E cfg).heap[p]? = some s0 →
      ∃ s2 : strct, cfg2.heap[p]? = some s2 ∧ static_part s2 = static_part s0 ∧
        nullrefs_added s0.flags s2.flags := by
  have hl := (ort_parse_close_success h).2
  obtain ⟨hst, -⟩ := ort_parse_close_linked_frame hl
  obtain ⟨c1, c2, c3, c4, c5, h6, sz, c7, c8, h9, h1, h2, h3, h4, h5, hh, h7, h8, hn, rfl⟩ :=
    ort_parse_close_linked_success hl
  have f1 := (ort_parse_close_unique_frame _ _ _ _ _ h1).1
  have f2 := (ort_parse_close_roles_spec _ (fun _ _ _ _ => check_unique_roles_frame) _ _ _ _ _ h2).1
  have f3 := (ort_parse_close_roles_spec _
    (fun _ _ _ _ => check_unique_roles_tree_frame) _ _ _ _ _ h3).1
  have f4 : msgs_only c3 c4 := by
    split at h4
    · cases h4
      exact msgs_only_refl _
    · exact ort_parse_close_reachable_frame _ _ _ h4
  have f5 := (ort_parse_close_recursive_spec _ _ _ _ _ _ h5).1
  have f15 := msgs_only_trans (msgs_only_trans (msgs_only_trans (msgs_only_trans f1 f2) f3) f4) f5
  have f7 := ort_parse_close_searchtype_frame _ _ _ _ h7
  have e8 := ort_parse_close_sort_spec h8
  subst e8
  dsimp only at hn hst ⊢
  have e7h : c7.heap = h6 := f7.1
  have hfl6 := ort_parse_close_height_flags _ _ _ _ _ _ _ hh
  rw [f15.1] at hfl6
  have esq : c7.sq = (resolved E cfg).sq := f7.2.1.trans f15.2.1
  have hperm2 : (E.qsort (parse_cmp c7.heap) c7.sq).reverse.Perm (resolved E cfg).sq := by
    have := (List.reverse_perm (E.qsort (parse_cmp c7.heap) c7.sq)).trans (hq _ _).1
    rw [esq] at this ⊢
    exact this
  have hlen : h9.length = (resolved E cfg).heap.length := by
    have := congrArg List.length hst
    simpa using this
  refine ⟨hperm2, fun hnd => hperm2.nodup_iff.2 hnd, hlen, ?_⟩
  intro p s0 hs0
  have hlt : p < h6.length := by
    have e := congrArg List.length hfl6
    simp only [List.length_map] at e
    rw [e]
    exact (List.getElem?_eq_some.1 hs0).1
  have hs6 : h6[p]? = some h6[p] := List.getElem?_eq_getElem hlt
  have hflp : (h6[p]).flags = s0.flags := by
    have e : (h6.map strct.flags)[p]? = ((resolved E cfg).heap.map strct.flags)[p]? := by
      rw [hfl6]
    rw [List.getElem?_map, List.getElem?_map, hs6, hs0] at e
    simpa using e
  obtain ⟨s2, hs2, hfl⟩ := ort_parse_close_nullrefs_flags _ _ _ _ hn p h6[p] (by rw [e7h]; exact hs6)
  refine ⟨s2, hs2, ?_, hflp ▸ hfl⟩
  have e : (h9.map static_part)[p]? = ((resolved E cfg).heap.map static_part)[p]? := by
    rw [hst]
  rw [List.getElem?_map, List.getElem?_map, hs2, hs0] at e
  simpa using e

set_option maxRecDepth 100000 in
/-- Witness of C29 on `user_post_cfg`. -/
theorem struct_list_permuted_witness :
    user_post_linked.sq.Perm (resolved env_id user_post_cfg).sq ∧
    ((resolved env_id user_post_cfg).sq.Nodup → user_post_linked.sq.Nodup) ∧
    user_post_linked.heap.length = (resolved env_id user_post_cfg).heap.length ∧
    ∀ (p : strctp) (s0 : strct), (resolved env_id user_post_cfg).heap[p]? = some s0 →
      ∃ s2 : strct, user_post_linked.heap[p]? = some s2 ∧ static_part s2 = static_part s0 ∧
        nullrefs_added s0.flags s2.flags :=
  struct_list_permuted env_id 10 user_post_cfg user_post_linked isort_contract (by decide)

/-! ## C23: one write of the height per struct and generation -/

theorem annotate_fq_log_fst (self : List strct → ref → Option (List strct))
    (selfl : List strct → ref → Option (List strct × List strctp))
    (hs : ∀ h r, (selfl h r).map Prod.fst = self h r) (l : List field) :
    ∀ h, (annotate_fq_log selfl h l).map Prod.fst = annotate_fq self h l := by
  induction l with
  | nil => intro h; rfl
  | cons f fs ih =>
    intro h
    simp only [annotate_fq_log, annotate_fq]
    split
    · cases hr : f.ref with
      | none => rfl
      | some r =>
        simp only
        rw [← hs h r]
        cases hc : selfl h r with
        | none => rfl
        | some x =>
          obtain ⟨g, w⟩ := x
          simp only [Option.map_some']
          rw [← ih g]
          cases annotate_fq_log selfl g fs with
          | none => rfl
          | some y => rfl
    · exact ih h

theorem annotate_log_fst (fuel : Nat) :
    ∀ (h : List strct) (r : ref) (d c : Nat),
      (annotate_log fuel h r d c).map Prod.fst = annotate fuel h r d c := by
  induction fuel with
  | zero => intro h r d c; rfl
  | succ fuel ih =>
    intro h r d c
    simp only [annotate_log, annotate]
    cases h[r.target.parent]? with
    | none => rfl
    | some s =>
      simp only
      split
      · rfl
      · rw [← annotate_fq_log_fst _ _ (fun g r2 => ih g r2 (d + 1) c)]
        cases annotate_fq_log (fun g r2 => annotate_log fuel g r2 (d + 1) c)
            (h.set r.target.parent { s with colour := c, height := s.height + d }) s.fq with
        | none => rfl
        | some y => rfl

theorem ort_parse_close_generation_log_fst (fuel : Nat) (p : strctp) (c : Nat) (l : List field) :
    ∀ h, (ort_parse_close_generation_log fuel p c h l).map Prod.fst =
      ort_parse_close_generation fuel p c h l := by
  induction l with
  | nil => intro h; rfl
  | cons f fs ih =>
    intro h
    simp only [ort_parse_close_generation_log, ort_parse_close_generation]
    split
    · cases hp : h[p]? with
      | none => rfl
      | some s =>
        cases hr : f.ref with
        | none => rfl
        | some r =>
          simp only
          rw [← annotate_log_fst]
          cases annotate_log fuel (h.set p { s with colour := c }) r 1 c with
          | none => rfl
          | some x =>
            obtain ⟨g, w⟩ := x
            simp only [Option.map_some']
            rw [← ih g]
            cases ort_parse_close_generation_log fuel p c g fs with
            | none => rfl
            | some y => rfl
    · exact ih h

theorem logged_refl (c : Nat) (h : List strct) : logged c h h [] :=
  ⟨List.nodup_nil, (fun z hz => by cases hz), fun _ hz => hz⟩

theorem logged_trans {c : Nat} {h g k : List strct} {w1 w2 : List strctp}
    (h1 : logged c h g w1) (h2 : logged c g k w2) : logged c h k (w1 ++ w2) := by
  obtain ⟨n1, m1, k1⟩ := h1
  obtain ⟨n2, m2, k2⟩ := h2
  refine ⟨?_, ?_, fun z hz => k2 z (k1 z hz)⟩
  · rw [List.nodup_append]
    refine ⟨n1, n2, ?_⟩
    intro z hz1 hz2
    exact (m2 z hz2).1 (m1 z hz1).2
  · intro z hz
    rcases List.mem_append.1 hz with hz | hz
    · exact ⟨(m1 z hz).1, k2 z (m1 z hz).2⟩
    · exact ⟨fun hc => (m2 z hz).1 (k1 z hc), (m2 z hz).2⟩

theorem annotate_fq_log_logged (c : Nat)
    (selfl : List strct → ref → Option (List strct × List strctp))
    (hs : ∀ h r h2 w, selfl h r = some (h2, w) → logged c h h2 w) (l : List field) :
    ∀ h h2 w, annotate_fq_log selfl h l = some (h2, w) → logged c h h2 w := by
  induction l with
  | nil =>
    intro h h2 w he
    simp only [annotate_fq_log, Option.some.injEq, Prod.mk.injEq] at he
    obtain ⟨rfl, rfl⟩ := he
    exact logged_refl _ _
  | cons f fs ih =>
    intro h h2 w he
    simp only [annotate_fq_log] at he
    split at he
    · split at he
      · cases he
      · split at he
        · cases he
        · rename_i g w1 hg
          split at he
          · cases he
          · rename_i k w2 hk
            simp only [Option.some.injEq, Prod.mk.injEq] at he
            obtain ⟨rfl, rfl⟩ := he
            exact logged_trans (hs _ _ _ _ hg) (ih _ _ _ hk)
    · exact ih _ _ _ he

theorem annotate_log_logged (c : Nat) (fuel : Nat) :
    ∀ (h : List strct) (r : ref) (d : Nat) (h2 : List strct) (w : List strctp),
      annotate_log fuel h r d c = some (h2, w) → logged c h h2 w := by
  induction fuel with
  | zero =>
    intro h r d h2 w he
    simp [annotate_log] at he
  | succ fuel ih =>
    intro h r d h2 w he
    simp only [annotate_log] at he
    split at he
    · cases he
    · rename_i s hs
      split at he
      · simp only [Option.some.injEq, Prod.mk.injEq] at he
        obtain ⟨rfl, rfl⟩ := he
        exact logged_refl _ _
      · rename_i hc
        split at he
        · cases he
        · rename_i g w1 hg
          simp only [Option.some.injEq, Prod.mk.injEq] at he
          obtain ⟨rfl, rfl⟩ := he
          obtain ⟨n1, m1, k1⟩ := annotate_fq_log_logged c _
            (fun g r2 g2 w2 hh => ih g r2 (d + 1) g2 w2 hh) s.fq _ _ _ hg
          have hset : ∀ z, coloured c h z →
              coloured c (h.set r.target.parent
                { s with colour := c, height := s.height + d }) z :=
            fun z hz => coloured_set hz hs rfl
          have hp1 : coloured c (h.set r.target.parent
              { s with colour := c, height := s.height + d }) r.target.parent :=
            ⟨_, getElem?_set_of_some hs, rfl⟩
          refine ⟨List.nodup_cons.2 ⟨fun hm => (m1 _ hm).1 hp1, n1⟩, ?_,
            fun z hz => k1 z (hset z hz)⟩
          intro z hz
          rcases List.mem_cons.1 hz with rfl | hz
          · refine ⟨?_, k1 _ hp1⟩
            rintro ⟨x, hx, hxc⟩
            rw [hs] at hx
            cases hx
            exact hc hxc
          · exact ⟨fun hcz => (m1 z hz).1 (hset z hcz), (m1 z hz).2⟩

theorem ort_parse_close_generation_log_logged (c : Nat) (fuel : Nat) (p : strctp)
    (l : List field) :
    ∀ (h h2 : List strct) (w : List strctp),
      ort_parse_close_generation_log fuel p c h l = some (h2, w) →
      logged c h h2 w ∧ p ∉ w := by
  induction l with
  | nil =>
    intro h h2 w he
    simp only [ort_parse_close_generation_log, Option.some.injEq, Prod.mk.injEq] at he
    obtain ⟨rfl, rfl⟩ := he
    exact ⟨logged_refl _ _, fun hm => by cases hm⟩
  | cons f fs ih =>
    intro h h2 w he
    simp only [ort_parse_close_generation_log] at he
    split at he
    · split at he
      · rename_i s r hs hr
        split at he
        · cases he
        · rename_i g w1 hg
          split at he
          · cases he
          · rename_i k w2 hk
            simp only [Option.some.injEq, Prod.mk.injEq] at he
            obtain ⟨rfl, rfl⟩ := he
            have hroot : logged c h (h.set p { s with colour := c }) [] :=
              ⟨List.nodup_nil, (fun z hz => by cases hz), fun z hz => coloured_set hz hs rfl⟩
            have h1 := annotate_log_logged c fuel _ _ _ _ _ hg
            obtain ⟨h2l, hp2⟩ := ih _ _ _ hk
            have hp1 : p ∉ w1 := fun hm =>
              (h1.2.1 p hm).1 ⟨_, getElem?_set_of_some hs, rfl⟩
            refine ⟨logged_trans (logged_trans hroot h1) h2l, ?_⟩
            intro hm
            rcases List.mem_append.1 hm with hm | hm
            · exact hp1 hm
            · exact hp2 hm
      · cases he
    · exact ih _ _ _ he

theorem nodup_length_le {w : List strctp} {n : Nat} (hn : w.Nodup) (hb : ∀ z ∈ w, z < n) :
    w.length ≤ n := by
  have hsub : w ⊆ List.range n := fun z hz => List.mem_range.2 (hb z hz)
  have := (List.subperm_of_subset hn hsub).length_le
  simpa using this

/-- C23: the traversal generation that records its writes computes the store
of `ort_parse_close_generation`, and in every generation (any root `p`, any
colour `c`, any store) that returns, no struct has its height written twice,
however many embedding paths lead to it, the height of the root is not
written, and the number of writes, which is the number of calls of `annotate`
that descend into the fields of their target, is at most the number of
structs. -/
theorem height_written_once (fuel : Nat) (p : strctp) (c : Nat) (h : List strct) (sp : strct)
    (hp : h[p]? = some sp) :
    (ort_parse_close_generation_log fuel p c h sp.fq).map Prod.fst =
      ort_parse_close_generation fuel p c h sp.fq ∧
    ∀ (h2 : List strct) (w : List strctp),
      ort_parse_close_generation_log fuel p c h sp.fq = some (h2, w) →
      w.Nodup ∧ p ∉ w ∧ w.length ≤ h.length ∧
      ∀ z ∈ w, ∃ x, h2[z]? = some x ∧ x.colour = c := by
  refine ⟨ort_parse_close_generation_log_fst fuel p c sp.fq h, fun h2 w he => ?_⟩
  obtain ⟨⟨hn, hm, -⟩, hpw⟩ := ort_parse_close_generation_log_logged c fuel p sp.fq h h2 w he
  have he2 : ort_parse_close_generation fuel p c h sp.fq = some h2 := by
    rw [← ort_parse_close_generation_log_fst, he]
    rfl
  have hlen := (ort_parse_close_generation_rel c fuel p h sp hp h2 he2).1
  refine ⟨hn, hpw, nodup_length_le hn (fun z hz => ?_), fun z hz => (hm z hz).2⟩
  obtain ⟨x, hx, -⟩ := (hm z hz).2
  rw [← hlen]
  exact (List.getElem?_eq_some.1 hx).1

set_option maxRecDepth 100000 in
/-- Witness of C23 on the diamond: the generation of root `x` writes the
heights of `y`, `w` and `z`, each once, although two paths lead to `w`. -/
theorem height_written_once_witness :
    ort_parse_close_generation_log 10 0 1 diamond_cfg.heap (mk_strct 0 "x" [1, 2]).fq =
      some (diamond_after, [1, 3, 2]) ∧
    ([1, 3, 2] : List strctp).Nodup ∧ 0 ∉ ([1, 3, 2] : List strctp) ∧
    ([1, 3, 2] : List strctp).length ≤ diamond_cfg.heap.length ∧
    ∀ z ∈ ([1, 3, 2] : List strctp), ∃ x, diamond_after[z]? = some x ∧ x.colour = 1 :=
  ⟨by decide,
    (height_written_once 10 0 1 diamond_cfg.heap (mk_strct 0 "x" [1, 2]) (by decide)).2
      diamond_after [1, 3, 2] (by decide)⟩

/-! ## C28: height zero and top-level structs -/

theorem annotate_static (c : Nat) (fuel : Nat) (h : List strct) (r : ref) (d : Nat)
    (h2 : List strct) (he : annotate fuel h r d c = some h2) :
    h2.map static_part = h.map static_part :=
  annotate_inv c (fun g => g.map static_part = h.map static_part) (fun _ _ => True)
    (fun g p s k hP _ hs _ =>
      ⟨(@set_map_eq _ static_part g p s { s with colour := c, height := s.height + k } hs rfl).trans
        hP, fun _ _ _ _ _ => trivial⟩)
    fuel h r d h2 rfl trivial he

theorem annotate_fq_targets (c : Nat) (self : List strct → ref → Option (List strct))
    (htarget : ∀ g r g2, self g r = some g2 → coloured c g2 r.target.parent)
    (hkeep : ∀ g r g2 z, self g r = some g2 → coloured c g z → coloured c g2 z)
    (l : List field) :
    ∀ h h2, annotate_fq self h l = some h2 →
      (∀ z, coloured c h z → coloured c h2 z) ∧
      ∀ f ∈ l, f.type = ftype.FTYPE_STRUCT → ∀ r, f.ref = some r →
        coloured c h2 r.target.parent := by
  induction l with
  | nil =>
    intro h h2 he
    simp only [annotate_fq, Option.some.injEq] at he
    subst he
    exact ⟨fun _ hz => hz, fun f hf => by cases hf⟩
  | cons f fs ih =>
    intro h h2 he
    simp only [annotate_fq] at he
    split at he
    · split at he
      · cases he
      · rename_i r hr
        split at he
        · cases he
        · rename_i g hg
          obtain ⟨k2, t2⟩ := ih _ _ he
          refine ⟨fun z hz => k2 z (hkeep _ _ _ z hg hz), ?_⟩
          intro f2 hf2 hft2 r2 hr2
          rcases List.mem_cons.1 hf2 with rfl | hf2
          · rw [hr] at hr2
            cases hr2
            exact k2 _ (htarget _ _ _ hg)
          · exact t2 f2 hf2 hft2 r2 hr2
    · rename_i hft
      obtain ⟨k2, t2⟩ := ih _ _ he
      refine ⟨k2, ?_⟩
      intro f2 hf2 hft2 r2 hr2
      rcases List.mem_cons.1 hf2 with rfl | hf2
      · exact absurd hft2 hft
      · exact t2 f2 hf2 hft2 r2 hr2

theorem embeds_fields {H0 h : List strct} (hst : h.map static_part = H0.map static_part)
    {z t : strctp} {s : strct} (hs : h[z]? = some s) (he : embeds H0 z t) :
    ∃ f ∈ s.fq, f.type = ftype.FTYPE_STRUCT ∧ ∃ r, f.ref = some r ∧ r.target.parent = t := by
  obtain ⟨s1, hs1, f, hf, hft, r, hr, ht⟩ := embeds_static hst.symm he
  rw [Option.mem_def, hs] at hs1
  cases hs1
  exact ⟨f, hf, hft, r, hr, ht⟩

theorem coloured_of_set {c : Nat} {h : List strct} {p z : strctp} {s2 : strct}
    (hz : coloured c (h.set p s2) z) (hne : z ≠ p) : coloured c h z := by
  obtain ⟨x, hx, hxc⟩ := hz
  rw [List.getElem?_set_ne (Ne.symm hne)] at hx
  exact ⟨x, hx, hxc⟩

/-- Every struct that carries the colour after a call of `annotate` carried it
before the call, or every struct it embeds carries the colour after the
call. -/
theorem annotate_closing (c : Nat) (H0 : List strct) (fuel : Nat) :
    ∀ (h : List strct) (r : ref) (d : Nat) (h2 : List strct),
      h.map static_part = H0.map static_part → annotate fuel h r d c = some h2 →
      ∀ z, coloured c h2 z → coloured c h z ∨ closed c H0 h2 z := by
  induction fuel with
  | zero =>
    intro h r d h2 _ he
    simp [annotate] at he
  | succ fuel ih =>
    intro h r d h2 hst he z hz
    simp only [annotate] at he
    split at he
    · cases he
    · rename_i s hs
      split at he
      · simp only [Option.some.injEq] at he
        subst he
        exact Or.inl hz
      · rename_i hc
        have hst1 : (h.set r.target.parent
            { s with colour := c, height := s.height + d }).map static_part =
            H0.map static_part :=
          (@set_map_eq _ static_part h r.target.parent s
            { s with colour := c, height := s.height + d } hs rfl).trans hst
        have hinv := annotate_fq_inv
          (fun g => g.map static_part = H0.map static_part ∧
            (∀ y, coloured c (h.set r.target.parent
              { s with colour := c, height := s.height + d }) y → coloured c g y) ∧
            ∀ y, coloured c g y →
              coloured c (h.set r.target.parent
                { s with colour := c, height := s.height + d }) y ∨ closed c H0 g y)
          (fun g r2 => annotate fuel g r2 (d + 1) c) s.fq
          (fun f _ _ r2 _ g g2 hg hg2 => by
            obtain ⟨hgs, hgk, hgc⟩ := hg
            have hk : ∀ y, coloured c g y → coloured c g2 y :=
              fun y hy => annotate_keeps_coloured c y fuel g r2 (d + 1) g2 hy hg2
            refine ⟨(annotate_static c fuel g r2 (d + 1) g2 hg2).trans hgs,
              fun y hy => hk y (hgk y hy), fun y hy => ?_⟩
            rcases ih g r2 (d + 1) g2 hgs hg2 y hy with h1 | h1
            · rcases hgc y h1 with h3 | h3
              · exact Or.inl h3
              · exact Or.inr (fun t ht => hk t (h3 t ht))
            · exact Or.inr h1)
          _ _ ⟨hst1, fun _ hy => hy, fun _ hy => Or.inl hy⟩ he
        obtain ⟨-, hk, hcl⟩ := hinv
        obtain ⟨-, htg⟩ := annotate_fq_targets c (fun g r2 => annotate fuel g r2 (d + 1) c)
          (fun g r2 g2 hg => annotate_target_coloured c fuel g r2 (d + 1) g2 hg)
          (fun g r2 g2 y hg hy => annotate_keeps_coloured c y fuel g r2 (d + 1) g2 hy hg)
          s.fq _ _ he
        rcases hcl z hz with h1 | h1
        · by_cases hzp : z = r.target.parent
          · right
            subst hzp
            intro t ht
            obtain ⟨f, hf, hft, r2, hr2, e⟩ := embeds_fields hst hs ht
            rw [← e]
            exact htg f hf hft r2 hr2
          · exact Or.inl (coloured_of_set h1 hzp)
        · exact Or.inr h1

theorem ort_parse_close_generation_closing (c : Nat) (H0 : List strct) (fuel : Nat)
    (p : strctp) (l : List field) :
    ∀ (h h2 : List strct), h.map static_part = H0.map static_part →
      ort_parse_close_generation fuel p c h l = some h2 →
      h2.map static_part = H0.map static_part ∧
      ((∃ f ∈ l, f.type = ftype.FTYPE_STRUCT) → coloured c h2 p) ∧
      ∀ z, z ≠ p → coloured c h2 z → coloured c h z ∨ closed c H0 h2 z := by
  induction l with
  | nil =>
    intro h h2 hst he
    simp only [ort_parse_close_generation, Option.some.injEq] at he
    subst he
    exact ⟨hst, (fun ⟨f, hf, _⟩ => by cases hf), fun z _ hz => Or.inl hz⟩
  | cons f fs ih =>
    intro h h2 hst he
    have hkeep := (ort_parse_close_generation_coloured c fuel p fs)
    simp only [ort_parse_close_generation] at he
    split at he
    · split at he
      · rename_i s r hs hr
        split at he
        · cases he
        · rename_i g hg
          have hst1 : (h.set p { s with colour := c }).map static_part = H0.map static_part :=
            (@set_map_eq _ static_part h p s { s with colour := c } hs rfl).trans hst
          have hstg := (annotate_static c fuel _ r 1 g hg).trans hst1
          obtain ⟨hst2, -, hcl⟩ := ih g h2 hstg he
          have hk := (hkeep g h2 he).1
          have hpg : coloured c g p :=
            annotate_keeps_coloured c p fuel _ r 1 g ⟨_, getElem?_set_of_some hs, rfl⟩ hg
          refine ⟨hst2, fun _ => hk p hpg, fun z hzp hz => ?_⟩
          rcases hcl z hzp hz with h1 | h1
          · rcases annotate_closing c H0 fuel _ r 1 g hst1 hg z h1 with h3 | h3
            · exact Or.inl (coloured_of_set h3 hzp)
            · exact Or.inr (fun t ht => hk t (h3 t ht))
          · exact Or.inr h1
      · cases he
    · rename_i hft
      obtain ⟨hst2, hroot, hcl⟩ := ih h h2 hst he
      refine ⟨hst2, ?_, hcl⟩
      rintro ⟨f2, hf2, hft2⟩
      rcases List.mem_cons.1 hf2 with rfl | hf2
      · exact absurd hft2 hft
      · exact hroot ⟨f2, hf2, hft2⟩

theorem pathlen_transgen {h : List strct} {a z : strctp} {d : Nat} (hp : PathLen h a z d) :
    (d = 0 → z = a) ∧ (1 ≤ d → Relation.TransGen (embeds h) a z) := by
  induction hp with
  | zero => exact ⟨fun _ => rfl, fun hd => by omega⟩
  | @step b c d hab hbc ih =>
    refine ⟨fun hd => by omega, fun _ => ?_⟩
    by_cases hd0 : d = 0
    · rw [ih.1 hd0] at hbc
      exact Relation.TransGen.single hbc
    · exact Relation.TransGen.tail (ih.2 (by omega)) hbc

theorem transgen_static {h H0 : List strct} (hst : h.map static_part = H0.map static_part)
    {a z : strctp} (hp : Relation.TransGen (embeds h) a z) :
    Relation.TransGen (embeds H0) a z :=
  Relation.TransGen.mono (fun _ _ he => embeds_static hst he) hp

theorem gen_rel_fresh {h h1 : List strct} {p : strctp} {c : Nat} (hrel : gen_rel h p c h1)
    (hcol : ∀ s ∈ h, s.colour < c) {z : strctp} {x : strct} (hx : h1[z]? = some x) :
    ∃ s0, h[z]? = some s0 ∧ s0.height ≤ x.height ∧
      (x.colour ≠ c → x = s0) ∧
      (x.colour = c → z = p ∨ (∃ d, 1 ≤ d ∧ PathLen h p z d ∧ 1 ≤ x.height)) := by
  obtain ⟨hlen, hr⟩ := hrel
  obtain ⟨s0, hs0⟩ := getElem?_of_length_eq hlen hx
  obtain ⟨s1, hs1, hcase⟩ := hr z s0 hs0
  rw [hx] at hs1
  cases hs1
  have hlt := hcol s0 (List.mem_iff_getElem?.2 ⟨z, hs0⟩)
  refine ⟨s0, hs0, ?_, ?_, ?_⟩
  · rcases hcase with e | ⟨_, e⟩ | ⟨_, d, _, _, e⟩
    · rw [e]
    · rw [e]
    · rw [e]
      exact Nat.le_add_right _ _
  · intro hne
    rcases hcase with e | ⟨_, e⟩ | ⟨_, d, _, _, e⟩
    · exact e
    · rw [e] at hne
      exact absurd rfl hne
    · rw [e] at hne
      exact absurd rfl hne
  · intro hc
    rcases hcase with e | ⟨e1, _⟩ | ⟨_, d, hd, hpl, e⟩
    · rw [e] at hc
      omega
    · exact Or.inl e1
    · refine Or.inr ⟨d, hd, hpl, ?_⟩
      rw [e]
      exact le_trans hd (Nat.le_add_left _ _)

theorem height_inv_generation (H0 h h1 : List strct) (c : Nat) (p : strctp) (s : strct)
    (fuel : Nat) (hc : 1 ≤ c) (hI : height_inv H0 h c) (hs : h[p]? = some s)
    (hac : ¬ Relation.TransGen (embeds H0) p p)
    (hg : ort_parse_close_generation fuel p c h s.fq = some h1) :
    height_inv H0 h1 (c + 1) ∧
    (∀ (q : strctp) (x : strct), h[q]? = some x → x.colour ≠ 0 →
      ∃ x2, h1[q]? = some x2 ∧ x2.colour ≠ 0) ∧
    ((∃ t, embeds H0 p t) → ∃ x, h1[p]? = some x ∧ x.colour ≠ 0) := by
  obtain ⟨hst, hcol, hraised, htop⟩ := hI
  have hrel := ort_parse_close_generation_rel c fuel p h s hs h1 hg
  obtain ⟨hst1, hroot, hcl⟩ := ort_parse_close_generation_closing c H0 fuel p s.fq h h1 hst hg
  have htg := (ort_parse_close_generation_coloured c fuel p s.fq h h1 hg).2
  have hnotc : ∀ z, ¬ coloured c h z := by
    rintro z ⟨x, hx, hxc⟩
    have := hcol x (List.mem_iff_getElem?.2 ⟨z, hx⟩)
    omega
  have hpclosed : closed c H0 h1 p := by
    intro t ht
    obtain ⟨f, hf, hft, r, hr, e⟩ := embeds_fields hst hs ht
    rw [← e]
    exact htg f hf hft r hr
  refine ⟨⟨hst1, ?_, ?_, ?_⟩, ?_, ?_⟩
  · intro x hx
    obtain ⟨z, hz⟩ := List.mem_iff_getElem?.1 hx
    obtain ⟨s0, hs0, -, hne, -⟩ := gen_rel_fresh hrel hcol hz
    by_cases hxc : x.colour = c
    · omega
    · rw [hne hxc]
      have := hcol s0 (List.mem_iff_getElem?.2 ⟨z, hs0⟩)
      omega
  · intro q x hx hx0 t ht
    by_cases hxc : x.colour = c
    · have hqcl : closed c H0 h1 q := by
        by_cases hqp : q = p
        · rw [hqp]
          exact hpclosed
        · rcases hcl q hqp ⟨x, hx, hxc⟩ with h3 | h3
          · exact absurd h3 (hnotc q)
          · exact h3
      obtain ⟨y, hy, hyc⟩ := hqcl t ht
      have htp : t ≠ p := by
        intro e
        subst e
        obtain ⟨-, -, -, -, hreach⟩ := gen_rel_fresh hrel hcol hx
        rcases hreach hxc with e1 | ⟨d, hd, hpl, -⟩
        · subst e1
          exact hac (Relation.TransGen.single ht)
        · exact hac (Relation.TransGen.tail
            (transgen_static hst ((pathlen_transgen hpl).2 hd)) ht)
      obtain ⟨-, -, -, -, hreach⟩ := gen_rel_fresh hrel hcol hy
      rcases hreach hyc with e1 | ⟨d, -, -, hh⟩
      · exact absurd e1 htp
      · exact ⟨y, hy, hh⟩
    · obtain ⟨s0, hs0, -, hne, -⟩ := gen_rel_fresh hrel hcol hx
      have e := hne hxc
      subst e
      obtain ⟨y0, hy0, hh0⟩ := hraised q x hs0 hx0 t ht
      obtain ⟨hlen, hr⟩ := hrel
      obtain ⟨y1, hy1, -⟩ := hr t y0 hy0
      obtain ⟨y0b, hy0b, hle, -, -⟩ :=
        gen_rel_fresh (⟨hlen, hr⟩ : gen_rel h p c h1) hcol hy1
      rw [hy0] at hy0b
      cases hy0b
      exact ⟨y1, hy1, le_trans hh0 hle⟩
  · intro t x hx hnone
    obtain ⟨s0, hs0, -, hne, hreach⟩ := gen_rel_fresh hrel hcol hx
    by_cases hxc : x.colour = c
    · rcases hreach hxc with e1 | ⟨d, hd, hpl, -⟩
      · obtain ⟨-, hr⟩ := hrel
        obtain ⟨s1, hs1, hcase⟩ := hr t s0 hs0
        rw [hx] at hs1
        cases hs1
        rcases hcase with e | ⟨_, e⟩ | ⟨hn, _⟩
        · rw [e]
          exact htop t s0 hs0 hnone
        · rw [e]
          exact htop t s0 hs0 hnone
        · exact absurd e1 hn
      · obtain ⟨b, hb⟩ := pathlen_last hpl hd
        exact absurd (embeds_static hst hb) (hnone b)
    · rw [hne hxc]
      exact htop t s0 hs0 hnone
  · intro q x hx hx0
    obtain ⟨hlen, hr⟩ := hrel
    obtain ⟨x1, hx1, hcase⟩ := hr q x hx
    refine ⟨x1, hx1, ?_⟩
    rcases hcase with e | ⟨_, e⟩ | ⟨_, d, _, _, e⟩
    · rw [e]
      exact hx0
    · rw [e]
      show c ≠ 0
      omega
    · rw [e]
      show c ≠ 0
      omega
  · rintro ⟨t, ht⟩
    obtain ⟨f, hf, hft, -⟩ := embeds_fields hst hs ht
    obtain ⟨x, hx, hxc⟩ := hroot ⟨f, hf, hft⟩
    exact ⟨x, hx, by omega⟩

theorem height_pass_inv (H0 : List strct) (fuel : Nat) (l : List strctp) :
    ∀ (h : List strct) (c sz : Nat) (h2 : List strct) (sz2 : Nat),
      1 ≤ c → height_inv H0 h c →
      (∀ x ∈ l, ¬ Relation.TransGen (embeds H0) x x) →
      ort_parse_close_height fuel h c sz l = some (h2, sz2) →
      (∃ c2, height_inv H0 h2 c2) ∧
      (∀ (q : strctp) (x : strct), h[q]? = some x → x.colour ≠ 0 →
        ∃ x2, h2[q]? = some x2 ∧ x2.colour ≠ 0) ∧
      ∀ q ∈ l, targets_raised H0 h2 q := by
  induction l with
  | nil =>
    intro h c sz h2 sz2 _ hI _ he
    simp only [ort_parse_close_height, Option.some.injEq, Prod.mk.injEq] at he
    obtain ⟨rfl, -⟩ := he
    exact ⟨⟨c, hI⟩, fun q x hx hx0 => ⟨x, hx, hx0⟩, fun q hq => by cases hq⟩
  | cons p ps ih =>
    intro h c sz h2 sz2 hc hI hac he
    have hac2 : ∀ x ∈ ps, ¬ Relation.TransGen (embeds H0) x x :=
      fun x hx => hac x (List.mem_cons_of_mem _ hx)
    simp only [ort_parse_close_height] at he
    split at he
    · cases he
    · rename_i s hs
      split at he
      · rename_i hcol
        obtain ⟨⟨c2, hI2⟩, hpers, hrest⟩ := ih h c (sz + 1) h2 sz2 hc hI hac2 he
        refine ⟨⟨c2, hI2⟩, hpers, fun q hq => ?_⟩
        rcases List.mem_cons.1 hq with rfl | hq
        · obtain ⟨x2, hx2, hx20⟩ := hpers q s hs hcol
          exact hI2.2.2.1 q x2 hx2 hx20
        · exact hrest q hq
      · rename_i hcol
        split at he
        · cases he
        · rename_i h1 hg
          have hs0 : s.colour = 0 := by
            by_contra hne
            exact hcol hne
          obtain ⟨hI1, hpers1, hroot⟩ := height_inv_generation H0 h h1 c p s fuel hc hI hs
            (hac p (List.mem_cons_self _ _)) hg
          obtain ⟨⟨c2, hI2⟩, hpers, hrest⟩ :=
            ih h1 (c + 1) (sz + 1) h2 sz2 (by omega) hI1 hac2 he
          refine ⟨⟨c2, hI2⟩, fun q x hx hx0 => ?_, fun q hq => ?_⟩
          · obtain ⟨x1, hx1, hx10⟩ := hpers1 q x hx hx0
            exact hpers q x1 hx1 hx10
          · rcases List.mem_cons.1 hq with rfl | hq
            · intro t ht
              obtain ⟨x1, hx1, hx10⟩ := hroot ⟨t, ht⟩
              obtain ⟨x2, hx2, hx20⟩ := hpers q x1 hx1 hx10
              exact hI2.2.2.1 q x2 hx2 hx20 t ht
            · exact hrest q hq

/-- C28: for a store whose structs all have height and colour zero, a list
that holds every struct of the store and on which no struct reaches itself
through embeddings, after the height pass (from colour 1) a struct has height
zero if and only if no struct has a struct-typed field that targets it; so
every struct that some struct embeds has a height of at least one, in whatever
order the structs are listed. -/
theorem height_zero_iff_top_level (fuel : Nat) (H : List strct) (l : List strctp)
    (h2 : List strct) (sz : Nat)
    (hzero : ∀ s ∈ H, s.height = 0 ∧ s.colour = 0)
    (hall : ∀ x, x < H.length → x ∈ l)
    (hacyc : ∀ x ∈ l, ¬ Relation.TransGen (embeds H) x x)
    (he : ort_parse_close_height fuel H 1 0 l = some (h2, sz)) :
    ∀ (t : strctp) (x : strct), h2[t]? = some x →
      (x.height = 0 ↔ ¬ ∃ q, embeds H q t) := by
  have hI : height_inv H H 1 := by
    refine ⟨rfl, fun s hs => ?_, fun q x hx hx0 => ?_, fun t x hx _ => ?_⟩
    · have := (hzero s hs).2
      omega
    · exact absurd (hzero x (List.mem_iff_getElem?.2 ⟨q, hx⟩)).2 hx0
    · exact (hzero x (List.mem_iff_getElem?.2 ⟨t, hx⟩)).1
  obtain ⟨⟨c2, hI2⟩, -, hraised⟩ := height_pass_inv H fuel l H 1 0 h2 sz (le_refl _) hI hacyc he
  intro t x hx
  constructor
  · rintro h0 ⟨q, hq⟩
    have hql : q ∈ l := by
      obtain ⟨s, hs, -⟩ := hq
      rw [Option.mem_def] at hs
      exact hall q (List.getElem?_eq_some.1 hs).1
    obtain ⟨y, hy, hh⟩ := hraised q hql t hq
    rw [hx] at hy
    cases hy
    omega
  · intro hnone
    exact hI2.2.2.2 t x hx (fun q hq => hnone ⟨q, hq⟩)

set_option maxRecDepth 100000 in
/-- Witness of C28 on `shortcut_cfg`: only the root `r` keeps height zero. -/
theorem height_zero_iff_top_level_witness :
    ort_parse_close_height 10 shortcut_cfg.heap 1 0 shortcut_cfg.sq =
      some (shortcut_linked.heap, 4) ∧
    shortcut_linked.heap.map strct.height = [0, 1, 1, 2] ∧
    ∀ (t : strctp) (x : strct), shortcut_linked.heap[t]? = some x →
      (x.height = 0 ↔ ¬ ∃ q, embeds shortcut_cfg.heap q t) :=
  ⟨by decide, by decide,
    height_zero_iff_top_level 10 shortcut_cfg.heap shortcut_cfg.sq shortcut_linked.heap 4
      (by decide) (by decide)
      (fun x hx => @acyclic_of_checked shortcut_cfg.heap 10 x (by
        have hx4 : x = 0 ∨ x = 1 ∨ x = 2 ∨ x = 3 := by
          simpa [shortcut_cfg, mk_config, List.range, List.range.loop] using hx
        rcases hx4 with rfl | rfl | rfl | rfl <;> decide))
      (by decide)⟩

/-! ## C25: fields whose references differ -/

set_option maxRecDepth 100000 in
/-- C25, the code at the failing input: the field `owner` of `post`
references `user.id` in the old configuration and `team.id` in the new one,
with the same type, flags and actions; the two references differ, and
`gen_diff_field` returns non-zero (equality) without any diagnostic, because
it compares the names of the structs that hold the two fields, both `post`.
When only one of the fields has a reference, it returns zero. -/
theorem changed_reference_target_accepted :
    (post_owner 1).fq[1]? = some
      { type := ftype.FTYPE_INT, ref := some { target := ⟨1, 0⟩, source := ⟨0, 1⟩ },
        flags := 0, pos := ⟨"db.ort", 2, 1⟩ } ∧
    (post_owner 2).fq[1]? = some
      { type := ftype.FTYPE_INT, ref := some { target := ⟨2, 0⟩, source := ⟨0, 1⟩ },
        flags := 0, pos := ⟨"db.ort", 2, 1⟩ } ∧
    gen_diff_field (owner_heap 2) (owner_heap 1)
      { type := ftype.FTYPE_INT, ref := some { target := ⟨2, 0⟩, source := ⟨0, 1⟩ },
        flags := 0, pos := ⟨"db.ort", 2, 1⟩ }
      { type := ftype.FTYPE_INT, ref := some { target := ⟨1, 0⟩, source := ⟨0, 1⟩ },
        flags := 0, pos := ⟨"db.ort", 2, 1⟩ } = some (true, []) ∧
    (gen_diff_field (owner_heap 2) (owner_heap 1)
      { type := ftype.FTYPE_INT, ref := some { target := ⟨2, 0⟩, source := ⟨0, 1⟩ },
        flags := 0, pos := ⟨"db.ort", 2, 1⟩ }
      { type := ftype.FTYPE_INT, ref := none,
        flags := 0, pos := ⟨"db.ort", 2, 1⟩ }).map Prod.fst = some false := by
  decide

/-! ## C26: the option rowid -/

theorem flag_ne_zero (x k : Nat) : x &&& 2 ^ k ≠ 0 ↔ x.testBit k = true := by
  rw [Nat.and_two_pow]
  cases x.testBit k <;> simp

theorem flag_eq_zero (x k : Nat) : x &&& 2 ^ k = 0 ↔ x.testBit k = false := by
  rw [Nat.and_two_pow]
  cases x.testBit k <;> simp

theorem rowid_exclusive_iff (fl : Nat) :
    rowid_exclusive fl ↔
      (fl.testBit 0 = true → fl.testBit 2 = false ∧ fl.testBit 1 = false) := by
  unfold rowid_exclusive
  rw [show FIELD_ROWID = 2 ^ 0 from rfl, show FIELD_NULL = 2 ^ 2 from rfl,
    show FIELD_UNIQUE = 2 ^ 1 from rfl, flag_ne_zero, flag_eq_zero, flag_eq_zero]

theorem test_rowid (x : Nat) : x &&& FIELD_ROWID ≠ 0 ↔ x.testBit 0 = true :=
  flag_ne_zero x 0

theorem test_unique (x : Nat) : x &&& FIELD_UNIQUE ≠ 0 ↔ x.testBit 1 = true :=
  flag_ne_zero x 1

theorem test_null (x : Nat) : x &&& FIELD_NULL ≠ 0 ↔ x.testBit 2 = true :=
  flag_ne_zero x 2

/-- Setting a flag other than the three leaves the three as they are. -/
theorem testBit_or_other (x c i : Nat) (hc : c.testBit i = false) :
    (x ||| c).testBit i = x.testBit i := by
  rw [Nat.testBit_or, hc, Bool.or_false]

set_option maxRecDepth 100000 in
theorem rowid_consistent_rowid (self : Nat) (st : fstate) (h : rowid_consistent self st) :
    rowid_consistent self (parse_config_field_info_rowid self st).1 ∧
    (∀ k, st.rowid = some k → (parse_config_field_info_rowid self st).1.rowid = some k) := by
  unfold parse_config_field_info_rowid
  split
  · exact ⟨h, fun _ hk => hk⟩
  · split
    · exact ⟨h, fun _ hk => hk⟩
    · split
      · exact ⟨h, fun _ hk => hk⟩
      · rename_i hrow
        split
        · exact ⟨h, fun _ hk => hk⟩
        · rename_i hnull
          have hr : st.rowid = none := by
            by_contra hne
            exact hrow hne
          have hn : st.fd.flags.testBit 2 = false := by
            have := (test_null st.fd.flags).not.1 hnull
            simpa using this
          refine ⟨⟨?_, fun _ => ?_⟩, fun k hk => by rw [hr] at hk; cases hk⟩
          · rw [rowid_exclusive_iff]
            intro _
            split
            · have m1 : (4294967295 ^^^ 2).testBit 1 = false := by decide
              have m2 : Nat.testBit 4294967293 1 = false := by decide
              have b1 : Nat.testBit 1 1 = false := by decide
              have b2 : Nat.testBit 1 2 = false := by decide
              simp [FIELD_ROWID, FIELD_UNIQUE, Nat.testBit_or, Nat.testBit_and, hn, m1, m2, b1, b2]
            · rename_i hu
              have hu2 : st.fd.flags.testBit 1 = false := by
                have := (test_unique st.fd.flags).not.1 hu
                simpa using this
              have b1 : Nat.testBit 1 1 = false := by decide
              have b2 : Nat.testBit 1 2 = false := by decide
              simp [FIELD_ROWID, Nat.testBit_or, hn, hu2, b1, b2]
          · split <;> rfl

theorem flags_kept_refl (x : Nat) : flags_kept x x :=
  ⟨rfl, fun _ => ⟨rfl, rfl⟩⟩

theorem flags_kept_or (x c : Nat) (h0 : c.testBit 0 = false)
    (h12 : x.testBit 0 = true → c.testBit 1 = false ∧ c.testBit 2 = false) :
    flags_kept x (x ||| c) := by
  refine ⟨testBit_or_other x c 0 h0, fun hx => ?_⟩
  obtain ⟨h1, h2⟩ := h12 hx
  exact ⟨testBit_or_other x c 1 h1, testBit_or_other x c 2 h2⟩

theorem flags_kept_hasdef (x : Nat) : flags_kept x (x ||| FIELD_HASDEF) :=
  flags_kept_or x _ (by decide) (fun _ => ⟨by decide, by decide⟩)

theorem flags_kept_noexport (x : Nat) : flags_kept x (x ||| FIELD_NOEXPORT) :=
  flags_kept_or x _ (by decide) (fun _ => ⟨by decide, by decide⟩)

theorem rowid_kept_refl (st : fstate) : rowid_kept st st :=
  ⟨flags_kept_refl _, rfl⟩

theorem rowid_consistent_kept {self : Nat} {st st2 : fstate} (h : rowid_consistent self st)
    (hk : rowid_kept st st2) : rowid_consistent self st2 := by
  obtain ⟨⟨h0, h12⟩, hr⟩ := hk
  obtain ⟨he, hs⟩ := h
  rw [rowid_exclusive_iff] at he
  refine ⟨?_, ?_⟩
  · rw [rowid_exclusive_iff]
    intro hb
    rw [h0] at hb
    obtain ⟨e1, e2⟩ := h12 hb
    rw [e1, e2]
    exact he hb
  · intro hb
    rw [test_rowid, h0, ← test_rowid] at hb
    rw [hr]
    exact hs hb

theorem parse_validate_kept (E : penv) (st st2 : fstate) (h : parse_validate E st = some st2) :
    rowid_kept st st2 := by
  have key : st2.fd.flags = st.fd.flags ∧ st2.rowid = st.rowid := by
    unfold parse_validate at h
    split at h
    · cases h; exact ⟨rfl, rfl⟩
    · split at h
      · cases h; exact ⟨rfl, rfl⟩
      · dsimp only at h
        split at h
        · cases h; exact ⟨rfl, rfl⟩
        · split at h
          · cases h; exact ⟨rfl, rfl⟩
          · split at h
            · cases h; exact ⟨rfl, rfl⟩
            · unfold parse_validate_value at h
              dsimp only at h
              split at h <;> (try split at h) <;> (try split at h) <;>
                first | (cases h; exact ⟨rfl, rfl⟩) | cases h
  refine ⟨?_, key.2⟩
  rw [key.1]
  exact flags_kept_refl _

theorem parse_config_field_info_date_kept (E : penv) (st : fstate) :
    rowid_kept st (parse_config_field_info_date E st) := by
  unfold parse_config_field_info_date
  dsimp only
  split
  · exact rowid_kept_refl _
  · split
    · exact rowid_kept_refl _
    · split
      · exact rowid_kept_refl _
      · split
        · exact rowid_kept_refl _
        · split
          · exact rowid_kept_refl _
          · exact ⟨flags_kept_hasdef _, rfl⟩

theorem parse_config_field_info_default_kept (E : penv) (st : fstate) :
    rowid_kept st (parse_config_field_info_default E st).1 := by
  unfold parse_config_field_info_default
  split <;> dsimp only <;> (try split) <;> (try split) <;>
    first
    | exact rowid_kept_refl _
    | exact ⟨flags_kept_hasdef _, rfl⟩
    | exact parse_config_field_info_date_kept E st

theorem testBit_zero_of_not (x : Nat) (h : ¬ (x &&& FIELD_ROWID ≠ 0)) : x.testBit 0 = false := by
  have := (test_rowid x).not.1 h
  simpa using this

theorem parse_config_field_info_option_consistent (E : penv) (self : Nat) (st st2 : fstate)
    (b : Bool) (h : parse_config_field_info_option E self st = some (st2, b))
    (hc : rowid_consistent self st) :
    rowid_consistent self st2 ∧ ∀ k, st.rowid = some k → st2.rowid = some k := by
  have kept : rowid_kept st st2 →
      rowid_consistent self st2 ∧ ∀ k, st.rowid = some k → st2.rowid = some k :=
    fun hk => ⟨rowid_consistent_kept hc hk, fun k hr => by rw [hk.2]; exact hr⟩
  unfold parse_config_field_info_option at h
  dsimp only at h
  split at h
  · simp only [Option.some.injEq] at h
    have e : st2 = (parse_config_field_info_rowid self st).1 := by rw [h]
    rw [e]
    exact rowid_consistent_rowid self st hc
  split at h
  · cases h
    exact kept ⟨flags_kept_noexport _, rfl⟩
  split at h
  · cases hv : parse_validate E st with
    | none => rw [hv] at h; cases h
    | some r =>
      rw [hv] at h
      have hk := parse_validate_kept E st r hv
      cases h
      exact kept hk
  split at h
  · split at h
    · cases h
      exact kept (rowid_kept_refl _)
    · split at h
      · cases h
        exact kept (rowid_kept_refl _)
      · rename_i hr
        cases h
        have h0 := testBit_zero_of_not _ hr
        exact kept ⟨flags_kept_or _ _ (by decide) (fun hx => by rw [h0] at hx; cases hx), rfl⟩
  split at h
  · split at h
    · cases h
      exact kept (rowid_kept_refl _)
    · rename_i hr
      split at h
      · cases h
        exact kept (rowid_kept_refl _)
      · cases h
        have h0 := testBit_zero_of_not _ hr
        exact kept ⟨flags_kept_or _ _ (by decide) (fun hx => by rw [h0] at hx; cases hx), rfl⟩
  split at h
  · cases h
    exact kept (rowid_kept_refl _)
  split at h
  · split at h
    · cases h
      exact kept (rowid_kept_refl _)
    · cases h
      exact kept (rowid_kept_refl _)
  split at h
  · split at h
    · cases h
      exact kept (rowid_kept_refl _)
    · cases h
      exact kept (rowid_kept_refl _)
  split at h
  · simp only [Option.some.injEq] at h
    have e : st2 = (parse_config_field_info_default E st).1 := by rw [h]
    have hk : rowid_kept st st2 := by
      rw [e]
      exact parse_config_field_info_default_kept E st
    exact kept hk
  · cases h
    exact kept (rowid_kept_refl _)

theorem parse_config_field_info_consistent (E : penv) (self : Nat) (fuel : Nat) :
    ∀ (st st2 : fstate), parse_config_field_info E self fuel st = some st2 →
      rowid_consistent self st →
      rowid_consistent self st2 ∧ ∀ k, st.rowid = some k → st2.rowid = some k := by
  induction fuel with
  | zero =>
    intro st st2 h
    simp [parse_config_field_info] at h
  | succ fuel ih =>
    intro st st2 h hc
    simp only [parse_config_field_info] at h
    split at h
    · cases h
      exact ⟨hc, fun _ hk => hk⟩
    · split at h
      · cases h
        exact ⟨hc, fun _ hk => hk⟩
      · split at h
        · cases h
          exact ⟨hc, fun _ hk => hk⟩
        · split at h
          · cases h
          · rename_i st1 ho
            obtain ⟨c1, k1⟩ := parse_config_field_info_option_consistent E self _ st1 true ho hc
            obtain ⟨c2, k2⟩ := ih st1 st2 h c1
            exact ⟨c2, fun k hk => k2 k (k1 k hk)⟩
          · rename_i st1 ho
            have := parse_config_field_info_option_consistent E self _ st1 false ho hc
            cases h
            exact this

theorem parse_config_field_info_rowid_rejected (self : Nat) (st : fstate)
    (hrej : rowid_rejected st) :
    ∃ m, parse_config_field_info_rowid self st =
        ({ st with p := { st.p with lasttype := tok.TOK_ERR, msgs := st.p.msgs ++ [m] } }, false) ∧
      m.type = msgtype.MSGTYPE_ERROR := by
  unfold parse_config_field_info_rowid
  split
  · exact ⟨_, rfl, rfl⟩
  · split
    · exact ⟨_, rfl, rfl⟩
    · split
      · exact ⟨_, rfl, rfl⟩
      · split
        · exact ⟨_, rfl, rfl⟩
        · rename_i h1 h2 h3 h4
          rcases hrej with h | h | h | h
          · exact absurd h h1
          · exact absurd h h2
          · exact absurd h h3
          · exact absurd h h4

theorem parse_config_field_info_rowid_ok (self : Nat) (st : fstate)
    (hok : ¬ rowid_rejected st) :
    ∃ st1, parse_config_field_info_rowid self st = (st1, true) ∧
      st1.fd.flags &&& FIELD_ROWID ≠ 0 ∧ st1.fd.flags &&& FIELD_UNIQUE = 0 ∧
      st1.fd.flags &&& FIELD_NULL = 0 ∧ st1.rowid = some self := by
  unfold rowid_rejected at hok
  simp only [not_or] at hok
  obtain ⟨h1, h2, h3, h4⟩ := hok
  have hn : st.fd.flags.testBit 2 = false := by
    have := (test_null st.fd.flags).not.1 h4
    simpa using this
  have m2 : Nat.testBit 4294967293 1 = false := by decide
  have m3 : Nat.testBit 4294967293 2 = true := by decide
  have b0 : Nat.testBit 1 0 = true := by decide
  have b1 : Nat.testBit 1 1 = false := by decide
  have b2 : Nat.testBit 1 2 = false := by decide
  simp only [parse_config_field_info_rowid, h1, h2, h3, h4, if_false]
  refine ⟨_, rfl, ?_, ?_, ?_, rfl⟩
  · rw [test_rowid]
    split <;> simp [FIELD_ROWID, Nat.testBit_or, b0]
  · rw [show FIELD_UNIQUE = 2 ^ 1 from rfl, flag_eq_zero]
    split
    · simp [FIELD_ROWID, FIELD_UNIQUE, Nat.testBit_or, Nat.testBit_and, m2, b1]
    · rename_i hu
      have hu2 : st.fd.flags.testBit 1 = false := by
        have := (test_unique st.fd.flags).not.1 hu
        simpa using this
      simp [FIELD_ROWID, Nat.testBit_or, hu2, b1]
  · rw [show FIELD_NULL = 2 ^ 2 from rfl, flag_eq_zero]
    split
    · simp [FIELD_ROWID, FIELD_UNIQUE, Nat.testBit_or, Nat.testBit_and, hn, b2]
    · simp [FIELD_ROWID, Nat.testBit_or, hn, b2]

/-- C26: when the loop of `parse_config_field_info` reads the option `rowid`
for the field at position `self`, it records an error and stops, leaving the
field (so its flags) and the `rowid` of the parent struct unchanged, if the
field is not of integer type, carries a reference, is nullable, or the parent
already has a `rowid`; otherwise it goes on with `FIELD_ROWID` set,
`FIELD_UNIQUE` and `FIELD_NULL` clear and the field as the `rowid` of the
parent.  Whatever the options, a run of the loop from a consistent state (a
field with `FIELD_ROWID` has neither `FIELD_NULL` nor `FIELD_UNIQUE` and is
the `rowid` of its parent) ends in a consistent state and never replaces a
`rowid` the parent already has. -/
theorem rowid_option_checked (E : penv) (self fuel : Nat) (st : fstate) (lx : lexeme)
    (rest : List lexeme) (hstop : PARSE_STOP st.p = false) (htoks : st.p.toks = lx :: rest)
    (hid : lx.type = tok.TOK_IDENT) (hrow : strcasecmp lx.string "rowid" = 0) :
    (rowid_rejected st →
      ∃ st2 m, parse_config_field_info E self (fuel + 1) st = some st2 ∧
        st2.fd = st.fd ∧ st2.rowid = st.rowid ∧ st2.p.lasttype = tok.TOK_ERR ∧
        st2.p.msgs = st.p.msgs ++ [m] ∧ m.type = msgtype.MSGTYPE_ERROR) ∧
    (¬ rowid_rejected st →
      ∃ st1, parse_config_field_info E self (fuel + 1) st =
          parse_config_field_info E self fuel st1 ∧
        st1.fd.flags &&& FIELD_ROWID ≠ 0 ∧ st1.fd.flags &&& FIELD_UNIQUE = 0 ∧
        st1.fd.flags &&& FIELD_NULL = 0 ∧ st1.rowid = some self) ∧
    ∀ (n : Nat) (s s2 : fstate), parse_config_field_info E self n s = some s2 →
      rowid_consistent self s →
      rowid_consistent self s2 ∧ ∀ k, s.rowid = some k → s2.rowid = some k := by
  have hnext : parse_next st.p = { st.p with toks := rest, lasttype := lx.type, last := lx } := by
    simp only [parse_next, htoks]
  have hstep : parse_config_field_info E self (fuel + 1) st =
      match parse_config_field_info_rowid self { st with p := parse_next st.p } with
      | (st2, true) => parse_config_field_info E self fuel st2
      | (st2, false) => some st2 := by
    have h1 : (parse_next st.p).lasttype = tok.TOK_IDENT := by rw [hnext]; exact hid
    have h2 : ¬ ((parse_next st.p).lasttype = tok.TOK_SEMICOLON) := by rw [h1]; decide
    have h3 : (parse_next st.p).last.string = lx.string := by rw [hnext]
    simp only [parse_config_field_info, hstop, Bool.false_eq_true, if_false, h2, h1, ne_eq,
      not_true_eq_false, parse_config_field_info_option, h3, hrow, if_true]
    cases parse_config_field_info_rowid self { st with p := parse_next st.p } with
    | mk a b => cases b <;> rfl
  refine ⟨fun hrej => ?_, fun hok => ?_, fun n s s2 h hc =>
    parse_config_field_info_consistent E self n s s2 h hc⟩
  · obtain ⟨m, hm, hmt⟩ :=
      parse_config_field_info_rowid_rejected self { st with p := parse_next st.p } hrej
    rw [hstep, hm]
    refine ⟨_, m, rfl, rfl, rfl, rfl, ?_, hmt⟩
    simp only [hnext]
  · obtain ⟨st1, h1, hf⟩ :=
      parse_config_field_info_rowid_ok self { st with p := parse_next st.p } hok
    rw [hstep, h1]
    exact ⟨st1, rfl, hf⟩

set_option maxRecDepth 100000 in
/-- Witness of C26 for the field at position 3: `unique rowid;` yields the
flag `FIELD_ROWID` alone and the field as `rowid`; `null rowid;` and `rowid;`
in a struct that has a `rowid` are rejected. -/
theorem rowid_option_checked_witness :
    (parse_config_field_info penv_id 3 10
        (fresh_int [ident "unique", ident "ROWID", semicolon] none)).map
      (fun s => (s.fd.flags, s.rowid, s.p.lasttype, s.p.msgs.map msg.fmt)) =
      some (FIELD_ROWID, some 3, tok.TOK_SEMICOLON, [some "unique is redundant"]) ∧
    (parse_config_field_info penv_id 3 10
        (fresh_int [ident "null", ident "rowid", semicolon] none)).map
      (fun s => (s.fd.flags, s.rowid, s.p.lasttype, s.p.msgs.map msg.fmt)) =
      some (FIELD_NULL, none, tok.TOK_ERR, [some "rowid can't be null"]) ∧
    (parse_config_field_info penv_id 3 10 (fresh_int [ident "rowid", semicolon] (some 0))).map
      (fun s => (s.fd.flags, s.rowid, s.p.lasttype, s.p.msgs.map msg.fmt)) =
      some (0, some 0, tok.TOK_ERR, [some "struct already has rowid"]) ∧
    ((rowid_rejected (fresh_int [ident "ROWID", semicolon] none) →
      ∃ st2 m, parse_config_field_info penv_id 3 (5 + 1)
          (fresh_int [ident "ROWID", semicolon] none) = some st2 ∧
        st2.fd = (fresh_int [ident "ROWID", semicolon] none).fd ∧
        st2.rowid = (fresh_int [ident "ROWID", semicolon] none).rowid ∧
        st2.p.lasttype = tok.TOK_ERR ∧
        st2.p.msgs = (fresh_int [ident "ROWID", semicolon] none).p.msgs ++ [m] ∧
        m.type = msgtype.MSGTYPE_ERROR) ∧
    (¬ rowid_rejected (fresh_int [ident "ROWID", semicolon] none) →
      ∃ st1, parse_config_field_info penv_id 3 (5 + 1)
          (fresh_int [ident "ROWID", semicolon] none) =
          parse_config_field_info penv_id 3 5 st1 ∧
        st1.fd.flags &&& FIELD_ROWID ≠ 0 ∧ st1.fd.flags &&& FIELD_UNIQUE = 0 ∧
        st1.fd.flags &&& FIELD_NULL = 0 ∧ st1.rowid = some 3) ∧
    ∀ (n : Nat) (s s2 : fstate), parse_config_field_info penv_id 3 n s = some s2 →
      rowid_consistent 3 s →
      rowid_consistent 3 s2 ∧ ∀ k, s.rowid = some k → s2.rowid = some k) :=
  ⟨by decide, by decide, by decide,
    rowid_option_checked penv_id 3 5 (fresh_int [ident "ROWID", semicolon] none)
      (ident "ROWID") [semicolon] (by decide) rfl rfl (by decide)⟩

/-! ## C21: every reference is resolved -/

theorem find_index_some {α : Type} (p : α → Bool) (l : List α) :
    ∀ i, find_index p l = some i → ∃ x, l[i]? = some x ∧ p x = true := by
  induction l with
  | nil => intro i h; cases h
  | cons a l ih =>
    intro i h
    simp only [find_index] at h
    split at h
    · rename_i hp
      cases h
      exact ⟨a, by simp, hp⟩
    · cases hf : find_index p l with
      | none => rw [hf] at h; cases h
      | some j =>
        rw [hf] at h
        cases h
        obtain ⟨x, hx, hpx⟩ := ih j hf
        exact ⟨x, by simpa using hx, hpx⟩

theorem resolve_target_ok {heap : List strct} {sr : symref} {t : fieldp}
    (h : resolve_target heap sr = Except.ok t) : (deref_field heap t).isSome = true := by
  unfold resolve_target at h
  split at h
  · cases h
  · split at h
    · cases h
    · rename_i ts hts
      split at h
      · cases h
      · split at h
        · cases h
        · rename_i tf htf
          split at h
          · cases h
          · cases h
            simp [deref_field, hts, htf]

theorem resolve_field_ok {heap : List strct} {p : strctp} {s : strct} {i : Nat} {f : field}
    {r : Option ref} (hs : heap[p]? = some s) (hf : s.fq[i]? = some f)
    (hsym : f.sym ≠ none) (h : resolve_field heap p s i f = Except.ok r) :
    ∃ r0, r = some r0 ∧ (deref_field heap r0.target).isSome = true ∧
      (deref_field heap r0.source).isSome = true := by
  unfold resolve_field at h
  split at h
  · rename_i hn
    exact absurd hn hsym
  · split at h
    · split at h
      · cases h
      · rename_i k hk
        split at h
        · cases h
        · rename_i src hsrc
          split at h
          · cases h
          · split at h
            · cases h
            · split at h
              · cases h
              · rename_i t ht
                cases h
                exact ⟨_, rfl, resolve_target_ok ht, by simp [deref_field, hs, hsrc]⟩
    · split at h
      · cases h
      · rename_i t ht
        cases h
        exact ⟨_, rfl, resolve_target_ok ht, by simp [deref_field, hs, hf]⟩

theorem linker_resolve_heap (cfg : config) (p : strctp) :
    (linker_resolve cfg).1.heap[p]? =
      (cfg.heap[p]?).map (fun s => { s with fq := (resolve_fq cfg.heap p s).map Prod.fst }) := by
  simp only [linker_resolve, List.getElem?_map, List.getElem?_enum, Option.map_map]
  cases cfg.heap[p]? <;> rfl

theorem resolve_fq_get (heap : List strct) (p : strctp) (s : strct) (i : Nat) :
    (resolve_fq heap p s)[i]? =
      (s.fq[i]?).map (fun f =>
        match resolve_field heap p s i f with
        | Except.ok r => ({ f with ref := r }, none)
        | Except.error e =>
          (f, some { type := msgtype.MSGTYPE_ERROR, chan := channel, er := 0,
                     pos := some f.pos, fmt := some e, args := [] })) := by
  simp only [resolve_fq, List.getElem?_map, List.getElem?_enum, Option.map_map]
  cases s.fq[i]? <;> rfl

theorem linker_resolve_deref (cfg : config) (fp : fieldp) :
    (deref_field (linker_resolve cfg).1.heap fp).isSome = (deref_field cfg.heap fp).isSome := by
  unfold deref_field
  rw [linker_resolve_heap]
  cases cfg.heap[fp.parent]? with
  | none => rfl
  | some s =>
    simp only [Option.map_some', List.getElem?_map, resolve_fq_get, Option.map_map]
    cases s.fq[fp.idx]? <;> rfl

theorem linker_resolve_ok (cfg : config) (h : (linker_resolve cfg).2 = true) :
    refs_resolved (linker_resolve cfg).1.heap := by
  have herr : ∀ (p : strctp) (s0 : strct), cfg.heap[p]? = some s0 →
      ∀ y ∈ resolve_fq cfg.heap p s0, y.2 = none := by
    intro p s0 hp
    simp only [linker_resolve, decide_eq_true_eq] at h
    rw [List.flatMap_eq_nil_iff] at h
    have hm : (s0, resolve_fq cfg.heap p s0) ∈
        cfg.heap.enum.map (fun x => (x.2, resolve_fq cfg.heap x.1 x.2)) :=
      List.mem_map.2 ⟨(p, s0), List.mk_mem_enum_iff_getElem?.2 hp, rfl⟩
    have := h _ hm
    rw [List.filterMap_eq_nil_iff] at this
    exact this
  intro p s hps f hf hsym
  rw [linker_resolve_heap] at hps
  cases hp0 : cfg.heap[p]? with
  | none => rw [hp0] at hps; cases hps
  | some s0 =>
    rw [hp0] at hps
    simp only [Option.map_some', Option.some.injEq] at hps
    subst hps
    obtain ⟨i, hi⟩ := List.mem_iff_getElem?.1 hf
    simp only [List.getElem?_map, resolve_fq_get, Option.map_map] at hi
    cases hf0 : s0.fq[i]? with
    | none => rw [hf0] at hi; cases hi
    | some f0 =>
      rw [hf0] at hi
      simp only [Option.map_some', Function.comp, Option.some.injEq] at hi
      cases hr : resolve_field cfg.heap p s0 i f0 with
      | error e =>
        have hy := herr p s0 hp0
          (f0, some { type := msgtype.MSGTYPE_ERROR, chan := channel, er := 0,
                      pos := some f0.pos, fmt := some e, args := [] })
          (by
            apply List.mem_iff_getElem?.2
            refine ⟨i, ?_⟩
            rw [resolve_fq_get, hf0, Option.map_some', hr])
        cases hy
      | ok r =>
        rw [hr] at hi
        simp only at hi
        subst hi
        obtain ⟨r0, e, ht, hsrc⟩ := resolve_field_ok hp0 hf0 hsym hr
        refine ⟨r0, e, ?_, ?_⟩
        · rw [linker_resolve_deref]
          exact ht
        · rw [linker_resolve_deref]
          exact hsrc

theorem refs_resolved_static {h h0 : List strct} (hs : h.map static_part = h0.map static_part)
    (hr : refs_resolved h0) : refs_resolved h := by
  intro p s hps f hf hsym
  obtain ⟨s0, hs0, e⟩ := static_lookup hs hps
  have efq : s0.fq = s.fq := by
    have := congrArg strct.fq e
    exact this
  obtain ⟨r, hr1, ht, hsrc⟩ := hr p s0 hs0 f (efq ▸ hf) hsym
  exact ⟨r, hr1, by rw [deref_field_static hs]; exact ht, by rw [deref_field_static hs]; exact hsrc⟩

/-- C21: with the resolver `linker_resolve` and an alias pass that leaves the
structs as they are but for height, colour and flags, whenever
`ort_parse_close` returns success, every reference of the final configuration
is resolved: each field declared with a reference has a target and a source,
and both are fields of structs of the configuration. -/
theorem references_resolved (E : env) (fuel : Nat) (cfg cfg2 : config)
    (hres : E.linker_resolve = linker_resolve)
    (hali : ∀ c, (E.linker_aliases c).1.heap.map static_part = c.heap.map static_part)
    (h : ort_parse_close E fuel cfg = some (cfg2, true)) :
    refs_resolved cfg2.heap := by
  have hl := (ort_parse_close_success h).2
  obtain ⟨hst, -⟩ := ort_parse_close_linked_frame hl
  have hok : (linker_resolve cfg).2 = true := by
    unfold ort_parse_close at h
    split at h
    · cases h
    · obtain ⟨c1, h1, -⟩ := and_then_eq_some_true h
      simp only [Option.some.injEq] at h1
      rw [← hres, h1]
  have h1 := linker_resolve_ok cfg hok
  have h2 : refs_resolved (resolved E cfg).heap := by
    apply refs_resolved_static _ h1
    unfold resolved
    rw [hali, hres]
  exact refs_resolved_static hst h2

set_option maxRecDepth 100000 in
/-- Witness of C21 on `unlinked_cfg`: the foreign key `authorid` and the
struct field `author` of `Post` both end up with the target `User.id` and the
source `Post.authorid`. -/
theorem references_resolved_witness :
    (ort_parse_close env_resolve 10 unlinked_cfg).map
      (fun r => r.1.heap.map (fun s => s.fq.map field.ref)) =
      some [[none, none],
        [none, some (ref.mk (fieldp.mk 0 0) (fieldp.mk 1 1)),
         some (ref.mk (fieldp.mk 0 0) (fieldp.mk 1 1))]] ∧
    (ort_parse_close env_resolve 10 unlinked_cfg).map
      (fun r => (r.1.heap.map strct.height, r.1.heap.map strct.flags, r.1.sq, r.1.msgs, r.2)) =
      some ([1, 0], [0, STRCT_HAS_NULLREFS], [0, 1], [], true) ∧
    refs_resolved ((ort_parse_close env_resolve 10 unlinked_cfg).getD (unlinked_cfg, false)).1.heap :=
  ⟨by decide, by decide,
    references_resolved env_resolve 10 unlinked_cfg
      ((ort_parse_close env_resolve 10 unlinked_cfg).getD (unlinked_cfg, false)).1 rfl
      (fun _ => rfl) (by decide)⟩

/-! ## The chain of structs (sort by reverse height) -/

theorem tab_get (g : Nat → strct) {n j : Nat} (h : j < n) :
    ((List.range n).map g)[j]? = some (g j) := by
  simp [List.getElem?_map, List.getElem?_range h]

theorem tab_congr {g1 g2 : Nat → strct} {n : Nat} (h : ∀ j, j < n → g1 j = g2 j) :
    (List.range n).map g1 = (List.range n).map g2 :=
  List.map_congr_left (fun j hj => h j (List.mem_range.mp hj))

theorem tab_set (g : Nat → strct) {n p : Nat} (v : strct) (h : p < n) :
    ((List.range n).map g).set p v = (List.range n).map (fun j => if j = p then v else g j) := by
  apply List.ext_getElem?
  intro i
  by_cases hi : i < n
  · rw [tab_get _ hi, List.getElem?_set]
    by_cases hp : p = i
    · subst hp
      simp [h]
    · have hp2 : ¬ i = p := fun e => hp e.symm
      simp [hp, hp2, tab_get g hi]
  · have hp : ¬ p = i := fun e => hi (e ▸ h)
    have hn : (List.range n)[i]? = none := List.getElem?_eq_none (by simpa using hi)
    rw [List.getElem?_set]
    simp [hp, hn]

theorem chain_fq_zero : (chain_strct 0).fq =
    [{ type := ftype.FTYPE_INT, ref := none, flags := FIELD_ROWID, pos := ⟨"db.ort", 0, 1⟩ }] := rfl

theorem chain_fq_succ (j : Nat) : (chain_strct (j + 1)).fq =
    [{ type := ftype.FTYPE_INT, ref := none, flags := FIELD_ROWID,
       pos := ⟨"db.ort", 10 * (j + 1), 1⟩ },
     { type := ftype.FTYPE_INT, ref := some { target := ⟨j, 0⟩, source := ⟨j + 1, 1⟩ },
       flags := 0, pos := ⟨"db.ort", 10 * (j + 1) + 1, 1⟩ },
     { type := ftype.FTYPE_STRUCT, ref := some { target := ⟨j, 0⟩, source := ⟨j + 1, 1⟩ },
       flags := 0, pos := ⟨"db.ort", 10 * (j + 1) + 1 + 1, 1⟩ }] := by
  simp [chain_strct, mk_strct, embed_fields]

theorem annotate_fq_chain_zero (self : List strct → ref → Option (List strct))
    (heap : List strct) : annotate_fq self heap (chain_strct 0).fq = some heap := by
  rw [chain_fq_zero]
  simp [annotate_fq]

theorem annotate_fq_chain_succ (self : List strct → ref → Option (List strct))
    (heap : List strct) (j : Nat) :
    annotate_fq self heap (chain_strct (j + 1)).fq =
      self heap { target := ⟨j, 0⟩, source := ⟨j + 1, 1⟩ } := by
  rw [chain_fq_succ]
  simp only [annotate_fq]
  rw [if_pos trivial]
  cases self heap { target := ⟨j, 0⟩, source := ⟨j + 1, 1⟩ } <;> rfl

theorem annotate_chain (n c : Nat) : ∀ (p fuel : Nat) (g : Nat → strct) (d : Nat) (r : ref),
    r.target.parent = p → p < n → p < fuel →
    (∀ j, j ≤ p → (g j).fq = (chain_strct j).fq ∧ (g j).colour ≠ c) →
    annotate fuel ((List.range n).map g) r d c =
      some ((List.range n).map (fun j =>
        if j ≤ p then { g j with colour := c, height := (g j).height + d + (p - j) }
        else g j)) := by
  intro p
  induction p with
  | zero =>
    intro fuel g d r hr hn hf hg
    obtain ⟨f, rfl⟩ : ∃ f, fuel = f + 1 := ⟨fuel - 1, by omega⟩
    obtain ⟨hfq, hc⟩ := hg 0 (le_refl 0)
    unfold annotate
    simp only [hr]
    rw [tab_get g hn]
    dsimp only
    rw [if_neg hc, tab_set g _ hn, hfq, annotate_fq_chain_zero]
    congr 1
    apply tab_congr
    intro j _
    by_cases hj : j = 0
    · subst hj
      simp [hfq]
    · have hj2 : ¬ j ≤ 0 := by omega
      simp [hj, hj2]
  | succ p ih =>
    intro fuel g d r hr hn hf hg
    obtain ⟨f, rfl⟩ : ∃ f, fuel = f + 1 := ⟨fuel - 1, by omega⟩
    obtain ⟨hfq, hc⟩ := hg (p + 1) (le_refl _)
    unfold annotate
    simp only [hr]
    rw [tab_get g hn]
    dsimp only
    rw [if_neg hc, tab_set g _ hn, hfq, annotate_fq_chain_succ]
    rw [ih _ _ _ _ rfl (by omega) (by omega)]
    · congr 1
      apply tab_congr
      intro j _
      by_cases hj : j = p + 1
      · subst hj
        have hj2 : ¬ p + 1 ≤ p := by omega
        simp [hj2, hfq]
      · by_cases hj3 : j ≤ p
        · have hj4 : j ≤ p + 1 := by omega
          have e : p + 1 - j = p - j + 1 := by omega
          simp [hj, hj3, hj4, e]
          omega
        · have hj4 : ¬ j ≤ p + 1 := by omega
          simp [hj, hj3, hj4]
    · intro j hj
      have hj2 : ¬ j = p + 1 := by omega
      simp only [hj2, if_false]
      exact hg j (by omega)

theorem tri_succ (m : Nat) : tri (m + 1) = tri m + (m + 1) := by
  unfold tri
  have e : (m + 1) * (m + 1 + 1) = m * (m + 1) + 2 * (m + 1) := by ring
  rw [e, Nat.add_mul_div_left _ _ (by decide : 0 < 2)]

theorem tri_le {a b : Nat} (h : a ≤ b) : tri a ≤ tri b := by
  induction h with
  | refl => exact le_refl _
  | step _ ih =>
    rw [tri_succ]
    omega

theorem tri_lt {a b : Nat} (h : a < b) : tri a < tri b := by
  have := tri_le (Nat.succ_le_of_lt h)
  rw [tri_succ] at this
  omega

theorem chain_heights_self (k : Nat) : chain_heights k k = chain_strct k := by
  simp [chain_heights]

theorem chain_heights_zero : chain_heights 0 = chain_strct := by
  funext j
  simp [chain_heights]

theorem generation_chain_zero (fuel p colour : Nat) (heap : List strct) :
    ort_parse_close_generation fuel p colour heap (chain_strct 0).fq = some heap := by
  rw [chain_fq_zero]
  simp [ort_parse_close_generation]

theorem generation_chain_succ (fuel p colour : Nat) (heap : List strct) (j : Nat) (s : strct)
    (hs : heap[p]? = some s) :
    ort_parse_close_generation fuel p colour heap (chain_strct (j + 1)).fq =
      annotate fuel (heap.set p { s with colour := colour })
        { target := ⟨j, 0⟩, source := ⟨j + 1, 1⟩ } 1 colour := by
  rw [chain_fq_succ]
  simp only [ort_parse_close_generation, hs]
  simp only [reduceCtorEq, if_false, if_true]
  cases annotate fuel (heap.set p { s with colour := colour })
    { target := ⟨j, 0⟩, source := ⟨j + 1, 1⟩ } 1 colour <;> rfl

theorem chain_generation (n fuel k : Nat) (hk : k < n) (hf : k ≤ fuel) :
    ort_parse_close_generation fuel k (k + 1) ((List.range n).map (chain_heights k))
      (chain_strct k).fq = some ((List.range n).map (chain_heights (k + 1))) := by
  cases k with
  | zero =>
    rw [generation_chain_zero]
    congr 1
    apply tab_congr
    intro j _
    by_cases hj : j = 0
    · subst hj
      rfl
    · have hj2 : ¬ j < 1 := by omega
      simp [chain_heights, hj2]
  | succ k =>
    rw [generation_chain_succ fuel (k + 1) (k + 1 + 1) _ k _
      ((tab_get _ hk).trans (congrArg some (chain_heights_self (k + 1))))]
    rw [tab_set _ _ hk, annotate_chain n (k + 1 + 1) k fuel _ 1 _ rfl (by omega) (by omega)]
    · congr 1
      apply tab_congr
      intro j _
      by_cases hj : j ≤ k
      · have h1 : ¬ j = k + 1 := by omega
        have h2 : j < k + 1 := by omega
        have h3 : j < k + 1 + 1 := by omega
        have e : k + 1 + 1 - 1 - j = (k + 1 - 1 - j) + 1 := by omega
        have e2 : k + 1 - 1 - j = k - j := by omega
        simp only [chain_heights, hj, h1, h2, h3, e, tri_succ, if_true, if_false]
        simp [e2]
        omega
      · by_cases h1 : j = k + 1
        · subst h1
          simp [chain_heights, hj, tri]
          rfl
        · have h2 : ¬ j < k + 1 + 1 := by omega
          have h3 : ¬ j < k + 1 := by omega
          simp [chain_heights, hj, h1, h2, h3]
    · intro j hj
      have h1 : ¬ j = k + 1 := by omega
      have h2 : j < k + 1 := by omega
      simp only [h1, if_false, chain_heights, h2, if_true]
      refine ⟨trivial, ?_⟩
      split <;> omega

theorem chain_height (n fuel : Nat) (hf : n ≤ fuel) : ∀ (m k : Nat), k + m = n →
    ort_parse_close_height fuel ((List.range n).map (chain_heights k)) (k + 1) k
      (List.range' k m) = some ((List.range n).map (chain_heights n), n) := by
  intro m
  induction m with
  | zero =>
    intro k hk
    have e : k = n := by omega
    subst e
    rfl
  | succ m ih =>
    intro k hk
    have hkn : k < n := by omega
    rw [List.range'_succ]
    simp only [ort_parse_close_height]
    rw [tab_get _ hkn, chain_heights_self]
    dsimp only
    rw [if_neg (by simp [chain_strct, mk_strct]), chain_generation n fuel k hkn (by omega)]
    dsimp only
    exact ih (k + 1) (by omega)

theorem ort_parse_close_unique_plain (l : List strctp) : ∀ (cfg : config) (i : Nat),
    (∀ p ∈ l, ∃ s, cfg.heap[p]? = some s ∧ s.nq = []) →
    ort_parse_close_unique cfg i l = some (cfg, i) := by
  induction l with
  | nil =>
    intro cfg i _
    rfl
  | cons p ps ih =>
    intro cfg i h
    obtain ⟨s, hs, hnq⟩ := h p (List.mem_cons_self _ _)
    simp only [ort_parse_close_unique, hs, check_unique_unique, hnq, List.enum_nil,
      check_unique_unique_u]
    exact ih cfg i (fun q hq => h q (List.mem_cons_of_mem _ hq))

theorem ort_parse_close_roles_plain (check : config → rolemap → Option (config × Bool))
    (l : List strctp) : ∀ (cfg : config) (i : Nat),
    (∀ p ∈ l, ∃ s, cfg.heap[p]? = some s ∧ s.rq = []) →
    ort_parse_close_roles check cfg i l = some (cfg, i) := by
  induction l with
  | nil =>
    intro cfg i _
    rfl
  | cons p ps ih =>
    intro cfg i h
    obtain ⟨s, hs, hrq⟩ := h p (List.mem_cons_self _ _)
    simp only [ort_parse_close_roles, hs, hrq, ort_parse_close_rq]
    exact ih cfg i (fun q hq => h q (List.mem_cons_of_mem _ hq))

theorem ort_parse_close_searchtype_plain (l : List strctp) : ∀ (cfg : config),
    (∀ p ∈ l, ∃ s, cfg.heap[p]? = some s ∧ s.sq = []) →
    ort_parse_close_searchtype cfg l = some (cfg, true) := by
  induction l with
  | nil =>
    intro cfg _
    rfl
  | cons p ps ih =>
    intro cfg h
    obtain ⟨s, hs, hsq⟩ := h p (List.mem_cons_self _ _)
    simp only [ort_parse_close_searchtype, hs, check_searchtype, hsq, check_searchtype_sq,
      and_then]
    exact ih cfg (fun q hq => h q (List.mem_cons_of_mem _ hq))

theorem check_recursive_fq_chain_zero (self : ref → Option Bool) :
    check_recursive_fq self (chain_strct 0).fq = some true := by
  rw [chain_fq_zero]
  simp [check_recursive_fq]

theorem check_recursive_fq_chain_succ (self : ref → Option Bool) (j : Nat)
    (h : self { target := ⟨j, 0⟩, source := ⟨j + 1, 1⟩ } = some true) :
    check_recursive_fq self (chain_strct (j + 1)).fq = some true := by
  rw [chain_fq_succ]
  simp [check_recursive_fq, h]

theorem check_recursive_chain (n check : Nat) : ∀ (p fuel : Nat) (r : ref),
    r.target.parent = p → p < check → p < n → p < fuel →
    check_recursive ((List.range n).map chain_strct) fuel r check = some true := by
  intro p
  induction p with
  | zero =>
    intro fuel r hr hc hn hf
    obtain ⟨f, rfl⟩ : ∃ f, fuel = f + 1 := ⟨fuel - 1, by omega⟩
    unfold check_recursive
    simp only [hr]
    rw [if_neg (show ¬ 0 = check by omega), tab_get _ hn]
    exact check_recursive_fq_chain_zero _
  | succ p ih =>
    intro fuel r hr hc hn hf
    obtain ⟨f, rfl⟩ : ∃ f, fuel = f + 1 := ⟨fuel - 1, by omega⟩
    unfold check_recursive
    simp only [hr]
    rw [if_neg (show ¬ p + 1 = check by omega), tab_get _ hn]
    exact check_recursive_fq_chain_succ _ p (ih f _ rfl (by omega) (by omega) (by omega))

theorem ort_parse_close_recursive_fq_chain (n fuel p : Nat) (cfg : config) (i : Nat)
    (hh : cfg.heap = (List.range n).map chain_strct) (hp : p < n) (hf : p ≤ fuel) :
    ort_parse_close_recursive_fq fuel p cfg i (chain_strct p).fq = some (cfg, i) := by
  cases p with
  | zero =>
    rw [chain_fq_zero]
    simp [ort_parse_close_recursive_fq]
  | succ p =>
    rw [chain_fq_succ]
    have h := check_recursive_chain n (p + 1) p fuel { target := ⟨p, 0⟩, source := ⟨p + 1, 1⟩ }
      rfl (by omega) (by omega) (by omega)
    simp [ort_parse_close_recursive_fq, hh, h]

theorem ort_parse_close_recursive_chain (n fuel : Nat) (hf : n ≤ fuel) (l : List strctp) :
    ∀ (cfg : config) (i : Nat), cfg.heap = (List.range n).map chain_strct → (∀ p ∈ l, p < n) →
    ort_parse_close_recursive fuel cfg i l = some (cfg, i) := by
  induction l with
  | nil =>
    intro cfg i _ _
    rfl
  | cons p ps ih =>
    intro cfg i hh h
    have hp := h p (List.mem_cons_self _ _)
    simp only [ort_parse_close_recursive, hh, tab_get _ hp]
    rw [ort_parse_close_recursive_fq_chain n fuel p cfg i hh hp (Nat.le_trans (Nat.le_of_lt hp) hf)]
    exact ih cfg i hh (fun q hq => h q (List.mem_cons_of_mem _ hq))

theorem check_reffind_fq_chain_zero (heap : List strct) (self : strctp → Option Bool) :
    check_reffind_fq heap self (chain_strct 0).fq = some false := by
  rw [chain_fq_zero]
  simp [check_reffind_fq]

theorem check_reffind_chain (n : Nat) (g : Nat → strct)
    (hg : ∀ j, j < n → (g j).fq = (chain_strct j).fq ∧ (g j).flags = 0) :
    ∀ (p fuel : Nat), p < n → p < fuel →
    check_reffind ((List.range n).map g) fuel p = some false := by
  intro p
  induction p with
  | zero =>
    intro fuel hn hf
    obtain ⟨f, rfl⟩ : ∃ f, fuel = f + 1 := ⟨fuel - 1, by omega⟩
    unfold check_reffind
    rw [tab_get _ hn]
    dsimp only
    rw [(hg 0 hn).1, (hg 0 hn).2, if_neg (by decide)]
    exact check_reffind_fq_chain_zero _ _
  | succ p ih =>
    intro fuel hn hf
    obtain ⟨f, rfl⟩ : ∃ f, fuel = f + 1 := ⟨fuel - 1, by omega⟩
    unfold check_reffind
    rw [tab_get _ hn]
    dsimp only
    rw [(hg _ hn).1, (hg _ hn).2, if_neg (by decide), chain_fq_succ]
    have hd : deref_field ((List.range n).map g) ⟨p + 1, 1⟩ =
        some { type := ftype.FTYPE_INT, ref := some { target := ⟨p, 0⟩, source := ⟨p + 1, 1⟩ },
               flags := 0, pos := ⟨"db.ort", 10 * (p + 1) + 1, 1⟩ } := by
      unfold deref_field
      rw [tab_get _ hn]
      dsimp only
      rw [(hg _ hn).1, chain_fq_succ]
      rfl
    simp [check_reffind_fq, hd, ih f (by omega) (by omega), FIELD_NULL]

theorem ort_parse_close_nullrefs_chain (n fuel : Nat) (hf : n ≤ fuel) (g : Nat → strct)
    (hg : ∀ j, j < n → (g j).fq = (chain_strct j).fq ∧ (g j).flags = 0) (l : List strctp)
    (hl : ∀ p ∈ l, p < n) :
    ort_parse_close_nullrefs fuel ((List.range n).map g) l = some ((List.range n).map g) := by
  induction l with
  | nil => rfl
  | cons p ps ih =>
    have hp := hl p (List.mem_cons_self _ _)
    simp only [ort_parse_close_nullrefs, check_reffind_chain n g hg p fuel hp (Nat.lt_of_lt_of_le hp hf)]
    exact ih (fun q hq => hl q (List.mem_cons_of_mem _ hq))

theorem parse_cmp_small {heap : List strct} {p q : strctp}
    (hp : height_of heap p < 2147483648) (hq : height_of heap q < 2147483648) :
    parse_cmp heap p q = (height_of heap p : Int) - (height_of heap q : Int) := by
  unfold parse_cmp wrap_signed
  norm_num
  omega

theorem parse_cmp_narrowed {heap : List strct} {p q : strctp}
    (hp : 2147483648 ≤ height_of heap p) (hp2 : height_of heap p < 4294967296)
    (hq : height_of heap q = 0) :
    parse_cmp heap p q = (height_of heap p : Int) - 4294967296 := by
  unfold parse_cmp wrap_signed
  rw [hq]
  norm_num
  omega

theorem isort_insert_last (cmp : strctp → strctp → Int) (a : strctp) (l : List strctp)
    (h : ∀ b ∈ l, 0 < cmp a b) : isort_insert cmp a l = l ++ [a] := by
  induction l with
  | nil => rfl
  | cons b l ih =>
    have hb := h b (List.mem_cons_self _ _)
    simp only [isort_insert]
    rw [if_neg (by omega), ih (fun c hc => h c (List.mem_cons_of_mem _ hc))]
    rfl

theorem isort_descending (cmp : strctp → strctp → Int) (l : List strctp)
    (h : l.Pairwise (fun a b => 0 < cmp a b)) : isort cmp l = l.reverse := by
  induction l with
  | nil => rfl
  | cons a l ih =>
    rw [List.pairwise_cons] at h
    simp only [isort]
    rw [ih h.2, isort_insert_last cmp a l.reverse (fun b hb => h.1 b (List.mem_reverse.mp hb)),
      List.reverse_cons]

theorem height_of_chain (n j : Nat) (hj : j < n) :
    height_of ((List.range n).map (chain_heights n)) j = tri (n - 1 - j) := by
  unfold height_of
  rw [tab_get _ hj]
  simp [chain_heights, hj]

theorem chain_isort (n : Nat) (hn : 2 ≤ n) (h1 : tri (n - 2) < 2147483648)
    (h2 : 2147483648 ≤ tri (n - 1)) (h3 : tri (n - 1) < 4294967296) :
    isort (parse_cmp ((List.range n).map (chain_heights n))) (List.range n) =
      0 :: (List.range' 1 (n - 1)).reverse := by
  obtain ⟨m, rfl⟩ : ∃ m, n = m + 2 := ⟨n - 2, by omega⟩
  have x1 : m + 2 - 2 = m := by omega
  have x2 : m + 2 - 1 = m + 1 := by omega
  rw [x1] at h1
  rw [x2] at h2 h3
  have hpw : (List.range' 1 (m + 1)).Pairwise
      (fun a b => 0 < parse_cmp ((List.range (m + 2)).map (chain_heights (m + 2))) a b) := by
    refine List.Pairwise.imp_of_mem ?_ (List.pairwise_lt_range' 1 (m + 1))
    intro a b ha hb hab
    rw [List.mem_range'_1] at ha hb
    have ea := height_of_chain (m + 2) a (by omega)
    have eb := height_of_chain (m + 2) b (by omega)
    have la : tri (m + 2 - 1 - a) ≤ tri m := tri_le (by omega)
    have lb : tri (m + 2 - 1 - b) < tri (m + 2 - 1 - a) := tri_lt (by omega)
    rw [parse_cmp_small (by omega) (by omega), ea, eb]
    omega
  have e0 : height_of ((List.range (m + 2)).map (chain_heights (m + 2))) 0 = tri (m + 1) :=
    height_of_chain (m + 2) 0 (by omega)
  have em : height_of ((List.range (m + 2)).map (chain_heights (m + 2))) (m + 1) = 0 := by
    rw [height_of_chain (m + 2) (m + 1) (by omega)]
    have : m + 2 - 1 - (m + 1) = 0 := by omega
    rw [this]
    rfl
  have hc : parse_cmp ((List.range (m + 2)).map (chain_heights (m + 2))) 0 (m + 1) ≤ 0 := by
    rw [parse_cmp_narrowed (by omega) (by omega) em, e0]
    omega
  generalize parse_cmp ((List.range (m + 2)).map (chain_heights (m + 2))) = cmp at hpw hc
  have er : List.range (m + 2) = 0 :: List.range' 1 (m + 1) := by
    rw [List.range_eq_range', List.range'_succ]
  have e : (List.range' 1 (m + 1)).reverse = (m + 1) :: (List.range' 1 m).reverse := by
    rw [List.range'_concat, List.reverse_append]
    simp
    omega
  rw [er, x2]
  show isort_insert cmp 0 (isort cmp (List.range' 1 (m + 1))) = _
  rw [isort_descending _ _ hpw, e]
  simp only [isort_insert]
  rw [if_pos hc]

theorem chain_cfg_eq (n : Nat) : chain_cfg n =
    { heap := (List.range n).map chain_strct, sq := List.range n, roles := [], rq := [],
      msgs := [] } := by
  simp [chain_cfg, mk_config]

theorem chain_linked (n fuel : Nat) (hn : 2 ≤ n) (hf : n ≤ fuel) (h1 : tri (n - 2) < 2147483648)
    (h2 : 2147483648 ≤ tri (n - 1)) (h3 : tri (n - 1) < 4294967296) :
    ort_parse_close env_id fuel (chain_cfg n) =
      some ({ heap := (List.range n).map (chain_heights n), sq := List.range' 1 (n - 1) ++ [0],
              roles := [], rq := [], msgs := [] }, true) := by
  rw [chain_cfg_eq]
  have hne : List.range n ≠ [] := by
    intro h
    have := congrArg List.length h
    simp at this
    omega
  have hget : ∀ p ∈ List.range n, ((List.range n).map chain_strct)[p]? = some (chain_strct p) :=
    fun p hp => tab_get _ (List.mem_range.mp hp)
  unfold ort_parse_close
  rw [if_neg hne]
  have hr : env_id.linker_resolve = fun c => (c, true) := rfl
  have ha : env_id.linker_aliases = fun c => (c, true) := rfl
  simp only [hr, ha, and_then]
  unfold ort_parse_close_linked
  dsimp only
  rw [ort_parse_close_unique_plain _ _ _ (fun p hp => ⟨_, hget p hp, rfl⟩)]
  simp only [Option.map_some', decide_True, and_then]
  rw [ort_parse_close_roles_plain _ _ _ _ (fun p hp => ⟨_, hget p hp, rfl⟩)]
  simp only [Option.map_some', decide_True, and_then]
  rw [ort_parse_close_roles_plain _ _ _ _ (fun p hp => ⟨_, hget p hp, rfl⟩)]
  simp only [Option.map_some', decide_True, and_then, if_true]
  rw [ort_parse_close_recursive_chain n fuel hf _ _ _ rfl (fun p hp => List.mem_range.mp hp)]
  simp only [Option.map_some', decide_True, and_then]
  have hh := chain_height n fuel hf n 0 (by omega)
  rw [chain_heights_zero, ← List.range_eq_range'] at hh
  rw [hh]
  dsimp only
  rw [if_neg (by omega)]
  have hg7 : ∀ p ∈ List.range n, ∃ s, ((List.range n).map (chain_heights n))[p]? = some s ∧
      s.sq = [] := by
    intro p hp
    refine ⟨_, tab_get _ (List.mem_range.mp hp), ?_⟩
    unfold chain_heights
    split <;> rfl
  rw [ort_parse_close_searchtype_plain _ _ hg7]
  have hsort : ort_parse_close_sort env_id n
      { heap := (List.range n).map (chain_heights n), sq := List.range n, roles := [], rq := [],
        msgs := [] } =
      some ({ heap := (List.range n).map (chain_heights n), sq := List.range' 1 (n - 1) ++ [0],
              roles := [], rq := [], msgs := [] }, true) := by
    unfold ort_parse_close_sort
    have hc : env_id.calloc n = true := rfl
    rw [if_neg (by rw [hc]; decide), if_neg (by simp)]
    have hq : env_id.qsort = isort := rfl
    dsimp only
    rw [hq, chain_isort n hn h1 h2 h3]
    simp
  have hg9 : ∀ j, j < n → (chain_heights n j).fq = (chain_strct j).fq ∧
      (chain_heights n j).flags = 0 := by
    intro j _
    unfold chain_heights
    split <;> exact ⟨rfl, rfl⟩
  have hl9 : ∀ p ∈ List.range' 1 (n - 1) ++ [0], p < n := by
    intro p hp
    rw [List.mem_append, List.mem_range'_1, List.mem_singleton] at hp
    omega
  have hnull := ort_parse_close_nullrefs_chain n fuel hf (chain_heights n) hg9 _ hl9
  dsimp only
  rw [hsort]
  dsimp only
  rw [hnull]
  rfl

theorem sorted_when_heights_narrow {E : env} {fuel : Nat} {cfg cfg2 : config}
    (hq : QsortContract E.qsort)
    (h : ort_parse_close E fuel cfg = some (cfg2, true))
    (hs : ∀ p ∈ cfg2.sq, height_of cfg2.heap p < 2147483648) :
    sorted_by_reverse_height cfg2 := by
  obtain ⟨_, hl⟩ := ort_parse_close_success h
  obtain ⟨_, _, _, h6, sz, _, hsq, hhe⟩ := ort_parse_close_linked_frame hl
  obtain ⟨hperm, hsorted⟩ := hq (parse_cmp h6) (resolved E cfg).sq
  have hmem : ∀ p ∈ (resolved E cfg).sq, height_of h6 p < 2147483648 := by
    intro p hp
    rw [← height_of_map hhe p]
    apply hs
    rw [hsq, List.mem_reverse]
    exact hperm.symm.subset hp
  have hcmp : ∀ a ∈ (resolved E cfg).sq, ∀ b ∈ (resolved E cfg).sq,
      parse_cmp h6 a b = (height_of h6 a : Int) - (height_of h6 b : Int) :=
    fun a ha b hb => parse_cmp_small (hmem a ha) (hmem b hb)
  have hp := hsorted
    (by
      intro a ha b hb
      rw [hcmp a ha b hb, hcmp b hb a ha]
      omega)
    (by
      intro a ha b hb c hc
      rw [hcmp a ha b hb, hcmp b hb c hc, hcmp a ha c hc]
      omega)
  unfold sorted_by_reverse_height
  rw [hsq, List.pairwise_reverse]
  refine List.Pairwise.imp_of_mem ?_ hp
  intro a b ha hb hab
  rw [hcmp a (hperm.subset ha) b (hperm.subset hb)] at hab
  rw [height_of_map hhe a, height_of_map hhe b]
  omega

theorem chain_run (n fuel : Nat) (hn : 2 ≤ n) (hf : n ≤ fuel) (h1 : tri (n - 2) < 2147483648)
    (h2 : 2147483648 ≤ tri (n - 1)) (h3 : tri (n - 1) < 4294967296) :
    ∃ cfg2, ort_parse_close env_id fuel (chain_cfg n) = some (cfg2, true) ∧
      cfg2.sq = List.range' 1 (n - 1) ++ [0] ∧
      cfg2.heap = (List.range n).map (chain_heights n) :=
  ⟨_, chain_linked n fuel hn hf h1 h2 h3, rfl, rfl⟩

/-- C24 (fails on the code): `parse_cmp` returns the `ssize_t` difference of
two heights as an `int`, so a difference of `2 ^ 31` or more compares as
negative.  In a chain of 65537 structs declared innermost-first (struct 0 has
no struct field, struct `i + 1` embeds struct `i`), the height pass gives
struct 0 the height `1 + 2 + ... + 65536 = 2147516416` and the last struct
the height 0; `parse_cmp` compares struct 0 below the last struct
(`-2147450880`), and the run, with insertion sort for `qsort`, returns
success with the final list `1, 2, ..., 65536, 0`: the struct of height 0
comes before the struct of the greatest height, so the list is not sorted by
reverse height. -/
theorem tall_chain_not_sorted :
    ∃ cfg2, ort_parse_close env_id 65537 (chain_cfg 65537) = some (cfg2, true) ∧
      cfg2.sq = List.range' 1 65536 ++ [0] ∧
      height_of cfg2.heap 65536 = 0 ∧
      height_of cfg2.heap 0 = 2147516416 ∧
      parse_cmp cfg2.heap 0 65536 = -2147450880 ∧
      ¬ sorted_by_reverse_height cfg2 := by
  obtain ⟨cfg2, hrun, hsq, hheap⟩ := chain_run 65537 65537 (by decide) (le_refl _) (by decide)
    (by decide) (by decide)
  have e0 : height_of cfg2.heap 0 = 2147516416 := by
    rw [hheap]
    exact (height_of_chain 65537 0 (by decide)).trans (by decide)
  have e1 : height_of cfg2.heap 65536 = 0 := by
    rw [hheap]
    exact (height_of_chain 65537 65536 (by decide)).trans (by decide)
  have hsq2 : cfg2.sq = List.range' 1 65536 ++ [0] :=
    hsq.trans (congrArg (fun k => List.range' 1 k ++ [0]) (by decide : 65537 - 1 = 65536))
  refine ⟨cfg2, hrun, hsq2, e1, e0, ?_, ?_⟩
  · rw [parse_cmp_narrowed (by omega) (by omega) e1, e0]
    rfl
  · intro hs
    unfold sorted_by_reverse_height at hs
    rw [hsq2, List.pairwise_append] at hs
    have := hs.2.2 65536 (by rw [List.mem_range'_1]; omega) 0 (List.mem_singleton.mpr rfl)
    rw [e0, e1] at this
    omega

end Kwebapp
